import Mathlib

/-!
# Plane-wave HIP transform engine: shallow embedding and verification

Embedding of `src/pw/hip/pw_hip_z.hip.cpp` (grid partitioner, packing and
gather/scatter kernels, scatter stage, the nine public operations) and of
`src/pw/hip/fft_hip_z.hip.cpp` (plan cache, transform invokers, teardown).

Conventions of the embedding.

* A `double *` device buffer is a `List R` of doubles; complex buffers are the
  interleaved `re, im` layout the kernels address (`2 * i`, `2 * i + 1`).  The
  value type `R` is kept abstract: the kernels only need `0`, `*` and unary `-`.
* C `int` index expressions are evaluated as mathematical integers and every
  buffer access is checked: a kernel thread returns `none` exactly when the
  source would overflow `int` in an index (the index expressions are sums and
  doublings, so this shows in the value) or would read or write outside the
  buffer it was handed (undefined behaviour in both cases).
* The flattened launch index is computed in `unsigned int` arithmetic
  (`gridDim`, `blockIdx`, `blockDim`, `threadIdx` are unsigned), so it is
  reduced modulo `2 ^ 32` and then converted to `int` (two's complement).
* A kernel launch runs the body of every thread of the grid once, in the order
  given by a schedule; the theorems hold for every schedule that is a
  permutation of the threads of the grid.
* Host-side `int` products and doublings (`nrpts`, `lmem`, allocation counts) are
  reduced to 32-bit two's complement (`wrap32`); byte counts, which the source
  computes in `size_t`, are exact.
* A host routine yields, besides its data effect, the sequence of runtime and
  library calls it issues, in program order.  The library calls are assumed to
  succeed (their error checks abort otherwise); `hipfftExecZ2Z` is an opaque
  function of the call that built the plan, the direction and the buffers.
-/

namespace PwHip

/-! ## Device memory -/

/-- Read `buf[i]` where `i` is the mathematical value of a C `int` index expression;
`none` (undefined behaviour) when the value is negative, is not an `int` (it
reaches `2^31 = 2147483648`: the expression overflowed) or lies beyond the buffer. -/
def ld {α : Type} (buf : List α) (i : Int) : Option α :=
  if i < 0 ∨ 2147483648 ≤ i.toNat then none else buf[i.toNat]?

/-- Write `buf[i] = v` where `i` is the mathematical value of a C `int` index
expression; `none` (undefined behaviour) when the value is negative, is not an
`int` (the expression overflowed) or lies beyond the buffer. -/
def st {α : Type} (buf : List α) (i : Int) (v : α) : Option (List α) :=
  if 0 ≤ i ∧ i.toNat < 2147483648 ∧ i.toNat < buf.length then some (buf.set i.toNat v)
  else none

/-- The call `hipMemsetAsync(buf, 0, sizeof(double) * count, stream)`: the first
`count` doubles become `+0.0` (all bytes zero); `none` when the range leaves the buffer. -/
def hipMemsetAsync {R : Type} [Zero R] (buf : List R) (count : Int) : Option (List R) :=
  if 0 ≤ count ∧ count.toNat ≤ buf.length then
    some (List.replicate count.toNat 0 ++ buf.drop count.toNat)
  else none

/-! ## Launch geometry -/

/-- The HIP `dim3` triple. -/
structure dim3 where
  x : Nat
  y : Nat
  z : Nat
deriving DecidableEq

/-- Coordinates of one thread of a launch.  Every launch in `pw_hip_z.hip.cpp` has
`gridDim.z = blockDim.y = blockDim.z = 1` (set by `get_grid_params`), and the
kernels read no other coordinate than these three. -/
structure Thread where
  blockIdx_x : Nat
  blockIdx_y : Nat
  threadIdx_x : Nat
deriving DecidableEq

/-- Conversion of an `unsigned int` value to `int` (two's complement). -/
def toInt32 (u : Nat) : Int :=
  if u < 2 ^ 31 then (u : Int) else (u : Int) - 2 ^ 32

/-- The expression
`const int igpt = (gridDim.x * blockIdx.y + blockIdx.x) * blockDim.x + threadIdx.x;`
shared by the four kernels: evaluated in `unsigned int`, then converted to `int`. -/
def igpt (gridDim blockDim : dim3) (th : Thread) : Int :=
  toInt32 (((gridDim.x * th.blockIdx_y + th.blockIdx_x) * blockDim.x + th.threadIdx_x) % 2 ^ 32)

/-- The threads of a launch with grid `gridDim` and block `blockDim`, block row by block row. -/
def allThreads (gridDim blockDim : dim3) : List Thread :=
  (List.range gridDim.y).flatMap fun iy =>
    (List.range gridDim.x).flatMap fun ix =>
      (List.range blockDim.x).map fun tx => ⟨ix, iy, tx⟩

/-- Run the thread bodies of a launch one after the other in schedule order on
the buffer the kernel writes. -/
def runThreads {σ : Type} (body : Thread → σ → Option σ) : List Thread → σ → Option σ
  | [], s => some s
  | th :: rest, s => (body th s).bind (runThreads body rest)

/-! ## Kernels (`pw_hip_z.hip.cpp`) -/

/-- Thread body of `pw_copy_rc_hip_z` (expand): real vector into complex vector. -/
def pw_copy_rc_hip_z {R : Type} [Zero R] (gridDim blockDim : dim3) (th : Thread)
    (din : List R) (zout : List R) (n : Int) : Option (List R) :=
  let igpt := igpt gridDim blockDim th
  if igpt < n then do
    let v ← ld din igpt
    let zout ← st zout (2 * igpt) v
    st zout (2 * igpt + 1) 0
  else some zout

/-- Thread body of `pw_copy_cr_hip_z` (contract): real part of complex vector into real vector. -/
def pw_copy_cr_hip_z {R : Type} (gridDim blockDim : dim3) (th : Thread)
    (zin : List R) (dout : List R) (n : Int) : Option (List R) :=
  let igpt := igpt gridDim blockDim th
  if igpt < n then do
    let v ← ld zin (2 * igpt)
    st dout igpt v
  else some dout

/-- Thread body of `pw_gather_hip_z`: gather and scale. -/
def pw_gather_hip_z {R : Type} [Mul R] (gridDim blockDim : dim3) (th : Thread)
    (pwcc : List R) (c : List R) (scale : R) (ngpts : Int) (ghatmap : List Int) :
    Option (List R) :=
  let igpt := igpt gridDim blockDim th
  if igpt < ngpts then do
    let g ← ld ghatmap igpt
    let re ← ld c (2 * g)
    let pwcc ← st pwcc (2 * igpt) (scale * re)
    let g ← ld ghatmap igpt
    let im ← ld c (2 * g + 1)
    st pwcc (2 * igpt + 1) (scale * im)
  else some pwcc

/-- Thread body of `pw_scatter_hip_z`: scatter and scale, with the conjugate
partner written as well when `nmaps == 2`. -/
def pw_scatter_hip_z {R : Type} [Mul R] [Neg R] (gridDim blockDim : dim3) (th : Thread)
    (c : List R) (pwcc : List R) (scale : R) (ngpts : Int) (nmaps : Int)
    (ghatmap : List Int) : Option (List R) :=
  let igpt := igpt gridDim blockDim th
  if igpt < ngpts then do
    let g ← ld ghatmap igpt
    let re ← ld pwcc (2 * igpt)
    let c ← st c (2 * g) (scale * re)
    let g ← ld ghatmap igpt
    let im ← ld pwcc (2 * igpt + 1)
    let c ← st c (2 * g + 1) (scale * im)
    if nmaps = 2 then do
      let g2 ← ld ghatmap (igpt + ngpts)
      let re ← ld pwcc (2 * igpt)
      let c ← st c (2 * g2) (scale * re)
      let g2 ← ld ghatmap (igpt + ngpts)
      let im ← ld pwcc (2 * igpt + 1)
      st c (2 * g2 + 1) (-scale * im)
    else some c
  else some c

/-- The launch `hipLaunchKernelGGL(pw_copy_rc_hip_z, grid, block, 0, stream, din, zout, n)`. -/
def launch_pw_copy_rc_hip_z {R : Type} [Zero R] (gridDim blockDim : dim3) (sched : List Thread)
    (din : List R) (zout : List R) (n : Int) : Option (List R) :=
  runThreads (fun th zout => pw_copy_rc_hip_z gridDim blockDim th din zout n) sched zout

/-- The launch `hipLaunchKernelGGL(pw_copy_cr_hip_z, grid, block, 0, stream, zin, dout, n)`. -/
def launch_pw_copy_cr_hip_z {R : Type} (gridDim blockDim : dim3) (sched : List Thread)
    (zin : List R) (dout : List R) (n : Int) : Option (List R) :=
  runThreads (fun th dout => pw_copy_cr_hip_z gridDim blockDim th zin dout n) sched dout

/-- The launch of `pw_gather_hip_z`. -/
def launch_pw_gather_hip_z {R : Type} [Mul R] (gridDim blockDim : dim3) (sched : List Thread)
    (pwcc : List R) (c : List R) (scale : R) (ngpts : Int) (ghatmap : List Int) :
    Option (List R) :=
  runThreads (fun th pwcc => pw_gather_hip_z gridDim blockDim th pwcc c scale ngpts ghatmap)
    sched pwcc

/-- The launch of `pw_scatter_hip_z`. -/
def launch_pw_scatter_hip_z {R : Type} [Mul R] [Neg R] (gridDim blockDim : dim3)
    (sched : List Thread) (c : List R) (pwcc : List R) (scale : R) (ngpts : Int) (nmaps : Int)
    (ghatmap : List Int) : Option (List R) :=
  runThreads (fun th c => pw_scatter_hip_z gridDim blockDim th c pwcc scale ngpts nmaps ghatmap)
    sched c

/-! ## Grid partitioner and the scatter stage (`pw_hip_z.hip.cpp`) -/

/-- The macro `NTHREADS`. -/
def NTHREADS : Nat := 32

/-- The macro `MAXTHREADS`. -/
def MAXTHREADS : Nat := 1024

/-- The macro `MAXGRIDX`. -/
def MAXGRIDX : Nat := 65535

/-- Conversion of an `int` value to `unsigned int`. -/
def toUInt32 (i : Int) : Nat := (i % 2 ^ 32).toNat

/-- The value stored in the `unsigned` field `blocksPerGrid.x` by
`blocksPerGrid.x = (int) ceil(sqrt((double) blocks));`.  For `0 <= blocks < 2^31`,
`blocks` is exactly representable as a `double`, the correctly rounded
square root of a perfect square is exact, and for any other `blocks` it lies
strictly between two consecutive integers (the gap to either is far above the
rounding error), so `ceil` yields the integer square root plus one.  For a
negative `blocks` the square root is a NaN, whose conversion to `int` is
undefined in C; the compiled code yields `INT_MIN`, which stored in the
`unsigned` field is `2147483648`. -/
def ceil_sqrt (blocks : Int) : Nat :=
  if blocks < 0 then 2147483648
  else
    let k := Nat.sqrt blocks.toNat
    if k * k = blocks.toNat then k else k + 1

/-- The value of `(int) rint(sqrt((double) blocks))` for `0 <= blocks < 2^31`:
the square root is below `k + 1/2` exactly when `blocks <= k * k + k`
(`(k + 1/2)^2 = k * k + k + 1/4` is never an integer, so no tie occurs). -/
def rint_sqrt (blocks : Int) : Nat :=
  let k := Nat.sqrt blocks.toNat
  if blocks.toNat ≤ k * k + k then k else k + 1

/-- The value `get_grid_params` gives to the `unsigned` field `threadsPerBlock.x`. -/
def grid_threads (blocksize : Int) : Nat :=
  if blocksize ≤ (MAXTHREADS : Int) then toUInt32 blocksize else MAXTHREADS

/-- The value `get_grid_params` gives to its local `blocks`, for
`threadsPerBlock.x != 0`: `threadsPerBlock.x` is `unsigned`, so
`(ngpts + threadsPerBlock.x - 1) / threadsPerBlock.x` is computed in
`unsigned int` (subtracting 1 is adding `2^32 - 1` modulo `2^32`) and converted
back to `int`. -/
def grid_blocks (ngpts : Int) (blocksize : Int) : Int :=
  toInt32 ((toUInt32 ngpts + grid_threads blocksize + (2 ^ 32 - 1)) % 2 ^ 32
    / grid_threads blocksize)

/-- The routine `get_grid_params`: returns `(threadsPerBlock, blocksPerGrid)`, or
`none` when the routine does not return: on the integer division by zero
(`threadsPerBlock.x == 0`, that is `blocksize == 0`), which traps, and on the
`exit(1)` branch.  (The value of `rint` is not reached for a negative `blocks`.) -/
def get_grid_params (ngpts : Int) (blocksize : Int) : Option (dim3 × dim3) :=
  let threadsPerBlock_x : Nat := grid_threads blocksize
  if threadsPerBlock_x = 0 then none
  else
    let blocks : Int := grid_blocks ngpts blocksize
    let blocksPerGrid_x : Nat := ceil_sqrt blocks
    if blocksPerGrid_x > MAXGRIDX then none
    else some (⟨threadsPerBlock_x, 1, 1⟩, ⟨blocksPerGrid_x, rint_sqrt blocks, 1⟩)

/-- The scatter stage shared verbatim by `pw_hip_sfffc_z_` and `pw_hip_sf_z_`
(on stream 1): `get_grid_params(ngpts, NTHREADS, ..)`, the zero fill
`hipMemsetAsync(ptr_2, 0, sizeof(double) * 2 * nrpts, ..)`, then the launch of
`pw_scatter_hip_z` on `(ptr_2, ptr_1, scale, ngpts, nmaps, ghatmap_dev)`.
`sched` picks the execution order of the threads of the launch.  The result is
the content of `ptr_2` handed to the transform. -/
def scatter_stage {R : Type} [Zero R] [Mul R] [Neg R] (sched : dim3 → dim3 → List Thread)
    (ptr_1 : List R) (ptr_2 : List R) (ghatmap_dev : List Int) (nrpts : Int) (ngpts : Int)
    (nmaps : Int) (scale : R) : Option (List R) := do
  let (threadsPerBlock, blocksPerGrid) ← get_grid_params ngpts NTHREADS
  let ptr_2 ← hipMemsetAsync ptr_2 (2 * nrpts)
  launch_pw_scatter_hip_z blocksPerGrid threadsPerBlock (sched blocksPerGrid threadsPerBlock)
    ptr_2 ptr_1 scale ngpts nmaps ghatmap_dev

/-! ## Proof devices for launches -/

/-- Flattened index of a thread as a natural number, before any wrap-around. -/
def flat (gridDim blockDim : dim3) (th : Thread) : Nat :=
  (gridDim.x * th.blockIdx_y + th.blockIdx_x) * blockDim.x + th.threadIdx_x

/-- Result of overlaying an optional write on the previous content of a cell. -/
def overlay {α : Type} (w : Option α) (old : Option α) : Option α :=
  match w with
  | some v => some v
  | none => old

/-- A thread body `body th` acts on buffers of length `L` as the static write map `W th`. -/
def ActsAs {α : Type} (L : Nat) (body : Thread → List α → Option (List α))
    (W : Thread → Nat → Option α) (th : Thread) : Prop :=
  ∀ buf : List α, buf.length = L →
    ∃ out, body th buf = some out ∧ out.length = L ∧ ∀ j, out[j]? = overlay (W th j) buf[j]?

/-- Static write map of the thread of `pw_copy_rc_hip_z` with flattened index `f`. -/
def W_rc {R : Type} [Zero R] (din : List R) (n : Int) (f : Nat) (j : Nat) : Option R :=
  if (f : Int) < n then
    if j = 2 * f + 1 then some 0
    else if j = 2 * f then din[f]? else none
  else none

/-- Static write map of the thread of `pw_copy_cr_hip_z` with flattened index `f`. -/
def W_cr {R : Type} (zin : List R) (n : Int) (f : Nat) (j : Nat) : Option R :=
  if (f : Int) < n then
    if j = f then zin[2 * f]? else none
  else none

/-- Static write map of the thread of `pw_gather_hip_z` with flattened index `f`. -/
def W_gather {R : Type} [Mul R] (c : List R) (scale : R) (ngpts : Int)
    (ghatmap : List Int) (f : Nat) (j : Nat) : Option R :=
  if (f : Int) < ngpts then
    match ghatmap[f]? with
    | some gi =>
      if j = 2 * f + 1 then Option.map (fun x => scale * x) (c)[2 * gi.toNat + 1]?
      else if j = 2 * f then Option.map (fun x => scale * x) (c)[2 * gi.toNat]?
      else none
    | none => none
  else none

/-- Static write map of the thread of `pw_scatter_hip_z` with flattened index `f`;
the partner writes come last in the thread and therefore take precedence. -/
def W_scatter {R : Type} [Mul R] [Neg R] (pwcc : List R) (scale : R) (ngpts : Int)
    (nmaps : Int) (ghatmap : List Int) (f : Nat) (j : Nat) : Option R :=
  if (f : Int) < ngpts then
    match ghatmap[f]?, pwcc[2 * f]?, pwcc[2 * f + 1]? with
    | some gi, some re, some im =>
      if nmaps = 2 then
        match ghatmap[f + ngpts.toNat]? with
        | some g2 =>
          if j = 2 * g2.toNat + 1 then some (-scale * im)
          else if j = 2 * g2.toNat then some (scale * re)
          else if j = 2 * gi.toNat + 1 then some (scale * im)
          else if j = 2 * gi.toNat then some (scale * re) else none
        | none => none
      else
        if j = 2 * gi.toNat + 1 then some (scale * im)
        else if j = 2 * gi.toNat then some (scale * re) else none
    | _, _, _ => none
  else none

end PwHip

namespace FftHip

/-! ## Plan cache (`fft_hip_z.hip.cpp`) -/

/-- The constants of `fft_hip_internal.h`.  The header is included by
`fft_hip_z.hip.cpp` but is not among the embedded source files, so the four
capacities are parameters of the embedding:
`max_plans` dimensions the two static arrays, the other three are the
thresholds tested by the three plan routines. -/
structure fft_hip_internal where
  max_1d_plans : Nat
  max_2d_plans : Nat
  max_3d_plans : Nat
  max_plans : Nat
deriving DecidableEq

/-- The arguments of the hipfft call that built a plan. -/
inductive PlanCall where
  | hipfftPlan3d (nx ny nz : Int)
  | hipfftPlanMany (rank : Int) (n : List Int) (inembed : List Int) (istride idist : Int)
      (onembed : List Int) (ostride odist : Int) (batch : Int)
deriving DecidableEq

/-- A `hipfftHandle`: the identity chosen by the library together with the call
that built the plan it designates (`none` for a handle that was never built,
as in the zero-initialised static array). -/
structure hipfftHandle where
  id : Nat
  built : Option PlanCall
deriving DecidableEq

/-- One row `iplandims[i][0..4]`. -/
abbrev Row := Int × Int × Int × Int × Int

/-- The file-scope state `n_plans`, `saved_plans[max_plans]`, `iplandims[max_plans][5]`. -/
structure PlanCache where
  n_plans : Nat
  saved_plans : List hipfftHandle
  iplandims : List Row
deriving DecidableEq

/-- The state at program start: `n_plans = 0`, zero-initialised arrays. -/
def PlanCache.init (lim : fft_hip_internal) : PlanCache :=
  ⟨0, List.replicate lim.max_plans ⟨0, none⟩, List.replicate lim.max_plans (0, 0, 0, 0, 0)⟩

/-- The lookup loop `for (i = 0; i < n_plans; i++) if (iplandims[i][0..4] == key) ...`
common to the three plan routines, started at slot `i` with `fuel` slots left:
the first matching slot, if any.  (In every state the routines produce, `n_plans`
does not exceed the array length; a slot beyond the array counts as no match.) -/
def scan_plans (s : PlanCache) (key : Row) (i : Nat) : Nat → Option Nat
  | 0 => none
  | fuel + 1 => if s.iplandims[i]? = some key then some i else scan_plans s key (i + 1) fuel

/-- The tail common to the three plan routines: `if (n_plans < cap) { saved_plans[n_plans] =
plan; iplandims[n_plans][..] = key; n_plans++; return; } ioverflow = 1;`.  Returns
`(plan, ioverflow, state)`; `none` when the store would leave the static arrays. -/
def store_plan (cap : Nat) (s : PlanCache) (key : Row) (plan : hipfftHandle) :
    Option (hipfftHandle × Int × PlanCache) :=
  if s.n_plans < cap then
    if s.n_plans < s.saved_plans.length ∧ s.n_plans < s.iplandims.length then
      some (plan, 0,
        ⟨s.n_plans + 1, s.saved_plans.set s.n_plans plan, s.iplandims.set s.n_plans key⟩)
    else none
  else some (plan, 1, s)

/-- The routine `ffthip_plan3d_z`; `fresh` is the identity the library gives to a newly
built plan.  Returns `(plan, ioverflow, state)`; `none` on an out-of-bounds array access. -/
def ffthip_plan3d_z (lim : fft_hip_internal) (s : PlanCache) (n0 n1 n2 : Int) (fresh : Nat) :
    Option (hipfftHandle × Int × PlanCache) :=
  match scan_plans s (3, n0, n1, n2, 0) 0 s.n_plans with
  | some i => (s.saved_plans[i]?).map fun plan => (plan, 0, s)
  | none =>
    let plan : hipfftHandle := ⟨fresh, some (.hipfftPlan3d n2 n1 n0)⟩
    store_plan lim.max_3d_plans s (3, n0, n1, n2, 0) plan

/-- The routine `ffthip_plan2dm_z`.  The product `n[1] * n[2]` is an `int` product
in the source: its value is the mathematical product wrapped to 32 bits
(`toInt32 (toUInt32 _)`). -/
def ffthip_plan2dm_z (lim : fft_hip_internal) (s : PlanCache) (n0 n1 n2 : Int) (fsign : Int)
    (fresh : Nat) : Option (hipfftHandle × Int × PlanCache) :=
  match scan_plans s (2, n0, n1, n2, fsign) 0 s.n_plans with
  | some i => (s.saved_plans[i]?).map fun plan => (plan, 0, s)
  | none =>
    let nsize : List Int := [n2, n1]
    let inembed : List Int := [n2, n1]
    let onembed : List Int := [n2, n1]
    let batch := n0
    let (istride, idist, ostride, odist) :=
      if fsign = 1 then (n0, (1 : Int), (1 : Int), PwHip.toInt32 (PwHip.toUInt32 (n1 * n2)))
      else ((1 : Int), PwHip.toInt32 (PwHip.toUInt32 (n1 * n2)), n0, (1 : Int))
    let plan : hipfftHandle :=
      ⟨fresh, some (.hipfftPlanMany 2 nsize inembed istride idist onembed ostride odist batch)⟩
    store_plan lim.max_2d_plans s (2, n0, n1, n2, fsign) plan

/-- The routine `ffthip_plan1dm_z`. -/
def ffthip_plan1dm_z (lim : fft_hip_internal) (s : PlanCache) (n m : Int) (fsign : Int)
    (fresh : Nat) : Option (hipfftHandle × Int × PlanCache) :=
  match scan_plans s (1, n, m, 0, fsign) 0 s.n_plans with
  | some i => (s.saved_plans[i]?).map fun plan => (plan, 0, s)
  | none =>
    let nsize : List Int := [n]
    let inembed : List Int := [0]
    let onembed : List Int := [0]
    let batch := m
    let (istride, idist, ostride, odist) :=
      if fsign = 1 then (m, (1 : Int), (1 : Int), n) else ((1 : Int), n, m, (1 : Int))
    let plan : hipfftHandle :=
      ⟨fresh, some (.hipfftPlanMany 1 nsize inembed istride idist onembed ostride odist batch)⟩
    store_plan lim.max_1d_plans s (1, n, m, 0, fsign) plan

/-- A request to the plan cache: which of the three plan routines is called, with its arguments. -/
inductive Request where
  | plan3d (n0 n1 n2 : Int)
  | plan2dm (n0 n1 n2 : Int) (fsign : Int)
  | plan1dm (n m : Int) (fsign : Int)
deriving DecidableEq

/-- The acquire operation: the plan routine selected by the request. -/
def acquire (lim : fft_hip_internal) (s : PlanCache) (req : Request) (fresh : Nat) :
    Option (hipfftHandle × Int × PlanCache) :=
  match req with
  | .plan3d n0 n1 n2 => ffthip_plan3d_z lim s n0 n1 n2 fresh
  | .plan2dm n0 n1 n2 fsign => ffthip_plan2dm_z lim s n0 n1 n2 fsign fresh
  | .plan1dm n m fsign => ffthip_plan1dm_z lim s n m fsign fresh

/-- The key row a request is compared with and stored under
(rank class, extents, direction; direction `0` for the 3-D class). -/
def Request.key : Request → Row
  | .plan3d n0 n1 n2 => (3, n0, n1, n2, 0)
  | .plan2dm n0 n1 n2 fsign => (2, n0, n1, n2, fsign)
  | .plan1dm n m fsign => (1, n, m, 0, fsign)

/-- The capacity constant the routine serving the request tests `n_plans` against. -/
def Request.cap (lim : fft_hip_internal) : Request → Nat
  | .plan3d _ _ _ => lim.max_3d_plans
  | .plan2dm _ _ _ _ => lim.max_2d_plans
  | .plan1dm _ _ _ => lim.max_1d_plans

/-- Rank class of a request. -/
def Request.rank : Request → Int
  | .plan3d _ _ _ => 3
  | .plan2dm _ _ _ _ => 2
  | .plan1dm _ _ _ => 1

/-- Number of occupied slots whose row belongs to rank class `r`. -/
def class_count (s : PlanCache) (r : Int) : Nat :=
  ((s.iplandims.take s.n_plans).filter fun row => row.1 = r).length

/-- Slot `i` is occupied and holds `key` with handle `plan`, and the lookup loop
stops there: a request for `key` hits and is served `plan`. -/
def Hits (s : PlanCache) (key : Row) (plan : hipfftHandle) : Prop :=
  ∃ i, scan_plans s key 0 s.n_plans = some i ∧ s.saved_plans[i]? = some plan

/-- The plan a miss builds for a request, given the identity `fresh` (for a 2-D
request with the `int` product `n[1] * n[2]`, wrapped to 32 bits). -/
def Request.newPlan (req : Request) (fresh : Nat) : hipfftHandle :=
  match req with
  | .plan3d n0 n1 n2 => ⟨fresh, some (.hipfftPlan3d n2 n1 n0)⟩
  | .plan2dm n0 n1 n2 fsign =>
    if fsign = 1 then
      ⟨fresh, some (.hipfftPlanMany 2 [n2, n1] [n2, n1] n0 1 [n2, n1] 1
        (PwHip.toInt32 (PwHip.toUInt32 (n1 * n2))) n0)⟩
    else
      ⟨fresh, some (.hipfftPlanMany 2 [n2, n1] [n2, n1] 1
        (PwHip.toInt32 (PwHip.toUInt32 (n1 * n2))) [n2, n1] n0 1 n0)⟩
  | .plan1dm n m fsign =>
    if fsign = 1 then ⟨fresh, some (.hipfftPlanMany 1 [n] [0] m 1 [0] 1 n m)⟩
    else ⟨fresh, some (.hipfftPlanMany 1 [n] [0] 1 n [0] m 1 m)⟩

/-- The limits used in the examples: two 1-D, two 2-D, one 3-D plan, five slots. -/
def exampleLimits : fft_hip_internal := ⟨2, 2, 1, 5⟩

/-- The cache after one 1-D plan `(n, m, fsign) = (4, 2, +1)` with identity 7 was stored
in the initial state under `exampleLimits`. -/
def exampleCache : PlanCache :=
  ⟨1,
   [⟨7, some (.hipfftPlanMany 1 [4] [0] 2 1 [0] 1 4 2)⟩, ⟨0, none⟩, ⟨0, none⟩, ⟨0, none⟩,
    ⟨0, none⟩],
   [(1, 4, 2, 0, 1), (0, 0, 0, 0, 0), (0, 0, 0, 0, 0), (0, 0, 0, 0, 0), (0, 0, 0, 0, 0)]⟩

end FftHip

namespace Hip

/-! ## Host-side view of the HIP runtime, hipfft and hipblas calls -/

/-- Value of a host `int` expression whose mathematical value is `i`, as the
two's-complement hardware produces it (signed overflow is undefined in C; the
compiled code wraps). -/
def wrap32 (i : Int) : Int := PwHip.toInt32 (PwHip.toUInt32 i)

/-- The device buffers of one public operation, named by the pointer variable
that holds them. -/
inductive Buf where
  | ptr_1
  | ptr_2
  | ghatmap_dev
deriving DecidableEq

/-- The direction constant handed to `hipfftExecZ2Z`. -/
inductive Direction where
  | HIPFFT_FORWARD
  | HIPFFT_INVERSE
deriving DecidableEq

/-- The four kernels of `pw_hip_z.hip.cpp`. -/
inductive Kernel where
  | pw_copy_rc_hip_z
  | pw_copy_cr_hip_z
  | pw_gather_hip_z
  | pw_scatter_hip_z
deriving DecidableEq

/-- One call issued by the host, with the arguments that identify the buffers,
streams (`hip_streams[k]` is `k`) and events (`hip_events[k]` is `k`) involved.
Counts are in elements of the buffer (doubles, or `int`s for the index table).
The error checks that follow the calls are not commands. -/
inductive Cmd where
  | pw_hip_get_streams
  | pw_hip_get_events
  | pw_hip_device_mem_alloc (ptr : Buf) (n : Int)
  | hipMemcpyHostToDevice (dst : Buf) (count : Int) (stream : Nat)
  | hipMemcpyDeviceToHost (src : Buf) (count : Int) (stream : Nat)
  | hipEventRecord (event : Nat) (stream : Nat)
  | hipStreamWaitEvent (stream : Nat) (event : Nat)
  | hipMemsetAsync (ptr : Buf) (count : Int) (stream : Nat)
  | hipLaunchKernelGGL (kernel : Kernel) (blocksPerGrid threadsPerBlock : PwHip.dim3)
      (stream : Nat) (args : List Buf)
  | hipfftExecZ2Z (plan : FftHip.hipfftHandle) (idata odata : Buf) (direction : Direction)
  | hipStreamSynchronize (stream : Nat)
  | hipblasDscal (n : Int) (x : Buf)
  | hipfftDestroy (plan : FftHip.hipfftHandle)
  | hipDeviceSynchronize
  | pw_hip_device_mem_free (ptr : Buf)
deriving DecidableEq

/-- The data effect of `hipMemcpyAsync(dst, src, size * count, kind, stream)`: the
first `count` elements of `dst` become those of `src`; `none` when the range
leaves either buffer. -/
def hipMemcpyAsync {α : Type} (dst src : List α) (count : Int) : Option (List α) :=
  if 0 ≤ count ∧ count.toNat ≤ src.length ∧ count.toNat ≤ dst.length then
    some (src.take count.toNat ++ dst.drop count.toNat)
  else none

/-- The call `pw_hip_device_mem_alloc(&ptr, n)` (defined outside the embedded
files): a buffer of `n` elements whose content is whatever the memory held,
given by `content`; `none` for a negative count. -/
def pw_hip_device_mem_alloc {α : Type} (n : Int) (content : Nat → α) : Option (List α) :=
  if 0 ≤ n then some ((List.range n.toNat).map content) else none

/-- The data effect of `hipblasDscal(n, alpha, x, 1)`: the first `n` doubles of
`x` are multiplied by `alpha`; nothing happens for `n <= 0`; `none` when the
range leaves the buffer. -/
def hipblasDscal {R : Type} [Mul R] (n : Int) (alpha : R) (x : List R) : Option (List R) :=
  if n ≤ 0 then some x
  else if n.toNat ≤ x.length then
    some ((x.take n.toNat).map (fun v => alpha * v) ++ x.drop n.toNat)
  else none

/-- Sequencing of two fallible steps: the second runs on the result of the first,
and a failure of the first ends the routine. -/
@[noinline] def andThen {α β : Type} (x : Option α) (f : α → Option β) : Option β :=
  match x with
  | none => none
  | some a => f a

end Hip

namespace FftHip

open Hip

/-! ## Transform invokers and teardown (`fft_hip_z.hip.cpp`) -/

/-- The transform `hipfftExecZ2Z(plan, idata, odata, direction)` as an opaque
function: from the call that built the plan, the direction, the content of the
input buffer and the previous content of the output buffer, to the new content
of the output buffer. -/
abbrev Transform (R : Type) := PlanCall → Direction → List R → List R → List R

/-- What a transform invoker leaves behind: the locals `plan` and `ioverflow`, the
plan cache, the content of the output buffer, and the calls issued after the
plan routine returned, in program order. -/
structure RunResult (R : Type) where
  plan : hipfftHandle
  ioverflow : Int
  cache : PlanCache
  data : List R
  trace : List Cmd

/-- The body shared verbatim by the three transform invokers after the plan
routine returned `acq = (plan, ioverflow, state)`: execute inverse when
`fsign < 0` and forward otherwise; when `scale != 1.0e0` synchronise the stream
and scale `2 * lmem` doubles of the output; when `ioverflow` is set synchronise
the stream and destroy the plan.  A handle that was never built is rejected by
the library (`none`). -/
def ffthip_run_body {R : Type} [One R] [Mul R] [DecidableEq R] (hipfftExecZ2Z : Transform R)
    (acq : hipfftHandle × Int × PlanCache) (fsign lmem : Int) (scale : R)
    (data_in data_out : List R) (idata odata : Buf) (hip_stream : Nat) :
    Option (RunResult R) :=
  match acq.1.built with
  | none => none
  | some call =>
    let direction :=
      if fsign < 0 then Direction.HIPFFT_INVERSE else Direction.HIPFFT_FORWARD
    let out := hipfftExecZ2Z call direction data_in data_out
    let scaled : Option (List R × List Cmd) :=
      if scale ≠ 1 then
        (hipblasDscal (wrap32 (2 * lmem)) scale out).map fun x =>
          (x, [Cmd.hipStreamSynchronize hip_stream, Cmd.hipblasDscal (wrap32 (2 * lmem)) odata])
      else some (out, [])
    scaled.map fun xt =>
      ⟨acq.1, acq.2.1, acq.2.2, xt.1,
        [Cmd.hipfftExecZ2Z acq.1 idata odata direction] ++ xt.2 ++
          (if acq.2.1 ≠ 0 then [Cmd.hipStreamSynchronize hip_stream, Cmd.hipfftDestroy acq.1]
           else [])⟩

/-- The routine `ffthip_run_3d_z_` (in place on `data`). -/
def ffthip_run_3d_z_ {R : Type} [One R] [Mul R] [DecidableEq R] (lim : fft_hip_internal)
    (hipfftExecZ2Z : Transform R) (s : PlanCache) (fsign : Int) (n0 n1 n2 : Int) (scale : R)
    (data : List R) (pdata : Buf) (hip_stream : Nat) (fresh : Nat) : Option (RunResult R) :=
  let lmem := wrap32 (wrap32 (n0 * n1) * n2)
  (ffthip_plan3d_z lim s n0 n1 n2 fresh).bind fun acq =>
    ffthip_run_body hipfftExecZ2Z acq fsign lmem scale data data pdata pdata hip_stream

/-- The routine `ffthip_run_2dm_z_` (from `data_in` to `data_out`). -/
def ffthip_run_2dm_z_ {R : Type} [One R] [Mul R] [DecidableEq R] (lim : fft_hip_internal)
    (hipfftExecZ2Z : Transform R) (s : PlanCache) (fsign : Int) (n0 n1 n2 : Int) (scale : R)
    (data_in data_out : List R) (idata odata : Buf) (hip_stream : Nat) (fresh : Nat) :
    Option (RunResult R) :=
  let lmem := wrap32 (wrap32 (n0 * n1) * n2)
  (ffthip_plan2dm_z lim s n0 n1 n2 fsign fresh).bind fun acq =>
    ffthip_run_body hipfftExecZ2Z acq fsign lmem scale data_in data_out idata odata hip_stream

/-- The routine `ffthip_run_1dm_z_` (from `data_in` to `data_out`). -/
def ffthip_run_1dm_z_ {R : Type} [One R] [Mul R] [DecidableEq R] (lim : fft_hip_internal)
    (hipfftExecZ2Z : Transform R) (s : PlanCache) (fsign : Int) (n m : Int) (scale : R)
    (data_in data_out : List R) (idata odata : Buf) (hip_stream : Nat) (fresh : Nat) :
    Option (RunResult R) :=
  let lmem := wrap32 (n * m)
  (ffthip_plan1dm_z lim s n m fsign fresh).bind fun acq =>
    ffthip_run_body hipfftExecZ2Z acq fsign lmem scale data_in data_out idata odata hip_stream

/-- A call of one of the three transform invokers, with its integer arguments. -/
inductive RunCall where
  | run_3d (fsign : Int) (n0 n1 n2 : Int)
  | run_2dm (fsign : Int) (n0 n1 n2 : Int)
  | run_1dm (fsign : Int) (n m : Int)
deriving DecidableEq

/-- The transform invoker selected by the call.  The 3-D invoker has a single
buffer `data`, passed here as `data_out`; it does not use `data_in`. -/
def ffthip_run {R : Type} [One R] [Mul R] [DecidableEq R] (lim : fft_hip_internal)
    (hipfftExecZ2Z : Transform R) (s : PlanCache) (call : RunCall) (scale : R)
    (data_in data_out : List R) (idata odata : Buf) (hip_stream : Nat) (fresh : Nat) :
    Option (RunResult R) :=
  match call with
  | .run_3d fsign n0 n1 n2 =>
    ffthip_run_3d_z_ lim hipfftExecZ2Z s fsign n0 n1 n2 scale data_out odata hip_stream fresh
  | .run_2dm fsign n0 n1 n2 =>
    ffthip_run_2dm_z_ lim hipfftExecZ2Z s fsign n0 n1 n2 scale data_in data_out idata odata
      hip_stream fresh
  | .run_1dm fsign n m =>
    ffthip_run_1dm_z_ lim hipfftExecZ2Z s fsign n m scale data_in data_out idata odata
      hip_stream fresh

/-- The plan request an invoker call makes (the 3-D one drops the direction). -/
def RunCall.request : RunCall → Request
  | .run_3d _ n0 n1 n2 => .plan3d n0 n1 n2
  | .run_2dm fsign n0 n1 n2 => .plan2dm n0 n1 n2 fsign
  | .run_1dm fsign n m => .plan1dm n m fsign

/-- The local `lmem` of an invoker call. -/
def RunCall.lmem : RunCall → Int
  | .run_3d _ n0 n1 n2 => wrap32 (wrap32 (n0 * n1) * n2)
  | .run_2dm _ n0 n1 n2 => wrap32 (wrap32 (n0 * n1) * n2)
  | .run_1dm _ n m => wrap32 (n * m)

/-- The direction an invoker call executes. -/
def RunCall.direction : RunCall → Direction
  | .run_3d fsign _ _ _ => if fsign < 0 then .HIPFFT_INVERSE else .HIPFFT_FORWARD
  | .run_2dm fsign _ _ _ => if fsign < 0 then .HIPFFT_INVERSE else .HIPFFT_FORWARD
  | .run_1dm fsign _ _ => if fsign < 0 then .HIPFFT_INVERSE else .HIPFFT_FORWARD

/-- The content the transform reads: `data` itself for the in-place 3-D invoker. -/
def RunCall.input {R : Type} (call : RunCall) (data_in data_out : List R) : List R :=
  match call with
  | .run_3d _ _ _ _ => data_out
  | _ => data_in

/-- The buffer the transform reads: `data` itself for the in-place 3-D invoker. -/
def RunCall.idata (call : RunCall) (idata odata : Buf) : Buf :=
  match call with
  | .run_3d _ _ _ _ => odata
  | _ => idata

/-- The loop of `ffthip_release_` from slot `i` with `fuel` slots left: the calls
issued (`hipDeviceSynchronize` then `hipfftDestroy(saved_plans[i])` per slot);
`none` when a slot lies outside the array. -/
def release_loop (s : PlanCache) (i : Nat) : Nat → Option (List Cmd)
  | 0 => some []
  | fuel + 1 =>
    match s.saved_plans[i]? with
    | none => none
    | some plan =>
      (release_loop s (i + 1) fuel).map fun t =>
        Cmd.hipDeviceSynchronize :: Cmd.hipfftDestroy plan :: t

/-- The routine `ffthip_release_`: the calls issued and the state with `n_plans = 0`
(the arrays keep their content). -/
def ffthip_release_ (s : PlanCache) : Option (List Cmd × PlanCache) :=
  (release_loop s 0 s.n_plans).map fun t => (t, { s with n_plans := 0 })

/-- The handles destroyed by a sequence of calls, in order. -/
def destroyed (t : List Cmd) : List hipfftHandle :=
  t.filterMap fun c =>
    match c with
    | .hipfftDestroy plan => some plan
    | _ => none

/-- The capacity constants do not exceed the array dimension. -/
@[reducible] def fft_hip_internal.Consistent (lim : fft_hip_internal) : Prop :=
  lim.max_1d_plans ≤ lim.max_plans ∧ lim.max_2d_plans ≤ lim.max_plans ∧
    lim.max_3d_plans ≤ lim.max_plans

/-- Shape of the cache: both arrays have `max_plans` slots and the count is within them. -/
@[reducible] def PlanCache.WF (lim : fft_hip_internal) (s : PlanCache) : Prop :=
  s.n_plans ≤ lim.max_plans ∧ s.saved_plans.length = lim.max_plans ∧
    s.iplandims.length = lim.max_plans

/-- Every occupied slot holds the key of some request together with a handle
built by exactly the call a miss on that request makes. -/
def PlansSound (s : PlanCache) : Prop :=
  ∀ i, i < s.n_plans → ∃ (req : Request) (plan : hipfftHandle),
    s.iplandims[i]? = some req.key ∧ s.saved_plans[i]? = some plan ∧
      plan.built = (req.newPlan plan.id).built

/-- The cache states reached from the initial state by acquisitions and teardowns. -/
inductive Reachable (lim : fft_hip_internal) : PlanCache → Prop where
  | init : Reachable lim (PlanCache.init lim)
  | acquire (s : PlanCache) (req : Request) (fresh : Nat) (plan : hipfftHandle) (ioverflow : Int)
      (s2 : PlanCache) : Reachable lim s → acquire lim s req fresh = some (plan, ioverflow, s2) →
      Reachable lim s2
  | release (s : PlanCache) (t : List Cmd) (s2 : PlanCache) : Reachable lim s →
      ffthip_release_ s = some (t, s2) → Reachable lim s2

/-- The transform used in the examples: it copies its input to the output. -/
def exampleTransform : Transform Int := fun _ _ x _ => x

/-- The cache after one 3-D plan for extents `(2, 2, 2)` with identity 5 was
stored in the initial state under `exampleLimits`. -/
def exampleCache3d : PlanCache :=
  ⟨1,
   [⟨5, some (.hipfftPlan3d 2 2 2)⟩, ⟨0, none⟩, ⟨0, none⟩, ⟨0, none⟩, ⟨0, none⟩],
   [(3, 2, 2, 2, 0), (0, 0, 0, 0, 0), (0, 0, 0, 0, 0), (0, 0, 0, 0, 0), (0, 0, 0, 0, 0)]⟩

/-- What a forward 3-D call on extents `(2, 2, 2)` with scale `1` leaves behind when
started in the initial state: its plan is stored. -/
def exampleRun : RunResult Int :=
  ⟨⟨5, some (.hipfftPlan3d 2 2 2)⟩, 0, exampleCache3d,
   [1, 2, 3, 4, 5, 6, 7, 8, 9, 10, 11, 12, 13, 14, 15, 16],
   [Cmd.hipfftExecZ2Z ⟨5, some (.hipfftPlan3d 2 2 2)⟩ Buf.ptr_2 Buf.ptr_2
      Direction.HIPFFT_FORWARD]⟩

/-- What a forward 3-D call on extents `(2, 2, 2)` with scale `1` leaves behind when
started in `exampleCache` with identity 8: the cache is full for the 3-D class,
the plan is transient and is destroyed after a stream synchronisation. -/
def exampleTransientRun : RunResult Int :=
  ⟨⟨8, some (.hipfftPlan3d 2 2 2)⟩, 1, exampleCache,
   [1, 2, 3, 4, 5, 6, 7, 8, 9, 10, 11, 12, 13, 14, 15, 16],
   [Cmd.hipfftExecZ2Z ⟨8, some (.hipfftPlan3d 2 2 2)⟩ Buf.ptr_2 Buf.ptr_2
      Direction.HIPFFT_FORWARD,
    Cmd.hipStreamSynchronize 1, Cmd.hipfftDestroy ⟨8, some (.hipfftPlan3d 2 2 2)⟩]⟩

end FftHip

namespace PwHip

open Hip FftHip

/-! ## The nine public operations (`pw_hip_z.hip.cpp`) -/

/-- What the public operations take from their surroundings: the constants of
`fft_hip_internal.h`, the opaque transform, the order in which the threads of
a launch run, the content of the three freshly allocated device buffers, and
the identity the library gives to the `k`-th plan built during the call. -/
structure Env (R : Type) where
  lim : fft_hip_internal
  hipfftExecZ2Z : Transform R
  sched : dim3 → dim3 → List Thread
  mem_1 : Nat → R
  mem_2 : Nat → R
  mem_g : Nat → Int
  fresh : Nat → Nat

/-- What a public operation leaves behind: the content of its host output buffer,
the plan cache, and the calls it issued, in program order.  (The construction
of a plan inside a plan routine shows in the cache and in the handle the
transform runs on; it is not listed among the calls.) -/
structure OpResult (R : Type) where
  host : List R
  cache : PlanCache
  trace : List Cmd

/-- The routine `pw_hip_cfffg_z_`: real input `din`, complex output `zout`
(interleaved), index table `ghatmap`.  Data effects are those of program order,
which the event waits between the streams enforce; `none` stands for a fatal
exit or an access outside a buffer. -/
def pw_hip_cfffg_z_ {R : Type} [Zero R] [One R] [Mul R] [DecidableEq R] (env : Env R)
    (s : PlanCache) (din zout : List R) (ghatmap : List Int) (npts0 npts1 npts2 : Int)
    (ngpts : Int) (scale : R) : Option (OpResult R) :=
  let nrpts := wrap32 (wrap32 (npts0 * npts1) * npts2)
  if nrpts = 0 ∨ ngpts = 0 then some ⟨zout, s, []⟩
  else
    andThen (pw_hip_device_mem_alloc (wrap32 (2 * nrpts)) env.mem_1) fun ptr_1 =>
    andThen (pw_hip_device_mem_alloc (wrap32 (2 * nrpts)) env.mem_2) fun ptr_2 =>
    andThen (pw_hip_device_mem_alloc ngpts env.mem_g) fun ghatmap_dev =>
    andThen (hipMemcpyAsync ptr_1 din nrpts) fun ptr_1 =>
    andThen (get_grid_params nrpts MAXTHREADS) fun g1 =>
    andThen (launch_pw_copy_rc_hip_z g1.2 g1.1 (env.sched g1.2 g1.1) ptr_1 ptr_2
      nrpts) fun ptr_2 =>
    andThen (hipMemcpyAsync ghatmap_dev ghatmap ngpts) fun ghatmap_dev =>
    andThen (ffthip_run_3d_z_ env.lim env.hipfftExecZ2Z s 1 npts0 npts1 npts2 1 ptr_2
      Buf.ptr_2 1 (env.fresh 0)) fun run =>
    andThen (get_grid_params ngpts NTHREADS) fun g2 =>
    andThen (launch_pw_gather_hip_z g2.2 g2.1 (env.sched g2.2 g2.1) ptr_1 run.data scale
      ngpts ghatmap_dev) fun ptr_1 =>
    andThen (hipMemcpyAsync zout ptr_1 (2 * ngpts)) fun zout =>
    some ⟨zout, run.cache,
      [Cmd.pw_hip_get_streams, Cmd.pw_hip_get_events,
       Cmd.pw_hip_device_mem_alloc Buf.ptr_1 (wrap32 (2 * nrpts)),
       Cmd.pw_hip_device_mem_alloc Buf.ptr_2 (wrap32 (2 * nrpts)),
       Cmd.pw_hip_device_mem_alloc Buf.ghatmap_dev ngpts,
       Cmd.hipMemcpyHostToDevice Buf.ptr_1 nrpts 0, Cmd.hipEventRecord 0 0,
       Cmd.hipStreamWaitEvent 1 0,
       Cmd.hipLaunchKernelGGL Kernel.pw_copy_rc_hip_z g1.2 g1.1 1 [Buf.ptr_1, Buf.ptr_2],
       Cmd.hipMemcpyHostToDevice Buf.ghatmap_dev ngpts 0, Cmd.hipEventRecord 0 0]
      ++ run.trace ++
      [Cmd.hipStreamWaitEvent 1 0,
       Cmd.hipLaunchKernelGGL Kernel.pw_gather_hip_z g2.2 g2.1 1
         [Buf.ptr_1, Buf.ptr_2, Buf.ghatmap_dev],
       Cmd.hipEventRecord 1 1, Cmd.hipStreamWaitEvent 2 1,
       Cmd.hipMemcpyDeviceToHost Buf.ptr_1 (2 * ngpts) 2, Cmd.hipStreamSynchronize 2,
       Cmd.pw_hip_device_mem_free Buf.ptr_1, Cmd.pw_hip_device_mem_free Buf.ptr_2,
       Cmd.pw_hip_device_mem_free Buf.ghatmap_dev]⟩

/-- The routine `pw_hip_sfffc_z_`: complex input `zin`, real output `dout`. -/
def pw_hip_sfffc_z_ {R : Type} [Zero R] [One R] [Mul R] [Neg R] [DecidableEq R] (env : Env R)
    (s : PlanCache) (zin dout : List R) (ghatmap : List Int) (npts0 npts1 npts2 : Int)
    (ngpts nmaps : Int) (scale : R) : Option (OpResult R) :=
  let nrpts := wrap32 (wrap32 (npts0 * npts1) * npts2)
  if nrpts = 0 ∨ ngpts = 0 then some ⟨dout, s, []⟩
  else
    andThen (pw_hip_device_mem_alloc (wrap32 (2 * nrpts)) env.mem_1) fun ptr_1 =>
    andThen (pw_hip_device_mem_alloc (wrap32 (2 * nrpts)) env.mem_2) fun ptr_2 =>
    andThen (pw_hip_device_mem_alloc (wrap32 (nmaps * ngpts)) env.mem_g) fun ghatmap_dev =>
    andThen (hipMemcpyAsync ptr_1 zin (2 * ngpts)) fun ptr_1 =>
    andThen (hipMemcpyAsync ghatmap_dev ghatmap (nmaps * ngpts)) fun ghatmap_dev =>
    andThen (get_grid_params ngpts NTHREADS) fun g1 =>
    andThen (hipMemsetAsync ptr_2 (2 * nrpts)) fun ptr_2 =>
    andThen (launch_pw_scatter_hip_z g1.2 g1.1 (env.sched g1.2 g1.1) ptr_2 ptr_1 scale
      ngpts nmaps ghatmap_dev) fun ptr_2 =>
    andThen (ffthip_run_3d_z_ env.lim env.hipfftExecZ2Z s (-1) npts0 npts1 npts2 1 ptr_2
      Buf.ptr_2 1 (env.fresh 0)) fun run =>
    andThen (get_grid_params nrpts MAXTHREADS) fun g2 =>
    andThen (launch_pw_copy_cr_hip_z g2.2 g2.1 (env.sched g2.2 g2.1) run.data ptr_1
      nrpts) fun ptr_1 =>
    andThen (hipMemcpyAsync dout ptr_1 nrpts) fun dout =>
    some ⟨dout, run.cache,
      [Cmd.pw_hip_get_streams, Cmd.pw_hip_get_events,
       Cmd.pw_hip_device_mem_alloc Buf.ptr_1 (wrap32 (2 * nrpts)),
       Cmd.pw_hip_device_mem_alloc Buf.ptr_2 (wrap32 (2 * nrpts)),
       Cmd.pw_hip_device_mem_alloc Buf.ghatmap_dev (wrap32 (nmaps * ngpts)),
       Cmd.hipMemcpyHostToDevice Buf.ptr_1 (2 * ngpts) 0,
       Cmd.hipMemcpyHostToDevice Buf.ghatmap_dev (nmaps * ngpts) 0, Cmd.hipEventRecord 0 0,
       Cmd.hipStreamWaitEvent 1 0, Cmd.hipMemsetAsync Buf.ptr_2 (2 * nrpts) 1,
       Cmd.hipLaunchKernelGGL Kernel.pw_scatter_hip_z g1.2 g1.1 1
         [Buf.ptr_2, Buf.ptr_1, Buf.ghatmap_dev]]
      ++ run.trace ++
      [Cmd.hipLaunchKernelGGL Kernel.pw_copy_cr_hip_z g2.2 g2.1 1 [Buf.ptr_2, Buf.ptr_1],
       Cmd.hipEventRecord 1 1, Cmd.hipStreamWaitEvent 2 1,
       Cmd.hipMemcpyDeviceToHost Buf.ptr_1 nrpts 2, Cmd.hipStreamSynchronize 2,
       Cmd.pw_hip_device_mem_free Buf.ptr_1, Cmd.pw_hip_device_mem_free Buf.ptr_2,
       Cmd.pw_hip_device_mem_free Buf.ghatmap_dev]⟩

/-- The routine `pw_hip_cff_z_`: real input, two batched 1-D transforms, complex output. -/
def pw_hip_cff_z_ {R : Type} [Zero R] [One R] [Mul R] [DecidableEq R] (env : Env R)
    (s : PlanCache) (din zout : List R) (npts0 npts1 npts2 : Int) : Option (OpResult R) :=
  let nrpts := wrap32 (wrap32 (npts0 * npts1) * npts2)
  if nrpts = 0 then some ⟨zout, s, []⟩
  else
    andThen (pw_hip_device_mem_alloc (wrap32 (2 * nrpts)) env.mem_1) fun ptr_1 =>
    andThen (pw_hip_device_mem_alloc (wrap32 (2 * nrpts)) env.mem_2) fun ptr_2 =>
    andThen (hipMemcpyAsync ptr_1 din nrpts) fun ptr_1 =>
    andThen (get_grid_params nrpts MAXTHREADS) fun g1 =>
    andThen (launch_pw_copy_rc_hip_z g1.2 g1.1 (env.sched g1.2 g1.1) ptr_1 ptr_2
      nrpts) fun ptr_2 =>
    andThen (ffthip_run_1dm_z_ env.lim env.hipfftExecZ2Z s 1 npts2 (wrap32 (npts0 * npts1)) 1
      ptr_2 ptr_1 Buf.ptr_2 Buf.ptr_1 1 (env.fresh 0)) fun run1 =>
    andThen (ffthip_run_1dm_z_ env.lim env.hipfftExecZ2Z run1.cache 1 npts1
      (wrap32 (npts0 * npts2)) 1 run1.data ptr_2 Buf.ptr_1 Buf.ptr_2 1 (env.fresh 1)) fun run2 =>
    andThen (hipMemcpyAsync zout run2.data (2 * nrpts)) fun zout =>
    some ⟨zout, run2.cache,
      [Cmd.pw_hip_get_streams, Cmd.pw_hip_get_events,
       Cmd.pw_hip_device_mem_alloc Buf.ptr_1 (wrap32 (2 * nrpts)),
       Cmd.pw_hip_device_mem_alloc Buf.ptr_2 (wrap32 (2 * nrpts)),
       Cmd.hipMemcpyHostToDevice Buf.ptr_1 nrpts 0, Cmd.hipEventRecord 0 0,
       Cmd.hipStreamWaitEvent 1 0,
       Cmd.hipLaunchKernelGGL Kernel.pw_copy_rc_hip_z g1.2 g1.1 1 [Buf.ptr_1, Buf.ptr_2]]
      ++ run1.trace ++ run2.trace ++
      [Cmd.hipEventRecord 1 1, Cmd.hipStreamWaitEvent 2 1,
       Cmd.hipMemcpyDeviceToHost Buf.ptr_2 (2 * nrpts) 2, Cmd.hipStreamSynchronize 2,
       Cmd.pw_hip_device_mem_free Buf.ptr_1, Cmd.pw_hip_device_mem_free Buf.ptr_2]⟩

/-- The routine `pw_hip_ffc_z_`: complex input, two batched 1-D transforms, real output. -/
def pw_hip_ffc_z_ {R : Type} [Zero R] [One R] [Mul R] [DecidableEq R] (env : Env R)
    (s : PlanCache) (zin dout : List R) (npts0 npts1 npts2 : Int) : Option (OpResult R) :=
  let nrpts := wrap32 (wrap32 (npts0 * npts1) * npts2)
  if nrpts = 0 then some ⟨dout, s, []⟩
  else
    andThen (pw_hip_device_mem_alloc (wrap32 (2 * nrpts)) env.mem_1) fun ptr_1 =>
    andThen (pw_hip_device_mem_alloc (wrap32 (2 * nrpts)) env.mem_2) fun ptr_2 =>
    andThen (hipMemcpyAsync ptr_1 zin (2 * nrpts)) fun ptr_1 =>
    andThen (ffthip_run_1dm_z_ env.lim env.hipfftExecZ2Z s (-1) npts1
      (wrap32 (npts0 * npts2)) 1 ptr_1 ptr_2 Buf.ptr_1 Buf.ptr_2 1 (env.fresh 0)) fun run1 =>
    andThen (ffthip_run_1dm_z_ env.lim env.hipfftExecZ2Z run1.cache (-1) npts2
      (wrap32 (npts0 * npts1)) 1 run1.data ptr_1 Buf.ptr_2 Buf.ptr_1 1 (env.fresh 1)) fun run2 =>
    andThen (get_grid_params nrpts MAXTHREADS) fun g1 =>
    andThen (launch_pw_copy_cr_hip_z g1.2 g1.1 (env.sched g1.2 g1.1) run2.data run1.data
      nrpts) fun ptr_2 =>
    andThen (hipMemcpyAsync dout ptr_2 nrpts) fun dout =>
    some ⟨dout, run2.cache,
      [Cmd.pw_hip_get_streams, Cmd.pw_hip_get_events,
       Cmd.pw_hip_device_mem_alloc Buf.ptr_1 (wrap32 (2 * nrpts)),
       Cmd.pw_hip_device_mem_alloc Buf.ptr_2 (wrap32 (2 * nrpts)),
       Cmd.hipMemcpyHostToDevice Buf.ptr_1 (2 * nrpts) 0, Cmd.hipEventRecord 0 0,
       Cmd.hipStreamWaitEvent 1 0]
      ++ run1.trace ++ run2.trace ++
      [Cmd.hipLaunchKernelGGL Kernel.pw_copy_cr_hip_z g1.2 g1.1 1 [Buf.ptr_1, Buf.ptr_2],
       Cmd.hipEventRecord 1 1, Cmd.hipStreamWaitEvent 2 1,
       Cmd.hipMemcpyDeviceToHost Buf.ptr_2 nrpts 2, Cmd.hipStreamSynchronize 2,
       Cmd.pw_hip_device_mem_free Buf.ptr_1, Cmd.pw_hip_device_mem_free Buf.ptr_2]⟩

open Hip FftHip

/-- The routine `pw_hip_cf_z_`: real input, one batched 1-D transform, complex output. -/
def pw_hip_cf_z_ {R : Type} [Zero R] [One R] [Mul R] [DecidableEq R] (env : Env R)
    (s : PlanCache) (din zout : List R) (npts0 npts1 npts2 : Int) : Option (OpResult R) :=
  let nrpts := wrap32 (wrap32 (npts0 * npts1) * npts2)
  if nrpts = 0 then some ⟨zout, s, []⟩
  else
    andThen (pw_hip_device_mem_alloc (wrap32 (2 * nrpts)) env.mem_1) fun ptr_1 =>
    andThen (pw_hip_device_mem_alloc (wrap32 (2 * nrpts)) env.mem_2) fun ptr_2 =>
    andThen (hipMemcpyAsync ptr_1 din nrpts) fun ptr_1 =>
    andThen (get_grid_params nrpts MAXTHREADS) fun g1 =>
    andThen (launch_pw_copy_rc_hip_z g1.2 g1.1 (env.sched g1.2 g1.1) ptr_1 ptr_2
      nrpts) fun ptr_2 =>
    andThen (ffthip_run_1dm_z_ env.lim env.hipfftExecZ2Z s 1 npts2 (wrap32 (npts0 * npts1)) 1
      ptr_2 ptr_1 Buf.ptr_2 Buf.ptr_1 1 (env.fresh 0)) fun run =>
    andThen (hipMemcpyAsync zout run.data (2 * nrpts)) fun zout =>
    some ⟨zout, run.cache,
      [Cmd.pw_hip_get_streams, Cmd.pw_hip_get_events,
       Cmd.pw_hip_device_mem_alloc Buf.ptr_1 (wrap32 (2 * nrpts)),
       Cmd.pw_hip_device_mem_alloc Buf.ptr_2 (wrap32 (2 * nrpts)),
       Cmd.hipMemcpyHostToDevice Buf.ptr_1 nrpts 0, Cmd.hipEventRecord 0 0,
       Cmd.hipStreamWaitEvent 1 0,
       Cmd.hipLaunchKernelGGL Kernel.pw_copy_rc_hip_z g1.2 g1.1 1 [Buf.ptr_1, Buf.ptr_2]]
      ++ run.trace ++
      [Cmd.hipEventRecord 1 1, Cmd.hipStreamWaitEvent 2 1,
       Cmd.hipMemcpyDeviceToHost Buf.ptr_1 (2 * nrpts) 2, Cmd.hipStreamSynchronize 2,
       Cmd.pw_hip_device_mem_free Buf.ptr_1, Cmd.pw_hip_device_mem_free Buf.ptr_2]⟩

/-- The routine `pw_hip_fc_z_`: complex input, one batched 1-D transform, real output. -/
def pw_hip_fc_z_ {R : Type} [Zero R] [One R] [Mul R] [DecidableEq R] (env : Env R)
    (s : PlanCache) (zin dout : List R) (npts0 npts1 npts2 : Int) : Option (OpResult R) :=
  let nrpts := wrap32 (wrap32 (npts0 * npts1) * npts2)
  if nrpts = 0 then some ⟨dout, s, []⟩
  else
    andThen (pw_hip_device_mem_alloc (wrap32 (2 * nrpts)) env.mem_1) fun ptr_1 =>
    andThen (pw_hip_device_mem_alloc (wrap32 (2 * nrpts)) env.mem_2) fun ptr_2 =>
    andThen (hipMemcpyAsync ptr_1 zin (2 * nrpts)) fun ptr_1 =>
    andThen (ffthip_run_1dm_z_ env.lim env.hipfftExecZ2Z s (-1) npts2
      (wrap32 (npts0 * npts1)) 1 ptr_1 ptr_2 Buf.ptr_1 Buf.ptr_2 1 (env.fresh 0)) fun run =>
    andThen (get_grid_params nrpts MAXTHREADS) fun g1 =>
    andThen (launch_pw_copy_cr_hip_z g1.2 g1.1 (env.sched g1.2 g1.1) run.data ptr_1
      nrpts) fun ptr_1 =>
    andThen (hipMemcpyAsync dout ptr_1 nrpts) fun dout =>
    some ⟨dout, run.cache,
      [Cmd.pw_hip_get_streams, Cmd.pw_hip_get_events,
       Cmd.pw_hip_device_mem_alloc Buf.ptr_1 (wrap32 (2 * nrpts)),
       Cmd.pw_hip_device_mem_alloc Buf.ptr_2 (wrap32 (2 * nrpts)),
       Cmd.hipMemcpyHostToDevice Buf.ptr_1 (2 * nrpts) 0, Cmd.hipEventRecord 0 0,
       Cmd.hipStreamWaitEvent 1 0]
      ++ run.trace ++
      [Cmd.hipLaunchKernelGGL Kernel.pw_copy_cr_hip_z g1.2 g1.1 1 [Buf.ptr_2, Buf.ptr_1],
       Cmd.hipEventRecord 1 1, Cmd.hipStreamWaitEvent 2 1,
       Cmd.hipMemcpyDeviceToHost Buf.ptr_1 nrpts 2, Cmd.hipStreamSynchronize 2,
       Cmd.pw_hip_device_mem_free Buf.ptr_1, Cmd.pw_hip_device_mem_free Buf.ptr_2]⟩

/-- The routine `pw_hip_f_z_`: one batched 1-D transform of `m` vectors of length `n`
in direction `dir`, complex to complex. -/
def pw_hip_f_z_ {R : Type} [One R] [Mul R] [DecidableEq R] (env : Env R)
    (s : PlanCache) (zin zout : List R) (dir n m : Int) : Option (OpResult R) :=
  let nrpts := wrap32 (n * m)
  if nrpts = 0 then some ⟨zout, s, []⟩
  else
    andThen (pw_hip_device_mem_alloc (wrap32 (2 * nrpts)) env.mem_1) fun ptr_1 =>
    andThen (pw_hip_device_mem_alloc (wrap32 (2 * nrpts)) env.mem_2) fun ptr_2 =>
    andThen (hipMemcpyAsync ptr_1 zin (2 * nrpts)) fun ptr_1 =>
    andThen (ffthip_run_1dm_z_ env.lim env.hipfftExecZ2Z s dir n m 1 ptr_1 ptr_2
      Buf.ptr_1 Buf.ptr_2 1 (env.fresh 0)) fun run =>
    andThen (hipMemcpyAsync zout run.data (2 * nrpts)) fun zout =>
    some ⟨zout, run.cache,
      [Cmd.pw_hip_get_streams, Cmd.pw_hip_get_events,
       Cmd.pw_hip_device_mem_alloc Buf.ptr_1 (wrap32 (2 * nrpts)),
       Cmd.pw_hip_device_mem_alloc Buf.ptr_2 (wrap32 (2 * nrpts)),
       Cmd.hipMemcpyHostToDevice Buf.ptr_1 (2 * nrpts) 0, Cmd.hipEventRecord 0 0,
       Cmd.hipStreamWaitEvent 1 0]
      ++ run.trace ++
      [Cmd.hipEventRecord 1 1, Cmd.hipStreamWaitEvent 2 1,
       Cmd.hipMemcpyDeviceToHost Buf.ptr_2 (2 * nrpts) 2, Cmd.hipStreamSynchronize 2,
       Cmd.pw_hip_device_mem_free Buf.ptr_1, Cmd.pw_hip_device_mem_free Buf.ptr_2]⟩

/-- The routine `pw_hip_fg_z_`: one batched 1-D transform followed by a gather. -/
def pw_hip_fg_z_ {R : Type} [One R] [Mul R] [DecidableEq R] (env : Env R)
    (s : PlanCache) (zin zout : List R) (ghatmap : List Int) (npts0 mmax : Int)
    (ngpts : Int) (scale : R) : Option (OpResult R) :=
  let nrpts := wrap32 (npts0 * mmax)
  if nrpts = 0 ∨ ngpts = 0 then some ⟨zout, s, []⟩
  else
    andThen (pw_hip_device_mem_alloc (wrap32 (2 * nrpts)) env.mem_1) fun ptr_1 =>
    andThen (pw_hip_device_mem_alloc (wrap32 (2 * nrpts)) env.mem_2) fun ptr_2 =>
    andThen (pw_hip_device_mem_alloc ngpts env.mem_g) fun ghatmap_dev =>
    andThen (hipMemcpyAsync ghatmap_dev ghatmap ngpts) fun ghatmap_dev =>
    andThen (hipMemcpyAsync ptr_1 zin (2 * nrpts)) fun ptr_1 =>
    andThen (ffthip_run_1dm_z_ env.lim env.hipfftExecZ2Z s 1 npts0 mmax 1 ptr_1 ptr_2
      Buf.ptr_1 Buf.ptr_2 1 (env.fresh 0)) fun run =>
    andThen (get_grid_params ngpts NTHREADS) fun g1 =>
    andThen (launch_pw_gather_hip_z g1.2 g1.1 (env.sched g1.2 g1.1) ptr_1 run.data scale
      ngpts ghatmap_dev) fun ptr_1 =>
    andThen (hipMemcpyAsync zout ptr_1 (2 * ngpts)) fun zout =>
    some ⟨zout, run.cache,
      [Cmd.pw_hip_get_streams, Cmd.pw_hip_get_events,
       Cmd.pw_hip_device_mem_alloc Buf.ptr_1 (wrap32 (2 * nrpts)),
       Cmd.pw_hip_device_mem_alloc Buf.ptr_2 (wrap32 (2 * nrpts)),
       Cmd.pw_hip_device_mem_alloc Buf.ghatmap_dev ngpts,
       Cmd.hipMemcpyHostToDevice Buf.ghatmap_dev ngpts 0,
       Cmd.hipMemcpyHostToDevice Buf.ptr_1 (2 * nrpts) 0, Cmd.hipEventRecord 0 0,
       Cmd.hipStreamWaitEvent 1 0]
      ++ run.trace ++
      [Cmd.hipLaunchKernelGGL Kernel.pw_gather_hip_z g1.2 g1.1 1
         [Buf.ptr_1, Buf.ptr_2, Buf.ghatmap_dev],
       Cmd.hipEventRecord 1 1, Cmd.hipStreamWaitEvent 2 1,
       Cmd.hipMemcpyDeviceToHost Buf.ptr_1 (2 * ngpts) 2, Cmd.hipStreamSynchronize 2,
       Cmd.pw_hip_device_mem_free Buf.ptr_1, Cmd.pw_hip_device_mem_free Buf.ptr_2,
       Cmd.pw_hip_device_mem_free Buf.ghatmap_dev]⟩

/-- The routine `pw_hip_sf_z_`: a scatter followed by one batched 1-D transform. -/
def pw_hip_sf_z_ {R : Type} [Zero R] [One R] [Mul R] [Neg R] [DecidableEq R] (env : Env R)
    (s : PlanCache) (zin zout : List R) (ghatmap : List Int) (npts0 mmax : Int)
    (ngpts nmaps : Int) (scale : R) : Option (OpResult R) :=
  let nrpts := wrap32 (npts0 * mmax)
  if nrpts = 0 ∨ ngpts = 0 then some ⟨zout, s, []⟩
  else
    andThen (pw_hip_device_mem_alloc (wrap32 (2 * nrpts)) env.mem_1) fun ptr_1 =>
    andThen (pw_hip_device_mem_alloc (wrap32 (2 * nrpts)) env.mem_2) fun ptr_2 =>
    andThen (pw_hip_device_mem_alloc (wrap32 (nmaps * ngpts)) env.mem_g) fun ghatmap_dev =>
    andThen (hipMemcpyAsync ptr_1 zin (2 * ngpts)) fun ptr_1 =>
    andThen (hipMemcpyAsync ghatmap_dev ghatmap (nmaps * ngpts)) fun ghatmap_dev =>
    andThen (get_grid_params ngpts NTHREADS) fun g1 =>
    andThen (hipMemsetAsync ptr_2 (2 * nrpts)) fun ptr_2 =>
    andThen (launch_pw_scatter_hip_z g1.2 g1.1 (env.sched g1.2 g1.1) ptr_2 ptr_1 scale
      ngpts nmaps ghatmap_dev) fun ptr_2 =>
    andThen (ffthip_run_1dm_z_ env.lim env.hipfftExecZ2Z s (-1) npts0 mmax 1 ptr_2 ptr_1
      Buf.ptr_2 Buf.ptr_1 1 (env.fresh 0)) fun run =>
    andThen (hipMemcpyAsync zout run.data (2 * nrpts)) fun zout =>
    some ⟨zout, run.cache,
      [Cmd.pw_hip_get_streams, Cmd.pw_hip_get_events,
       Cmd.pw_hip_device_mem_alloc Buf.ptr_1 (wrap32 (2 * nrpts)),
       Cmd.pw_hip_device_mem_alloc Buf.ptr_2 (wrap32 (2 * nrpts)),
       Cmd.pw_hip_device_mem_alloc Buf.ghatmap_dev (wrap32 (nmaps * ngpts)),
       Cmd.hipMemcpyHostToDevice Buf.ptr_1 (2 * ngpts) 0,
       Cmd.hipMemcpyHostToDevice Buf.ghatmap_dev (nmaps * ngpts) 0, Cmd.hipEventRecord 0 0,
       Cmd.hipStreamWaitEvent 1 0, Cmd.hipMemsetAsync Buf.ptr_2 (2 * nrpts) 1,
       Cmd.hipLaunchKernelGGL Kernel.pw_scatter_hip_z g1.2 g1.1 1
         [Buf.ptr_2, Buf.ptr_1, Buf.ghatmap_dev]]
      ++ run.trace ++
      [Cmd.hipEventRecord 1 1, Cmd.hipStreamWaitEvent 2 1,
       Cmd.hipMemcpyDeviceToHost Buf.ptr_1 (2 * nrpts) 2, Cmd.hipStreamSynchronize 2,
       Cmd.pw_hip_device_mem_free Buf.ptr_1, Cmd.pw_hip_device_mem_free Buf.ptr_2,
       Cmd.pw_hip_device_mem_free Buf.ghatmap_dev]⟩

/-- The surroundings used in the examples: `exampleLimits`, the copying transform,
threads run in grid order, fresh buffers hold `7`, and the `k`-th plan built
gets identity `8 + k`. -/
def exampleEnv : Env Int :=
  ⟨exampleLimits, exampleTransform, allThreads, fun _ => 7, fun _ => 7, fun _ => 7,
   fun k => 8 + k⟩

end PwHip

namespace FftHip

open Hip

/-! ## Plan layouts and key uniqueness -/

/-- The `(istride, idist, ostride, odist)` arguments of a `hipfftPlanMany` call
(`none` for `hipfftPlan3d`, which takes no layout). -/
def PlanCall.layout : PlanCall → Option (Int × Int × Int × Int)
  | .hipfftPlan3d _ _ _ => none
  | .hipfftPlanMany _ _ _ istride idist _ ostride odist _ => some (istride, idist, ostride, odist)

/-- The batch count of a `hipfftPlanMany` call. -/
def PlanCall.batch : PlanCall → Option Int
  | .hipfftPlan3d _ _ _ => none
  | .hipfftPlanMany _ _ _ _ _ _ _ _ batch => some batch

/-- The transform sizes of a plan call, slowest axis first. -/
def PlanCall.sizes : PlanCall → List Int
  | .hipfftPlan3d nx ny nz => [nx, ny, nz]
  | .hipfftPlanMany _ n _ _ _ _ _ _ _ => n

/-- A layout with the roles of input and output exchanged. -/
def swapLayout (l : Int × Int × Int × Int) : Int × Int × Int × Int :=
  (l.2.2.1, l.2.2.2, l.1, l.2.1)

/-- The layout the plan routines set in their `fsign == +1` branch:
`(m, 1, 1, n)` for a 1-D request, `(n[0], 1, 1, n[1] * n[2])` for a 2-D request,
the product being the `int` product of the source. -/
def Request.forwardLayout : Request → Option (Int × Int × Int × Int)
  | .plan3d _ _ _ => none
  | .plan2dm n0 n1 n2 _ => some (n0, 1, 1, wrap32 (n1 * n2))
  | .plan1dm n m _ => some (m, 1, 1, n)

/-- The layout the plan routines set in their `else` branch: the forward one with
input and output exchanged. -/
def Request.inverseLayout (req : Request) : Option (Int × Int × Int × Int) :=
  req.forwardLayout.map swapLayout

/-- Addressing rule of the hipfft advanced data layout for rank 1: element `j` of
batch `b` lies at `b * dist + j * stride`. -/
def offset1d (stride dist : Int) (b j : Nat) : Int := b * dist + j * stride

/-- Addressing rule of the hipfft advanced data layout for rank 2 with embedding
`(embed0, embed1)`: element `(x, y)` of batch `b` lies at
`b * dist + (x * embed1 + y) * stride`. -/
def offset2d (embed1 stride dist : Int) (b x y : Nat) : Int :=
  b * dist + (x * embed1 + y) * stride

/-- The offsets `f b j` with `b < B` and `j < J` are pairwise distinct and are exactly
the offsets `0 .. N - 1`. -/
def BijOnto2 (f : Nat → Nat → Int) (B J N : Nat) : Prop :=
  (∀ b j, b < B → j < J → 0 ≤ f b j ∧ f b j < (N : Int)) ∧
  (∀ b j b2 j2, b < B → j < J → b2 < B → j2 < J → f b j = f b2 j2 → b = b2 ∧ j = j2) ∧
  (∀ k : Nat, k < N → ∃ b j, b < B ∧ j < J ∧ f b j = (k : Int))

/-- The offsets `f b x y` with `b < B`, `x < X` and `y < Y` are pairwise distinct and
are exactly the offsets `0 .. N - 1`. -/
def BijOnto3 (f : Nat → Nat → Nat → Int) (B X Y N : Nat) : Prop :=
  (∀ b x y, b < B → x < X → y < Y → 0 ≤ f b x y ∧ f b x y < (N : Int)) ∧
  (∀ b x y b2 x2 y2, b < B → x < X → y < Y → b2 < B → x2 < X → y2 < Y →
    f b x y = f b2 x2 y2 → b = b2 ∧ x = x2 ∧ y = y2) ∧
  (∀ k : Nat, k < N → ∃ b x y, b < B ∧ x < X ∧ y < Y ∧ f b x y = (k : Int))

/-- The occupied slots lie inside the key array and hold pairwise distinct keys. -/
def KeysDistinct (s : PlanCache) : Prop :=
  s.n_plans ≤ s.iplandims.length ∧
    ∀ i j, i < j → j < s.n_plans → s.iplandims[i]? ≠ s.iplandims[j]?

/-- The directions of the transforms a sequence of calls executes, in order. -/
def executed (t : List Cmd) : List Direction :=
  t.filterMap fun c =>
    match c with
    | .hipfftExecZ2Z _ _ _ direction => some direction
    | _ => none

/-- What `ffthip_run_1dm_z_` with `fsign = 0`, `(n, m) = (4, 2)`, scale `1` and
identity 7 leaves behind when started in the initial state under `exampleLimits`:
the plan has the layout `(1, 4, 2, 1)` and the forward transform was executed. -/
def exampleZeroSignRun : RunResult Int :=
  ⟨⟨7, some (.hipfftPlanMany 1 [4] [0] 1 4 [0] 2 1 2)⟩, 0,
   ⟨1,
    [⟨7, some (.hipfftPlanMany 1 [4] [0] 1 4 [0] 2 1 2)⟩, ⟨0, none⟩, ⟨0, none⟩, ⟨0, none⟩,
     ⟨0, none⟩],
    [(1, 4, 2, 0, 0), (0, 0, 0, 0, 0), (0, 0, 0, 0, 0), (0, 0, 0, 0, 0), (0, 0, 0, 0, 0)]⟩,
   [1, 2, 3, 4, 5, 6, 7, 8, 9, 10, 11, 12, 13, 14, 15, 16],
   [Cmd.hipfftExecZ2Z ⟨7, some (.hipfftPlanMany 1 [4] [0] 1 4 [0] 2 1 2)⟩ Buf.ptr_1 Buf.ptr_2
      Direction.HIPFFT_FORWARD]⟩

end FftHip

namespace Hip

/-! ## Reading the sequence of calls an operation issues -/

/-- The calls that block the host until device work has completed. -/
def Cmd.isHostWait : Cmd → Bool
  | .hipStreamSynchronize _ => true
  | .hipDeviceSynchronize => true
  | _ => false

/-- The host-blocking waits of a sequence of calls, in order. -/
def hostWaits (t : List Cmd) : List Cmd := t.filter Cmd.isHostWait

/-- The calls that release a device buffer. -/
def Cmd.isFree : Cmd → Bool
  | .pw_hip_device_mem_free _ => true
  | _ => false

/-- The compute-stage calls: the zero fill, the kernel launches, the transform
and the scaling.  In the nine operations the fill and the launches are issued
on `hip_streams[1]`, and the plan routines bind every plan they build to the
stream they are passed (`hipfftSetStream`), which is `hip_streams[1]` too. -/
def Cmd.isCompute : Cmd → Bool
  | .hipMemsetAsync _ _ _ => true
  | .hipLaunchKernelGGL _ _ _ _ _ => true
  | .hipfftExecZ2Z _ _ _ _ => true
  | .hipblasDscal _ _ => true
  | _ => false

/-- The device buffers a kernel reads, by the position of its pointer arguments:
`pw_copy_rc_hip_z(din, zout, ..)` and `pw_copy_cr_hip_z(zin, dout, ..)` read
the first; `pw_gather_hip_z(pwcc, c, .., ghatmap)` and
`pw_scatter_hip_z(c, pwcc, .., ghatmap)` read the second and the third
(their `const` parameters). -/
def Kernel.reads (k : Kernel) (args : List Buf) : List Buf :=
  match k with
  | .pw_copy_rc_hip_z => args.take 1
  | .pw_copy_cr_hip_z => args.take 1
  | .pw_gather_hip_z => args.drop 1
  | .pw_scatter_hip_z => args.drop 1

/-- The device buffers a call reads. -/
def Cmd.reads : Cmd → List Buf
  | .hipLaunchKernelGGL kernel _ _ _ args => kernel.reads args
  | .hipfftExecZ2Z _ idata _ _ => [idata]
  | .hipblasDscal _ x => [x]
  | .hipMemcpyDeviceToHost src _ _ => [src]
  | _ => []

/-- Ingress ordering: a compute-stage call that reads a buffer filled by a
host-to-device copy on `hip_streams[0]` comes after a
`hipStreamWaitEvent(hip_streams[1], hip_events[0])` that comes after a
`hipEventRecord(hip_events[0], hip_streams[0])` that comes after the copy. -/
def IngressOrdered (t : List Cmd) : Prop :=
  ∀ (i j : Nat) (b : Buf) (n : Int) (c : Cmd),
    t[i]? = some (Cmd.hipMemcpyHostToDevice b n 0) → t[j]? = some c →
    c.isCompute = true → b ∈ c.reads →
    ∃ r w, i < r ∧ r < w ∧ w < j ∧ t[r]? = some (Cmd.hipEventRecord 0 0) ∧
      t[w]? = some (Cmd.hipStreamWaitEvent 1 0)

/-- Egress ordering: a device-to-host copy on `hip_streams[2]` comes after a
`hipStreamWaitEvent(hip_streams[2], hip_events[1])` that comes after a
`hipEventRecord(hip_events[1], hip_streams[1])` that comes after every
compute-stage call. -/
def EgressOrdered (t : List Cmd) : Prop :=
  ∀ (d : Nat) (src : Buf) (n : Int), t[d]? = some (Cmd.hipMemcpyDeviceToHost src n 2) →
    ∃ r w, r < w ∧ w < d ∧ t[r]? = some (Cmd.hipEventRecord 1 1) ∧
      t[w]? = some (Cmd.hipStreamWaitEvent 2 1) ∧
      ∀ (j : Nat) (c : Cmd), t[j]? = some c → c.isCompute = true → j < r

/-- The final host wait: a device-to-host copy on `hip_streams[2]` is followed by a
`hipStreamSynchronize(hip_streams[2])` after which no host-blocking wait is
issued and before which no device buffer is released. -/
def FinalEgressWait (t : List Cmd) : Prop :=
  ∃ (d w : Nat) (src : Buf) (n : Int), d < w ∧
    t[d]? = some (Cmd.hipMemcpyDeviceToHost src n 2) ∧
    t[w]? = some (Cmd.hipStreamSynchronize 2) ∧
    (∀ (k : Nat) (c : Cmd), t[k]? = some c → c.isHostWait = true → k ≤ w) ∧
    (∀ (k : Nat) (c : Cmd), t[k]? = some c → c.isFree = true → w < k)

/-- Every destruction of a plan comes right after a
`hipStreamSynchronize(hip_streams[1])`. -/
def WaitBeforeDestroy (t : List Cmd) : Prop :=
  ∀ (k : Nat) (plan : FftHip.hipfftHandle), t[k]? = some (Cmd.hipfftDestroy plan) →
    ∃ k0, k = k0 + 1 ∧ t[k0]? = some (Cmd.hipStreamSynchronize 1)

/-- The buffer a host-to-device copy on `hip_streams[0]` fills. -/
def Cmd.ingressTarget : Cmd → Option Buf
  | .hipMemcpyHostToDevice dst _ stream => if stream = 0 then some dst else none
  | _ => none

/-- Whether the call is a device-to-host copy on `hip_streams[2]`. -/
def Cmd.isEgress : Cmd → Bool
  | .hipMemcpyDeviceToHost _ _ stream => decide (stream = 2)
  | _ => false

/-- Whether the call destroys a plan. -/
def Cmd.isDestroy : Cmd → Bool
  | .hipfftDestroy _ => true
  | _ => false

/-- Ingress ordering, checked position by position. -/
def ingressCheck (t : List Cmd) : Bool :=
  t.enum.all fun ic =>
    match ic.2.ingressTarget with
    | none => true
    | some b =>
      t.enum.all fun jc =>
        !(jc.2.isCompute && jc.2.reads.contains b) ||
        t.enum.any fun rc =>
          decide (ic.1 < rc.1) && decide (rc.2 = Cmd.hipEventRecord 0 0) &&
          t.enum.any fun wc =>
            decide (rc.1 < wc.1) && decide (wc.1 < jc.1) &&
              decide (wc.2 = Cmd.hipStreamWaitEvent 1 0)

/-- Egress ordering, checked position by position. -/
def egressCheck (t : List Cmd) : Bool :=
  t.enum.all fun dc =>
    !dc.2.isEgress ||
    t.enum.any fun rc =>
      decide (rc.2 = Cmd.hipEventRecord 1 1) &&
      (t.enum.any fun wc =>
        decide (rc.1 < wc.1) && decide (wc.1 < dc.1) &&
          decide (wc.2 = Cmd.hipStreamWaitEvent 2 1)) &&
      t.enum.all fun jc => !jc.2.isCompute || decide (jc.1 < rc.1)

/-- The final host wait, checked position by position. -/
def finalEgressWaitCheck (t : List Cmd) : Bool :=
  t.enum.any fun dc =>
    dc.2.isEgress &&
    t.enum.any fun wc =>
      decide (dc.1 < wc.1) && decide (wc.2 = Cmd.hipStreamSynchronize 2) &&
      t.enum.all fun kc =>
        (!kc.2.isHostWait || decide (kc.1 ≤ wc.1)) && (!kc.2.isFree || decide (wc.1 < kc.1))

/-- The wait before each destruction, checked position by position. -/
def waitBeforeDestroyCheck (t : List Cmd) : Bool :=
  t.enum.all fun kc =>
    !kc.2.isDestroy ||
    t.enum.any fun wc =>
      decide (kc.1 = wc.1 + 1) && decide (wc.2 = Cmd.hipStreamSynchronize 1)

/-- The calls of a transform invoker run with scale `1` on `hip_streams[1]`: the
transform, then for a transient plan the synchronisation of the stream and the
destruction of the plan. -/
def runTrace (plan : FftHip.hipfftHandle) (idata odata : Buf) (direction : Direction)
    (transient : Bool) : List Cmd :=
  Cmd.hipfftExecZ2Z plan idata odata direction ::
    (if transient then [Cmd.hipStreamSynchronize 1, Cmd.hipfftDestroy plan] else [])

end Hip

namespace PwHip

open Hip FftHip

/-- A call of one of the nine public operations, with its arguments. -/
inductive PublicCall (R : Type) where
  | cfffg (din zout : List R) (ghatmap : List Int) (npts0 npts1 npts2 ngpts : Int) (scale : R)
  | sfffc (zin dout : List R) (ghatmap : List Int) (npts0 npts1 npts2 ngpts nmaps : Int)
      (scale : R)
  | cff (din zout : List R) (npts0 npts1 npts2 : Int)
  | ffc (zin dout : List R) (npts0 npts1 npts2 : Int)
  | cf (din zout : List R) (npts0 npts1 npts2 : Int)
  | fc (zin dout : List R) (npts0 npts1 npts2 : Int)
  | f (zin zout : List R) (dir n m : Int)
  | fg (zin zout : List R) (ghatmap : List Int) (npts0 mmax ngpts : Int) (scale : R)
  | sf (zin zout : List R) (ghatmap : List Int) (npts0 mmax ngpts nmaps : Int) (scale : R)

/-- The public operation selected by the call. -/
def PublicCall.run {R : Type} [Zero R] [One R] [Mul R] [Neg R] [DecidableEq R] (env : Env R)
    (s : PlanCache) : PublicCall R → Option (OpResult R)
  | .cfffg din zout ghatmap npts0 npts1 npts2 ngpts scale =>
    pw_hip_cfffg_z_ env s din zout ghatmap npts0 npts1 npts2 ngpts scale
  | .sfffc zin dout ghatmap npts0 npts1 npts2 ngpts nmaps scale =>
    pw_hip_sfffc_z_ env s zin dout ghatmap npts0 npts1 npts2 ngpts nmaps scale
  | .cff din zout npts0 npts1 npts2 => pw_hip_cff_z_ env s din zout npts0 npts1 npts2
  | .ffc zin dout npts0 npts1 npts2 => pw_hip_ffc_z_ env s zin dout npts0 npts1 npts2
  | .cf din zout npts0 npts1 npts2 => pw_hip_cf_z_ env s din zout npts0 npts1 npts2
  | .fc zin dout npts0 npts1 npts2 => pw_hip_fc_z_ env s zin dout npts0 npts1 npts2
  | .f zin zout dir n m => pw_hip_f_z_ env s zin zout dir n m
  | .fg zin zout ghatmap npts0 mmax ngpts scale =>
    pw_hip_fg_z_ env s zin zout ghatmap npts0 mmax ngpts scale
  | .sf zin zout ghatmap npts0 mmax ngpts nmaps scale =>
    pw_hip_sf_z_ env s zin zout ghatmap npts0 mmax ngpts nmaps scale

/-- The test on which the operation returns at once (`if (nrpts == 0 ..) return;`). -/
def PublicCall.zeroSize {R : Type} : PublicCall R → Prop
  | .cfffg _ _ _ npts0 npts1 npts2 ngpts _ =>
    wrap32 (wrap32 (npts0 * npts1) * npts2) = 0 ∨ ngpts = 0
  | .sfffc _ _ _ npts0 npts1 npts2 ngpts _ _ =>
    wrap32 (wrap32 (npts0 * npts1) * npts2) = 0 ∨ ngpts = 0
  | .cff _ _ npts0 npts1 npts2 => wrap32 (wrap32 (npts0 * npts1) * npts2) = 0
  | .ffc _ _ npts0 npts1 npts2 => wrap32 (wrap32 (npts0 * npts1) * npts2) = 0
  | .cf _ _ npts0 npts1 npts2 => wrap32 (wrap32 (npts0 * npts1) * npts2) = 0
  | .fc _ _ npts0 npts1 npts2 => wrap32 (wrap32 (npts0 * npts1) * npts2) = 0
  | .f _ _ _ n m => wrap32 (n * m) = 0
  | .fg _ _ _ npts0 mmax ngpts _ => wrap32 (npts0 * mmax) = 0 ∨ ngpts = 0
  | .sf _ _ _ npts0 mmax ngpts _ _ => wrap32 (npts0 * mmax) = 0 ∨ ngpts = 0

instance PublicCall.decidableZeroSize {R : Type} (call : PublicCall R) :
    Decidable call.zeroSize := by
  cases call <;> unfold PublicCall.zeroSize <;> infer_instance

/-- The surroundings of `exampleEnv` with room for one plan of each class only. -/
def exampleTightEnv : Env Int :=
  ⟨⟨1, 1, 1, 5⟩, exampleTransform, allThreads, fun _ => 7, fun _ => 7, fun _ => 7,
   fun k => 8 + k⟩

/-- What `pw_hip_f_z_` on one vector of length 2 (`dir = +1`) leaves behind when
started in `exampleCache` under `exampleTightEnv`: the 1-D class is full, the
plan is transient, and the host waits twice. -/
def exampleTransientOp : OpResult Int :=
  ⟨[1, 2, 3, 4], exampleCache,
   [Cmd.pw_hip_get_streams, Cmd.pw_hip_get_events,
    Cmd.pw_hip_device_mem_alloc Buf.ptr_1 4, Cmd.pw_hip_device_mem_alloc Buf.ptr_2 4,
    Cmd.hipMemcpyHostToDevice Buf.ptr_1 4 0, Cmd.hipEventRecord 0 0,
    Cmd.hipStreamWaitEvent 1 0,
    Cmd.hipfftExecZ2Z ⟨8, some (.hipfftPlanMany 1 [2] [0] 1 1 [0] 1 2 1)⟩ Buf.ptr_1 Buf.ptr_2
      Direction.HIPFFT_FORWARD,
    Cmd.hipStreamSynchronize 1,
    Cmd.hipfftDestroy ⟨8, some (.hipfftPlanMany 1 [2] [0] 1 1 [0] 1 2 1)⟩,
    Cmd.hipEventRecord 1 1, Cmd.hipStreamWaitEvent 2 1,
    Cmd.hipMemcpyDeviceToHost Buf.ptr_2 4 2, Cmd.hipStreamSynchronize 2,
    Cmd.pw_hip_device_mem_free Buf.ptr_1, Cmd.pw_hip_device_mem_free Buf.ptr_2]⟩

/-- What the same call leaves behind under `exampleEnv`, where the 1-D class has
room: the plan is stored in slot 1 and the host waits once. -/
def exampleStoredOp : OpResult Int :=
  ⟨[1, 2, 3, 4],
   ⟨2,
    [⟨7, some (.hipfftPlanMany 1 [4] [0] 2 1 [0] 1 4 2)⟩,
     ⟨8, some (.hipfftPlanMany 1 [2] [0] 1 1 [0] 1 2 1)⟩, ⟨0, none⟩, ⟨0, none⟩, ⟨0, none⟩],
    [(1, 4, 2, 0, 1), (1, 2, 1, 0, 1), (0, 0, 0, 0, 0), (0, 0, 0, 0, 0), (0, 0, 0, 0, 0)]⟩,
   [Cmd.pw_hip_get_streams, Cmd.pw_hip_get_events,
    Cmd.pw_hip_device_mem_alloc Buf.ptr_1 4, Cmd.pw_hip_device_mem_alloc Buf.ptr_2 4,
    Cmd.hipMemcpyHostToDevice Buf.ptr_1 4 0, Cmd.hipEventRecord 0 0,
    Cmd.hipStreamWaitEvent 1 0,
    Cmd.hipfftExecZ2Z ⟨8, some (.hipfftPlanMany 1 [2] [0] 1 1 [0] 1 2 1)⟩ Buf.ptr_1 Buf.ptr_2
      Direction.HIPFFT_FORWARD,
    Cmd.hipEventRecord 1 1, Cmd.hipStreamWaitEvent 2 1,
    Cmd.hipMemcpyDeviceToHost Buf.ptr_2 4 2, Cmd.hipStreamSynchronize 2,
    Cmd.pw_hip_device_mem_free Buf.ptr_1, Cmd.pw_hip_device_mem_free Buf.ptr_2]⟩

/-! ## Basic facts on memory accesses and on the launch geometry -/

theorem ld_natCast {α : Type} (buf : List α) (i : Nat) (h : i < 2 ^ 31) :
    ld buf (i : Int) = buf[i]? := by
  have hn : ¬ ((i : Int) < 0 ∨ 2147483648 ≤ (i : Int).toNat) := by
    rw [Int.toNat_ofNat]
    omega
  unfold ld
  rw [if_neg hn, Int.toNat_ofNat]

theorem st_natCast {α : Type} (buf : List α) (i : Nat) (v : α) (h : i < buf.length)
    (h31 : i < 2 ^ 31) : st buf (i : Int) v = some (buf.set i v) := by
  have hp : (0 : Int) ≤ (i : Int) ∧ (i : Int).toNat < 2147483648 ∧
      (i : Int).toNat < buf.length := by
    rw [Int.toNat_ofNat]
    exact ⟨by omega, by omega, h⟩
  unfold st
  rw [if_pos hp, Int.toNat_ofNat]

theorem mem_allThreads (g b : dim3) (th : Thread) :
    th ∈ allThreads g b ↔ th.blockIdx_x < g.x ∧ th.blockIdx_y < g.y ∧ th.threadIdx_x < b.x := by
  obtain ⟨ix, iy, tx⟩ := th
  simp only [allThreads, List.mem_flatMap, List.mem_map, List.mem_range, Thread.mk.injEq]
  constructor
  · rintro ⟨a, ha, a2, ha2, a3, ha3, h1, h2, h3⟩
    subst h1 h2 h3
    exact ⟨ha2, ha, ha3⟩
  · rintro ⟨h1, h2, h3⟩
    exact ⟨iy, h2, ix, h1, tx, h3, rfl, rfl, rfl⟩

theorem flat_lt (g b : dim3) (th : Thread) (h : th ∈ allThreads g b) :
    flat g b th < g.x * g.y * b.x := by
  rw [mem_allThreads] at h
  obtain ⟨h1, h2, h3⟩ := h
  unfold flat
  have h4 : g.x * th.blockIdx_y + th.blockIdx_x + 1 ≤ g.x * g.y := by
    have : g.x * (th.blockIdx_y + 1) ≤ g.x * g.y := Nat.mul_le_mul_left _ h2
    rw [Nat.mul_add] at this
    omega
  have h5 : (g.x * th.blockIdx_y + th.blockIdx_x + 1) * b.x ≤ g.x * g.y * b.x :=
    Nat.mul_le_mul_right _ h4
  rw [Nat.add_mul] at h5
  omega

theorem exists_thread (g b : dim3) (i : Nat) (h : i < g.x * g.y * b.x) :
    ∃ th ∈ allThreads g b, flat g b th = i := by
  have hb : 0 < b.x := by
    rcases Nat.eq_zero_or_pos b.x with h0 | h0
    · rw [h0] at h; simp at h
    · exact h0
  have hg : 0 < g.x := by
    rcases Nat.eq_zero_or_pos g.x with h0 | h0
    · rw [h0] at h; simp at h
    · exact h0
  refine ⟨⟨(i / b.x) % g.x, (i / b.x) / g.x, i % b.x⟩, ?_, ?_⟩
  · rw [mem_allThreads]
    refine ⟨Nat.mod_lt _ hg, ?_, Nat.mod_lt _ hb⟩
    show i / b.x / g.x < g.y
    rw [Nat.div_div_eq_div_mul, Nat.div_lt_iff_lt_mul (Nat.mul_pos hb hg)]
    calc i < g.x * g.y * b.x := h
      _ = g.y * (b.x * g.x) := by ring
  · show (g.x * (i / b.x / g.x) + i / b.x % g.x) * b.x + i % b.x = i
    rw [Nat.div_add_mod, Nat.mul_comm, Nat.div_add_mod]

theorem igpt_eq_flat (g b : dim3) (th : Thread) (h : th ∈ allThreads g b)
    (hw : g.x * g.y * b.x ≤ 2 ^ 31) : igpt g b th = (flat g b th : Int) := by
  have h1 := flat_lt g b th h
  have h2 : flat g b th < 2 ^ 31 := lt_of_lt_of_le h1 hw
  have h3 : flat g b th % 2 ^ 32 = flat g b th := Nat.mod_eq_of_lt (by omega)
  unfold igpt toInt32
  change (if flat g b th % 2 ^ 32 < 2 ^ 31 then ((flat g b th % 2 ^ 32 : Nat) : Int)
    else ((flat g b th % 2 ^ 32 : Nat) : Int) - 2 ^ 32) = _
  simp only [h3, h2, if_true]

/-! ## Launches of kernels whose threads write statically known cells -/

theorem runThreads_static {α : Type} (L : Nat) (body : Thread → List α → Option (List α))
    (W : Thread → Nat → Option α) (sched : List Thread)
    (hact : ∀ th ∈ sched, ActsAs L body W th) (buf : List α) (hL : buf.length = L) :
    ∃ out, runThreads body sched buf = some out ∧ out.length = L ∧
      (∀ j, (∀ th ∈ sched, W th j = none) → out[j]? = buf[j]?) ∧
      (∀ j v, (∃ th ∈ sched, W th j = some v) →
        (∀ th ∈ sched, ∀ w, W th j = some w → w = v) → out[j]? = some v) := by
  induction sched generalizing buf with
  | nil => exact ⟨buf, rfl, hL, fun _ _ => rfl, fun j v h _ => by simp at h⟩
  | cons th rest ih =>
    obtain ⟨b1, hb1, hL1, hc1⟩ := hact th (List.mem_cons_self _ _) buf hL
    obtain ⟨out, hout, hLo, hfr, hwr⟩ :=
      ih (fun t ht => hact t (List.mem_cons_of_mem _ ht)) b1 hL1
    refine ⟨out, by simp [runThreads, hb1, hout], hLo, ?_, ?_⟩
    · intro j hj
      rw [hfr j (fun t ht => hj t (List.mem_cons_of_mem _ ht)), hc1 j,
        hj th (List.mem_cons_self _ _)]
      rfl
    · intro j v hex hcons
      by_cases hr : ∃ t ∈ rest, W t j = some v
      · exact hwr j v hr (fun t ht w hw => hcons t (List.mem_cons_of_mem _ ht) w hw)
      · have hnone : ∀ t ∈ rest, W t j = none := by
          intro t ht
          cases hq : W t j with
          | none => rfl
          | some w =>
            exfalso
            apply hr
            refine ⟨t, ht, ?_⟩
            rw [hq, hcons t (List.mem_cons_of_mem _ ht) w hq]
        have hth : W th j = some v := by
          obtain ⟨t, ht, htj⟩ := hex
          rcases List.mem_cons.mp ht with h | h
          · rw [← h]; exact htj
          · exact absurd ⟨t, h, htj⟩ hr
        rw [hfr j hnone, hc1 j, hth]
        rfl

theorem two_mul_cast (f : Nat) : (2 : Int) * (f : Int) = ((2 * f : Nat) : Int) := by
  push_cast; rfl

theorem two_mul_cast_succ (f : Nat) : ((2 * f : Nat) : Int) + 1 = ((2 * f + 1 : Nat) : Int) := by
  push_cast; rfl

theorem actsAs_rc {R : Type} [Zero R] (g b : dim3) (din : List R) (n : Int) (L : Nat)
    (hw : g.x * g.y * b.x ≤ 2 ^ 31) (hdin : n ≤ (din.length : Int)) (hL : 2 * n ≤ (L : Int))
    (h31 : 2 * n ≤ 2 ^ 31) (th : Thread) (hth : th ∈ allThreads g b) :
    ActsAs L (fun th zout => pw_copy_rc_hip_z g b th din zout n)
      (fun t => W_rc din n (flat g b t)) th := by
  intro buf hbuf
  simp only [pw_copy_rc_hip_z, igpt_eq_flat g b th hth hw, W_rc]
  by_cases hlt : (flat g b th : Int) < n
  · have h1 : flat g b th < din.length := by omega
    have h2 : 2 * flat g b th + 1 < buf.length := by omega
    have b0 : flat g b th < 2 ^ 31 := by omega
    have b1 : 2 * flat g b th < 2 ^ 31 := by omega
    have b2 : 2 * flat g b th + 1 < 2 ^ 31 := by omega
    simp only [hlt, if_true, ld_natCast _ _ b0, two_mul_cast, two_mul_cast_succ,
      List.getElem?_eq_getElem h1, Option.bind_eq_bind, Option.some_bind]
    rw [st_natCast _ _ _ (by omega) b1]
    simp only [Option.some_bind]
    rw [st_natCast _ _ _ (by simpa using h2) b2]
    refine ⟨_, rfl, by simpa using hbuf, ?_⟩
    intro j
    simp only [List.getElem?_set, List.length_set]
    by_cases hj1 : j = 2 * flat g b th + 1
    · subst hj1; simp [overlay, h2]
    · by_cases hj2 : j = 2 * flat g b th
      · subst hj2
        have : 2 * flat g b th < buf.length := by omega
        simp [overlay, this]
      · simp [overlay, hj1, hj2, Ne.symm hj1, Ne.symm hj2]
  · simp only [hlt, if_false]
    exact ⟨buf, rfl, hbuf, fun j => rfl⟩

theorem actsAs_cr {R : Type} (g b : dim3) (zin : List R) (n : Int) (L : Nat)
    (hw : g.x * g.y * b.x ≤ 2 ^ 31) (hzin : 2 * n ≤ (zin.length : Int)) (hL : n ≤ (L : Int))
    (h31 : 2 * n ≤ 2 ^ 31) (th : Thread) (hth : th ∈ allThreads g b) :
    ActsAs L (fun th dout => pw_copy_cr_hip_z g b th zin dout n)
      (fun t => W_cr zin n (flat g b t)) th := by
  intro buf hbuf
  simp only [pw_copy_cr_hip_z, igpt_eq_flat g b th hth hw, W_cr]
  by_cases hlt : (flat g b th : Int) < n
  · have h1 : 2 * flat g b th < zin.length := by omega
    have h2 : flat g b th < buf.length := by omega
    have b0 : flat g b th < 2 ^ 31 := by omega
    have b1 : 2 * flat g b th < 2 ^ 31 := by omega
    simp only [hlt, if_true, two_mul_cast, ld_natCast _ _ b1,
      List.getElem?_eq_getElem h1, Option.bind_eq_bind, Option.some_bind]
    rw [st_natCast _ _ _ h2 b0]
    refine ⟨_, rfl, by simpa using hbuf, ?_⟩
    intro j
    simp only [List.getElem?_set]
    by_cases hj1 : j = flat g b th
    · subst hj1; simp [overlay, h2]
    · simp [overlay, hj1, Ne.symm hj1]
  · simp only [hlt, if_false]
    exact ⟨buf, rfl, hbuf, fun j => rfl⟩

theorem actsAs_gather {R : Type} [Mul R] (g b : dim3) (c : List R) (scale : R) (ngpts : Int)
    (ghatmap : List Int) (L : Nat)
    (hw : g.x * g.y * b.x ≤ 2 ^ 31) (hL : 2 * ngpts ≤ (L : Int)) (h31 : 2 * ngpts ≤ 2 ^ 31)
    (hc31 : c.length ≤ 2 ^ 31)
    (hg : ∀ k : Nat, (k : Int) < ngpts →
      ∃ gi : Nat, ghatmap[k]? = some (gi : Int) ∧ 2 * gi + 1 < c.length)
    (th : Thread) (hth : th ∈ allThreads g b) :
    ActsAs L (fun th pwcc => pw_gather_hip_z g b th pwcc c scale ngpts ghatmap)
      (fun t => W_gather c scale ngpts ghatmap (flat g b t)) th := by
  intro buf hbuf
  simp only [pw_gather_hip_z, igpt_eq_flat g b th hth hw, W_gather]
  by_cases hlt : (flat g b th : Int) < ngpts
  · obtain ⟨gi, hgi, hgc⟩ := hg _ hlt
    have h2 : 2 * flat g b th + 1 < buf.length := by omega
    have h3 : 2 * gi < c.length := by omega
    have b0 : flat g b th < 2 ^ 31 := by omega
    have b1 : 2 * flat g b th < 2 ^ 31 := by omega
    have b2 : 2 * flat g b th + 1 < 2 ^ 31 := by omega
    have b3 : 2 * gi < 2 ^ 31 := by omega
    have b4 : 2 * gi + 1 < 2 ^ 31 := by omega
    simp only [hlt, if_true, ld_natCast _ _ b0, hgi, two_mul_cast, two_mul_cast_succ,
      ld_natCast _ _ b3, ld_natCast _ _ b4,
      List.getElem?_eq_getElem hgc, List.getElem?_eq_getElem h3, Option.bind_eq_bind,
      Option.some_bind, Int.toNat_ofNat, Option.map_some']
    rw [st_natCast _ _ _ (by omega) b1]
    simp only [Option.some_bind]
    rw [st_natCast _ _ _ (by simpa using h2) b2]
    refine ⟨_, rfl, by simpa using hbuf, ?_⟩
    intro j
    simp only [List.getElem?_set, List.length_set]
    by_cases hj1 : j = 2 * flat g b th + 1
    · subst hj1; simp [overlay, h2]
    · by_cases hj2 : j = 2 * flat g b th
      · subst hj2
        have : 2 * flat g b th < buf.length := by omega
        simp [overlay, this]
      · simp [overlay, hj1, hj2, Ne.symm hj1, Ne.symm hj2]
  · simp only [hlt, if_false]
    exact ⟨buf, rfl, hbuf, fun j => rfl⟩

theorem actsAs_scatter {R : Type} [Mul R] [Neg R] (g b : dim3) (pwcc : List R) (scale : R)
    (ngpts : Int) (nmaps : Int) (ghatmap : List Int) (L : Nat)
    (hw : g.x * g.y * b.x ≤ 2 ^ 31) (hp : 2 * ngpts ≤ (pwcc.length : Int))
    (h31 : 2 * ngpts ≤ 2 ^ 31) (hL31 : L ≤ 2 ^ 31)
    (hg : ∀ k : Nat, (k : Int) < ngpts →
      ∃ gi : Nat, ghatmap[k]? = some (gi : Int) ∧ 2 * gi + 1 < L)
    (hg2 : nmaps = 2 → ∀ k : Nat, (k : Int) < ngpts →
      ∃ gi : Nat, ghatmap[k + ngpts.toNat]? = some (gi : Int) ∧ 2 * gi + 1 < L)
    (th : Thread) (hth : th ∈ allThreads g b) :
    ActsAs L (fun th c => pw_scatter_hip_z g b th c pwcc scale ngpts nmaps ghatmap)
      (fun t => W_scatter pwcc scale ngpts nmaps ghatmap (flat g b t)) th := by
  intro buf hbuf
  simp only [pw_scatter_hip_z, igpt_eq_flat g b th hth hw, W_scatter]
  by_cases hlt : (flat g b th : Int) < ngpts
  · obtain ⟨gi, hgi, hgc⟩ := hg _ hlt
    have h1 : 2 * flat g b th + 1 < pwcc.length := by omega
    have h1b : 2 * flat g b th < pwcc.length := by omega
    have h3 : 2 * gi < buf.length := by omega
    have h4 : 2 * gi + 1 < buf.length := by omega
    have b0 : flat g b th < 2 ^ 31 := by omega
    have b1 : 2 * flat g b th < 2 ^ 31 := by omega
    have b2 : 2 * flat g b th + 1 < 2 ^ 31 := by omega
    have b3 : 2 * gi < 2 ^ 31 := by omega
    have b4 : 2 * gi + 1 < 2 ^ 31 := by omega
    have b5 : flat g b th + ngpts.toNat < 2 ^ 31 := by omega
    have hsum : (flat g b th : Int) + ngpts = ((flat g b th + ngpts.toNat : Nat) : Int) := by
      omega
    simp only [hlt, if_true, ld_natCast _ _ b0, hgi, two_mul_cast, two_mul_cast_succ, hsum,
      ld_natCast _ _ b1, ld_natCast _ _ b2, ld_natCast _ _ b5,
      List.getElem?_eq_getElem h1, List.getElem?_eq_getElem h1b, Option.bind_eq_bind,
      Option.some_bind, Int.toNat_ofNat]
    rw [st_natCast _ _ _ h3 b3]
    simp only [Option.some_bind]
    rw [st_natCast _ _ _ (by simpa using h4) b4]
    simp only [Option.some_bind]
    by_cases hn : nmaps = 2
    · obtain ⟨g2, hg2i, hg2c⟩ := hg2 hn _ hlt
      have h5 : 2 * g2 < buf.length := by omega
      have h6 : 2 * g2 + 1 < buf.length := by omega
      simp only [hn, if_true, hg2i, Option.some_bind, Int.toNat_ofNat, two_mul_cast,
        two_mul_cast_succ]
      rw [st_natCast _ _ _ (by simpa using h5) (by omega)]
      simp only [Option.some_bind]
      rw [st_natCast _ _ _ (by simpa using h6) (by omega)]
      refine ⟨_, rfl, by simpa using hbuf, ?_⟩
      intro j
      simp only [List.getElem?_set, List.length_set, overlay]
      split_ifs <;> first | rfl | omega
    · simp only [hn, if_false]
      refine ⟨_, rfl, by simpa using hbuf, ?_⟩
      intro j
      simp only [List.getElem?_set, List.length_set, overlay]
      split_ifs <;> first | rfl | omega
  · simp only [hlt, if_false]
    exact ⟨buf, rfl, hbuf, fun j => rfl⟩

/-- A launch over a schedule of the whole grid, for thread bodies acting as a
static write map that depends on the flattened index only. -/
theorem launch_static {α : Type} (g b : dim3) (sched : List Thread)
    (hs : sched.Perm (allThreads g b)) (L : Nat) (body : Thread → List α → Option (List α))
    (Wf : Nat → Nat → Option α)
    (hact : ∀ th ∈ allThreads g b, ActsAs L body (fun t => Wf (flat g b t)) th)
    (buf : List α) (hL : buf.length = L) :
    ∃ out, runThreads body sched buf = some out ∧ out.length = L ∧
      (∀ j, (∀ f, f < g.x * g.y * b.x → Wf f j = none) → out[j]? = buf[j]?) ∧
      (∀ j v, (∃ f, f < g.x * g.y * b.x ∧ Wf f j = some v) →
        (∀ f, f < g.x * g.y * b.x → ∀ w, Wf f j = some w → w = v) → out[j]? = some v) := by
  obtain ⟨out, hout, hlen, hfr, hwr⟩ := runThreads_static L body _ sched
    (fun th hth => hact th (hs.mem_iff.mp hth)) buf hL
  refine ⟨out, hout, hlen, ?_, ?_⟩
  · intro j hj
    exact hfr j (fun th hth => hj _ (flat_lt g b th (hs.mem_iff.mp hth)))
  · intro j v hex hcons
    obtain ⟨f, hf, hfv⟩ := hex
    obtain ⟨th, hth, rfl⟩ := exists_thread g b f hf
    exact hwr j v ⟨th, hs.mem_iff.mpr hth, hfv⟩
      (fun t ht w hw => hcons _ (flat_lt g b t (hs.mem_iff.mp ht)) w hw)

/-! ## Launch-level behaviour of the packing kernels -/

theorem launch_rc_spec {R : Type} [Zero R] (g b : dim3) (sched : List Thread)
    (hs : sched.Perm (allThreads g b)) (din zout : List R) (n : Nat)
    (hcover : n ≤ g.x * g.y * b.x) (hfit : g.x * g.y * b.x ≤ 2 ^ 31)
    (hdin : n ≤ din.length) (hzout : 2 * n ≤ zout.length) (h31 : 2 * n ≤ 2 ^ 31) :
    ∃ out, launch_pw_copy_rc_hip_z g b sched din zout (n : Int) = some out ∧
      out.length = zout.length ∧
      (∀ i, i < n → out[2 * i]? = din[i]? ∧ out[2 * i + 1]? = some 0) ∧
      (∀ j, 2 * n ≤ j → out[j]? = zout[j]?) := by
  obtain ⟨out, hout, hlen, hfr, hwr⟩ := launch_static g b sched hs zout.length
    (fun th z => pw_copy_rc_hip_z g b th din z (n : Int)) (W_rc din (n : Int))
    (fun th hth => actsAs_rc g b din n zout.length hfit (by exact_mod_cast hdin)
      (by exact_mod_cast hzout) (by exact_mod_cast h31) th hth) zout rfl
  refine ⟨out, hout, hlen, ?_, ?_⟩
  · intro i hi
    have hlt : ((i : Nat) : Int) < (n : Int) := by exact_mod_cast hi
    have hdi : i < din.length := by omega
    constructor
    · rw [List.getElem?_eq_getElem hdi]
      apply hwr
      · refine ⟨i, lt_of_lt_of_le hi hcover, ?_⟩
        simp only [W_rc, hlt, if_true]
        rw [if_neg (by omega), List.getElem?_eq_getElem hdi]
      · intro f _ w hw
        simp only [W_rc] at hw
        split_ifs at hw with h1 h2 h3
        · omega
        · have : f = i := by omega
          rw [this, List.getElem?_eq_getElem hdi] at hw
          exact (Option.some.inj hw).symm
    · apply hwr
      · refine ⟨i, lt_of_lt_of_le hi hcover, ?_⟩
        simp only [W_rc, hlt, if_true]
      · intro f _ w hw
        simp only [W_rc] at hw
        split_ifs at hw with h1 h2 h3
        · exact (Option.some.inj hw).symm
        · omega
  · intro j hj
    apply hfr
    intro f _
    simp only [W_rc]
    split_ifs with h1 h2 h3
    · omega
    · omega
    · rfl
    · rfl

theorem launch_cr_spec {R : Type} (g b : dim3) (sched : List Thread)
    (hs : sched.Perm (allThreads g b)) (zin dout : List R) (n : Nat)
    (hcover : n ≤ g.x * g.y * b.x) (hfit : g.x * g.y * b.x ≤ 2 ^ 31)
    (hzin : 2 * n ≤ zin.length) (hdout : n ≤ dout.length) (h31 : 2 * n ≤ 2 ^ 31) :
    ∃ out, launch_pw_copy_cr_hip_z g b sched zin dout (n : Int) = some out ∧
      out.length = dout.length ∧
      (∀ i, i < n → out[i]? = zin[2 * i]?) ∧
      (∀ j, n ≤ j → out[j]? = dout[j]?) := by
  obtain ⟨out, hout, hlen, hfr, hwr⟩ := launch_static g b sched hs dout.length
    (fun th d => pw_copy_cr_hip_z g b th zin d (n : Int)) (W_cr zin (n : Int))
    (fun th hth => actsAs_cr g b zin n dout.length hfit (by exact_mod_cast hzin)
      (by exact_mod_cast hdout) (by exact_mod_cast h31) th hth) dout rfl
  refine ⟨out, hout, hlen, ?_, ?_⟩
  · intro i hi
    have hlt : ((i : Nat) : Int) < (n : Int) := by exact_mod_cast hi
    have hzi : 2 * i < zin.length := by omega
    rw [List.getElem?_eq_getElem hzi]
    apply hwr
    · refine ⟨i, lt_of_lt_of_le hi hcover, ?_⟩
      simp only [W_cr, hlt, if_true, List.getElem?_eq_getElem hzi]
    · intro f _ w hw
      simp only [W_cr] at hw
      split_ifs at hw with h1 h2
      rw [← h2, List.getElem?_eq_getElem hzi] at hw
      exact (Option.some.inj hw).symm
  · intro j hj
    apply hfr
    intro f _
    simp only [W_cr]
    split_ifs with h1 h2
    · omega
    · rfl
    · rfl

/-! ## Index tables -/

theorem table_entry (ghatmap : List Int) (m nrpts : Nat) (hlen : m ≤ ghatmap.length)
    (hr : ∀ gi ∈ ghatmap.take m, 0 ≤ gi ∧ gi < (nrpts : Int)) (k : Nat) (hk : k < m) :
    ∃ gi : Nat, ghatmap[k]? = some (gi : Int) ∧ gi < nrpts := by
  have hk2 : k < ghatmap.length := lt_of_lt_of_le hk hlen
  have hmem : ghatmap[k] ∈ ghatmap.take m := by
    apply @List.getElem?_mem _ _ k
    rw [List.getElem?_take_of_lt hk, List.getElem?_eq_getElem hk2]
  obtain ⟨h0, h1⟩ := hr _ hmem
  refine ⟨(ghatmap[k]).toNat, ?_, ?_⟩
  · rw [List.getElem?_eq_getElem hk2, Int.toNat_of_nonneg h0]
  · omega

theorem nodup_take_inj (ghatmap : List Int) (m : Nat) (hnd : (ghatmap.take m).Nodup)
    (i j : Nat) (hi : i < m) (hj : j < m) (x : Int)
    (h1 : ghatmap[i]? = some x) (h2 : ghatmap[j]? = some x) : i = j := by
  have hil : i < ghatmap.length := by
    by_contra hc
    rw [List.getElem?_eq_none (by omega)] at h1
    exact Option.noConfusion h1
  apply @List.getElem?_inj _ i j (ghatmap.take m) (by simp; omega) hnd
  rw [List.getElem?_take_of_lt hi, List.getElem?_take_of_lt hj, h1, h2]

/-! ## Launch-level behaviour of gather and scatter -/

theorem W_gather_ge {R : Type} [Mul R] (c : List R) (scale : R) (ngpts : Nat)
    (ghatmap : List Int) (f j : Nat) (hf : ngpts ≤ f) :
    W_gather c scale (ngpts : Int) ghatmap f j = none := by
  have : ¬ ((f : Int) < (ngpts : Int)) := by omega
  simp only [W_gather, this, if_false]

theorem W_gather_cell {R : Type} [Mul R] (c : List R) (scale : R) (ngpts : Nat)
    (ghatmap : List Int) (f j : Nat) (hf : f < ngpts) (gi : Nat)
    (hgi : ghatmap[f]? = some (gi : Int)) :
    W_gather c scale (ngpts : Int) ghatmap f j =
      if j = 2 * f + 1 then Option.map (fun x => scale * x) (c)[2 * gi + 1]?
      else if j = 2 * f then Option.map (fun x => scale * x) (c)[2 * gi]? else none := by
  have : (f : Int) < (ngpts : Int) := by omega
  simp only [W_gather, this, if_true, hgi, Int.toNat_ofNat]

theorem launch_gather_spec {R : Type} [Mul R] (g b : dim3) (sched : List Thread)
    (hs : sched.Perm (allThreads g b)) (pwcc c : List R) (scale : R) (ngpts : Nat)
    (ghatmap : List Int)
    (hcover : ngpts ≤ g.x * g.y * b.x) (hfit : g.x * g.y * b.x ≤ 2 ^ 31)
    (hp : 2 * ngpts ≤ pwcc.length) (h31 : 2 * ngpts ≤ 2 ^ 31) (hc31 : c.length ≤ 2 ^ 31)
    (hg : ∀ k : Nat, k < ngpts →
      ∃ gi : Nat, ghatmap[k]? = some (gi : Int) ∧ 2 * gi + 1 < c.length) :
    ∃ out, launch_pw_gather_hip_z g b sched pwcc c scale (ngpts : Int) ghatmap = some out ∧
      out.length = pwcc.length ∧
      (∀ k (gi : Nat), k < ngpts → ghatmap[k]? = some (gi : Int) →
        out[2 * k]? = Option.map (fun x => scale * x) (c)[2 * gi]? ∧
        out[2 * k + 1]? = Option.map (fun x => scale * x) (c)[2 * gi + 1]?) ∧
      (∀ j, 2 * ngpts ≤ j → out[j]? = pwcc[j]?) := by
  obtain ⟨out, hout, hlen, hfr, hwr⟩ := launch_static g b sched hs pwcc.length
    (fun th p => pw_gather_hip_z g b th p c scale (ngpts : Int) ghatmap)
    (W_gather c scale (ngpts : Int) ghatmap)
    (fun th hth => actsAs_gather g b c scale ngpts ghatmap pwcc.length hfit
      (by exact_mod_cast hp) (by exact_mod_cast h31) hc31
      (fun k hk => hg k (by exact_mod_cast hk)) th hth) pwcc rfl
  refine ⟨out, hout, hlen, ?_, ?_⟩
  · intro k gi hk hgi
    obtain ⟨gi2, hgi2, hin⟩ := hg k hk
    have hgeq : gi2 = gi := by
      rw [hgi] at hgi2
      exact_mod_cast (Option.some.inj hgi2).symm
    subst hgeq
    have hin0 : 2 * gi2 < c.length := by omega
    have huniq : ∀ j, (j = 2 * k ∨ j = 2 * k + 1) → ∀ f w,
        W_gather c scale (ngpts : Int) ghatmap f j = some w → f = k := by
      intro j hj f w hw
      by_cases hf : f < ngpts
      · obtain ⟨gf, hgf, _⟩ := hg f hf
        rw [W_gather_cell c scale ngpts ghatmap f j hf gf hgf] at hw
        by_cases h2 : j = 2 * f + 1
        · omega
        · by_cases h3 : j = 2 * f
          · omega
          · rw [if_neg h2, if_neg h3] at hw
            exact Option.noConfusion hw
      · rw [W_gather_ge c scale ngpts ghatmap f j (by omega)] at hw
        exact Option.noConfusion hw
    have hk0 : W_gather c scale (ngpts : Int) ghatmap k (2 * k) =
        some (scale * (c)[2 * gi2]) := by
      rw [W_gather_cell c scale ngpts ghatmap k _ hk gi2 hgi, if_neg (by omega), if_pos rfl,
        List.getElem?_eq_getElem hin0, Option.map_some']
    have hk1 : W_gather c scale (ngpts : Int) ghatmap k (2 * k + 1) =
        some (scale * (c)[2 * gi2 + 1]) := by
      rw [W_gather_cell c scale ngpts ghatmap k _ hk gi2 hgi, if_pos rfl,
        List.getElem?_eq_getElem hin, Option.map_some']
    constructor
    · rw [List.getElem?_eq_getElem hin0, Option.map_some']
      apply hwr _ _ ⟨k, lt_of_lt_of_le hk hcover, hk0⟩
      intro f _ w hw
      have hfk := huniq _ (Or.inl rfl) f w hw
      subst hfk
      rw [hk0] at hw
      exact (Option.some.inj hw).symm
    · rw [List.getElem?_eq_getElem hin, Option.map_some']
      apply hwr _ _ ⟨k, lt_of_lt_of_le hk hcover, hk1⟩
      intro f _ w hw
      have hfk := huniq _ (Or.inr rfl) f w hw
      subst hfk
      rw [hk1] at hw
      exact (Option.some.inj hw).symm
  · intro j hj
    apply hfr
    intro f _
    by_cases hf : f < ngpts
    · obtain ⟨gf, hgf, _⟩ := hg f hf
      rw [W_gather_cell c scale ngpts ghatmap f j hf gf hgf, if_neg (by omega),
        if_neg (by omega)]
    · exact W_gather_ge c scale ngpts ghatmap f j (by omega)

theorem W_scatter_ge {R : Type} [Mul R] [Neg R] (pwcc : List R) (scale : R) (ngpts : Nat)
    (nmaps : Int) (ghatmap : List Int) (f j : Nat) (hf : ngpts ≤ f) :
    W_scatter pwcc scale (ngpts : Int) nmaps ghatmap f j = none := by
  have : ¬ ((f : Int) < (ngpts : Int)) := by omega
  simp only [W_scatter, this, if_false]

theorem W_scatter_cell1 {R : Type} [Mul R] [Neg R] (pwcc : List R) (scale : R) (ngpts : Nat)
    (nmaps : Int) (ghatmap : List Int) (f j : Nat) (hf : f < ngpts) (hn : nmaps ≠ 2)
    (gi : Nat) (re im : R) (hgi : ghatmap[f]? = some (gi : Int))
    (hre : pwcc[2 * f]? = some re) (him : pwcc[2 * f + 1]? = some im) :
    W_scatter pwcc scale (ngpts : Int) nmaps ghatmap f j =
      if j = 2 * gi + 1 then some (scale * im)
      else if j = 2 * gi then some (scale * re) else none := by
  have : (f : Int) < (ngpts : Int) := by omega
  simp only [W_scatter, this, if_true, hgi, hre, him, hn, if_false, Int.toNat_ofNat]

theorem W_scatter_cell2 {R : Type} [Mul R] [Neg R] (pwcc : List R) (scale : R) (ngpts : Nat)
    (ghatmap : List Int) (f j : Nat) (hf : f < ngpts)
    (gi g2 : Nat) (re im : R) (hgi : ghatmap[f]? = some (gi : Int))
    (hg2 : ghatmap[f + ngpts]? = some (g2 : Int))
    (hre : pwcc[2 * f]? = some re) (him : pwcc[2 * f + 1]? = some im) :
    W_scatter pwcc scale (ngpts : Int) 2 ghatmap f j =
      if j = 2 * g2 + 1 then some (-scale * im)
      else if j = 2 * g2 then some (scale * re)
      else if j = 2 * gi + 1 then some (scale * im)
      else if j = 2 * gi then some (scale * re) else none := by
  have : (f : Int) < (ngpts : Int) := by omega
  simp only [W_scatter, this, if_true, hgi, hre, him, Int.toNat_ofNat, hg2]

theorem launch_scatter_static {R : Type} [Mul R] [Neg R] (g b : dim3) (sched : List Thread)
    (hs : sched.Perm (allThreads g b)) (c pwcc : List R) (scale : R) (ngpts : Nat)
    (nmaps : Int) (ghatmap : List Int)
    (hfit : g.x * g.y * b.x ≤ 2 ^ 31) (hp : 2 * ngpts ≤ pwcc.length)
    (h31 : 2 * ngpts ≤ 2 ^ 31) (hc31 : c.length ≤ 2 ^ 31)
    (hg : ∀ k : Nat, k < ngpts →
      ∃ gi : Nat, ghatmap[k]? = some (gi : Int) ∧ 2 * gi + 1 < c.length)
    (hg2 : nmaps = 2 → ∀ k : Nat, k < ngpts →
      ∃ gi : Nat, ghatmap[k + ngpts]? = some (gi : Int) ∧ 2 * gi + 1 < c.length) :
    ∃ out, launch_pw_scatter_hip_z g b sched c pwcc scale (ngpts : Int) nmaps ghatmap
        = some out ∧ out.length = c.length ∧
      (∀ j, (∀ f, f < g.x * g.y * b.x →
        W_scatter pwcc scale (ngpts : Int) nmaps ghatmap f j = none) → out[j]? = (c)[j]?) ∧
      (∀ j v, (∃ f, f < g.x * g.y * b.x ∧
          W_scatter pwcc scale (ngpts : Int) nmaps ghatmap f j = some v) →
        (∀ f, f < g.x * g.y * b.x → ∀ w,
          W_scatter pwcc scale (ngpts : Int) nmaps ghatmap f j = some w → w = v) →
        out[j]? = some v) :=
  launch_static g b sched hs c.length
    (fun th cc => pw_scatter_hip_z g b th cc pwcc scale (ngpts : Int) nmaps ghatmap)
    (W_scatter pwcc scale (ngpts : Int) nmaps ghatmap)
    (fun th hth => actsAs_scatter g b pwcc scale ngpts nmaps ghatmap c.length hfit
      (by exact_mod_cast hp) (by exact_mod_cast h31) hc31
      (fun k hk => hg k (by exact_mod_cast hk))
      (fun hn k hk => by
        have := hg2 hn k (by exact_mod_cast hk)
        simpa using this) th hth) c rfl

/-- Scatter with `nmaps != 2`: every indexed cell receives the scaled coefficient,
provided items that share an offset carry the same coefficient; all other cells
keep their content. -/
theorem launch_scatter1_spec {R : Type} [Mul R] [Neg R] (g b : dim3) (sched : List Thread)
    (hs : sched.Perm (allThreads g b)) (c pwcc : List R) (scale : R) (ngpts : Nat)
    (nmaps : Int) (hn : nmaps ≠ 2) (ghatmap : List Int)
    (hcover : ngpts ≤ g.x * g.y * b.x) (hfit : g.x * g.y * b.x ≤ 2 ^ 31)
    (hp : 2 * ngpts ≤ pwcc.length) (h31 : 2 * ngpts ≤ 2 ^ 31) (hc31 : c.length ≤ 2 ^ 31)
    (hg : ∀ k : Nat, k < ngpts →
      ∃ gi : Nat, ghatmap[k]? = some (gi : Int) ∧ 2 * gi + 1 < c.length)
    (hcons : ∀ k k2 : Nat, k < ngpts → k2 < ngpts → ghatmap[k]? = ghatmap[k2]? →
      pwcc[2 * k]? = pwcc[2 * k2]? ∧ pwcc[2 * k + 1]? = pwcc[2 * k2 + 1]?) :
    ∃ out, launch_pw_scatter_hip_z g b sched c pwcc scale (ngpts : Int) nmaps ghatmap
        = some out ∧ out.length = c.length ∧
      (∀ k (gi : Nat) (re im : R), k < ngpts → ghatmap[k]? = some (gi : Int) →
        pwcc[2 * k]? = some re → pwcc[2 * k + 1]? = some im →
        out[2 * gi]? = some (scale * re) ∧ out[2 * gi + 1]? = some (scale * im)) ∧
      (∀ gj : Nat, (∀ k, k < ngpts → ghatmap[k]? ≠ some (gj : Int)) →
        out[2 * gj]? = (c)[2 * gj]? ∧ out[2 * gj + 1]? = (c)[2 * gj + 1]?) := by
  obtain ⟨out, hout, hlen, hfr, hwr⟩ := launch_scatter_static g b sched hs c pwcc scale ngpts
    nmaps ghatmap hfit hp h31 hc31 hg (fun h => absurd h hn)
  have hrd : ∀ f, f < ngpts → ∃ gf : Nat, ∃ ref imf : R, ghatmap[f]? = some (gf : Int) ∧
      pwcc[2 * f]? = some ref ∧ pwcc[2 * f + 1]? = some imf := by
    intro f hf
    obtain ⟨gf, hgf, _⟩ := hg f hf
    exact ⟨gf, pwcc[2 * f], pwcc[2 * f + 1], hgf, List.getElem?_eq_getElem (by omega),
      List.getElem?_eq_getElem (by omega)⟩
  refine ⟨out, hout, hlen, ?_, ?_⟩
  · intro k gi re im hk hgi hre him
    have hWk := fun j => W_scatter_cell1 pwcc scale ngpts nmaps ghatmap k j hk hn gi re im
      hgi hre him
    have huniq : ∀ j f w, W_scatter pwcc scale (ngpts : Int) nmaps ghatmap f j = some w →
        (j = 2 * gi → w = scale * re) ∧ (j = 2 * gi + 1 → w = scale * im) := by
      intro j f w hw
      by_cases hf : f < ngpts
      · obtain ⟨gf, ref, imf, hgf, href, himf⟩ := hrd f hf
        rw [W_scatter_cell1 pwcc scale ngpts nmaps ghatmap f j hf hn gf ref imf hgf href himf]
          at hw
        by_cases h2 : j = 2 * gf + 1
        · rw [if_pos h2] at hw
          refine ⟨fun h => by omega, fun h => ?_⟩
          have hgg : gf = gi := by omega
          subst hgg
          have := (hcons f k hf hk (by rw [hgf, hgi])).2
          rw [himf, him] at this
          rw [← Option.some.inj hw, Option.some.inj this]
        · rw [if_neg h2] at hw
          by_cases h3 : j = 2 * gf
          · rw [if_pos h3] at hw
            refine ⟨fun h => ?_, fun h => by omega⟩
            have hgg : gf = gi := by omega
            subst hgg
            have := (hcons f k hf hk (by rw [hgf, hgi])).1
            rw [href, hre] at this
            rw [← Option.some.inj hw, Option.some.inj this]
          · rw [if_neg h3] at hw
            exact Option.noConfusion hw
      · rw [W_scatter_ge pwcc scale ngpts nmaps ghatmap f j (by omega)] at hw
        exact Option.noConfusion hw
    constructor
    · apply hwr
      · refine ⟨k, lt_of_lt_of_le hk hcover, ?_⟩
        rw [hWk, if_neg (by omega), if_pos rfl]
      · intro f _ w hw
        exact (huniq _ f w hw).1 rfl
    · apply hwr
      · refine ⟨k, lt_of_lt_of_le hk hcover, ?_⟩
        rw [hWk, if_pos rfl]
      · intro f _ w hw
        exact (huniq _ f w hw).2 rfl
  · intro gj hgj
    have hnone : ∀ j, (j = 2 * gj ∨ j = 2 * gj + 1) → ∀ f,
        W_scatter pwcc scale (ngpts : Int) nmaps ghatmap f j = none := by
      intro j hj f
      by_cases hf : f < ngpts
      · obtain ⟨gf, ref, imf, hgf, href, himf⟩ := hrd f hf
        have hne : gf ≠ gj := by
          intro h
          apply hgj f hf
          rw [hgf, h]
        rw [W_scatter_cell1 pwcc scale ngpts nmaps ghatmap f j hf hn gf ref imf hgf href himf,
          if_neg (by omega), if_neg (by omega)]
      · exact W_scatter_ge pwcc scale ngpts nmaps ghatmap f j (by omega)
    exact ⟨hfr _ (fun f _ => hnone _ (Or.inl rfl) f), hfr _ (fun f _ => hnone _ (Or.inr rfl) f)⟩

/-- Scatter with `nmaps == 2` over pairwise distinct offsets: primary and partner cells. -/
theorem launch_scatter2_spec {R : Type} [Mul R] [Neg R] (g b : dim3) (sched : List Thread)
    (hs : sched.Perm (allThreads g b)) (c pwcc : List R) (scale : R) (ngpts : Nat)
    (ghatmap : List Int)
    (hcover : ngpts ≤ g.x * g.y * b.x) (hfit : g.x * g.y * b.x ≤ 2 ^ 31)
    (hp : 2 * ngpts ≤ pwcc.length) (h31 : 2 * ngpts ≤ 2 ^ 31) (hc31 : c.length ≤ 2 ^ 31)
    (hg : ∀ k : Nat, k < 2 * ngpts →
      ∃ gi : Nat, ghatmap[k]? = some (gi : Int) ∧ 2 * gi + 1 < c.length)
    (hnd : (ghatmap.take (2 * ngpts)).Nodup) :
    ∃ out, launch_pw_scatter_hip_z g b sched c pwcc scale (ngpts : Int) 2 ghatmap
        = some out ∧ out.length = c.length ∧
      (∀ k (g1 g2 : Nat) (re im : R), k < ngpts → ghatmap[k]? = some (g1 : Int) →
        ghatmap[k + ngpts]? = some (g2 : Int) →
        pwcc[2 * k]? = some re → pwcc[2 * k + 1]? = some im →
        out[2 * g1]? = some (scale * re) ∧ out[2 * g1 + 1]? = some (scale * im) ∧
        out[2 * g2]? = some (scale * re) ∧ out[2 * g2 + 1]? = some (-scale * im)) := by
  obtain ⟨out, hout, hlen, _, hwr⟩ := launch_scatter_static g b sched hs c pwcc scale ngpts
    2 ghatmap hfit hp h31 hc31 (fun k hk => hg k (by omega)) (fun _ k hk => hg (k + ngpts) (by omega))
  have hrd : ∀ f, f < ngpts → ∃ gf g2f : Nat, ∃ ref imf : R, ghatmap[f]? = some (gf : Int) ∧
      ghatmap[f + ngpts]? = some (g2f : Int) ∧
      pwcc[2 * f]? = some ref ∧ pwcc[2 * f + 1]? = some imf := by
    intro f hf
    obtain ⟨gf, hgf, _⟩ := hg f (by omega)
    obtain ⟨g2f, hg2f, _⟩ := hg (f + ngpts) (by omega)
    exact ⟨gf, g2f, pwcc[2 * f], pwcc[2 * f + 1], hgf, hg2f,
      List.getElem?_eq_getElem (by omega), List.getElem?_eq_getElem (by omega)⟩
  refine ⟨out, hout, hlen, ?_⟩
  intro k g1 g2 re im hk hg1 hg2 hre him
  have hWk := fun j => W_scatter_cell2 pwcc scale ngpts ghatmap k j hk g1 g2 re im
    hg1 hg2 hre him
  have hne : g1 ≠ g2 := by
    intro h
    have := nodup_take_inj ghatmap (2 * ngpts) hnd k (k + ngpts) (by omega) (by omega) _
      hg1 (by rw [hg2, h])
    omega
  have huniq : ∀ j f w, W_scatter pwcc scale (ngpts : Int) 2 ghatmap f j = some w →
      (j = 2 * g1 ∨ j = 2 * g1 + 1 ∨ j = 2 * g2 ∨ j = 2 * g2 + 1) → f = k := by
    intro j f w hw hj
    by_cases hf : f < ngpts
    · obtain ⟨gf, g2f, ref, imf, hgf, hg2f, href, himf⟩ := hrd f hf
      rw [W_scatter_cell2 pwcc scale ngpts ghatmap f j hf gf g2f ref imf hgf hg2f href himf]
        at hw
      have hjf : j = 2 * g2f + 1 ∨ j = 2 * g2f ∨ j = 2 * gf + 1 ∨ j = 2 * gf := by
        by_contra hc
        push_neg at hc
        rw [if_neg hc.1, if_neg hc.2.1, if_neg hc.2.2.1, if_neg hc.2.2.2] at hw
        exact Option.noConfusion hw
      have A1 : gf = g1 → f = k := fun h =>
        nodup_take_inj ghatmap (2 * ngpts) hnd f k (by omega) (by omega) _ hgf (by rw [hg1, h])
      have A2 : gf = g2 → f = k + ngpts := fun h =>
        nodup_take_inj ghatmap (2 * ngpts) hnd f (k + ngpts) (by omega) (by omega) _ hgf
          (by rw [hg2, h])
      have A3 : g2f = g1 → f + ngpts = k := fun h =>
        nodup_take_inj ghatmap (2 * ngpts) hnd (f + ngpts) k (by omega) (by omega) _ hg2f
          (by rw [hg1, h])
      have A4 : g2f = g2 → f + ngpts = k + ngpts := fun h =>
        nodup_take_inj ghatmap (2 * ngpts) hnd (f + ngpts) (k + ngpts) (by omega) (by omega) _
          hg2f (by rw [hg2, h])
      by_cases e1 : gf = g1
      · exact A1 e1
      · by_cases e2 : gf = g2
        · have := A2 e2; omega
        · by_cases e3 : g2f = g1
          · have := A3 e3; omega
          · by_cases e4 : g2f = g2
            · have := A4 e4; omega
            · omega
    · rw [W_scatter_ge pwcc scale ngpts 2 ghatmap f j (by omega)] at hw
      exact Option.noConfusion hw
  have hcell : ∀ j v, (j = 2 * g1 ∨ j = 2 * g1 + 1 ∨ j = 2 * g2 ∨ j = 2 * g2 + 1) →
      W_scatter pwcc scale (ngpts : Int) 2 ghatmap k j = some v → out[j]? = some v := by
    intro j v hj hv
    apply hwr j v ⟨k, lt_of_lt_of_le hk hcover, hv⟩
    intro f _ w hw
    have hfk := huniq j f w hw hj
    subst hfk
    rw [hv] at hw
    exact (Option.some.inj hw).symm
  refine ⟨?_, ?_, ?_, ?_⟩
  · apply hcell _ _ (Or.inl rfl)
    rw [hWk, if_neg (by omega), if_neg (by omega), if_neg (by omega), if_pos rfl]
  · apply hcell _ _ (Or.inr (Or.inl rfl))
    rw [hWk, if_neg (by omega), if_neg (by omega), if_pos rfl]
  · apply hcell _ _ (Or.inr (Or.inr (Or.inl rfl)))
    rw [hWk, if_neg (by omega), if_pos rfl]
  · apply hcell _ _ (Or.inr (Or.inr (Or.inr rfl)))
    rw [hWk, if_pos rfl]

/-! ## Grid partitioner -/

theorem toUInt32_natCast (n : Nat) (h : n < 2 ^ 32) : toUInt32 (n : Int) = n := by
  unfold toUInt32
  have : (n : Int) % 2 ^ 32 = (n : Int) := Int.emod_eq_of_lt (by omega) (by omega)
  rw [this]
  simp

theorem toInt32_of_lt (u : Nat) (h : u < 2 ^ 31) : toInt32 u = (u : Int) := by
  unfold toInt32
  rw [if_pos h]

/-- Closed form of `get_grid_params` on the `int` range with a positive block size. -/
theorem get_grid_params_eq (n blocksize : Nat) (hb : 1 ≤ blocksize) (hb2 : blocksize < 2 ^ 31)
    (hn : n < 2 ^ 31) :
    get_grid_params (n : Int) (blocksize : Int) =
      if ceil_sqrt (((n + min blocksize MAXTHREADS - 1) / min blocksize MAXTHREADS : Nat) : Int)
          > MAXGRIDX then none
      else some (⟨min blocksize MAXTHREADS, 1, 1⟩,
        ⟨ceil_sqrt (((n + min blocksize MAXTHREADS - 1) / min blocksize MAXTHREADS : Nat) : Int),
         rint_sqrt (((n + min blocksize MAXTHREADS - 1) / min blocksize MAXTHREADS : Nat) : Int),
         1⟩) := by
  have ht : (if (blocksize : Int) ≤ (MAXTHREADS : Int) then toUInt32 (blocksize : Int)
      else MAXTHREADS) = min blocksize MAXTHREADS := by
    rw [toUInt32_natCast blocksize (by omega)]
    by_cases h : blocksize ≤ MAXTHREADS
    · rw [if_pos (by exact_mod_cast h), Nat.min_eq_left h]
    · rw [if_neg (by exact_mod_cast h), Nat.min_eq_right (by omega)]
  have ht1 : 1 ≤ min blocksize MAXTHREADS := by
    have : 1 ≤ MAXTHREADS := by decide
    exact Nat.le_min.mpr ⟨hb, this⟩
  have ht2 : min blocksize MAXTHREADS ≤ 1024 := Nat.min_le_right _ _
  generalize min blocksize MAXTHREADS = t at ht ht1 ht2
  have hsum : (toUInt32 (n : Int) + t + (2 ^ 32 - 1)) % 2 ^ 32 = n + t - 1 := by
    rw [toUInt32_natCast n (by omega)]
    have : n + t + (2 ^ 32 - 1) = (n + t - 1) + 2 ^ 32 := by omega
    rw [this, Nat.add_mod_right, Nat.mod_eq_of_lt (by omega)]
  have hdiv : (n + t - 1) / t < 2 ^ 31 := by
    have : (n + t - 1) / t ≤ n := by
      rw [Nat.div_le_iff_le_mul_add_pred (by omega)]
      have : n ≤ n * t := Nat.le_mul_of_pos_right n (by omega)
      have : n * t = t * n := Nat.mul_comm _ _
      omega
    omega
  have ht0 : ¬ t = 0 := by omega
  unfold get_grid_params grid_blocks grid_threads
  simp only [ht, if_neg ht0, hsum, toInt32_of_lt _ hdiv]

theorem sqrt_bounds (B : Nat) :
    Nat.sqrt B * Nat.sqrt B ≤ B ∧ B < (Nat.sqrt B + 1) * (Nat.sqrt B + 1) :=
  ⟨Nat.sqrt_le B, Nat.lt_succ_sqrt B⟩

/-- On a block count that is not negative, `ceil_sqrt` is the integer square root,
plus one unless the count is a perfect square. -/
theorem ceil_sqrt_natCast (B : Nat) :
    ceil_sqrt (B : Int) = if Nat.sqrt B * Nat.sqrt B = B then Nat.sqrt B else Nat.sqrt B + 1 := by
  unfold ceil_sqrt
  rw [if_neg (by omega), Int.toNat_ofNat]

/-- A negative block count gives the converted NaN. -/
theorem ceil_sqrt_neg (x : Int) (h : x < 0) : ceil_sqrt x = 2147483648 := by
  unfold ceil_sqrt
  rw [if_pos h]

/-- The grid holds all blocks, and wastes at most `2 * sqrt B + 1` of them. -/
theorem grid_blocks_bounds (B : Nat) :
    B ≤ ceil_sqrt (B : Int) * rint_sqrt (B : Int) ∧
    ceil_sqrt (B : Int) * rint_sqrt (B : Int) ≤ B + 2 * Nat.sqrt B + 1 ∧
    ceil_sqrt (B : Int) ≤ Nat.sqrt B + 1 := by
  obtain ⟨h1, h2⟩ := sqrt_bounds B
  simp only [ceil_sqrt_natCast, rint_sqrt, Int.toNat_ofNat]
  generalize Nat.sqrt B = k at h1 h2
  have e1 : (k + 1) * (k + 1) = k * k + 2 * k + 1 := by ring
  have e2 : (k + 1) * k = k * k + k := by ring
  by_cases hsq : k * k = B
  · rw [if_pos hsq, if_pos (by omega)]
    omega
  · rw [if_neg hsq]
    by_cases hr : B ≤ k * k + k
    · rw [if_pos hr, e2]
      omega
    · rw [if_neg hr, e1]
      omega

/-- With the block size `NTHREADS` and an item count whose doubled value fits an
`int`, `get_grid_params` returns a geometry that covers the items and whose
flattened indices fit an `int`. -/
theorem get_grid_params_NTHREADS (n : Nat) (hn : 2 * n < 2 ^ 31) :
    ∃ tpb bpg, get_grid_params (n : Int) (NTHREADS : Int) = some (tpb, bpg) ∧
      n ≤ bpg.x * bpg.y * tpb.x ∧ bpg.x * bpg.y * tpb.x ≤ 2 ^ 31 := by
  have hmin : min NTHREADS MAXTHREADS = 32 := by decide
  have heq := get_grid_params_eq n NTHREADS (by decide) (by decide) (by omega)
  rw [hmin] at heq
  obtain ⟨hb1, hb2, hb3⟩ := grid_blocks_bounds ((n + 32 - 1) / 32)
  obtain ⟨hs1, _⟩ := sqrt_bounds ((n + 32 - 1) / 32)
  have hB : (n + 32 - 1) / 32 < 2 ^ 25 + 1 := by omega
  have hk : Nat.sqrt ((n + 32 - 1) / 32) < 2 ^ 13 := by
    rw [Nat.sqrt_lt]
    omega
  rw [if_neg (by simp only [MAXGRIDX]; omega)] at heq
  refine ⟨_, _, heq, ?_, ?_⟩
  · dsimp only
    omega
  · dsimp only
    omega

/-! ## Scatter stage -/

theorem hipMemsetAsync_full {R : Type} [Zero R] (buf : List R) (n : Nat) (h : buf.length = n) :
    hipMemsetAsync buf (n : Int) = some (List.replicate n 0) := by
  unfold hipMemsetAsync
  have hd : buf.drop n = [] := List.drop_eq_nil_of_le (by omega)
  simp [h, hd]

theorem length_le_of_nodup_range (l : List Int) (n : Nat) (hnd : l.Nodup)
    (hr : ∀ x ∈ l, 0 ≤ x ∧ x < (n : Int)) : l.length ≤ n := by
  have hsub : l ⊆ (List.range n).map (fun i : Nat => (i : Int)) := by
    intro x hx
    obtain ⟨h0, h1⟩ := hr x hx
    rw [List.mem_map]
    refine ⟨x.toNat, ?_, Int.toNat_of_nonneg h0⟩
    rw [List.mem_range]
    omega
  have := (List.subperm_of_subset hnd hsub).length_le
  simpa using this

/-- The scatter stage with `nmaps = 1`, allowing repeated offsets as long as the
items sharing an offset carry the same coefficient. -/
theorem scatter_stage_spec {R : Type} [Zero R] [Mul R] [Neg R]
    (sched : dim3 → dim3 → List Thread) (hs : ∀ g b, (sched g b).Perm (allThreads g b))
    (ptr_1 ptr_2 : List R) (ghatmap_dev : List Int) (nrpts ngpts : Nat) (scale : R)
    (h1 : ptr_1.length = 2 * nrpts) (h2 : ptr_2.length = 2 * nrpts)
    (hint : 2 * nrpts < 2 ^ 31) (hle : ngpts ≤ nrpts)
    (hg : ∀ k : Nat, k < ngpts → ∃ gi : Nat, ghatmap_dev[k]? = some (gi : Int) ∧ gi < nrpts)
    (hcons : ∀ k k2 : Nat, k < ngpts → k2 < ngpts → ghatmap_dev[k]? = ghatmap_dev[k2]? →
      ptr_1[2 * k]? = ptr_1[2 * k2]? ∧ ptr_1[2 * k + 1]? = ptr_1[2 * k2 + 1]?) :
    ∃ out, scatter_stage sched ptr_1 ptr_2 ghatmap_dev (nrpts : Int) (ngpts : Int) 1 scale
        = some out ∧ out.length = 2 * nrpts ∧
      (∀ k (gi : Nat) (re im : R), k < ngpts → ghatmap_dev[k]? = some (gi : Int) →
        ptr_1[2 * k]? = some re → ptr_1[2 * k + 1]? = some im →
        out[2 * gi]? = some (scale * re) ∧ out[2 * gi + 1]? = some (scale * im)) ∧
      (∀ gj : Nat, gj < nrpts → (∀ k, k < ngpts → ghatmap_dev[k]? ≠ some (gj : Int)) →
        out[2 * gj]? = some 0 ∧ out[2 * gj + 1]? = some 0) := by
  obtain ⟨tpb, bpg, hgp, hcover, hfit⟩ := get_grid_params_NTHREADS ngpts (by omega)
  have hms : hipMemsetAsync ptr_2 (2 * (nrpts : Int)) = some (List.replicate (2 * nrpts) 0) := by
    have := hipMemsetAsync_full ptr_2 (2 * nrpts) h2
    rw [← this]
    congr 1
  obtain ⟨out, hout, hlen, hw, hfr⟩ := launch_scatter1_spec bpg tpb (sched bpg tpb)
    (hs bpg tpb) (List.replicate (2 * nrpts) (0 : R)) ptr_1 scale ngpts 1 (by decide)
    ghatmap_dev hcover hfit (by omega) (by omega) (by simp; omega)
    (fun k hk => by
      obtain ⟨gi, hgi, hlt⟩ := hg k hk
      exact ⟨gi, hgi, by simp; omega⟩) hcons
  refine ⟨out, ?_, by simpa using hlen, hw, ?_⟩
  · unfold scatter_stage
    simp only [hgp, hms, Option.bind_eq_bind, Option.some_bind]
    exact hout
  · intro gj hgj hno
    obtain ⟨e0, e1⟩ := hfr gj hno
    rw [e0, e1, List.getElem?_replicate, List.getElem?_replicate, if_pos (by omega),
      if_pos (by omega)]
    exact ⟨rfl, rfl⟩

/-! ## Claims on the kernels -/

/-- C1. Scatter with `nmaps = 2` (`pw_scatter_hip_z`): for every `ngpts`, `scale`,
compact buffer `pwcc` and index table of `2 * ngpts` in-range, pairwise distinct
offsets, after a launch whose grid covers the `ngpts` items (flattened indices
fitting an `int`, any execution order of the threads) every `k < ngpts` has its
partner cell `c[ghatmap[k + ngpts]]` equal to the conjugate of `scale * pwcc[k]`
(real part `scale * re`, imaginary part `-(scale * im)`), while its primary cell
`c[ghatmap[k]]` holds `scale * pwcc[k]` unconjugated.  The dense buffer has
`2 * nrpts` doubles, an `int` quantity. -/
theorem C1_scatter_conjugate_partner {R : Type} [Mul R] [HasDistribNeg R]
    (gridDim blockDim : dim3) (sched : List Thread)
    (hs : sched.Perm (allThreads gridDim blockDim))
    (c pwcc : List R) (scale : R) (ngpts nrpts : Nat) (ghatmap : List Int)
    (hcover : ngpts ≤ gridDim.x * gridDim.y * blockDim.x)
    (hfit : gridDim.x * gridDim.y * blockDim.x ≤ 2 ^ 31)
    (hc : c.length = 2 * nrpts) (hint : 2 * nrpts ≤ 2 ^ 31) (hp : 2 * ngpts ≤ pwcc.length)
    (hlen : 2 * ngpts ≤ ghatmap.length)
    (hrange : ∀ gi ∈ ghatmap.take (2 * ngpts), 0 ≤ gi ∧ gi < (nrpts : Int))
    (hnodup : (ghatmap.take (2 * ngpts)).Nodup) :
    ∃ out, launch_pw_scatter_hip_z gridDim blockDim sched c pwcc scale (ngpts : Int) 2 ghatmap
        = some out ∧ out.length = c.length ∧
      ∀ k, k < ngpts → ∃ (g1 g2 : Int) (re im : R),
        ghatmap[k]? = some g1 ∧ ghatmap[k + ngpts]? = some g2 ∧
        pwcc[2 * k]? = some re ∧ pwcc[2 * k + 1]? = some im ∧
        ld out (2 * g2) = some (scale * re) ∧ ld out (2 * g2 + 1) = some (-(scale * im)) ∧
        ld out (2 * g1) = some (scale * re) ∧ ld out (2 * g1 + 1) = some (scale * im) := by
  have hg : ∀ k : Nat, k < 2 * ngpts →
      ∃ gi : Nat, ghatmap[k]? = some (gi : Int) ∧ 2 * gi + 1 < c.length := by
    intro k hk
    obtain ⟨gi, hgi, hlt⟩ := table_entry ghatmap (2 * ngpts) nrpts hlen hrange k hk
    exact ⟨gi, hgi, by omega⟩
  have hle : 2 * ngpts ≤ nrpts := by
    have := length_le_of_nodup_range (ghatmap.take (2 * ngpts)) nrpts hnodup hrange
    rw [List.length_take, Nat.min_eq_left hlen] at this
    exact this
  obtain ⟨out, hout, hlen2, hcells⟩ := launch_scatter2_spec gridDim blockDim sched hs c pwcc
    scale ngpts ghatmap hcover hfit hp (by omega) (by omega) hg hnodup
  refine ⟨out, hout, hlen2, ?_⟩
  intro k hk
  obtain ⟨g1, hg1, hb1⟩ := hg k (by omega)
  obtain ⟨g2, hg2, hb2⟩ := hg (k + ngpts) (by omega)
  have hre : pwcc[2 * k]? = some pwcc[2 * k] := List.getElem?_eq_getElem (by omega)
  have him : pwcc[2 * k + 1]? = some pwcc[2 * k + 1] := List.getElem?_eq_getElem (by omega)
  obtain ⟨e1, e2, e3, e4⟩ := hcells k g1 g2 _ _ hk hg1 hg2 hre him
  refine ⟨g1, g2, _, _, hg1, hg2, hre, him, ?_, ?_, ?_, ?_⟩
  · rw [two_mul_cast, ld_natCast _ _ (by omega)]; exact e3
  · rw [two_mul_cast, two_mul_cast_succ, ld_natCast _ _ (by omega), e4, neg_mul]
  · rw [two_mul_cast, ld_natCast _ _ (by omega)]; exact e1
  · rw [two_mul_cast, two_mul_cast_succ, ld_natCast _ _ (by omega)]; exact e2

/-- Witness of C1: two coefficients scattered with their partners into a four-point grid. -/
theorem C1_scatter_conjugate_partner_witness :
    ∃ out, launch_pw_scatter_hip_z ⟨1, 1, 1⟩ ⟨2, 1, 1⟩ (allThreads ⟨1, 1, 1⟩ ⟨2, 1, 1⟩)
        [0, 0, 0, 0, 0, 0, 0, 0] [1, 2, 3, 4] (10 : Int) ((2 : Nat) : Int) 2 [0, 1, 3, 2]
        = some out ∧ out.length = [(0 : Int), 0, 0, 0, 0, 0, 0, 0].length ∧
      ∀ k, k < 2 → ∃ (g1 g2 : Int) (re im : Int),
        [(0 : Int), 1, 3, 2][k]? = some g1 ∧ [(0 : Int), 1, 3, 2][k + 2]? = some g2 ∧
        [(1 : Int), 2, 3, 4][2 * k]? = some re ∧ [(1 : Int), 2, 3, 4][2 * k + 1]? = some im ∧
        ld out (2 * g2) = some (10 * re) ∧ ld out (2 * g2 + 1) = some (-(10 * im)) ∧
        ld out (2 * g1) = some (10 * re) ∧ ld out (2 * g1 + 1) = some (10 * im) :=
  C1_scatter_conjugate_partner ⟨1, 1, 1⟩ ⟨2, 1, 1⟩ (allThreads ⟨1, 1, 1⟩ ⟨2, 1, 1⟩)
    (List.Perm.refl _) [0, 0, 0, 0, 0, 0, 0, 0] [1, 2, 3, 4] (10 : Int) 2 4 [0, 1, 3, 2]
    (by decide) (by decide) (by decide) (by decide) (by decide) (by decide) (by decide)
    (by decide)

/-- C2. Gather (`pw_gather_hip_z`): for every `ngpts`, `scale`, dense buffer `c` and
index table whose first `ngpts` offsets are in range, after a launch whose grid
covers the items `pwcc[k] = scale * c[ghatmap[k]]` in both components for every
`k < ngpts`, and the entries of `pwcc` at complex positions `>= ngpts` are
unchanged (`2 * nrpts`, the size of `c`, and `2 * ngpts` are `int` quantities).
The dense buffer `c` is only read: the kernel receives it through a
`const` pointer, the launch returns the written buffer `pwcc` alone, and `c` is
the same list before and after. -/
theorem C2_gather {R : Type} [Mul R]
    (gridDim blockDim : dim3) (sched : List Thread)
    (hs : sched.Perm (allThreads gridDim blockDim))
    (pwcc c : List R) (scale : R) (ngpts nrpts : Nat) (ghatmap : List Int)
    (hcover : ngpts ≤ gridDim.x * gridDim.y * blockDim.x)
    (hfit : gridDim.x * gridDim.y * blockDim.x ≤ 2 ^ 31)
    (hc : c.length = 2 * nrpts) (hint : 2 * nrpts ≤ 2 ^ 31)
    (hp : 2 * ngpts ≤ pwcc.length) (hint2 : 2 * ngpts ≤ 2 ^ 31)
    (hlen : ngpts ≤ ghatmap.length)
    (hrange : ∀ gi ∈ ghatmap.take ngpts, 0 ≤ gi ∧ gi < (nrpts : Int)) :
    ∃ out, launch_pw_gather_hip_z gridDim blockDim sched pwcc c scale (ngpts : Int) ghatmap
        = some out ∧ out.length = pwcc.length ∧
      (∀ k, k < ngpts → ∃ (gi : Int) (re im : R),
        ghatmap[k]? = some gi ∧ ld c (2 * gi) = some re ∧ ld c (2 * gi + 1) = some im ∧
        out[2 * k]? = some (scale * re) ∧ out[2 * k + 1]? = some (scale * im)) ∧
      (∀ j, 2 * ngpts ≤ j → out[j]? = pwcc[j]?) := by
  have hg : ∀ k : Nat, k < ngpts →
      ∃ gi : Nat, ghatmap[k]? = some (gi : Int) ∧ 2 * gi + 1 < c.length := by
    intro k hk
    obtain ⟨gi, hgi, hlt⟩ := table_entry ghatmap ngpts nrpts hlen hrange k hk
    exact ⟨gi, hgi, by omega⟩
  obtain ⟨out, hout, hlen2, hcells, hfr⟩ := launch_gather_spec gridDim blockDim sched hs pwcc c
    scale ngpts ghatmap hcover hfit hp hint2 (by omega) hg
  refine ⟨out, hout, hlen2, ?_, hfr⟩
  intro k hk
  obtain ⟨gi, hgi, hin⟩ := hg k hk
  obtain ⟨e0, e1⟩ := hcells k gi hk hgi
  have hin0 : 2 * gi < c.length := by omega
  refine ⟨gi, (c)[2 * gi], (c)[2 * gi + 1], hgi, ?_, ?_, ?_, ?_⟩
  · rw [two_mul_cast, ld_natCast _ _ (by omega), List.getElem?_eq_getElem hin0]
  · rw [two_mul_cast, two_mul_cast_succ, ld_natCast _ _ (by omega),
      List.getElem?_eq_getElem hin]
  · rw [e0, List.getElem?_eq_getElem hin0, Option.map_some']
  · rw [e1, List.getElem?_eq_getElem hin, Option.map_some']

/-- Witness of C2: two coefficients gathered from a three-point dense buffer. -/
theorem C2_gather_witness :
    ∃ out, launch_pw_gather_hip_z ⟨2, 1, 1⟩ ⟨1, 1, 1⟩ (allThreads ⟨2, 1, 1⟩ ⟨1, 1, 1⟩)
        [7, 7, 7, 7, 7, 7] [1, 2, 3, 4, 5, 6] (10 : Int) ((2 : Nat) : Int) [2, 0]
        = some out ∧ out.length = [(7 : Int), 7, 7, 7, 7, 7].length ∧
      (∀ k, k < 2 → ∃ (gi : Int) (re im : Int),
        [(2 : Int), 0][k]? = some gi ∧ ld [(1 : Int), 2, 3, 4, 5, 6] (2 * gi) = some re ∧
        ld [(1 : Int), 2, 3, 4, 5, 6] (2 * gi + 1) = some im ∧
        out[2 * k]? = some (10 * re) ∧ out[2 * k + 1]? = some (10 * im)) ∧
      (∀ j, 2 * 2 ≤ j → out[j]? = [(7 : Int), 7, 7, 7, 7, 7][j]?) :=
  C2_gather ⟨2, 1, 1⟩ ⟨1, 1, 1⟩ (allThreads ⟨2, 1, 1⟩ ⟨1, 1, 1⟩) (List.Perm.refl _)
    [7, 7, 7, 7, 7, 7] [1, 2, 3, 4, 5, 6] (10 : Int) 2 3 [2, 0]
    (by decide) (by decide) (by decide) (by decide) (by decide) (by decide) (by decide)
    (by decide)

/-- C3. Scatter stage with `nmaps = 1`, as run by `pw_hip_sfffc_z_` and
`pw_hip_sf_z_`: for every compact input of `ngpts` coefficients (held in the
first `2 * ngpts` doubles of `ptr_1`), every `scale` and every index table of
`ngpts` in-range pairwise distinct offsets, the dense buffer handed to the
transform holds `scale * compact[k]` at offset `ghatmap[k]` for every `k < ngpts`
and exactly zero in both components at every one of the `nrpts` offsets that
does not occur in the table, whatever `ptr_2` contained before: the whole
buffer of `2 * nrpts` doubles is zero-filled before the kernel runs.  The sizes
are those of the two operations: both scratch buffers have `2 * nrpts` doubles
and `2 * nrpts` is an `int`. -/
theorem C3_scatter_stage_zero_fill {R : Type} [Zero R] [Mul R] [Neg R]
    (sched : dim3 → dim3 → List Thread) (hs : ∀ g b, (sched g b).Perm (allThreads g b))
    (ptr_1 ptr_2 : List R) (ghatmap_dev : List Int) (nrpts ngpts : Nat) (scale : R)
    (h1 : ptr_1.length = 2 * nrpts) (h2 : ptr_2.length = 2 * nrpts)
    (hint : 2 * nrpts < 2 ^ 31) (hlen : ngpts ≤ ghatmap_dev.length)
    (hrange : ∀ gi ∈ ghatmap_dev.take ngpts, 0 ≤ gi ∧ gi < (nrpts : Int))
    (hnodup : (ghatmap_dev.take ngpts).Nodup) :
    ∃ out, scatter_stage sched ptr_1 ptr_2 ghatmap_dev (nrpts : Int) (ngpts : Int) 1 scale
        = some out ∧ out.length = 2 * nrpts ∧
      (∀ k, k < ngpts → ∃ (gi : Int) (re im : R),
        ghatmap_dev[k]? = some gi ∧ ptr_1[2 * k]? = some re ∧ ptr_1[2 * k + 1]? = some im ∧
        ld out (2 * gi) = some (scale * re) ∧ ld out (2 * gi + 1) = some (scale * im)) ∧
      (∀ j : Nat, j < nrpts → (∀ k, k < ngpts → ghatmap_dev[k]? ≠ some (j : Int)) →
        out[2 * j]? = some 0 ∧ out[2 * j + 1]? = some 0) := by
  have hle : ngpts ≤ nrpts := by
    have := length_le_of_nodup_range (ghatmap_dev.take ngpts) nrpts hnodup hrange
    rw [List.length_take, Nat.min_eq_left hlen] at this
    exact this
  have hg := table_entry ghatmap_dev ngpts nrpts hlen hrange
  obtain ⟨out, hout, hlen2, hw, hz⟩ := scatter_stage_spec sched hs ptr_1 ptr_2 ghatmap_dev
    nrpts ngpts scale h1 h2 hint hle hg
    (fun k k2 hk hk2 he => by
      obtain ⟨gi, hgi, _⟩ := hg k hk
      have : k = k2 := nodup_take_inj ghatmap_dev ngpts hnodup k k2 hk hk2 _ hgi
        (by rw [← he, hgi])
      subst this
      exact ⟨rfl, rfl⟩)
  refine ⟨out, hout, hlen2, ?_, hz⟩
  intro k hk
  obtain ⟨gi, hgi, hgb⟩ := hg k hk
  have hre : ptr_1[2 * k]? = some ptr_1[2 * k] := List.getElem?_eq_getElem (by omega)
  have him : ptr_1[2 * k + 1]? = some ptr_1[2 * k + 1] := List.getElem?_eq_getElem (by omega)
  obtain ⟨e0, e1⟩ := hw k gi _ _ hk hgi hre him
  refine ⟨gi, _, _, hgi, hre, him, ?_, ?_⟩
  · rw [two_mul_cast, ld_natCast _ _ (by omega)]; exact e0
  · rw [two_mul_cast, two_mul_cast_succ, ld_natCast _ _ (by omega)]; exact e1

/-- Witness of C3: two coefficients scattered into a four-point grid whose scratch
buffer held stale data. -/
theorem C3_scatter_stage_zero_fill_witness :
    ∃ out, scatter_stage allThreads [1, 2, 3, 4, 0, 0, 0, 0] [9, 9, 9, 9, 9, 9, 9, 9] [3, 1]
        ((4 : Nat) : Int) ((2 : Nat) : Int) 1 (10 : Int) = some out ∧ out.length = 2 * 4 ∧
      (∀ k, k < 2 → ∃ (gi : Int) (re im : Int),
        [(3 : Int), 1][k]? = some gi ∧ [(1 : Int), 2, 3, 4, 0, 0, 0, 0][2 * k]? = some re ∧
        [(1 : Int), 2, 3, 4, 0, 0, 0, 0][2 * k + 1]? = some im ∧
        ld out (2 * gi) = some (10 * re) ∧ ld out (2 * gi + 1) = some (10 * im)) ∧
      (∀ j : Nat, j < 4 → (∀ k, k < 2 → [(3 : Int), 1][k]? ≠ some (j : Int)) →
        out[2 * j]? = some 0 ∧ out[2 * j + 1]? = some 0) :=
  C3_scatter_stage_zero_fill allThreads (fun _ _ => List.Perm.refl _)
    [1, 2, 3, 4, 0, 0, 0, 0] [9, 9, 9, 9, 9, 9, 9, 9] [3, 1] 4 2 (10 : Int)
    (by decide) (by decide) (by decide) (by decide) (by decide) (by decide)

/-- C4. Gather followed by scatter: for every dense complex buffer `D` of `nrpts`
elements, every index table of `ngpts` in-range offsets (repetitions allowed)
and all scale factors `s1`, `s2` in exact (commutative ring) arithmetic,
gathering `D` with scale `s1` and then scattering the compact result with scale
`s2` and `nmaps = 1` into the zero-filled buffer (`hipMemsetAsync` of the whole
`2 * nrpts` doubles of `ptr_2`, whatever it held) yields a buffer equal to
`s1 * s2 * D` at every indexed offset and zero at every other offset; with
`s1 = s2 = 1` it agrees with `D` on the indexed offsets.  Both launches cover
the `ngpts` items, `2 * nrpts` and `2 * ngpts` are `int` quantities, and the
compact result reaches the scatter in any buffer `pwcc1` that agrees with it on
the first `2 * ngpts` doubles. -/
theorem C4_gather_then_scatter {R : Type} [CommRing R]
    (grid1 block1 : dim3) (sched1 : List Thread) (hs1 : sched1.Perm (allThreads grid1 block1))
    (grid2 block2 : dim3) (sched2 : List Thread) (hs2 : sched2.Perm (allThreads grid2 block2))
    (D pwcc0 ptr_2 : List R) (ghatmap : List Int) (nrpts ngpts : Nat) (s1 s2 : R)
    (hcover1 : ngpts ≤ grid1.x * grid1.y * block1.x)
    (hfit1 : grid1.x * grid1.y * block1.x ≤ 2 ^ 31)
    (hcover2 : ngpts ≤ grid2.x * grid2.y * block2.x)
    (hfit2 : grid2.x * grid2.y * block2.x ≤ 2 ^ 31)
    (hD : D.length = 2 * nrpts) (hint : 2 * nrpts ≤ 2 ^ 31)
    (hpw : 2 * ngpts ≤ pwcc0.length) (hint2 : 2 * ngpts ≤ 2 ^ 31)
    (h2 : ptr_2.length = 2 * nrpts) (hlen : ngpts ≤ ghatmap.length)
    (hrange : ∀ gi ∈ ghatmap.take ngpts, 0 ≤ gi ∧ gi < (nrpts : Int)) :
    ∃ compact zeroed,
      launch_pw_gather_hip_z grid1 block1 sched1 pwcc0 D s1 (ngpts : Int) ghatmap
        = some compact ∧
      hipMemsetAsync ptr_2 (2 * (nrpts : Int)) = some zeroed ∧
      ∀ pwcc1 : List R, 2 * ngpts ≤ pwcc1.length →
        (∀ j, j < 2 * ngpts → pwcc1[j]? = compact[j]?) →
        ∃ out, launch_pw_scatter_hip_z grid2 block2 sched2 zeroed pwcc1 s2 (ngpts : Int) 1
            ghatmap = some out ∧ out.length = 2 * nrpts ∧
          (∀ k, k < ngpts → ∃ (gi : Int) (re im : R),
            ghatmap[k]? = some gi ∧ ld D (2 * gi) = some re ∧ ld D (2 * gi + 1) = some im ∧
            ld out (2 * gi) = some (s1 * s2 * re) ∧
            ld out (2 * gi + 1) = some (s1 * s2 * im)) ∧
          (∀ j : Nat, j < nrpts → (∀ k, k < ngpts → ghatmap[k]? ≠ some (j : Int)) →
            out[2 * j]? = some 0 ∧ out[2 * j + 1]? = some 0) ∧
          (s1 = 1 → s2 = 1 → ∀ k, k < ngpts → ∃ gi : Int, ghatmap[k]? = some gi ∧
            ld out (2 * gi) = ld D (2 * gi) ∧ ld out (2 * gi + 1) = ld D (2 * gi + 1)) := by
  have hg := table_entry ghatmap ngpts nrpts hlen hrange
  have hgD : ∀ k : Nat, k < ngpts →
      ∃ gi : Nat, ghatmap[k]? = some (gi : Int) ∧ 2 * gi + 1 < D.length := by
    intro k hk
    obtain ⟨gi, hgi, hlt⟩ := hg k hk
    exact ⟨gi, hgi, by omega⟩
  obtain ⟨compact, hcomp, hclen, hcells, _⟩ := launch_gather_spec grid1 block1 sched1 hs1
    pwcc0 D s1 ngpts ghatmap hcover1 hfit1 hpw hint2 (by omega) hgD
  have hms : hipMemsetAsync ptr_2 (2 * (nrpts : Int)) = some (List.replicate (2 * nrpts) 0) := by
    have := hipMemsetAsync_full ptr_2 (2 * nrpts) h2
    rw [← this]
    congr 1
  refine ⟨compact, _, hcomp, hms, ?_⟩
  intro pwcc1 h1 hagree
  have hval : ∀ k (gi : Nat), k < ngpts → ghatmap[k]? = some (gi : Int) →
      pwcc1[2 * k]? = Option.map (fun x => s1 * x) D[2 * gi]? ∧
      pwcc1[2 * k + 1]? = Option.map (fun x => s1 * x) D[2 * gi + 1]? := by
    intro k gi hk hgi
    obtain ⟨e0, e1⟩ := hcells k gi hk hgi
    rw [hagree _ (by omega), hagree _ (by omega), e0, e1]
    exact ⟨rfl, rfl⟩
  obtain ⟨out, hout, hlen2, hw, hfr⟩ := launch_scatter1_spec grid2 block2 sched2 hs2
    (List.replicate (2 * nrpts) (0 : R)) pwcc1 s2 ngpts 1 (by decide) ghatmap hcover2 hfit2 h1
    hint2 (by simp; omega)
    (fun k hk => by
      obtain ⟨gi, hgi, hlt⟩ := hg k hk
      exact ⟨gi, hgi, by simp; omega⟩)
    (fun k k2 hk hk2 he => by
      obtain ⟨gi, hgi, _⟩ := hg k hk
      obtain ⟨a0, a1⟩ := hval k gi hk hgi
      obtain ⟨b0, b1⟩ := hval k2 gi hk2 (by rw [← he, hgi])
      rw [a0, a1, b0, b1]
      exact ⟨rfl, rfl⟩)
  have hmain : ∀ k, k < ngpts → ∃ (gi : Int) (re im : R),
      ghatmap[k]? = some gi ∧ ld D (2 * gi) = some re ∧ ld D (2 * gi + 1) = some im ∧
      ld out (2 * gi) = some (s1 * s2 * re) ∧ ld out (2 * gi + 1) = some (s1 * s2 * im) := by
    intro k hk
    obtain ⟨gi, hgi, hin⟩ := hgD k hk
    have hin0 : 2 * gi < D.length := by omega
    obtain ⟨a0, a1⟩ := hval k gi hk hgi
    rw [List.getElem?_eq_getElem hin0, Option.map_some'] at a0
    rw [List.getElem?_eq_getElem hin, Option.map_some'] at a1
    obtain ⟨e0, e1⟩ := hw k gi _ _ hk hgi a0 a1
    refine ⟨gi, D[2 * gi], D[2 * gi + 1], hgi, ?_, ?_, ?_, ?_⟩
    · rw [two_mul_cast, ld_natCast _ _ (by omega), List.getElem?_eq_getElem hin0]
    · rw [two_mul_cast, two_mul_cast_succ, ld_natCast _ _ (by omega),
        List.getElem?_eq_getElem hin]
    · rw [two_mul_cast, ld_natCast _ _ (by omega), e0]
      congr 1; ring
    · rw [two_mul_cast, two_mul_cast_succ, ld_natCast _ _ (by omega), e1]
      congr 1; ring
  refine ⟨out, hout, by simpa using hlen2, hmain, ?_, ?_⟩
  · intro gj hgj hno
    obtain ⟨e0, e1⟩ := hfr gj hno
    rw [e0, e1, List.getElem?_replicate, List.getElem?_replicate, if_pos (by omega),
      if_pos (by omega)]
    exact ⟨rfl, rfl⟩
  · intro e1 e2 k hk
    obtain ⟨gi, re, im, hgi, hre, him, o0, o1⟩ := hmain k hk
    refine ⟨gi, hgi, ?_, ?_⟩
    · rw [o0, hre, e1, e2]; simp
    · rw [o1, him, e1, e2]; simp

/-- Witness of C4: a table that names offset 2 twice, scales 2 and 3. -/
theorem C4_gather_then_scatter_witness :
    ∃ compact zeroed,
      launch_pw_gather_hip_z ⟨1, 1, 1⟩ ⟨2, 1, 1⟩ (allThreads ⟨1, 1, 1⟩ ⟨2, 1, 1⟩)
        [0, 0, 0, 0, 0, 0] [1, 2, 3, 4, 5, 6] (2 : Int) ((2 : Nat) : Int) [2, 2]
        = some compact ∧
      hipMemsetAsync [(9 : Int), 9, 9, 9, 9, 9] (2 * ((3 : Nat) : Int)) = some zeroed ∧
      ∀ pwcc1 : List Int, 2 * 2 ≤ pwcc1.length →
        (∀ j, j < 2 * 2 → pwcc1[j]? = compact[j]?) →
        ∃ out, launch_pw_scatter_hip_z ⟨2, 1, 1⟩ ⟨1, 1, 1⟩ (allThreads ⟨2, 1, 1⟩ ⟨1, 1, 1⟩)
            zeroed pwcc1 (3 : Int) ((2 : Nat) : Int) 1 [2, 2] = some out ∧
          out.length = 2 * 3 ∧
          (∀ k, k < 2 → ∃ (gi : Int) (re im : Int),
            [(2 : Int), 2][k]? = some gi ∧
            ld [(1 : Int), 2, 3, 4, 5, 6] (2 * gi) = some re ∧
            ld [(1 : Int), 2, 3, 4, 5, 6] (2 * gi + 1) = some im ∧
            ld out (2 * gi) = some (2 * 3 * re) ∧ ld out (2 * gi + 1) = some (2 * 3 * im)) ∧
          (∀ j : Nat, j < 3 → (∀ k, k < 2 → [(2 : Int), 2][k]? ≠ some (j : Int)) →
            out[2 * j]? = some 0 ∧ out[2 * j + 1]? = some 0) ∧
          ((2 : Int) = 1 → (3 : Int) = 1 → ∀ k, k < 2 → ∃ gi : Int,
            [(2 : Int), 2][k]? = some gi ∧
            ld out (2 * gi) = ld [(1 : Int), 2, 3, 4, 5, 6] (2 * gi) ∧
            ld out (2 * gi + 1) = ld [(1 : Int), 2, 3, 4, 5, 6] (2 * gi + 1)) :=
  C4_gather_then_scatter ⟨1, 1, 1⟩ ⟨2, 1, 1⟩ (allThreads ⟨1, 1, 1⟩ ⟨2, 1, 1⟩)
    (List.Perm.refl _) ⟨2, 1, 1⟩ ⟨1, 1, 1⟩ (allThreads ⟨2, 1, 1⟩ ⟨1, 1, 1⟩)
    (List.Perm.refl _)
    [1, 2, 3, 4, 5, 6] [0, 0, 0, 0, 0, 0] [9, 9, 9, 9, 9, 9] [2, 2] 3 2 (2 : Int) (3 : Int)
    (by decide) (by decide) (by decide) (by decide) (by decide) (by decide) (by decide)
    (by decide) (by decide) (by decide) (by decide)

/-- C5. Packing round trip: for every `n` and every real buffer `x` of (at least)
`n` values, running expand (`pw_copy_rc_hip_z`) on `x` and then contract
(`pw_copy_cr_hip_z`) on the resulting complex buffer returns a real buffer equal
to `x` at every index `i < n`, exactly; both launches cover the `n` items and
`2 * n`, the size of the complex buffer, is an `int` quantity. -/
theorem C5_expand_contract_roundtrip {R : Type} [Zero R]
    (grid1 block1 : dim3) (sched1 : List Thread) (hs1 : sched1.Perm (allThreads grid1 block1))
    (grid2 block2 : dim3) (sched2 : List Thread) (hs2 : sched2.Perm (allThreads grid2 block2))
    (x zbuf dbuf : List R) (n : Nat)
    (hcover1 : n ≤ grid1.x * grid1.y * block1.x) (hfit1 : grid1.x * grid1.y * block1.x ≤ 2 ^ 31)
    (hcover2 : n ≤ grid2.x * grid2.y * block2.x) (hfit2 : grid2.x * grid2.y * block2.x ≤ 2 ^ 31)
    (hx : n ≤ x.length) (hz : 2 * n ≤ zbuf.length) (hd : n ≤ dbuf.length)
    (hint : 2 * n ≤ 2 ^ 31) :
    ∃ z out, launch_pw_copy_rc_hip_z grid1 block1 sched1 x zbuf (n : Int) = some z ∧
      launch_pw_copy_cr_hip_z grid2 block2 sched2 z dbuf (n : Int) = some out ∧
      ∀ i, i < n → out[i]? = x[i]? := by
  obtain ⟨z, hz1, hzl, hzc, _⟩ := launch_rc_spec grid1 block1 sched1 hs1 x zbuf n hcover1 hfit1
    hx hz hint
  obtain ⟨out, ho1, _, hoc, _⟩ := launch_cr_spec grid2 block2 sched2 hs2 z dbuf n hcover2 hfit2
    (by omega) hd hint
  refine ⟨z, out, hz1, ho1, ?_⟩
  intro i hi
  rw [hoc i hi, (hzc i hi).1]

/-- Witness of C5: three reals through a 2x1 grid of two-thread blocks and back
through a single block of four threads. -/
theorem C5_expand_contract_roundtrip_witness :
    ∃ z out, launch_pw_copy_rc_hip_z ⟨2, 1, 1⟩ ⟨2, 1, 1⟩ (allThreads ⟨2, 1, 1⟩ ⟨2, 1, 1⟩)
        [(5 : Int), 7, 9] [1, 1, 1, 1, 1, 1] ((3 : Nat) : Int) = some z ∧
      launch_pw_copy_cr_hip_z ⟨1, 1, 1⟩ ⟨4, 1, 1⟩ (allThreads ⟨1, 1, 1⟩ ⟨4, 1, 1⟩)
        z [0, 0, 0] ((3 : Nat) : Int) = some out ∧
      ∀ i, i < 3 → out[i]? = [(5 : Int), 7, 9][i]? :=
  C5_expand_contract_roundtrip ⟨2, 1, 1⟩ ⟨2, 1, 1⟩ (allThreads ⟨2, 1, 1⟩ ⟨2, 1, 1⟩)
    (List.Perm.refl _) ⟨1, 1, 1⟩ ⟨4, 1, 1⟩ (allThreads ⟨1, 1, 1⟩ ⟨4, 1, 1⟩) (List.Perm.refl _)
    [(5 : Int), 7, 9] [1, 1, 1, 1, 1, 1] [0, 0, 0] 3
    (by decide) (by decide) (by decide) (by decide) (by decide) (by decide) (by decide)
    (by decide)

/-- C6, as amended. Expand (`pw_copy_rc_hip_z`): for every `n` and every launch
geometry that covers the `n` items and whose thread count does not exceed
`2^31` (so that the flattened index fits an `int`), `2 * n` being an `int`
quantity like every buffer size, after the kernel
`zout[i] = (din[i], 0)` for every `i < n`, every thread whose flattened index
is `>= n` leaves the buffer as it is, and the entries at complex positions
`>= n` are unchanged. -/
theorem C6_expand {R : Type} [Zero R]
    (gridDim blockDim : dim3) (sched : List Thread)
    (hs : sched.Perm (allThreads gridDim blockDim))
    (din zout : List R) (n : Nat)
    (hcover : n ≤ gridDim.x * gridDim.y * blockDim.x)
    (hfit : gridDim.x * gridDim.y * blockDim.x ≤ 2 ^ 31)
    (hdin : n ≤ din.length) (hzout : 2 * n ≤ zout.length) (hint : 2 * n ≤ 2 ^ 31) :
    ∃ out, launch_pw_copy_rc_hip_z gridDim blockDim sched din zout (n : Int) = some out ∧
      out.length = zout.length ∧
      (∀ i, i < n → out[2 * i]? = din[i]? ∧ out[2 * i + 1]? = some 0) ∧
      (∀ j, 2 * n ≤ j → out[j]? = zout[j]?) ∧
      (∀ th ∈ allThreads gridDim blockDim, n ≤ flat gridDim blockDim th →
        ∀ z : List R, pw_copy_rc_hip_z gridDim blockDim th din z (n : Int) = some z) := by
  obtain ⟨out, h1, h2, h3, h4⟩ := launch_rc_spec gridDim blockDim sched hs din zout n hcover
    hfit hdin hzout hint
  refine ⟨out, h1, h2, h3, h4, ?_⟩
  intro th hth hge z
  have : ¬ ((flat gridDim blockDim th : Int) < (n : Int)) := by omega
  simp only [pw_copy_rc_hip_z, igpt_eq_flat gridDim blockDim th hth hfit, this, if_false]

/-- Witness of C6: three items on a grid of four threads; the fourth thread is idle. -/
theorem C6_expand_witness :
    ∃ out, launch_pw_copy_rc_hip_z ⟨2, 1, 1⟩ ⟨2, 1, 1⟩ (allThreads ⟨2, 1, 1⟩ ⟨2, 1, 1⟩)
        [(5 : Int), 7, 9] [1, 1, 1, 1, 1, 1, 1, 1] ((3 : Nat) : Int) = some out ∧
      out.length = [(1 : Int), 1, 1, 1, 1, 1, 1, 1].length ∧
      (∀ i, i < 3 → out[2 * i]? = [(5 : Int), 7, 9][i]? ∧ out[2 * i + 1]? = some 0) ∧
      (∀ j, 2 * 3 ≤ j → out[j]? = [(1 : Int), 1, 1, 1, 1, 1, 1, 1][j]?) ∧
      (∀ th ∈ allThreads ⟨2, 1, 1⟩ ⟨2, 1, 1⟩, 3 ≤ flat ⟨2, 1, 1⟩ ⟨2, 1, 1⟩ th →
        ∀ z : List Int,
          pw_copy_rc_hip_z ⟨2, 1, 1⟩ ⟨2, 1, 1⟩ th [(5 : Int), 7, 9] z ((3 : Nat) : Int)
            = some z) :=
  C6_expand ⟨2, 1, 1⟩ ⟨2, 1, 1⟩ (allThreads ⟨2, 1, 1⟩ ⟨2, 1, 1⟩) (List.Perm.refl _)
    [(5 : Int), 7, 9] [1, 1, 1, 1, 1, 1, 1, 1] 3 (by decide) (by decide) (by decide) (by decide)
    (by decide)

/-- C6 as stated fails, for two kinds of launch geometry.  (a) A grid of a single
thread with `n = 2`: item 1 is never expanded, `zout[1]` keeps its old content
instead of `(7, 0)`.  (b) The thread `blockIdx = (0, 32769)` of a 65535 x 65535
grid of one-thread blocks has flattened index `2147516415 >= n = 1`, yet it is
no no-op: the index wraps to the negative `int` `-2147450881`, passes the guard
`igpt < n` and accesses the buffers out of bounds, so the buffer is not simply
left as it is. -/
theorem C6_expand_counterexample :
    (launch_pw_copy_rc_hip_z ⟨1, 1, 1⟩ ⟨1, 1, 1⟩ (allThreads ⟨1, 1, 1⟩ ⟨1, 1, 1⟩)
        [(5 : Int), 7] [1, 1, 1, 1] (2 : Int) = some [5, 0, 1, 1] ∧
      [(5 : Int), 0, 1, 1][2 * 1]? ≠ [(5 : Int), 7][1]?) ∧
    ((⟨0, 32769, 0⟩ : Thread) ∈ allThreads ⟨65535, 65535, 1⟩ ⟨1, 1, 1⟩ ∧
      1 ≤ flat ⟨65535, 65535, 1⟩ ⟨1, 1, 1⟩ ⟨0, 32769, 0⟩ ∧
      flat ⟨65535, 65535, 1⟩ ⟨1, 1, 1⟩ ⟨0, 32769, 0⟩ = 2147516415 ∧
      igpt ⟨65535, 65535, 1⟩ ⟨1, 1, 1⟩ ⟨0, 32769, 0⟩ = -2147450881 ∧
      pw_copy_rc_hip_z ⟨65535, 65535, 1⟩ ⟨1, 1, 1⟩ ⟨0, 32769, 0⟩ [(5 : Int)] [1, 1] (1 : Int)
        ≠ some [1, 1]) :=
  ⟨⟨by decide, by decide⟩,
   (mem_allThreads _ _ _).mpr ⟨by decide, by decide, by decide⟩,
   by decide, by decide, by decide, by decide⟩

/-- C7. Contract (`pw_copy_cr_hip_z`): for every `n` and every complex input `zin`,
after a launch that covers the `n` items (`2 * n`, the size of `zin`, being an
`int` quantity) `dout[i]` equals the real component of `zin[i]` for every `i < n`, the output entries at positions `>= n` are
unchanged, and an input that differs from `zin` in imaginary components only
gives the same output. -/
theorem C7_contract {R : Type}
    (gridDim blockDim : dim3) (sched : List Thread)
    (hs : sched.Perm (allThreads gridDim blockDim))
    (zin dout : List R) (n : Nat)
    (hcover : n ≤ gridDim.x * gridDim.y * blockDim.x)
    (hfit : gridDim.x * gridDim.y * blockDim.x ≤ 2 ^ 31)
    (hzin : 2 * n ≤ zin.length) (hdout : n ≤ dout.length) (hint : 2 * n ≤ 2 ^ 31) :
    ∃ out, launch_pw_copy_cr_hip_z gridDim blockDim sched zin dout (n : Int) = some out ∧
      out.length = dout.length ∧
      (∀ i, i < n → out[i]? = zin[2 * i]?) ∧
      (∀ j, n ≤ j → out[j]? = dout[j]?) ∧
      (∀ zin2 : List R, zin2.length = zin.length → (∀ i, zin2[2 * i]? = zin[2 * i]?) →
        launch_pw_copy_cr_hip_z gridDim blockDim sched zin2 dout (n : Int) = some out) := by
  obtain ⟨out, h1, h2, h3, h4⟩ := launch_cr_spec gridDim blockDim sched hs zin dout n hcover
    hfit hzin hdout hint
  refine ⟨out, h1, h2, h3, h4, ?_⟩
  intro zin2 hl hre
  obtain ⟨out2, k1, k2, k3, k4⟩ := launch_cr_spec gridDim blockDim sched hs zin2 dout n hcover
    hfit (by omega) hdout hint
  rw [k1]
  congr 1
  apply List.ext_getElem?
  intro j
  by_cases hj : j < n
  · rw [k3 j hj, h3 j hj, hre]
  · rw [k4 j (by omega), h4 j (by omega)]

/-- Witness of C7: two complex numbers contracted by a block of two threads. -/
theorem C7_contract_witness :
    ∃ out, launch_pw_copy_cr_hip_z ⟨1, 1, 1⟩ ⟨2, 1, 1⟩ (allThreads ⟨1, 1, 1⟩ ⟨2, 1, 1⟩)
        [(1 : Int), 2, 3, 4] [0, 0, 8] ((2 : Nat) : Int) = some out ∧
      out.length = [(0 : Int), 0, 8].length ∧
      (∀ i, i < 2 → out[i]? = [(1 : Int), 2, 3, 4][2 * i]?) ∧
      (∀ j, 2 ≤ j → out[j]? = [(0 : Int), 0, 8][j]?) ∧
      (∀ zin2 : List Int, zin2.length = [(1 : Int), 2, 3, 4].length →
        (∀ i, zin2[2 * i]? = [(1 : Int), 2, 3, 4][2 * i]?) →
        launch_pw_copy_cr_hip_z ⟨1, 1, 1⟩ ⟨2, 1, 1⟩ (allThreads ⟨1, 1, 1⟩ ⟨2, 1, 1⟩)
          zin2 [0, 0, 8] ((2 : Nat) : Int) = some out) :=
  C7_contract ⟨1, 1, 1⟩ ⟨2, 1, 1⟩ (allThreads ⟨1, 1, 1⟩ ⟨2, 1, 1⟩) (List.Perm.refl _)
    [(1 : Int), 2, 3, 4] [0, 0, 8] 2 (by decide) (by decide) (by decide) (by decide)
    (by decide)

/-! ## Grid partitioner: the integer square roots against the real ones -/

/-- The block count `(n + t - 1) / t` is the ceiling of the quotient `n / t`. -/
theorem blocks_eq_ceil (n t : Nat) (ht : 0 < t) :
    (((n + t - 1) / t : Nat) : Int) = ⌈(n : ℝ) / (t : ℝ)⌉ := by
  symm
  rw [Int.ceil_eq_iff]
  have htr : (0 : ℝ) < (t : ℝ) := by exact_mod_cast ht
  have h1 : (n + t - 1) / t * t ≤ n + t - 1 := Nat.div_mul_le_self _ _
  have h2 : n + t - 1 < ((n + t - 1) / t + 1) * t := by
    have := Nat.lt_div_mul_add (a := n + t - 1) ht
    rw [Nat.add_mul, Nat.one_mul]
    exact this
  generalize (n + t - 1) / t = q at h1 h2
  have h2b : n ≤ q * t := by
    rw [Nat.add_mul, Nat.one_mul] at h2
    omega
  constructor
  · rw [lt_div_iff₀ htr]
    have h3 : ((q * t : Nat) : ℝ) < (n : ℝ) + (t : ℝ) := by
      have : q * t < n + t := by omega
      exact_mod_cast this
    push_cast at h3 ⊢
    linarith
  · rw [div_le_iff₀ htr]
    exact_mod_cast h2b

/-- The model `ceil_sqrt` is the ceiling of the real square root. -/
theorem ceil_sqrt_eq_ceil (B : Nat) : (ceil_sqrt (B : Int) : Int) = ⌈Real.sqrt (B : ℝ)⌉ := by
  obtain ⟨h1, h2⟩ := sqrt_bounds B
  have hlo : ((Nat.sqrt B : Nat) : ℝ) ≤ Real.sqrt (B : ℝ) := Real.nat_sqrt_le_real_sqrt
  have hhi : Real.sqrt (B : ℝ) < ((Nat.sqrt B : Nat) : ℝ) + 1 := Real.real_sqrt_lt_nat_sqrt_succ
  simp only [ceil_sqrt_natCast]
  symm
  rw [Int.ceil_eq_iff]
  by_cases hsq : Nat.sqrt B * Nat.sqrt B = B
  · rw [if_pos hsq]
    have hB : (B : ℝ) = ((Nat.sqrt B : Nat) : ℝ) * ((Nat.sqrt B : Nat) : ℝ) := by
      exact_mod_cast hsq.symm
    have : Real.sqrt (B : ℝ) = ((Nat.sqrt B : Nat) : ℝ) := by
      rw [hB]
      exact Real.sqrt_mul_self (Nat.cast_nonneg _)
    rw [this]
    push_cast
    constructor <;> linarith
  · rw [if_neg hsq]
    have hlt : Nat.sqrt B * Nat.sqrt B < B := lt_of_le_of_ne h1 hsq
    have hlo2 : ((Nat.sqrt B : Nat) : ℝ) < Real.sqrt (B : ℝ) := by
      rw [Real.lt_sqrt (Nat.cast_nonneg _)]
      have : ((Nat.sqrt B * Nat.sqrt B : Nat) : ℝ) < (B : ℝ) := by exact_mod_cast hlt
      push_cast at this
      nlinarith
    push_cast
    constructor <;> linarith

/-- The model `rint_sqrt` is the real square root rounded to the nearest integer
(the square root of an integer is never a half-integer, so no tie arises). -/
theorem rint_sqrt_eq_round (B : Nat) : (rint_sqrt (B : Int) : Int) = round (Real.sqrt (B : ℝ)) := by
  obtain ⟨h1, h2⟩ := sqrt_bounds B
  have hlo : ((Nat.sqrt B : Nat) : ℝ) ≤ Real.sqrt (B : ℝ) := Real.nat_sqrt_le_real_sqrt
  have hhi : Real.sqrt (B : ℝ) < ((Nat.sqrt B : Nat) : ℝ) + 1 := Real.real_sqrt_lt_nat_sqrt_succ
  simp only [rint_sqrt, Int.toNat_ofNat]
  symm
  rw [round_eq, Int.floor_eq_iff]
  have hk0 : (0 : ℝ) ≤ ((Nat.sqrt B : Nat) : ℝ) := Nat.cast_nonneg _
  by_cases hr : B ≤ Nat.sqrt B * Nat.sqrt B + Nat.sqrt B
  · rw [if_pos hr]
    have hlt : Real.sqrt (B : ℝ) < ((Nat.sqrt B : Nat) : ℝ) + 1 / 2 := by
      rw [Real.sqrt_lt' (by linarith)]
      have : (B : ℝ) ≤ ((Nat.sqrt B * Nat.sqrt B + Nat.sqrt B : Nat) : ℝ) := by exact_mod_cast hr
      push_cast at this
      nlinarith
    push_cast
    constructor <;> linarith
  · rw [if_neg hr]
    have hge : ((Nat.sqrt B : Nat) : ℝ) + 1 / 2 ≤ Real.sqrt (B : ℝ) := by
      rw [Real.le_sqrt' (by linarith)]
      have : ((Nat.sqrt B * Nat.sqrt B + Nat.sqrt B + 1 : Nat) : ℝ) ≤ (B : ℝ) := by
        exact_mod_cast (by omega : Nat.sqrt B * Nat.sqrt B + Nat.sqrt B + 1 ≤ B)
      push_cast at this
      nlinarith
    push_cast
    constructor <;> linarith

/-- The second grid extent never exceeds the first. -/
theorem rint_sqrt_le_ceil_sqrt (x : Int) : rint_sqrt x ≤ ceil_sqrt x := by
  obtain ⟨h1, h2⟩ := sqrt_bounds x.toNat
  by_cases hx : x < 0
  · have h0 : x.toNat = 0 := Int.toNat_eq_zero.mpr (by omega)
    rw [ceil_sqrt_neg x hx]
    simp only [rint_sqrt, h0, Nat.sqrt_zero]
    decide
  simp only [ceil_sqrt, rint_sqrt, if_neg hx]
  generalize Nat.sqrt x.toNat = k at h1 h2
  by_cases hsq : k * k = x.toNat
  · rw [if_pos hsq, if_pos (by omega)]
  · rw [if_neg hsq]
    by_cases hr : x.toNat ≤ k * k + k
    · rw [if_pos hr]; omega
    · rw [if_neg hr]

/-- On the `int` range the partitioner never reaches the grid limit. -/
theorem ceil_sqrt_le_MAXGRIDX (B : Nat) (hB : B < 2 ^ 31) : ceil_sqrt (B : Int) ≤ MAXGRIDX := by
  obtain ⟨_, _, h3⟩ := grid_blocks_bounds B
  have hk : Nat.sqrt B < 46341 := by
    rw [Nat.sqrt_lt]
    omega
  simp only [MAXGRIDX]
  omega

/-- Robustness of the integer model against the rounding of `sqrt`: on the `int`
range, every real `x` that lies within `2 ^ (-20)` of the square root of `B`, and
is exact when `B` is a perfect square, has the ceiling `ceil_sqrt B` and rounds
to `rint_sqrt B`.  A correctly rounded double-precision `sqrt` is such an `x`:
its relative error is at most `2 ^ (-53)`, the root is below `2 ^ 16`, and the
root of a perfect square is an integer, which a double represents exactly. -/
theorem ceil_rint_of_rounded_sqrt (B : Nat) (hB : B < 2 ^ 31) (x : ℝ)
    (hexact : Nat.sqrt B * Nat.sqrt B = B → x = (Nat.sqrt B : ℝ))
    (herr : |x - Real.sqrt (B : ℝ)| ≤ 1 / 2 ^ 20) :
    ⌈x⌉ = (ceil_sqrt (B : Int) : Int) ∧ round x = (rint_sqrt (B : Int) : Int) := by
  obtain ⟨h1, h2⟩ := sqrt_bounds B
  have hs0 : (0 : ℝ) ≤ Real.sqrt (B : ℝ) := Real.sqrt_nonneg _
  have hss : Real.sqrt (B : ℝ) * Real.sqrt (B : ℝ) = (B : ℝ) :=
    Real.mul_self_sqrt (Nat.cast_nonneg _)
  have hlo : ((Nat.sqrt B : Nat) : ℝ) ≤ Real.sqrt (B : ℝ) := Real.nat_sqrt_le_real_sqrt
  have hhi : Real.sqrt (B : ℝ) < ((Nat.sqrt B : Nat) : ℝ) + 1 := Real.real_sqrt_lt_nat_sqrt_succ
  have hkN : Nat.sqrt B < 46341 := by
    rw [Nat.sqrt_lt]
    omega
  have hk0 : (0 : ℝ) ≤ ((Nat.sqrt B : Nat) : ℝ) := Nat.cast_nonneg _
  have hk1 : ((Nat.sqrt B : Nat) : ℝ) ≤ 46340 := by
    exact_mod_cast (by omega : Nat.sqrt B ≤ 46340)
  obtain ⟨hx1, hx2⟩ := abs_le.mp herr
  simp only [ceil_sqrt_natCast, rint_sqrt, Int.toNat_ofNat]
  have hh1 : (B : ℝ) ≤ ((Nat.sqrt B * Nat.sqrt B + 2 * Nat.sqrt B : Nat) : ℝ) := by
    exact_mod_cast (by
      have e1 : (Nat.sqrt B + 1) * (Nat.sqrt B + 1)
          = Nat.sqrt B * Nat.sqrt B + 2 * Nat.sqrt B + 1 := by ring
      omega : B ≤ Nat.sqrt B * Nat.sqrt B + 2 * Nat.sqrt B)
  push_cast at hh1
  generalize Real.sqrt (B : ℝ) = s at *
  generalize hk : ((Nat.sqrt B : Nat) : ℝ) = k at *
  by_cases hsq : Nat.sqrt B * Nat.sqrt B = B
  · have hxk := hexact hsq
    rw [if_pos hsq, if_pos (by omega), hxk]
    constructor
    · rw [← hk]; exact Int.ceil_natCast _
    · rw [← hk]; exact round_natCast _
  · have hlt : Nat.sqrt B * Nat.sqrt B + 1 ≤ B := by omega
    have hh2 : ((Nat.sqrt B * Nat.sqrt B + 1 : Nat) : ℝ) ≤ (B : ℝ) := by exact_mod_cast hlt
    push_cast at hh2
    rw [hk] at hh2
    rw [if_neg hsq]
    have hA : k + 1 / 2 ^ 19 < s := by
      by_contra hc
      have hc2 : s ≤ k + 1 / 2 ^ 19 := not_lt.mp hc
      have hm : s * s ≤ (k + 1 / 2 ^ 19) * (k + 1 / 2 ^ 19) := mul_self_le_mul_self hs0 hc2
      have e : (k + 1 / 2 ^ 19) * (k + 1 / 2 ^ 19)
          = k * k + 1 / 2 ^ 18 * k + 1 / 2 ^ 38 := by ring
      norm_num at e hm
      linarith
    have hBu : s ≤ k + 1 - 1 / 2 ^ 20 := by
      by_contra hc
      have hc2 : k + 1 - 1 / 2 ^ 20 < s := not_le.mp hc
      have hpos : (0 : ℝ) ≤ k + 1 - 1 / 2 ^ 20 := by norm_num; linarith
      have hm : (k + 1 - 1 / 2 ^ 20) * (k + 1 - 1 / 2 ^ 20) < s * s :=
        mul_self_lt_mul_self hpos hc2
      have e : (k + 1 - 1 / 2 ^ 20) * (k + 1 - 1 / 2 ^ 20)
          = k * k + 2 * k + 1 - 1 / 2 ^ 19 * k - 1 / 2 ^ 19 + 1 / 2 ^ 40 := by ring
      norm_num at e hm
      linarith
    constructor
    · rw [Int.ceil_eq_iff]
      push_cast
      rw [hk]
      constructor
      · norm_num at hA hx1 ⊢; linarith
      · norm_num at hBu hx2 ⊢; linarith
    · rw [round_eq, Int.floor_eq_iff]
      by_cases hr : B ≤ Nat.sqrt B * Nat.sqrt B + Nat.sqrt B
      · rw [if_pos hr]
        have hh3 : (B : ℝ) ≤ ((Nat.sqrt B * Nat.sqrt B + Nat.sqrt B : Nat) : ℝ) := by
          exact_mod_cast hr
        push_cast at hh3
        rw [hk] at hh3
        have hC : s < k + 1 / 2 - 1 / 2 ^ 20 := by
          by_contra hc
          have hc2 : k + 1 / 2 - 1 / 2 ^ 20 ≤ s := not_lt.mp hc
          have hpos : (0 : ℝ) ≤ k + 1 / 2 - 1 / 2 ^ 20 := by norm_num; linarith
          have hm : (k + 1 / 2 - 1 / 2 ^ 20) * (k + 1 / 2 - 1 / 2 ^ 20) ≤ s * s :=
            mul_self_le_mul_self hpos hc2
          have e : (k + 1 / 2 - 1 / 2 ^ 20) * (k + 1 / 2 - 1 / 2 ^ 20)
              = k * k + k + 1 / 4 - 1 / 2 ^ 19 * k - 1 / 2 ^ 20 + 1 / 2 ^ 40 := by ring
          norm_num at e hm
          linarith
        push_cast
        rw [hk]
        constructor
        · norm_num at hx1 ⊢; linarith
        · norm_num at hC hx2 ⊢; linarith
      · rw [if_neg hr]
        have hh3 : ((Nat.sqrt B * Nat.sqrt B + Nat.sqrt B + 1 : Nat) : ℝ) ≤ (B : ℝ) := by
          exact_mod_cast (by omega : Nat.sqrt B * Nat.sqrt B + Nat.sqrt B + 1 ≤ B)
        push_cast at hh3
        rw [hk] at hh3
        have hD : k + 1 / 2 + 1 / 2 ^ 20 ≤ s := by
          by_contra hc
          have hc2 : s < k + 1 / 2 + 1 / 2 ^ 20 := not_le.mp hc
          have hm : s * s < (k + 1 / 2 + 1 / 2 ^ 20) * (k + 1 / 2 + 1 / 2 ^ 20) :=
            mul_self_lt_mul_self hs0 hc2
          have e : (k + 1 / 2 + 1 / 2 ^ 20) * (k + 1 / 2 + 1 / 2 ^ 20)
              = k * k + k + 1 / 4 + 1 / 2 ^ 19 * k + 1 / 2 ^ 20 + 1 / 2 ^ 40 := by ring
          norm_num at e hm
          linarith
        push_cast
        rw [hk]
        constructor
        · norm_num at hD hx1 ⊢; linarith
        · norm_num at hx2 ⊢; linarith

/-- The block count is the conversion of an `unsigned` value: it is below `2 ^ 31`. -/
theorem grid_blocks_lt (ngpts blocksize : Int) : grid_blocks ngpts blocksize < 2 ^ 31 := by
  have hu : (toUInt32 ngpts + grid_threads blocksize + (2 ^ 32 - 1)) % 2 ^ 32
      / grid_threads blocksize < 2 ^ 32 :=
    lt_of_le_of_lt (Nat.div_le_self _ _) (Nat.mod_lt _ (by decide))
  unfold grid_blocks toInt32
  generalize (toUInt32 ngpts + grid_threads blocksize + (2 ^ 32 - 1)) % 2 ^ 32
    / grid_threads blocksize = u at hu
  by_cases h : u < 2 ^ 31
  · rw [if_pos h]
    exact_mod_cast h
  · rw [if_neg h]
    omega

/-! ## Claims on the grid partitioner -/

/-- C14. Grid partitioner covers all blocks: for every item count `n ≥ 1` and
block size `b ≥ 1` (both `int`), with `t = min b 1024` and `blocks` the ceiling
of `n / t`, `get_grid_params` returns `threadsPerBlock = (t, 1, 1)` and
`blocksPerGrid = (gx, gy, 1)` where `gx` is the ceiling of the real square root
of `blocks`, `gy` is that square root rounded to the nearest integer, and
`gx * gy ≥ blocks`. -/
theorem C14_grid_covers_blocks (n b : Nat) (hn : 1 ≤ n) (hn2 : n < 2 ^ 31) (hb : 1 ≤ b)
    (hb2 : b < 2 ^ 31) :
    ∃ t blocks gx gy : Nat, t = min b 1024 ∧ (blocks : Int) = ⌈(n : ℝ) / (t : ℝ)⌉ ∧
      get_grid_params (n : Int) (b : Int) = some (⟨t, 1, 1⟩, ⟨gx, gy, 1⟩) ∧
      (gx : Int) = ⌈Real.sqrt (blocks : ℝ)⌉ ∧ (gy : Int) = round (Real.sqrt (blocks : ℝ)) ∧
      blocks ≤ gx * gy := by
  have h1 : 1 ≤ n := hn
  have heq := get_grid_params_eq n b hb hb2 hn2
  have ht1 : 1 ≤ min b MAXTHREADS := Nat.le_min.mpr ⟨hb, by decide⟩
  have hB : (n + min b MAXTHREADS - 1) / min b MAXTHREADS < 2 ^ 31 := by
    have : (n + min b MAXTHREADS - 1) / min b MAXTHREADS ≤ n := by
      rw [Nat.div_le_iff_le_mul_add_pred (by omega)]
      have h3 : n ≤ n * min b MAXTHREADS := Nat.le_mul_of_pos_right n (by omega)
      have h4 : n * min b MAXTHREADS = min b MAXTHREADS * n := Nat.mul_comm _ _
      omega
    omega
  have hlim := ceil_sqrt_le_MAXGRIDX _ hB
  rw [if_neg (by omega)] at heq
  exact ⟨min b MAXTHREADS, (n + min b MAXTHREADS - 1) / min b MAXTHREADS, _, _, rfl,
    blocks_eq_ceil n _ (by omega), heq, ceil_sqrt_eq_ceil _, rint_sqrt_eq_round _,
    (grid_blocks_bounds _).1⟩

/-- Witness of C14: 1025 items with block size 2000 give 2 blocks of 1024 threads on
a 2 x 1 grid. -/
theorem C14_grid_covers_blocks_witness :
    ∃ t blocks gx gy : Nat, t = min 2000 1024 ∧ (blocks : Int) = ⌈((1025 : Nat) : ℝ) / (t : ℝ)⌉ ∧
      get_grid_params ((1025 : Nat) : Int) ((2000 : Nat) : Int)
        = some (⟨t, 1, 1⟩, ⟨gx, gy, 1⟩) ∧
      (gx : Int) = ⌈Real.sqrt (blocks : ℝ)⌉ ∧ (gy : Int) = round (Real.sqrt (blocks : ℝ)) ∧
      blocks ≤ gx * gy :=
  C14_grid_covers_blocks 1025 2000 (by decide) (by decide) (by decide) (by decide)

/-- C15. Grid capacity: for every item count `n ≥ 1` and block size `b ≥ 1` (both
`int`) the geometry returned by `get_grid_params` has at least `n` threads:
`blocksPerGrid.x * blocksPerGrid.y * threadsPerBlock.x ≥ n`. -/
theorem C15_grid_capacity (n b : Nat) (hn : 1 ≤ n) (hn2 : n < 2 ^ 31) (hb : 1 ≤ b)
    (hb2 : b < 2 ^ 31) :
    ∃ threadsPerBlock blocksPerGrid,
      get_grid_params (n : Int) (b : Int) = some (threadsPerBlock, blocksPerGrid) ∧
      n ≤ blocksPerGrid.x * blocksPerGrid.y * threadsPerBlock.x := by
  have h1 : 1 ≤ n := hn
  have heq := get_grid_params_eq n b hb hb2 hn2
  have ht1 : 1 ≤ min b MAXTHREADS := Nat.le_min.mpr ⟨hb, by decide⟩
  have hdiv : n ≤ (n + min b MAXTHREADS - 1) / min b MAXTHREADS * min b MAXTHREADS := by
    have h2 : n + min b MAXTHREADS - 1
        < ((n + min b MAXTHREADS - 1) / min b MAXTHREADS + 1) * min b MAXTHREADS := by
      have := Nat.lt_div_mul_add (a := n + min b MAXTHREADS - 1) (b := min b MAXTHREADS)
        (by omega)
      rw [Nat.add_mul, Nat.one_mul]
      exact this
    rw [Nat.add_mul, Nat.one_mul] at h2
    omega
  have hB : (n + min b MAXTHREADS - 1) / min b MAXTHREADS < 2 ^ 31 := by
    have : (n + min b MAXTHREADS - 1) / min b MAXTHREADS ≤ n := by
      rw [Nat.div_le_iff_le_mul_add_pred (by omega)]
      have h3 : n ≤ n * min b MAXTHREADS := Nat.le_mul_of_pos_right n (by omega)
      have h4 : n * min b MAXTHREADS = min b MAXTHREADS * n := Nat.mul_comm _ _
      omega
    omega
  have hlim := ceil_sqrt_le_MAXGRIDX _ hB
  rw [if_neg (by omega)] at heq
  refine ⟨_, _, heq, ?_⟩
  dsimp only
  exact le_trans hdiv (Nat.mul_le_mul_right _ (grid_blocks_bounds _).1)

/-- Witness of C15: the three item counts named by the claim, with block size 1024. -/
theorem C15_grid_capacity_witness :
    (∃ threadsPerBlock blocksPerGrid,
      get_grid_params ((1 : Nat) : Int) ((1024 : Nat) : Int)
        = some (threadsPerBlock, blocksPerGrid) ∧
      1 ≤ blocksPerGrid.x * blocksPerGrid.y * threadsPerBlock.x) ∧
    (∃ threadsPerBlock blocksPerGrid,
      get_grid_params ((1024 : Nat) : Int) ((1024 : Nat) : Int)
        = some (threadsPerBlock, blocksPerGrid) ∧
      1024 ≤ blocksPerGrid.x * blocksPerGrid.y * threadsPerBlock.x) ∧
    (∃ threadsPerBlock blocksPerGrid,
      get_grid_params ((1025 : Nat) : Int) ((1024 : Nat) : Int)
        = some (threadsPerBlock, blocksPerGrid) ∧
      1025 ≤ blocksPerGrid.x * blocksPerGrid.y * threadsPerBlock.x) :=
  ⟨C15_grid_capacity 1 1024 (by decide) (by decide) (by decide) (by decide),
   C15_grid_capacity 1024 1024 (by decide) (by decide) (by decide) (by decide),
   C15_grid_capacity 1025 1024 (by decide) (by decide) (by decide) (by decide)⟩

/-- C16. Grid limit: `get_grid_params` takes its fatal branch exactly when the value
of `ceil(sqrt(blocks))` it has stored in `blocksPerGrid.x` exceeds
`MAXGRIDX = 65535` (it does not return in one other case, the division by a
zero `threadsPerBlock.x`), so whenever it returns, `blocksPerGrid.x ≤ MAXGRIDX`
and `blocksPerGrid.y ≤ blocksPerGrid.x`; and for every `int` item count
`1 ≤ n ≤ 2 ^ 31 - 1` and block size `b ≥ 1` the limit is not exceeded and the
call returns.  The fatal branch is reached only with a negative block count
(whose square root is a NaN), as for `ngpts = -1` and `blocksize = 1`. -/
theorem C16_grid_limit (n b : Nat) (hn : 1 ≤ n) (hn2 : n ≤ 2 ^ 31 - 1) (hb : 1 ≤ b)
    (hb2 : b < 2 ^ 31) :
    (∃ threadsPerBlock blocksPerGrid,
      get_grid_params (n : Int) (b : Int) = some (threadsPerBlock, blocksPerGrid) ∧
      blocksPerGrid.x ≤ MAXGRIDX ∧ blocksPerGrid.y ≤ blocksPerGrid.x) ∧
    (∀ ngpts blocksize : Int,
      (get_grid_params ngpts blocksize = none ↔
        grid_threads blocksize = 0 ∨ MAXGRIDX < ceil_sqrt (grid_blocks ngpts blocksize)) ∧
      (grid_threads blocksize ≠ 0 →
        (MAXGRIDX < ceil_sqrt (grid_blocks ngpts blocksize) ↔
          grid_blocks ngpts blocksize < 0)) ∧
      ∀ threadsPerBlock blocksPerGrid,
        get_grid_params ngpts blocksize = some (threadsPerBlock, blocksPerGrid) →
        threadsPerBlock.x = grid_threads blocksize ∧
        blocksPerGrid.x = ceil_sqrt (grid_blocks ngpts blocksize) ∧
        blocksPerGrid.x ≤ MAXGRIDX ∧ blocksPerGrid.y ≤ blocksPerGrid.x) ∧
    get_grid_params (-1) 1 = none ∧ grid_threads 1 = 1 ∧ grid_blocks (-1) 1 = -1 ∧
    ceil_sqrt (-1) = 2147483648 := by
  have hdef : ∀ ngpts blocksize : Int, get_grid_params ngpts blocksize =
      if grid_threads blocksize = 0 then none
      else if ceil_sqrt (grid_blocks ngpts blocksize) > MAXGRIDX then none
      else some (⟨grid_threads blocksize, 1, 1⟩,
        ⟨ceil_sqrt (grid_blocks ngpts blocksize), rint_sqrt (grid_blocks ngpts blocksize),
          1⟩) := fun _ _ => rfl
  have hgen : ∀ ngpts blocksize : Int, ∀ threadsPerBlock blocksPerGrid,
      get_grid_params ngpts blocksize = some (threadsPerBlock, blocksPerGrid) →
      threadsPerBlock.x = grid_threads blocksize ∧
      blocksPerGrid.x = ceil_sqrt (grid_blocks ngpts blocksize) ∧
      blocksPerGrid.x ≤ MAXGRIDX ∧ blocksPerGrid.y ≤ blocksPerGrid.x := by
    intro ngpts blocksize tpb bpg h
    rw [hdef] at h
    by_cases ht : grid_threads blocksize = 0
    · rw [if_pos ht] at h
      exact absurd h (by simp)
    rw [if_neg ht] at h
    generalize grid_blocks ngpts blocksize = E at h
    by_cases hgt : ceil_sqrt E > MAXGRIDX
    · rw [if_pos hgt] at h
      exact absurd h (by simp)
    · rw [if_neg hgt] at h
      simp only [Option.some.injEq, Prod.mk.injEq] at h
      obtain ⟨rfl, rfl⟩ := h
      exact ⟨rfl, rfl, Nat.le_of_not_lt hgt, rint_sqrt_le_ceil_sqrt _⟩
  refine ⟨?_, fun ngpts blocksize => ⟨?_, ?_, hgen ngpts blocksize⟩, by decide, by decide,
    by decide, by decide⟩
  · have h1 : 1 ≤ n := hn
    have heq := get_grid_params_eq n b hb hb2 (by omega)
    have ht1 : 1 ≤ min b MAXTHREADS := Nat.le_min.mpr ⟨hb, by decide⟩
    have hB : (n + min b MAXTHREADS - 1) / min b MAXTHREADS < 2 ^ 31 := by
      have : (n + min b MAXTHREADS - 1) / min b MAXTHREADS ≤ n := by
        rw [Nat.div_le_iff_le_mul_add_pred (by omega)]
        have h3 : n ≤ n * min b MAXTHREADS := Nat.le_mul_of_pos_right n (by omega)
        have h4 : n * min b MAXTHREADS = min b MAXTHREADS * n := Nat.mul_comm _ _
        omega
      omega
    have hlim := ceil_sqrt_le_MAXGRIDX _ hB
    rw [if_neg (by omega)] at heq
    obtain ⟨_, _, h3, h4⟩ := hgen _ _ _ _ heq
    exact ⟨_, _, heq, h3, h4⟩
  · rw [hdef]
    by_cases ht : grid_threads blocksize = 0
    · rw [if_pos ht]
      exact ⟨fun _ => Or.inl ht, fun _ => rfl⟩
    rw [if_neg ht]
    by_cases hgt : ceil_sqrt (grid_blocks ngpts blocksize) > MAXGRIDX
    · rw [if_pos hgt]
      exact ⟨fun _ => Or.inr hgt, fun _ => rfl⟩
    · rw [if_neg hgt]
      exact ⟨fun h => absurd h (by simp), fun h => h.elim (fun h0 => absurd h0 ht)
        (fun h1 => absurd h1 hgt)⟩
  · intro ht
    constructor
    · intro hgt
      by_contra hnn
      have hE : grid_blocks ngpts blocksize = ((grid_blocks ngpts blocksize).toNat : Int) :=
        (Int.toNat_of_nonneg (by omega)).symm
      have hlt : (grid_blocks ngpts blocksize).toNat < 2 ^ 31 := by
        have := grid_blocks_lt ngpts blocksize
        omega
      have := ceil_sqrt_le_MAXGRIDX _ hlt
      rw [← hE] at this
      omega
    · intro hneg
      rw [ceil_sqrt_neg _ hneg]
      decide

/-- Witness of C16: the largest `int` item count with one thread per block. -/
theorem C16_grid_limit_witness :
    (∃ threadsPerBlock blocksPerGrid,
      get_grid_params ((2147483647 : Nat) : Int) ((1 : Nat) : Int)
        = some (threadsPerBlock, blocksPerGrid) ∧
      blocksPerGrid.x ≤ MAXGRIDX ∧ blocksPerGrid.y ≤ blocksPerGrid.x) ∧
    (∀ ngpts blocksize : Int,
      (get_grid_params ngpts blocksize = none ↔
        grid_threads blocksize = 0 ∨ MAXGRIDX < ceil_sqrt (grid_blocks ngpts blocksize)) ∧
      (grid_threads blocksize ≠ 0 →
        (MAXGRIDX < ceil_sqrt (grid_blocks ngpts blocksize) ↔
          grid_blocks ngpts blocksize < 0)) ∧
      ∀ threadsPerBlock blocksPerGrid,
        get_grid_params ngpts blocksize = some (threadsPerBlock, blocksPerGrid) →
        threadsPerBlock.x = grid_threads blocksize ∧
        blocksPerGrid.x = ceil_sqrt (grid_blocks ngpts blocksize) ∧
        blocksPerGrid.x ≤ MAXGRIDX ∧ blocksPerGrid.y ≤ blocksPerGrid.x) ∧
    get_grid_params (-1) 1 = none ∧ grid_threads 1 = 1 ∧ grid_blocks (-1) 1 = -1 ∧
    ceil_sqrt (-1) = 2147483648 :=
  C16_grid_limit 2147483647 1 (by decide) (by decide) (by decide) (by decide)

end PwHip

namespace FftHip

/-! ## Plan cache: the lookup loop -/

theorem scan_plans_none (s : PlanCache) (key : Row) (fuel i : Nat) :
    scan_plans s key i fuel = none ↔
      ∀ j, i ≤ j → j < i + fuel → s.iplandims[j]? ≠ some key := by
  induction fuel generalizing i with
  | zero =>
    simp only [scan_plans, true_iff]
    intro j h1 h2
    omega
  | succ fuel ih =>
    simp only [scan_plans]
    by_cases h : s.iplandims[i]? = some key
    · rw [if_pos h]
      constructor
      · intro hc; exact Option.noConfusion hc
      · intro hc; exact absurd h (hc i (Nat.le_refl _) (by omega))
    · rw [if_neg h, ih]
      constructor
      · intro hc j h1 h2
        by_cases hji : j = i
        · rw [hji]; exact h
        · exact hc j (by omega) (by omega)
      · intro hc j h1 h2
        exact hc j (by omega) (by omega)

theorem scan_plans_some (s : PlanCache) (key : Row) (fuel i k : Nat) :
    scan_plans s key i fuel = some k ↔
      (i ≤ k ∧ k < i + fuel ∧ s.iplandims[k]? = some key ∧
        ∀ j, i ≤ j → j < k → s.iplandims[j]? ≠ some key) := by
  induction fuel generalizing i with
  | zero =>
    simp only [scan_plans]
    constructor
    · intro hc; exact Option.noConfusion hc
    · rintro ⟨h1, h2, _⟩; omega
  | succ fuel ih =>
    simp only [scan_plans]
    by_cases h : s.iplandims[i]? = some key
    · rw [if_pos h]
      constructor
      · intro hc
        have : i = k := Option.some.inj hc
        subst this
        exact ⟨Nat.le_refl _, by omega, h, fun j h1 h2 => by omega⟩
      · rintro ⟨h1, _, _, h4⟩
        by_cases hik : i = k
        · rw [hik]
        · exact absurd h (h4 i (Nat.le_refl _) (by omega))
    · rw [if_neg h, ih]
      constructor
      · rintro ⟨h1, h2, h3, h4⟩
        refine ⟨by omega, by omega, h3, ?_⟩
        intro j hj1 hj2
        by_cases hji : j = i
        · rw [hji]; exact h
        · exact h4 j (by omega) hj2
      · rintro ⟨h1, h2, h3, h4⟩
        have hik : i ≠ k := by
          intro hc
          rw [hc] at h
          exact h h3
        exact ⟨by omega, by omega, h3, fun j hj1 hj2 => h4 j (by omega) hj2⟩

/-- A hit is not disturbed by a state that keeps the rows up to the hit slot and
does not shrink the occupied count. -/
theorem scan_plans_mono (s s2 : PlanCache) (key : Row) (k : Nat)
    (h : scan_plans s key 0 s.n_plans = some k) (hn : s.n_plans ≤ s2.n_plans)
    (hrows : ∀ j, j ≤ k → s2.iplandims[j]? = s.iplandims[j]?) :
    scan_plans s2 key 0 s2.n_plans = some k := by
  rw [scan_plans_some] at h ⊢
  obtain ⟨h1, h2, h3, h4⟩ := h
  refine ⟨h1, by omega, by rw [hrows k (Nat.le_refl _)]; exact h3, ?_⟩
  intro j hj1 hj2
  rw [hrows j (by omega)]
  exact h4 j hj1 hj2

/-! ## Plan cache: the three plan routines through `acquire` -/

/-- Every plan routine is: look the key up; on a hit return the saved handle, on
a miss build the plan and run the common tail with the routine's capacity. -/
theorem acquire_eq (lim : fft_hip_internal) (s : PlanCache) (req : Request) (fresh : Nat) :
    acquire lim s req fresh =
      match scan_plans s req.key 0 s.n_plans with
      | some i => (s.saved_plans[i]?).map fun plan => (plan, 0, s)
      | none => store_plan (req.cap lim) s req.key (req.newPlan fresh) := by
  cases req with
  | plan3d n0 n1 n2 => rfl
  | plan2dm n0 n1 n2 fsign =>
    simp only [acquire, ffthip_plan2dm_z, Request.key, Request.cap, Request.newPlan]
    cases scan_plans s (2, n0, n1, n2, fsign) 0 s.n_plans with
    | some i => rfl
    | none =>
      by_cases h : fsign = 1
      · simp only [h, if_true]
      · simp only [h, if_false]
  | plan1dm n m fsign =>
    simp only [acquire, ffthip_plan1dm_z, Request.key, Request.cap, Request.newPlan]
    cases scan_plans s (1, n, m, 0, fsign) 0 s.n_plans with
    | some i => rfl
    | none =>
      by_cases h : fsign = 1
      · simp only [h, if_true]
      · simp only [h, if_false]

/-! ## Claims on the plan cache -/

/-- C8. Plan cache hit: for every cache state (arrays holding at least `n_plans`
slots) and every request whose key (rank class, extents, direction; direction
`0` for the 3-D class) equals the row of an occupied slot `i`, the plan routine
selected by the request returns `ioverflow = 0`, leaves `n_plans` and both
arrays unchanged, and returns the handle saved in the first slot `j <= i` that
holds this key; this is slot `i` itself whenever no earlier slot holds the key,
in particular whenever the keys of the occupied slots are pairwise distinct.
And for every state, if an acquisition ends with its plan in the cache
(`ioverflow = 0`), acquiring the same key again returns the same handle with
`ioverflow = 0` and leaves the state, hence the count, as it is. -/
theorem C8_plan_cache_hit (lim : fft_hip_internal) (req : Request) :
    (∀ (s : PlanCache) (i : Nat) (fresh : Nat),
      i < s.n_plans → s.n_plans ≤ s.saved_plans.length → s.iplandims[i]? = some req.key →
      ∃ (j : Nat) (p : hipfftHandle), j ≤ i ∧ s.iplandims[j]? = some req.key ∧
        s.saved_plans[j]? = some p ∧ acquire lim s req fresh = some (p, 0, s) ∧
        ((∀ k, k < i → s.iplandims[k]? ≠ some req.key) → j = i)) ∧
    (∀ (s s1 : PlanCache) (p1 : hipfftHandle) (fresh1 fresh2 : Nat),
      acquire lim s req fresh1 = some (p1, 0, s1) →
      acquire lim s1 req fresh2 = some (p1, 0, s1)) := by
  constructor
  · intro s i fresh hi hlen hkey
    cases hscan : scan_plans s req.key 0 s.n_plans with
    | none =>
      exact absurd hkey ((scan_plans_none s req.key s.n_plans 0).mp hscan i (Nat.zero_le _)
        (by omega))
    | some j =>
      obtain ⟨_, hj2, hj3, hj4⟩ := (scan_plans_some s req.key s.n_plans 0 j).mp hscan
      have hji : j ≤ i := by
        by_contra hc
        exact hj4 i (Nat.zero_le _) (by omega) hkey
      have hp : s.saved_plans[j]? = some s.saved_plans[j] :=
        List.getElem?_eq_getElem (by omega)
      refine ⟨j, _, hji, hj3, hp, ?_, ?_⟩
      · rw [acquire_eq, hscan]
        simp only [hp, Option.map_some']
      · intro hfirst
        by_contra hne
        exact hfirst j (by omega) hj3
  · intro s s1 p1 fresh1 fresh2 h
    rw [acquire_eq] at h
    cases hscan : scan_plans s req.key 0 s.n_plans with
    | some i =>
      rw [hscan] at h
      simp only at h
      cases hp : s.saved_plans[i]? with
      | none => rw [hp] at h; exact Option.noConfusion h
      | some p =>
        rw [hp] at h
        simp only [Option.map_some', Option.some.injEq, Prod.mk.injEq] at h
        obtain ⟨h1, _, h3⟩ := h
        subst h1 h3
        rw [acquire_eq, hscan]
        simp only [hp, Option.map_some']
    | none =>
      rw [hscan] at h
      simp only [store_plan] at h
      by_cases hcap : s.n_plans < req.cap lim
      · rw [if_pos hcap] at h
        by_cases hb : s.n_plans < s.saved_plans.length ∧ s.n_plans < s.iplandims.length
        · rw [if_pos hb] at h
          simp only [Option.some.injEq, Prod.mk.injEq] at h
          obtain ⟨h1, _, h3⟩ := h
          subst h1 h3
          have hscan2 : scan_plans
              (⟨s.n_plans + 1, s.saved_plans.set s.n_plans (req.newPlan fresh1),
                s.iplandims.set s.n_plans req.key⟩ : PlanCache) req.key 0 (s.n_plans + 1)
              = some s.n_plans := by
            rw [scan_plans_some]
            refine ⟨Nat.zero_le _, by omega, ?_, ?_⟩
            · show (s.iplandims.set s.n_plans req.key)[s.n_plans]? = some req.key
              rw [List.getElem?_set_self hb.2]
            · intro j _ hj
              show (s.iplandims.set s.n_plans req.key)[j]? ≠ some req.key
              rw [List.getElem?_set_ne (by omega)]
              exact (scan_plans_none s req.key s.n_plans 0).mp hscan j (Nat.zero_le _) (by omega)
          rw [acquire_eq]
          simp only [hscan2, List.getElem?_set_self hb.1, Option.map_some']
        · rw [if_neg hb] at h
          exact Option.noConfusion h
      · rw [if_neg hcap] at h
        simp only [Option.some.injEq, Prod.mk.injEq] at h
        exact absurd h.2.1 (by decide)

/-- Witness of C8: the 1-D key stored in `exampleCache` hits, and storing a 3-D
plan in the initial state makes the next request for it a hit. -/
theorem C8_plan_cache_hit_witness :
    (∃ (j : Nat) (p : hipfftHandle), j ≤ 0 ∧
        exampleCache.iplandims[j]? = some (Request.plan1dm 4 2 1).key ∧
        exampleCache.saved_plans[j]? = some p ∧
        acquire exampleLimits exampleCache (.plan1dm 4 2 1) 9 = some (p, 0, exampleCache) ∧
        ((∀ k, k < 0 → exampleCache.iplandims[k]? ≠ some (Request.plan1dm 4 2 1).key) →
          j = 0)) ∧
      acquire exampleLimits
        ⟨1, [⟨5, some (.hipfftPlan3d 2 2 2)⟩, ⟨0, none⟩, ⟨0, none⟩, ⟨0, none⟩, ⟨0, none⟩],
          [(3, 2, 2, 2, 0), (0, 0, 0, 0, 0), (0, 0, 0, 0, 0), (0, 0, 0, 0, 0), (0, 0, 0, 0, 0)]⟩
        (.plan3d 2 2 2) 6 =
        some (⟨5, some (.hipfftPlan3d 2 2 2)⟩, 0,
          ⟨1, [⟨5, some (.hipfftPlan3d 2 2 2)⟩, ⟨0, none⟩, ⟨0, none⟩, ⟨0, none⟩, ⟨0, none⟩],
            [(3, 2, 2, 2, 0), (0, 0, 0, 0, 0), (0, 0, 0, 0, 0), (0, 0, 0, 0, 0),
              (0, 0, 0, 0, 0)]⟩) :=
  ⟨(C8_plan_cache_hit exampleLimits (.plan1dm 4 2 1)).1 exampleCache 0 9
      (by decide) (by decide) (by decide),
   (C8_plan_cache_hit exampleLimits (.plan3d 2 2 2)).2 (PlanCache.init exampleLimits) _ _ 5 6
      (by decide)⟩

/-- C9, as amended. The capacity test uses the total count: for every cache state
whose arrays have `max_plans` slots and every request of rank class `r` whose key
is not stored, the plan routine stores the new plan in slot `n_plans` and
returns `ioverflow = 0` exactly when `n_plans`, the number of occupied slots of
all rank classes together, is below the capacity constant of class `r`
(`max_1d_plans`, `max_2d_plans` or `max_3d_plans`, assumed not to exceed
`max_plans`); otherwise it returns `ioverflow = 1` and leaves the cache as it is. -/
theorem C9_capacity_tests_total_count (lim : fft_hip_internal) (s : PlanCache) (req : Request)
    (fresh : Nat)
    (hsp : s.saved_plans.length = lim.max_plans) (hip : s.iplandims.length = lim.max_plans)
    (hcap : req.cap lim ≤ lim.max_plans)
    (hmiss : ∀ j, j < s.n_plans → s.iplandims[j]? ≠ some req.key) :
    (s.n_plans < req.cap lim →
      acquire lim s req fresh = some (req.newPlan fresh, 0,
        ⟨s.n_plans + 1, s.saved_plans.set s.n_plans (req.newPlan fresh),
          s.iplandims.set s.n_plans req.key⟩)) ∧
    (¬ s.n_plans < req.cap lim →
      acquire lim s req fresh = some (req.newPlan fresh, 1, s)) ∧
    ((∃ p s2, acquire lim s req fresh = some (p, 0, s2)) ↔ s.n_plans < req.cap lim) := by
  have hscan : scan_plans s req.key 0 s.n_plans = none := by
    rw [scan_plans_none]
    intro j _ hj
    exact hmiss j (by omega)
  have hA : s.n_plans < req.cap lim →
      acquire lim s req fresh = some (req.newPlan fresh, 0,
        ⟨s.n_plans + 1, s.saved_plans.set s.n_plans (req.newPlan fresh),
          s.iplandims.set s.n_plans req.key⟩) := by
    intro h
    rw [acquire_eq, hscan]
    simp only [store_plan]
    rw [if_pos h, if_pos ⟨by omega, by omega⟩]
  have hB : ¬ s.n_plans < req.cap lim →
      acquire lim s req fresh = some (req.newPlan fresh, 1, s) := by
    intro h
    rw [acquire_eq, hscan]
    simp only [store_plan]
    rw [if_neg h]
  refine ⟨hA, hB, ?_⟩
  constructor
  · rintro ⟨p, s2, h⟩
    by_contra hc
    rw [hB hc] at h
    simp only [Option.some.injEq, Prod.mk.injEq] at h
    exact absurd h.2.1 (by decide)
  · intro h
    exact ⟨_, _, hA h⟩

/-- Witness of C9: with one slot occupied, a 2-D request (capacity 2) is stored. -/
theorem C9_capacity_tests_total_count_witness :
    (exampleCache.n_plans < (Request.plan2dm 2 3 4 1).cap exampleLimits →
      acquire exampleLimits exampleCache (.plan2dm 2 3 4 1) 8 =
        some ((Request.plan2dm 2 3 4 1).newPlan 8, 0,
          ⟨exampleCache.n_plans + 1,
            exampleCache.saved_plans.set exampleCache.n_plans
              ((Request.plan2dm 2 3 4 1).newPlan 8),
            exampleCache.iplandims.set exampleCache.n_plans (Request.plan2dm 2 3 4 1).key⟩)) ∧
    (¬ exampleCache.n_plans < (Request.plan2dm 2 3 4 1).cap exampleLimits →
      acquire exampleLimits exampleCache (.plan2dm 2 3 4 1) 8 =
        some ((Request.plan2dm 2 3 4 1).newPlan 8, 1, exampleCache)) ∧
    ((∃ p s2, acquire exampleLimits exampleCache (.plan2dm 2 3 4 1) 8 = some (p, 0, s2)) ↔
      exampleCache.n_plans < (Request.plan2dm 2 3 4 1).cap exampleLimits) :=
  C9_capacity_tests_total_count exampleLimits exampleCache (.plan2dm 2 3 4 1) 8
    (by decide) (by decide) (by decide)
    (by
      intro j hj
      have hj0 : j = 0 := Nat.lt_one_iff.mp hj
      subst hj0
      decide)

/-- C9 as stated fails.  Under `exampleLimits` (capacity 1 for the 3-D class), store
one 1-D plan in the initial cache: this gives `exampleCache`.  A 3-D request then
misses, the cache holds no 3-D entry at all (`0 < max_3d_plans`), and still the
routine returns `ioverflow = 1` without storing, because it compares the total
count `n_plans = 1` with `max_3d_plans = 1`. -/
theorem C9_capacity_per_class_counterexample :
    acquire exampleLimits (PlanCache.init exampleLimits) (.plan1dm 4 2 1) 7 =
        some (⟨7, some (.hipfftPlanMany 1 [4] [0] 2 1 [0] 1 4 2)⟩, 0, exampleCache) ∧
      scan_plans exampleCache (Request.plan3d 2 2 2).key 0 exampleCache.n_plans = none ∧
      class_count exampleCache (Request.plan3d 2 2 2).rank = 0 ∧
      class_count exampleCache (Request.plan3d 2 2 2).rank
        < (Request.plan3d 2 2 2).cap exampleLimits ∧
      acquire exampleLimits exampleCache (.plan3d 2 2 2) 8 =
        some (⟨8, some (.hipfftPlan3d 2 2 2)⟩, 1, exampleCache) := by
  decide

/-- C10. Overflow neither corrupts nor evicts: for every cache state and every
acquisition, if it returns `ioverflow = 1` the state (`n_plans`, `saved_plans`,
`iplandims`) is unchanged; if it changes the state at all, it stores the
returned plan and the key in slot `n_plans` and increments `n_plans`; in every
case all slots other than `n_plans`, in particular slots `0 .. n_plans - 1`, are
unchanged.  Consequently every key that hit before the acquisition still hits
afterwards and is served the same handle. -/
theorem C10_overflow_keeps_cache (lim : fft_hip_internal) (s s2 : PlanCache) (req : Request)
    (fresh : Nat) (p : hipfftHandle) (iov : Int)
    (h : acquire lim s req fresh = some (p, iov, s2)) :
    (iov = 1 → s2 = s) ∧
    (s2 = s ∨ (iov = 0 ∧ s2.n_plans = s.n_plans + 1 ∧
      s2.saved_plans = s.saved_plans.set s.n_plans p ∧
      s2.iplandims = s.iplandims.set s.n_plans req.key)) ∧
    (∀ j, j ≠ s.n_plans →
      s2.saved_plans[j]? = s.saved_plans[j]? ∧ s2.iplandims[j]? = s.iplandims[j]?) ∧
    (∀ (req2 : Request) (p2 : hipfftHandle), Hits s req2.key p2 →
      Hits s2 req2.key p2 ∧ ∀ fresh2, acquire lim s2 req2 fresh2 = some (p2, 0, s2)) := by
  have hcases : (s2 = s) ∨ (iov = 0 ∧ s2.n_plans = s.n_plans + 1 ∧
      s2.saved_plans = s.saved_plans.set s.n_plans p ∧
      s2.iplandims = s.iplandims.set s.n_plans req.key) := by
    rw [acquire_eq] at h
    cases hscan : scan_plans s req.key 0 s.n_plans with
    | some i =>
      rw [hscan] at h
      simp only at h
      cases hp : s.saved_plans[i]? with
      | none => rw [hp] at h; exact Option.noConfusion h
      | some q =>
        rw [hp] at h
        simp only [Option.map_some', Option.some.injEq, Prod.mk.injEq] at h
        exact Or.inl h.2.2.symm
    | none =>
      rw [hscan] at h
      simp only [store_plan] at h
      by_cases hcap : s.n_plans < req.cap lim
      · rw [if_pos hcap] at h
        by_cases hb : s.n_plans < s.saved_plans.length ∧ s.n_plans < s.iplandims.length
        · rw [if_pos hb] at h
          simp only [Option.some.injEq, Prod.mk.injEq] at h
          obtain ⟨h1, h2, h3⟩ := h
          subst h1 h3
          exact Or.inr ⟨h2.symm, rfl, rfl, rfl⟩
        · rw [if_neg hb] at h
          exact Option.noConfusion h
      · rw [if_neg hcap] at h
        simp only [Option.some.injEq, Prod.mk.injEq] at h
        exact Or.inl h.2.2.symm
  have hslots : ∀ j, j ≠ s.n_plans →
      s2.saved_plans[j]? = s.saved_plans[j]? ∧ s2.iplandims[j]? = s.iplandims[j]? := by
    intro j hj
    rcases hcases with h1 | ⟨_, _, h3, h4⟩
    · rw [h1]; exact ⟨rfl, rfl⟩
    · rw [h3, h4, List.getElem?_set_ne (Ne.symm hj), List.getElem?_set_ne (Ne.symm hj)]
      exact ⟨rfl, rfl⟩
  have hn : s.n_plans ≤ s2.n_plans := by
    rcases hcases with h1 | ⟨_, h2, _, _⟩
    · rw [h1]
    · omega
  refine ⟨?_, hcases, hslots, ?_⟩
  · intro hov
    rcases hcases with h1 | ⟨h0, _, _, _⟩
    · exact h1
    · rw [h0] at hov
      exact absurd hov (by decide)
  · intro req2 p2 hhit
    obtain ⟨i, hi, hpi⟩ := hhit
    have hlt : i < s.n_plans := by
      have := ((scan_plans_some s req2.key s.n_plans 0 i).mp hi).2.1
      omega
    have hi2 : scan_plans s2 req2.key 0 s2.n_plans = some i :=
      scan_plans_mono s s2 req2.key i hi hn (fun j hj => (hslots j (by omega)).2)
    have hpi2 : s2.saved_plans[i]? = some p2 := by
      rw [(hslots i (by omega)).1]; exact hpi
    refine ⟨⟨i, hi2, hpi2⟩, ?_⟩
    intro fresh2
    rw [acquire_eq, hi2]
    simp only [hpi2, Option.map_some']

/-- Witness of C10: the overflowing 3-D acquisition on `exampleCache`. -/
theorem C10_overflow_keeps_cache_witness :
    ((1 : Int) = 1 → exampleCache = exampleCache) ∧
    (exampleCache = exampleCache ∨ ((1 : Int) = 0 ∧
      exampleCache.n_plans = exampleCache.n_plans + 1 ∧
      exampleCache.saved_plans =
        exampleCache.saved_plans.set exampleCache.n_plans ⟨8, some (.hipfftPlan3d 2 2 2)⟩ ∧
      exampleCache.iplandims =
        exampleCache.iplandims.set exampleCache.n_plans (Request.plan3d 2 2 2).key)) ∧
    (∀ j, j ≠ exampleCache.n_plans →
      exampleCache.saved_plans[j]? = exampleCache.saved_plans[j]? ∧
      exampleCache.iplandims[j]? = exampleCache.iplandims[j]?) ∧
    (∀ (req2 : Request) (p2 : hipfftHandle), Hits exampleCache req2.key p2 →
      Hits exampleCache req2.key p2 ∧
      ∀ fresh2, acquire exampleLimits exampleCache req2 fresh2 = some (p2, 0, exampleCache)) :=
  C10_overflow_keeps_cache exampleLimits exampleCache exampleCache (.plan3d 2 2 2) 8
    ⟨8, some (.hipfftPlan3d 2 2 2)⟩ 1 (by decide)

open Hip

/-! ## Plan cache: outcomes of an acquisition and the cache invariants -/

/-- The three outcomes of an acquisition: a hit on the first matching slot, a
miss that stores the new plan in slot `n_plans`, a miss that overflows. -/
theorem acquire_cases (lim : fft_hip_internal) (s s2 : PlanCache) (req : Request) (fresh : Nat)
    (p : hipfftHandle) (iov : Int) (h : acquire lim s req fresh = some (p, iov, s2)) :
    (∃ i, scan_plans s req.key 0 s.n_plans = some i ∧ s.saved_plans[i]? = some p ∧
      iov = 0 ∧ s2 = s) ∨
    (scan_plans s req.key 0 s.n_plans = none ∧ p = req.newPlan fresh ∧
      ((s.n_plans < req.cap lim ∧ s.n_plans < s.saved_plans.length ∧
          s.n_plans < s.iplandims.length ∧ iov = 0 ∧
          s2 = ⟨s.n_plans + 1, s.saved_plans.set s.n_plans (req.newPlan fresh),
            s.iplandims.set s.n_plans req.key⟩) ∨
        (¬ s.n_plans < req.cap lim ∧ iov = 1 ∧ s2 = s))) := by
  rw [acquire_eq] at h
  cases hscan : scan_plans s req.key 0 s.n_plans with
  | some i =>
    rw [hscan] at h
    simp only at h
    cases hp : s.saved_plans[i]? with
    | none => rw [hp] at h; exact Option.noConfusion h
    | some q =>
      rw [hp] at h
      simp only [Option.map_some', Option.some.injEq, Prod.mk.injEq] at h
      obtain ⟨h1, h2, h3⟩ := h
      subst h1
      exact Or.inl ⟨i, rfl, hp, h2.symm, h3.symm⟩
  | none =>
    rw [hscan] at h
    simp only [store_plan] at h
    refine Or.inr ⟨rfl, ?_⟩
    by_cases hcap : s.n_plans < req.cap lim
    · rw [if_pos hcap] at h
      by_cases hb : s.n_plans < s.saved_plans.length ∧ s.n_plans < s.iplandims.length
      · rw [if_pos hb] at h
        simp only [Option.some.injEq, Prod.mk.injEq] at h
        obtain ⟨h1, h2, h3⟩ := h
        exact ⟨h1.symm, Or.inl ⟨hcap, hb.1, hb.2, h2.symm, h3.symm⟩⟩
      · rw [if_neg hb] at h
        exact Option.noConfusion h
    · rw [if_neg hcap] at h
      simp only [Option.some.injEq, Prod.mk.injEq] at h
      obtain ⟨h1, h2, h3⟩ := h
      exact ⟨h1.symm, Or.inr ⟨hcap, h2.symm, h3.symm⟩⟩

/-- The key determines the request. -/
theorem Request.key_inj (req req2 : Request) (h : req.key = req2.key) : req = req2 := by
  cases req <;> cases req2 <;> simp only [Request.key, Prod.mk.injEq] at h <;>
    first
    | (obtain ⟨h0, _⟩ := h; exact absurd h0 (by decide))
    | (obtain ⟨_, h1, h2, h3, h4⟩ := h; subst h1 h2 h3; rfl)
    | (obtain ⟨_, h1, h2, h3, h4⟩ := h; subst h1 h2 h3 h4; rfl)
    | (obtain ⟨_, h1, h2, h3, h4⟩ := h; subst h1 h2 h4; rfl)

/-- The call that builds a plan does not depend on the identity the library picks. -/
theorem Request.newPlan_built (req : Request) (a b : Nat) :
    (req.newPlan a).built = (req.newPlan b).built := by
  cases req with
  | plan3d n0 n1 n2 => rfl
  | plan2dm n0 n1 n2 fsign =>
    simp only [Request.newPlan]
    by_cases h : fsign = 1
    · rw [if_pos h, if_pos h]
    · rw [if_neg h, if_neg h]
  | plan1dm n m fsign =>
    simp only [Request.newPlan]
    by_cases h : fsign = 1
    · rw [if_pos h, if_pos h]
    · rw [if_neg h, if_neg h]

/-- A newly built plan carries its construction call. -/
theorem Request.newPlan_built_isSome (req : Request) (a : Nat) :
    ∃ c, (req.newPlan a).built = some c := by
  cases req with
  | plan3d n0 n1 n2 => exact ⟨_, rfl⟩
  | plan2dm n0 n1 n2 fsign =>
    simp only [Request.newPlan]
    by_cases h : fsign = 1
    · rw [if_pos h]; exact ⟨_, rfl⟩
    · rw [if_neg h]; exact ⟨_, rfl⟩
  | plan1dm n m fsign =>
    simp only [Request.newPlan]
    by_cases h : fsign = 1
    · rw [if_pos h]; exact ⟨_, rfl⟩
    · rw [if_neg h]; exact ⟨_, rfl⟩

theorem Request.newPlan_id (req : Request) (a : Nat) : (req.newPlan a).id = a := by
  cases req with
  | plan3d n0 n1 n2 => rfl
  | plan2dm n0 n1 n2 fsign =>
    simp only [Request.newPlan]
    by_cases h : fsign = 1
    · rw [if_pos h]
    · rw [if_neg h]
  | plan1dm n m fsign =>
    simp only [Request.newPlan]
    by_cases h : fsign = 1
    · rw [if_pos h]
    · rw [if_neg h]

theorem Request.cap_le (lim : fft_hip_internal) (hc : lim.Consistent) (req : Request) :
    req.cap lim ≤ lim.max_plans := by
  obtain ⟨h1, h2, h3⟩ := hc
  cases req with
  | plan3d n0 n1 n2 => exact h3
  | plan2dm n0 n1 n2 fsign => exact h2
  | plan1dm n m fsign => exact h1

theorem plansSound_init (lim : fft_hip_internal) : PlansSound (PlanCache.init lim) :=
  fun i hi => absurd hi (Nat.not_lt_zero i)

theorem wf_init (lim : fft_hip_internal) : (PlanCache.init lim).WF lim :=
  ⟨Nat.zero_le _, List.length_replicate _ _, List.length_replicate _ _⟩

/-- An acquisition keeps the shape of the cache. -/
theorem wf_acquire (lim : fft_hip_internal) (hc : lim.Consistent) (s s2 : PlanCache)
    (req : Request) (fresh : Nat) (p : hipfftHandle) (iov : Int) (hwf : s.WF lim)
    (h : acquire lim s req fresh = some (p, iov, s2)) : s2.WF lim := by
  obtain ⟨w1, w2, w3⟩ := hwf
  have hcap := Request.cap_le lim hc req
  rcases acquire_cases lim s s2 req fresh p iov h with ⟨i, _, _, _, rfl⟩ |
    ⟨_, _, ⟨hlt, _, _, _, rfl⟩ | ⟨_, _, rfl⟩⟩
  · exact ⟨w1, w2, w3⟩
  · refine ⟨?_, ?_, ?_⟩
    · show s.n_plans + 1 ≤ lim.max_plans
      omega
    · show (s.saved_plans.set s.n_plans _).length = lim.max_plans
      rw [List.length_set]; exact w2
    · show (s.iplandims.set s.n_plans _).length = lim.max_plans
      rw [List.length_set]; exact w3
  · exact ⟨w1, w2, w3⟩

/-- An acquisition keeps every occupied slot sound. -/
theorem plansSound_acquire (lim : fft_hip_internal) (s s2 : PlanCache)
    (req : Request) (fresh : Nat) (p : hipfftHandle) (iov : Int) (hs : PlansSound s)
    (h : acquire lim s req fresh = some (p, iov, s2)) : PlansSound s2 := by
  rcases acquire_cases lim s s2 req fresh p iov h with ⟨i, _, _, _, rfl⟩ |
    ⟨_, _, ⟨hlt, hb1, hb2, _, rfl⟩ | ⟨_, _, rfl⟩⟩
  · exact hs
  · intro i hi
    have hi2 : i < s.n_plans + 1 := hi
    by_cases hin : i = s.n_plans
    · subst hin
      refine ⟨req, req.newPlan fresh, ?_, ?_, ?_⟩
      · show (s.iplandims.set s.n_plans req.key)[s.n_plans]? = some req.key
        rw [List.getElem?_set_self hb2]
      · show (s.saved_plans.set s.n_plans (req.newPlan fresh))[s.n_plans]? = _
        rw [List.getElem?_set_self hb1]
      · exact Request.newPlan_built req _ _
    · obtain ⟨r, q, e1, e2, e3⟩ := hs i (by omega)
      refine ⟨r, q, ?_, ?_, e3⟩
      · show (s.iplandims.set s.n_plans req.key)[i]? = some r.key
        rw [List.getElem?_set_ne (Ne.symm hin)]; exact e1
      · show (s.saved_plans.set s.n_plans (req.newPlan fresh))[i]? = some q
        rw [List.getElem?_set_ne (Ne.symm hin)]; exact e2
  · exact hs

/-- In a sound cache the plan an acquisition returns was built by the call a
fresh construction for the request makes. -/
theorem acquire_built (lim : fft_hip_internal) (s s2 : PlanCache)
    (req : Request) (fresh : Nat) (p : hipfftHandle) (iov : Int) (hs : PlansSound s)
    (h : acquire lim s req fresh = some (p, iov, s2)) :
    p.built = (req.newPlan fresh).built := by
  rcases acquire_cases lim s s2 req fresh p iov h with ⟨i, hscan, hp, _, _⟩ | ⟨_, rfl, _⟩
  · obtain ⟨_, hi2, hi3, _⟩ := (scan_plans_some s req.key s.n_plans 0 i).mp hscan
    obtain ⟨r, q, e1, e2, e3⟩ := hs i (by omega)
    have hq : q = p := Option.some.inj (e2.symm.trans hp)
    have hr : r = req := Request.key_inj r req (Option.some.inj (e1.symm.trans hi3))
    subst hq hr
    rw [e3]
    exact Request.newPlan_built r _ _
  · rfl

/-- In a cache of the right shape, under consistent limits, every acquisition returns. -/
theorem acquire_total (lim : fft_hip_internal) (hc : lim.Consistent) (s : PlanCache)
    (hwf : s.WF lim) (req : Request) (fresh : Nat) :
    ∃ p iov s2, acquire lim s req fresh = some (p, iov, s2) := by
  obtain ⟨w1, w2, w3⟩ := hwf
  have hcap := Request.cap_le lim hc req
  rw [acquire_eq]
  cases hscan : scan_plans s req.key 0 s.n_plans with
  | some i =>
    obtain ⟨_, hi2, _, _⟩ := (scan_plans_some s req.key s.n_plans 0 i).mp hscan
    have hp : s.saved_plans[i]? = some s.saved_plans[i] :=
      List.getElem?_eq_getElem (by omega)
    exact ⟨s.saved_plans[i], 0, s, by simp only [hp, Option.map_some']⟩
  | none =>
    simp only [store_plan]
    by_cases hlt : s.n_plans < req.cap lim
    · rw [if_pos hlt, if_pos ⟨by omega, by omega⟩]
      exact ⟨_, _, _, rfl⟩
    · rw [if_neg hlt]
      exact ⟨_, _, _, rfl⟩

/-! ## Teardown -/

theorem release_loop_spec (s : PlanCache) (fuel i : Nat) (h : i + fuel ≤ s.saved_plans.length) :
    ∃ t, release_loop s i fuel = some t ∧
      destroyed t = (s.saved_plans.drop i).take fuel ∧
      t.length = 2 * fuel ∧
      (∀ c ∈ t, c = Cmd.hipDeviceSynchronize ∨ ∃ p, c = Cmd.hipfftDestroy p) := by
  induction fuel generalizing i with
  | zero => exact ⟨[], rfl, by simp [destroyed], rfl, fun c hc => absurd hc (List.not_mem_nil c)⟩
  | succ fuel ih =>
    obtain ⟨t, ht, hd, hl, hall⟩ := ih (i + 1) (by omega)
    have hp : s.saved_plans[i]? = some s.saved_plans[i] :=
      List.getElem?_eq_getElem (by omega)
    refine ⟨Cmd.hipDeviceSynchronize :: Cmd.hipfftDestroy s.saved_plans[i] :: t, ?_, ?_, ?_, ?_⟩
    · simp only [release_loop, hp, ht, Option.map_some']
    · have hdrop : s.saved_plans.drop i = s.saved_plans[i] :: s.saved_plans.drop (i + 1) :=
        List.drop_eq_getElem_cons (by omega)
      rw [hdrop, List.take_succ_cons, ← hd]
      simp [destroyed]
    · simp only [List.length_cons, hl]
      omega
    · intro c hc
      simp only [List.mem_cons] at hc
      rcases hc with rfl | rfl | hc
      · exact Or.inl rfl
      · exact Or.inr ⟨_, rfl⟩
      · exact hall c hc

theorem plansSound_release (s s2 : PlanCache) (t : List Cmd)
    (h : ffthip_release_ s = some (t, s2)) : PlansSound s2 ∧ s2.n_plans = 0 ∧
      s2.saved_plans = s.saved_plans ∧ s2.iplandims = s.iplandims := by
  unfold ffthip_release_ at h
  cases hl : release_loop s 0 s.n_plans with
  | none => rw [hl] at h; exact Option.noConfusion h
  | some t2 =>
    rw [hl] at h
    simp only [Option.map_some', Option.some.injEq, Prod.mk.injEq] at h
    obtain ⟨_, rfl⟩ := h
    exact ⟨fun i hi => absurd hi (Nat.not_lt_zero i), rfl, rfl, rfl⟩

/-- Every reachable state is sound, and of the right shape under consistent limits. -/
theorem reachable_inv (lim : fft_hip_internal) (s : PlanCache) (hr : Reachable lim s) :
    PlansSound s ∧ (lim.Consistent → s.WF lim) := by
  induction hr with
  | init => exact ⟨plansSound_init lim, fun _ => wf_init lim⟩
  | acquire s req fresh plan iov s2 _ hacq ih =>
    exact ⟨plansSound_acquire lim s s2 req fresh plan iov ih.1 hacq,
      fun hc => wf_acquire lim hc s s2 req fresh plan iov (ih.2 hc) hacq⟩
  | release s t s2 _ hrel ih =>
    obtain ⟨h1, h2, h3, h4⟩ := plansSound_release s s2 t hrel
    refine ⟨h1, fun hc => ?_⟩
    obtain ⟨w1, w2, w3⟩ := ih.2 hc
    exact ⟨by rw [h2]; exact Nat.zero_le _, by rw [h3]; exact w2, by rw [h4]; exact w3⟩

open Hip

/-! ## Transform invokers -/

theorem wrap32_natCast (n : Nat) (h : n < 2 ^ 31) : wrap32 (n : Int) = (n : Int) := by
  unfold wrap32
  rw [PwHip.toUInt32_natCast n (by omega), PwHip.toInt32_of_lt n h]

theorem wrap32_zero : wrap32 0 = 0 := wrap32_natCast 0 (by decide)

theorem mem_destroyed (t : List Cmd) (q : hipfftHandle) :
    q ∈ destroyed t ↔ Cmd.hipfftDestroy q ∈ t := by
  unfold destroyed
  rw [List.mem_filterMap]
  constructor
  · rintro ⟨c, hc, hq⟩
    cases c <;> first
      | exact Option.noConfusion hq
      | (simp only [Option.some.injEq] at hq; subst hq; exact hc)
  · intro h
    exact ⟨_, h, rfl⟩

/-- Every invoker is: acquire the plan for the request of the call, then run the
shared body on the result. -/
theorem ffthip_run_eq {R : Type} [One R] [Mul R] [DecidableEq R] (lim : fft_hip_internal)
    (T : Transform R) (s : PlanCache) (call : RunCall) (scale : R) (data_in data_out : List R)
    (idata odata : Buf) (hip_stream fresh : Nat) :
    ffthip_run lim T s call scale data_in data_out idata odata hip_stream fresh =
      (acquire lim s call.request fresh).bind fun acq =>
        match acq.1.built with
        | none => none
        | some c =>
          (if scale ≠ 1 then
            (hipblasDscal (wrap32 (2 * call.lmem)) scale
              (T c call.direction (call.input data_in data_out) data_out)).map fun x =>
              (x, [Cmd.hipStreamSynchronize hip_stream,
                Cmd.hipblasDscal (wrap32 (2 * call.lmem)) odata])
           else some (T c call.direction (call.input data_in data_out) data_out, [])).map
            fun xt => (⟨acq.1, acq.2.1, acq.2.2, xt.1,
              [Cmd.hipfftExecZ2Z acq.1 (call.idata idata odata) odata call.direction] ++ xt.2 ++
                (if acq.2.1 ≠ 0 then
                  [Cmd.hipStreamSynchronize hip_stream, Cmd.hipfftDestroy acq.1]
                 else [])⟩ : RunResult R) := by
  cases call <;> rfl

/-- The result of an invoker call whose acquisition returned `(p, iov, s2)` with a
built plan. -/
theorem ffthip_run_spec {R : Type} [One R] [Mul R] [DecidableEq R] (lim : fft_hip_internal)
    (T : Transform R) (s : PlanCache) (call : RunCall) (scale : R) (data_in data_out : List R)
    (idata odata : Buf) (hip_stream fresh : Nat) (p : hipfftHandle) (iov : Int) (s2 : PlanCache)
    (c : PlanCall) (hacq : acquire lim s call.request fresh = some (p, iov, s2))
    (hc : p.built = some c) :
    ffthip_run lim T s call scale data_in data_out idata odata hip_stream fresh =
      (if scale ≠ 1 then
        (hipblasDscal (wrap32 (2 * call.lmem)) scale
          (T c call.direction (call.input data_in data_out) data_out)).map fun x =>
          (x, [Cmd.hipStreamSynchronize hip_stream,
            Cmd.hipblasDscal (wrap32 (2 * call.lmem)) odata])
       else some (T c call.direction (call.input data_in data_out) data_out, [])).map
        fun xt => (⟨p, iov, s2, xt.1,
          [Cmd.hipfftExecZ2Z p (call.idata idata odata) odata call.direction] ++ xt.2 ++
            (if iov ≠ 0 then [Cmd.hipStreamSynchronize hip_stream, Cmd.hipfftDestroy p]
             else [])⟩ : RunResult R) := by
  rw [ffthip_run_eq, hacq]
  simp only [Option.some_bind, hc]

/-- Whatever an invoker call returns comes from an acquisition with a built plan. -/
theorem ffthip_run_inv {R : Type} [One R] [Mul R] [DecidableEq R] (lim : fft_hip_internal)
    (T : Transform R) (s : PlanCache) (call : RunCall) (scale : R) (data_in data_out : List R)
    (idata odata : Buf) (hip_stream fresh : Nat) (r : RunResult R)
    (h : ffthip_run lim T s call scale data_in data_out idata odata hip_stream fresh = some r) :
    ∃ c mid, acquire lim s call.request fresh = some (r.plan, r.ioverflow, r.cache) ∧
      r.plan.built = some c ∧ destroyed mid = [] ∧
      r.trace = [Cmd.hipfftExecZ2Z r.plan (call.idata idata odata) odata call.direction] ++ mid ++
        (if r.ioverflow ≠ 0 then [Cmd.hipStreamSynchronize hip_stream, Cmd.hipfftDestroy r.plan]
         else []) := by
  rw [ffthip_run_eq] at h
  cases hacq : acquire lim s call.request fresh with
  | none => rw [hacq] at h; exact Option.noConfusion h
  | some acq =>
    obtain ⟨p, iov, s2⟩ := acq
    rw [hacq] at h
    simp only [Option.some_bind] at h
    cases hb : p.built with
    | none => rw [hb] at h; exact Option.noConfusion h
    | some c =>
      rw [hb] at h
      simp only at h
      by_cases hsc : scale ≠ 1
      · rw [if_pos hsc] at h
        cases hd : hipblasDscal (wrap32 (2 * call.lmem)) scale
            (T c call.direction (call.input data_in data_out) data_out) with
        | none => rw [hd] at h; exact Option.noConfusion h
        | some x =>
          rw [hd] at h
          simp only [Option.map_some', Option.some.injEq] at h
          subst h
          exact ⟨c, [Cmd.hipStreamSynchronize hip_stream,
            Cmd.hipblasDscal (wrap32 (2 * call.lmem)) odata], rfl, hb, rfl, rfl⟩
      · rw [if_neg hsc] at h
        simp only [Option.map_some', Option.some.injEq] at h
        subst h
        exact ⟨c, [], rfl, hb, rfl, rfl⟩

open Hip

/-! ## Claims on plan soundness, direction and teardown -/

/-- C11. Plan cache soundness: modelling a plan by the call that constructs it
(rank, per-axis sizes, batch count, strides and distances), in every state
reachable from the empty cache by any sequence of 1-D, 2-D and 3-D acquisitions
and teardowns, the plan an acquisition returns (a hit, a newly stored plan or a
transient one) was built by exactly the call a fresh construction for that
request makes, and the state it leaves is reachable again.  When the capacity
constants do not exceed `max_plans`, the acquisition does return. -/
theorem C11_plan_cache_soundness (lim : fft_hip_internal) (s : PlanCache)
    (hr : Reachable lim s) (req : Request) (fresh : Nat) :
    (∀ plan ioverflow s2, acquire lim s req fresh = some (plan, ioverflow, s2) →
      plan.built = (req.newPlan fresh).built ∧ Reachable lim s2) ∧
    (lim.Consistent → ∃ plan ioverflow s2,
      acquire lim s req fresh = some (plan, ioverflow, s2) ∧
      plan.built = (req.newPlan fresh).built) := by
  obtain ⟨hs, hwf⟩ := reachable_inv lim s hr
  refine ⟨fun plan iov s2 h => ⟨acquire_built lim s s2 req fresh plan iov hs h,
    Reachable.acquire s req fresh plan iov s2 hr h⟩, fun hc => ?_⟩
  obtain ⟨p, iov, s2, h⟩ := acquire_total lim hc s (hwf hc) req fresh
  exact ⟨p, iov, s2, h, acquire_built lim s s2 req fresh p iov hs h⟩

/-- Witness of C11: `exampleCache` is reached by one 1-D acquisition; a 2-D request on it. -/
theorem C11_plan_cache_soundness_witness :
    (∀ plan ioverflow s2,
      acquire exampleLimits exampleCache (.plan2dm 2 3 4 (-1)) 8 = some (plan, ioverflow, s2) →
      plan.built = ((Request.plan2dm 2 3 4 (-1)).newPlan 8).built ∧
        Reachable exampleLimits s2) ∧
    (exampleLimits.Consistent → ∃ plan ioverflow s2,
      acquire exampleLimits exampleCache (.plan2dm 2 3 4 (-1)) 8 = some (plan, ioverflow, s2) ∧
      plan.built = ((Request.plan2dm 2 3 4 (-1)).newPlan 8).built) :=
  C11_plan_cache_soundness exampleLimits exampleCache
    (Reachable.acquire (PlanCache.init exampleLimits) (.plan1dm 4 2 1) 7
      ⟨7, some (.hipfftPlanMany 1 [4] [0] 2 1 [0] 1 4 2)⟩ 0 exampleCache Reachable.init
      (by decide))
    (.plan2dm 2 3 4 (-1)) 8

/-- C12. Direction is ignored for 3-D plans: for every cache state and extents,
`ffthip_run_3d_z_` acquires its plan under the key `(3, n0, n1, n2, 0)` whatever
`fsign` is; so after a 3-D call with direction `fsign1` has its plan in the
cache (`ioverflow = 0`), a 3-D call with any direction `fsign2` on the same
extents (forward then inverse, or inverse then forward) is a hit: it runs on
the same handle, returns `ioverflow = 0` and leaves the cache, hence `n_plans`,
as it is.  (The scale step of the second call is assumed to stay inside its
buffer.) -/
theorem C12_direction_ignored_3d {R : Type} [One R] [Mul R] [DecidableEq R]
    (lim : fft_hip_internal) (T : Transform R) (s : PlanCache) (fsign1 fsign2 n0 n1 n2 : Int)
    (scale1 scale2 : R) (data1 data2 : List R) (pdata1 pdata2 : Buf)
    (stream1 stream2 fresh1 fresh2 : Nat) (r1 : RunResult R)
    (h1 : ffthip_run_3d_z_ lim T s fsign1 n0 n1 n2 scale1 data1 pdata1 stream1 fresh1 = some r1)
    (hstored : r1.ioverflow = 0)
    (hT : ∀ c d, (T c d data2 data2).length = data2.length)
    (hlen : (wrap32 (2 * wrap32 (wrap32 (n0 * n1) * n2))).toNat ≤ data2.length) :
    (Request.plan3d n0 n1 n2).key = (3, n0, n1, n2, 0) ∧
    acquire lim s (.plan3d n0 n1 n2) fresh1 = some (r1.plan, r1.ioverflow, r1.cache) ∧
    ∃ r2, ffthip_run_3d_z_ lim T r1.cache fsign2 n0 n1 n2 scale2 data2 pdata2 stream2 fresh2
        = some r2 ∧
      acquire lim r1.cache (.plan3d n0 n1 n2) fresh2 = some (r2.plan, r2.ioverflow, r2.cache) ∧
      r2.plan = r1.plan ∧ r2.ioverflow = 0 ∧ r2.cache = r1.cache ∧
      r2.cache.n_plans = r1.cache.n_plans ∧
      Cmd.hipfftExecZ2Z r1.plan pdata2 pdata2
        (if fsign2 < 0 then Direction.HIPFFT_INVERSE else Direction.HIPFFT_FORWARD) ∈ r2.trace ∧
      destroyed r2.trace = [] := by
  have h1b : ffthip_run lim T s (.run_3d fsign1 n0 n1 n2) scale1 data1 data1 pdata1 pdata1
      stream1 fresh1 = some r1 := h1
  obtain ⟨c, mid, hacq, hc, _, _⟩ := ffthip_run_inv lim T s _ scale1 data1 data1 pdata1 pdata1
    stream1 fresh1 r1 h1b
  have hacq : acquire lim s (.plan3d n0 n1 n2) fresh1 = some (r1.plan, r1.ioverflow, r1.cache) :=
    hacq
  refine ⟨rfl, hacq, ?_⟩
  rw [hstored] at hacq
  have hhit : acquire lim r1.cache (.plan3d n0 n1 n2) fresh2 = some (r1.plan, 0, r1.cache) := by
    rcases acquire_cases lim s r1.cache _ fresh1 r1.plan 0 hacq with ⟨i, hi, hp, _, hs2⟩ |
      ⟨hscan, hp, ⟨hlt, hb1, hb2, _, hs2⟩ | ⟨_, h01, _⟩⟩
    · rw [hs2, acquire_eq, hi]
      simp only [hp, Option.map_some']
    · have hscan2 : scan_plans r1.cache (Request.plan3d n0 n1 n2).key 0 r1.cache.n_plans
          = some s.n_plans := by
        rw [hs2, scan_plans_some]
        refine ⟨Nat.zero_le _, by show s.n_plans < 0 + (s.n_plans + 1); omega, ?_, ?_⟩
        · show (s.iplandims.set s.n_plans _)[s.n_plans]? = _
          rw [List.getElem?_set_self hb2]
        · intro j _ hj
          show (s.iplandims.set s.n_plans _)[j]? ≠ _
          rw [List.getElem?_set_ne (by omega)]
          exact (scan_plans_none s _ s.n_plans 0).mp hscan j (Nat.zero_le _) (by omega)
      have hp2 : r1.cache.saved_plans[s.n_plans]? = some r1.plan := by
        rw [hs2, hp]
        show (s.saved_plans.set s.n_plans _)[s.n_plans]? = _
        rw [List.getElem?_set_self hb1]
      rw [acquire_eq, hscan2]
      simp only [hp2, Option.map_some']
    · exact absurd h01 (by decide)
  have hspec := ffthip_run_spec lim T r1.cache (.run_3d fsign2 n0 n1 n2) scale2 data2 data2
    pdata2 pdata2 stream2 fresh2 r1.plan 0 r1.cache c hhit hc
  have hrun : ffthip_run lim T r1.cache (.run_3d fsign2 n0 n1 n2) scale2 data2 data2
      pdata2 pdata2 stream2 fresh2 = ffthip_run_3d_z_ lim T r1.cache fsign2 n0 n1 n2 scale2
      data2 pdata2 stream2 fresh2 := rfl
  rw [hrun] at hspec
  simp only [RunCall.lmem, RunCall.input, RunCall.direction, RunCall.idata] at hspec
  by_cases hsc : scale2 ≠ 1
  · rw [if_pos hsc] at hspec
    have hd : ∃ x, hipblasDscal (wrap32 (2 * wrap32 (wrap32 (n0 * n1) * n2))) scale2
        (T c (if fsign2 < 0 then Direction.HIPFFT_INVERSE else Direction.HIPFFT_FORWARD)
          data2 data2) = some x := by
      unfold hipblasDscal
      by_cases hn : wrap32 (2 * wrap32 (wrap32 (n0 * n1) * n2)) ≤ 0
      · rw [if_pos hn]; exact ⟨_, rfl⟩
      · rw [if_neg hn, if_pos (le_of_le_of_eq hlen (hT c _).symm)]; exact ⟨_, rfl⟩
    obtain ⟨x, hx⟩ := hd
    rw [hx] at hspec
    simp only [Option.map_some'] at hspec
    refine ⟨_, hspec, hhit, rfl, rfl, rfl, rfl, ?_, ?_⟩
    · exact List.mem_append_left _ (List.mem_append_left _ (List.mem_singleton.mpr rfl))
    · simp [destroyed]
  · rw [if_neg hsc] at hspec
    simp only [Option.map_some'] at hspec
    refine ⟨_, hspec, hhit, rfl, rfl, rfl, rfl, ?_, ?_⟩
    · exact List.mem_append_left _ (List.mem_append_left _ (List.mem_singleton.mpr rfl))
    · simp [destroyed]

/-- Witness of C12: a forward 3-D call stores its plan in the initial cache
(`exampleRun`); the inverse call that follows hits it. -/
theorem C12_direction_ignored_3d_witness :
    (Request.plan3d 2 2 2).key = (3, 2, 2, 2, 0) ∧
    acquire exampleLimits (PlanCache.init exampleLimits) (.plan3d 2 2 2) 5
      = some (exampleRun.plan, exampleRun.ioverflow, exampleRun.cache) ∧
    ∃ r2, ffthip_run_3d_z_ exampleLimits exampleTransform exampleRun.cache (-1) 2 2 2 3
        [1, 2, 3, 4, 5, 6, 7, 8, 9, 10, 11, 12, 13, 14, 15, 16] Buf.ptr_2 1 6 = some r2 ∧
      acquire exampleLimits exampleRun.cache (.plan3d 2 2 2) 6
        = some (r2.plan, r2.ioverflow, r2.cache) ∧
      r2.plan = exampleRun.plan ∧ r2.ioverflow = 0 ∧ r2.cache = exampleRun.cache ∧
      r2.cache.n_plans = exampleRun.cache.n_plans ∧
      Cmd.hipfftExecZ2Z exampleRun.plan Buf.ptr_2 Buf.ptr_2
        (if (-1 : Int) < 0 then Direction.HIPFFT_INVERSE else Direction.HIPFFT_FORWARD)
          ∈ r2.trace ∧
      destroyed r2.trace = [] :=
  C12_direction_ignored_3d exampleLimits exampleTransform (PlanCache.init exampleLimits) 1 (-1)
    2 2 2 1 3 [1, 2, 3, 4, 5, 6, 7, 8, 9, 10, 11, 12, 13, 14, 15, 16]
    [1, 2, 3, 4, 5, 6, 7, 8, 9, 10, 11, 12, 13, 14, 15, 16] Buf.ptr_2 Buf.ptr_2 1 1 5 6
    exampleRun rfl rfl (fun _ _ => rfl) (by decide)

/-- C13. Teardown: in every cache state with `k = n_plans` stored plans (inside the
array), `ffthip_release_` returns; the handles it destroys are, in order,
exactly those of slots `0 .. k - 1`, one destroy per slot and nothing else but
device synchronisations, so when the stored handles are pairwise distinct each
is destroyed exactly once and no other handle is destroyed; it leaves
`n_plans = 0` (arrays untouched), so that every subsequent acquisition of any
key is a miss that builds a new plan; on the empty cache it issues no call. -/
theorem C13_teardown (s : PlanCache) (hlen : s.n_plans ≤ s.saved_plans.length) :
    ∃ t s2, ffthip_release_ s = some (t, s2) ∧
      destroyed t = s.saved_plans.take s.n_plans ∧
      t.length = 2 * s.n_plans ∧
      (∀ c ∈ t, c = Cmd.hipDeviceSynchronize ∨ ∃ p, c = Cmd.hipfftDestroy p) ∧
      ((s.saved_plans.take s.n_plans).Nodup → ∀ q : hipfftHandle,
        (destroyed t).count q = if q ∈ s.saved_plans.take s.n_plans then 1 else 0) ∧
      s2.n_plans = 0 ∧ s2.saved_plans = s.saved_plans ∧ s2.iplandims = s.iplandims ∧
      (∀ (lim : fft_hip_internal) (req : Request) (fresh : Nat),
        scan_plans s2 req.key 0 s2.n_plans = none ∧
        acquire lim s2 req fresh = store_plan (req.cap lim) s2 req.key (req.newPlan fresh) ∧
        ∀ p iov s3, acquire lim s2 req fresh = some (p, iov, s3) → p = req.newPlan fresh) ∧
      (s.n_plans = 0 → t = []) := by
  obtain ⟨t, ht, hd, hl, hall⟩ := release_loop_spec s s.n_plans 0 (by omega)
  rw [List.drop_zero] at hd
  refine ⟨t, { s with n_plans := 0 }, ?_, hd, hl, hall, ?_, rfl, rfl, rfl, ?_, ?_⟩
  · unfold ffthip_release_
    rw [ht]
    rfl
  · intro hnd q
    rw [hd]
    exact List.count_eq_of_nodup hnd
  · intro lim req fresh
    have hscan : scan_plans { s with n_plans := 0 } req.key 0 0 = none := rfl
    have hacq : acquire lim { s with n_plans := 0 } req fresh =
        store_plan (req.cap lim) { s with n_plans := 0 } req.key (req.newPlan fresh) := by
      have hscan2 : scan_plans { s with n_plans := 0 } req.key 0
          (PlanCache.n_plans { s with n_plans := 0 }) = none := rfl
      rw [acquire_eq, hscan2]
    refine ⟨hscan, hacq, ?_⟩
    intro p iov s3 h
    rw [hacq] at h
    unfold store_plan at h
    split_ifs at h <;> simp only [Option.some.injEq, Prod.mk.injEq] at h <;> exact h.1.symm
  · intro h0
    have : t.length = 0 := by rw [hl, h0]
    exact List.length_eq_zero.mp this

/-- Witness of C13: teardown of `exampleCache`, which holds one plan. -/
theorem C13_teardown_witness :
    ∃ t s2, ffthip_release_ exampleCache = some (t, s2) ∧
      destroyed t = exampleCache.saved_plans.take exampleCache.n_plans ∧
      t.length = 2 * exampleCache.n_plans ∧
      (∀ c ∈ t, c = Cmd.hipDeviceSynchronize ∨ ∃ p, c = Cmd.hipfftDestroy p) ∧
      ((exampleCache.saved_plans.take exampleCache.n_plans).Nodup → ∀ q : hipfftHandle,
        (destroyed t).count q =
          if q ∈ exampleCache.saved_plans.take exampleCache.n_plans then 1 else 0) ∧
      s2.n_plans = 0 ∧ s2.saved_plans = exampleCache.saved_plans ∧
      s2.iplandims = exampleCache.iplandims ∧
      (∀ (lim : fft_hip_internal) (req : Request) (fresh : Nat),
        scan_plans s2 req.key 0 s2.n_plans = none ∧
        acquire lim s2 req fresh = store_plan (req.cap lim) s2 req.key (req.newPlan fresh) ∧
        ∀ p iov s3, acquire lim s2 req fresh = some (p, iov, s3) → p = req.newPlan fresh) ∧
      (exampleCache.n_plans = 0 → t = []) :=
  C13_teardown exampleCache (by decide)

open Hip

/-! ## Claims on the transform invokers -/

theorem hipblasDscal_natCast {R : Type} [Mul R] (n : Nat) (a : R) (x : List R)
    (h : n ≤ x.length) :
    hipblasDscal (n : Int) a x = some ((x.take n).map (fun v => a * v) ++ x.drop n) := by
  unfold hipblasDscal
  by_cases h0 : n = 0
  · subst h0
    simp
  · rw [if_neg (by omega), Int.toNat_ofNat, if_pos h]

theorem scaled_getElem? {R : Type} (f : R → R) (x : List R) (n j : Nat) :
    ((x.take n).map f ++ x.drop n)[j]? = if j < n then (x[j]?).map f else x[j]? := by
  by_cases hj : j < n
  · rw [if_pos hj]
    by_cases hx : j < x.length
    · rw [List.getElem?_append_left (by simp; omega), List.getElem?_map,
        List.getElem?_take_of_lt hj]
    · rw [List.getElem?_eq_none (by simp; omega), List.getElem?_eq_none (by omega)]
      rfl
  · rw [if_neg hj]
    by_cases hx : n ≤ x.length
    · rw [List.getElem?_append_right (by simp; omega), List.getElem?_drop]
      simp only [List.length_map, List.length_take, Nat.min_eq_left hx]
      congr 1
      omega
    · have hd : x.drop n = [] := List.drop_eq_nil_of_le (by omega)
      rw [hd, List.append_nil, List.getElem?_eq_none (by simp; omega),
        List.getElem?_eq_none (by omega)]

/-- C19 fails as stated when `2 * lmem` is not an `int`: `ffthip_run_1dm_z_` on one
vector of `n = 2 ^ 30` elements (`lmem = 2 ^ 30`, buffers of `2 ^ 31` doubles) with
`scale = 2` and the copying transform passes the count `2 * lmem`, which wraps
to `-2147483648`, to `hipblasDscal`; that scales nothing, and the output is
`T(input)` itself although `scale != 1`. -/
theorem C19_run_scaling_counterexample :
    ∃ r, ffthip_run_1dm_z_ exampleLimits exampleTransform (PlanCache.init exampleLimits)
        1 1073741824 1 (2 : Int) (List.replicate 2147483648 1) (List.replicate 2147483648 0)
        Buf.ptr_1 Buf.ptr_2 1 7 = some r ∧
      r.data = List.replicate 2147483648 1 ∧ r.data[0]? = some 1 ∧
      (2 : Int) ≠ 1 ∧ (2 : Int) * 1 ≠ 1 ∧
      wrap32 (1073741824 * 1) = 1073741824 ∧ wrap32 (2 * 1073741824) = -2147483648 := by
  have e1 : (1073741824 : Int) * 1 = ((1073741824 : Nat) : Int) := by norm_num
  have hl : wrap32 (1073741824 * 1) = 1073741824 := by
    rw [e1, wrap32_natCast _ (by norm_num)]
    norm_num
  have h2 : wrap32 (2 * 1073741824) = -2147483648 := by
    unfold wrap32 PwHip.toUInt32 PwHip.toInt32
    norm_num
  have hd : ∀ x : List Int, hipblasDscal (-2147483648) (2 : Int) x = some x := by
    intro x
    unfold hipblasDscal
    rw [if_pos (by norm_num)]
  obtain ⟨p, iov, s2, hacq⟩ := acquire_total exampleLimits (by decide)
    (PlanCache.init exampleLimits) (wf_init exampleLimits)
    (RunCall.run_1dm 1 1073741824 1).request 7
  have hb := acquire_built exampleLimits _ s2 _ 7 p iov (plansSound_init exampleLimits) hacq
  obtain ⟨c, hcb⟩ := Request.newPlan_built_isSome (RunCall.run_1dm 1 1073741824 1).request 7
  have hspec := ffthip_run_spec exampleLimits exampleTransform (PlanCache.init exampleLimits)
    (.run_1dm 1 1073741824 1) (2 : Int) (List.replicate 2147483648 1)
    (List.replicate 2147483648 0) Buf.ptr_1 Buf.ptr_2 1 7 p iov s2 c hacq (hb.trans hcb)
  rw [if_pos (show (2 : Int) ≠ 1 by decide)] at hspec
  simp only [RunCall.lmem, hl, h2, exampleTransform, RunCall.input, hd,
    Option.map_some'] at hspec
  refine ⟨_, hspec, rfl, ?_, by decide, by decide, hl, h2⟩
  show (List.replicate 2147483648 (1 : Int))[0]? = some 1
  rw [List.getElem?_replicate, if_pos (by norm_num)]

/-- C19, amended. Transform invoker scaling, with the transform an opaque function
`T`: for each of `ffthip_run_3d_z_`, `ffthip_run_2dm_z_` and `ffthip_run_1dm_z_`
with `2 * lmem` an `int` (`2 * lmem < 2 ^ 31`), every scale and every sound cache
state, the call returns and its output buffer
holds `scale * T(input)` on both components of every one of its `lmem`
elements: when `scale != 1` exactly the first `2 * lmem` doubles of `T(input)`
are multiplied by `scale` (one `hipblasDscal` of count `2 * lmem` on the output
buffer) and any double beyond them is left as the transform wrote it; when
`scale == 1` the output is `T(input)` untouched.  `T` is the transform of the plan
a fresh construction for the request builds. -/
theorem C19_run_scaling {R : Type} [MulOneClass R] [DecidableEq R] (lim : fft_hip_internal)
    (hc : lim.Consistent) (T : Transform R) (s : PlanCache) (hwf : s.WF lim) (hs : PlansSound s)
    (call : RunCall) (scale : R) (data_in data_out : List R) (idata odata : Buf)
    (hip_stream fresh : Nat) (lmem : Nat) (hlmem : call.lmem = (lmem : Int))
    (hint : 2 * lmem < 2 ^ 31)
    (hT : ∀ c d, (T c d (call.input data_in data_out) data_out).length = data_out.length)
    (hlen : 2 * lmem ≤ data_out.length) :
    ∃ r c, ffthip_run lim T s call scale data_in data_out idata odata hip_stream fresh = some r ∧
      (call.request.newPlan fresh).built = some c ∧
      (∀ j, r.data[j]? =
        if j < 2 * lmem ∧ scale ≠ 1 then
          ((T c call.direction (call.input data_in data_out) data_out)[j]?).map
            (fun v => scale * v)
        else (T c call.direction (call.input data_in data_out) data_out)[j]?) ∧
      (∀ j, j < 2 * lmem → r.data[j]? =
        ((T c call.direction (call.input data_in data_out) data_out)[j]?).map
          (fun v => scale * v)) ∧
      (scale = 1 → r.data = T c call.direction (call.input data_in data_out) data_out) ∧
      (data_out.length = 2 * lmem → r.data =
        (T c call.direction (call.input data_in data_out) data_out).map (fun v => scale * v)) ∧
      (scale ≠ 1 → Cmd.hipblasDscal (2 * (lmem : Int)) odata ∈ r.trace) := by
  obtain ⟨p, iov, s2, hacq⟩ := acquire_total lim hc s hwf call.request fresh
  have hb := acquire_built lim s s2 call.request fresh p iov hs hacq
  obtain ⟨c, hcb⟩ := Request.newPlan_built_isSome call.request fresh
  have hspec := ffthip_run_spec lim T s call scale data_in data_out idata odata hip_stream fresh
    p iov s2 c hacq (hb.trans hcb)
  have hw : wrap32 (2 * call.lmem) = ((2 * lmem : Nat) : Int) := by
    rw [hlmem, ← wrap32_natCast (2 * lmem) hint]
    congr 1
  have hwv : wrap32 (2 * call.lmem) = 2 * (lmem : Int) := by
    rw [hw]; push_cast; rfl
  generalize hX : T c call.direction (call.input data_in data_out) data_out = X at hspec
  have hXl : X.length = data_out.length := by rw [← hX]; exact hT _ _
  have hmapid : ∀ o : Option R, o.map (fun v => (1 : R) * v) = o := by
    intro o
    cases o with
    | none => rfl
    | some v => simp only [Option.map_some', one_mul]
  by_cases hsc : scale ≠ 1
  · rw [if_pos hsc, hw, hipblasDscal_natCast _ _ _ (by omega)] at hspec
    simp only [Option.map_some'] at hspec
    refine ⟨_, c, hspec, hcb, ?_, ?_, fun h1 => absurd h1 hsc, ?_, ?_⟩
    · intro j
      rw [hX]
      show ((X.take (2 * lmem)).map (fun v => scale * v) ++ X.drop (2 * lmem))[j]? = _
      rw [scaled_getElem?]
      by_cases hj : j < 2 * lmem
      · rw [if_pos hj, if_pos ⟨hj, hsc⟩]
      · rw [if_neg hj, if_neg (fun h => hj h.1)]
    · intro j hj
      rw [hX]
      show ((X.take (2 * lmem)).map (fun v => scale * v) ++ X.drop (2 * lmem))[j]? = _
      rw [scaled_getElem?, if_pos hj]
    · intro hfull
      rw [hX]
      show (X.take (2 * lmem)).map (fun v => scale * v) ++ X.drop (2 * lmem) = _
      rw [List.take_of_length_le (by omega), List.drop_eq_nil_of_le (by omega),
        List.append_nil]
    · intro _
      show Cmd.hipblasDscal (2 * (lmem : Int)) odata ∈
        [Cmd.hipfftExecZ2Z p (call.idata idata odata) odata call.direction] ++
          [Cmd.hipStreamSynchronize hip_stream,
            Cmd.hipblasDscal ((2 * lmem : Nat) : Int) odata] ++ _
      rw [← hw, hwv]
      simp
  · have h1 : scale = 1 := not_not.mp hsc
    rw [if_neg hsc] at hspec
    simp only [Option.map_some'] at hspec
    refine ⟨_, c, hspec, hcb, ?_, ?_, fun _ => hX.symm, ?_, fun h => absurd h hsc⟩
    · intro j
      rw [hX]
      show X[j]? = _
      rw [if_neg (fun h => hsc h.2)]
    · intro j _
      rw [hX]
      show X[j]? = _
      rw [h1, hmapid]
    · intro _
      rw [hX]
      show X = _
      rw [h1]
      have : (fun v : R => (1 : R) * v) = id := funext fun v => one_mul v
      rw [this, List.map_id]

/-- Witness of C19: the 1-D invoker with scale 3 on two elements, in `exampleCache`. -/
theorem C19_run_scaling_witness :
    ∃ r c, ffthip_run exampleLimits exampleTransform exampleCache (.run_1dm 1 2 1) (3 : Int)
        [1, 2, 3, 4] [0, 0, 0, 0] Buf.ptr_1 Buf.ptr_2 1 8 = some r ∧
      ((RunCall.run_1dm 1 2 1).request.newPlan 8).built = some c ∧
      (∀ j, r.data[j]? =
        if j < 2 * 2 ∧ (3 : Int) ≠ 1 then
          ((exampleTransform c (RunCall.run_1dm 1 2 1).direction
            ((RunCall.run_1dm 1 2 1).input [1, 2, 3, 4] [0, 0, 0, 0]) [0, 0, 0, 0])[j]?).map
            (fun v => 3 * v)
        else (exampleTransform c (RunCall.run_1dm 1 2 1).direction
          ((RunCall.run_1dm 1 2 1).input [1, 2, 3, 4] [0, 0, 0, 0]) [0, 0, 0, 0])[j]?) ∧
      (∀ j, j < 2 * 2 → r.data[j]? =
        ((exampleTransform c (RunCall.run_1dm 1 2 1).direction
          ((RunCall.run_1dm 1 2 1).input [1, 2, 3, 4] [0, 0, 0, 0]) [0, 0, 0, 0])[j]?).map
          (fun v => 3 * v)) ∧
      ((3 : Int) = 1 → r.data = exampleTransform c (RunCall.run_1dm 1 2 1).direction
        ((RunCall.run_1dm 1 2 1).input [1, 2, 3, 4] [0, 0, 0, 0]) [0, 0, 0, 0]) ∧
      (([0, 0, 0, 0] : List Int).length = 2 * 2 → r.data =
        (exampleTransform c (RunCall.run_1dm 1 2 1).direction
          ((RunCall.run_1dm 1 2 1).input [1, 2, 3, 4] [0, 0, 0, 0]) [0, 0, 0, 0]).map
          (fun v => 3 * v)) ∧
      ((3 : Int) ≠ 1 → Cmd.hipblasDscal (2 * ((2 : Nat) : Int)) Buf.ptr_2 ∈ r.trace) :=
  C19_run_scaling exampleLimits (by decide) exampleTransform exampleCache (by decide)
    (fun i hi => by
      have hi0 : i = 0 := Nat.lt_one_iff.mp hi
      subst hi0
      exact ⟨.plan1dm 4 2 1, _, rfl, rfl, rfl⟩)
    (.run_1dm 1 2 1) 3 [1, 2, 3, 4] [0, 0, 0, 0] Buf.ptr_1 Buf.ptr_2 1 8 2 (by decide)
    (by decide) (fun _ _ => rfl) (by decide)

/-- C20. Transient plan disposal: for each of the three transform invokers and every
cache state, a call that returns has acquired its plan by the plan routine of
its request, and it destroys that plan if and only if the routine reported it
transient (`ioverflow = 1`); it destroys no other handle.  In the transient
case the plan is the newly built one, the cache is unchanged, and the single
destroy is the last call issued, directly after a synchronisation of the
stream and after the transform was issued.  A plan stored in the cache after
the call (the library never gives a new plan the identity of a stored one) is
not destroyed by the call; `ffthip_release_` is the routine that destroys
stored plans. -/
theorem C20_transient_plan_disposal {R : Type} [One R] [Mul R] [DecidableEq R]
    (lim : fft_hip_internal) (T : Transform R) (s : PlanCache) (call : RunCall) (scale : R)
    (data_in data_out : List R) (idata odata : Buf) (hip_stream fresh : Nat) (r : RunResult R)
    (h : ffthip_run lim T s call scale data_in data_out idata odata hip_stream fresh = some r) :
    acquire lim s call.request fresh = some (r.plan, r.ioverflow, r.cache) ∧
    (r.ioverflow = 0 ∨ r.ioverflow = 1) ∧
    destroyed r.trace = (if r.ioverflow = 1 then [r.plan] else []) ∧
    (Cmd.hipfftDestroy r.plan ∈ r.trace ↔ r.ioverflow = 1) ∧
    (r.ioverflow = 1 → r.plan = call.request.newPlan fresh ∧ r.cache = s ∧
      ∃ mid, destroyed mid = [] ∧ r.trace =
        [Cmd.hipfftExecZ2Z r.plan (call.idata idata odata) odata call.direction] ++ mid ++
          [Cmd.hipStreamSynchronize hip_stream, Cmd.hipfftDestroy r.plan]) ∧
    ((∀ i q, i < s.n_plans → s.saved_plans[i]? = some q → q.id ≠ fresh) →
      ∀ i q, i < r.cache.n_plans → r.cache.saved_plans[i]? = some q →
        Cmd.hipfftDestroy q ∉ r.trace) := by
  obtain ⟨c, mid, hacq, hc, hmid, htr⟩ := ffthip_run_inv lim T s call scale data_in data_out
    idata odata hip_stream fresh r h
  have hcases := acquire_cases lim s r.cache call.request fresh r.plan r.ioverflow hacq
  have hov : r.ioverflow = 0 ∨ r.ioverflow = 1 := by
    rcases hcases with ⟨_, _, _, h0, _⟩ | ⟨_, _, ⟨_, _, _, h0, _⟩ | ⟨_, h1, _⟩⟩
    · exact Or.inl h0
    · exact Or.inl h0
    · exact Or.inr h1
  have hdes : destroyed r.trace = (if r.ioverflow = 1 then [r.plan] else []) := by
    rw [htr]
    rcases hov with h0 | h1
    · rw [h0]
      simp [destroyed] at hmid ⊢
      exact hmid
    · rw [h1]
      simp [destroyed] at hmid ⊢
      exact hmid
  have hmem : Cmd.hipfftDestroy r.plan ∈ r.trace ↔ r.ioverflow = 1 := by
    rw [← mem_destroyed, hdes]
    by_cases h1 : r.ioverflow = 1
    · rw [if_pos h1]
      exact ⟨fun _ => h1, fun _ => List.mem_singleton.mpr rfl⟩
    · rw [if_neg h1]
      exact ⟨fun hc => absurd hc (List.not_mem_nil _), fun hc => absurd hc h1⟩
  refine ⟨hacq, hov, hdes, hmem, ?_, ?_⟩
  · intro h1
    rcases hcases with ⟨_, _, _, h0, _⟩ | ⟨_, hp, ⟨_, _, _, h0, _⟩ | ⟨_, _, hs2⟩⟩
    · rw [h0] at h1; exact absurd h1 (by decide)
    · rw [h0] at h1; exact absurd h1 (by decide)
    · refine ⟨hp, hs2, mid, hmid, ?_⟩
      rw [htr, if_pos (by rw [h1]; decide)]
  · intro hfresh i q hi hq hin
    rw [← mem_destroyed, hdes] at hin
    rcases hcases with ⟨_, _, _, h0, _⟩ | ⟨_, hp, ⟨_, _, _, h0, _⟩ | ⟨_, h1, hs2⟩⟩
    · rw [h0, if_neg (by decide)] at hin
      exact absurd hin (List.not_mem_nil _)
    · rw [h0, if_neg (by decide)] at hin
      exact absurd hin (List.not_mem_nil _)
    · rw [h1, if_pos rfl] at hin
      have hqp : q = r.plan := List.mem_singleton.mp hin
      rw [hs2] at hi hq
      have := hfresh i q hi hq
      rw [hqp, hp, Request.newPlan_id] at this
      exact this rfl

/-- Witness of C20: a forward 3-D call in `exampleCache`, whose single 3-D slot
count is exhausted, runs on a transient plan (`exampleTransientRun`). -/
theorem C20_transient_plan_disposal_witness :
    acquire exampleLimits exampleCache (RunCall.run_3d 1 2 2 2).request 8
      = some (exampleTransientRun.plan, exampleTransientRun.ioverflow,
          exampleTransientRun.cache) ∧
    (exampleTransientRun.ioverflow = 0 ∨ exampleTransientRun.ioverflow = 1) ∧
    destroyed exampleTransientRun.trace
      = (if exampleTransientRun.ioverflow = 1 then [exampleTransientRun.plan] else []) ∧
    (Cmd.hipfftDestroy exampleTransientRun.plan ∈ exampleTransientRun.trace ↔
      exampleTransientRun.ioverflow = 1) ∧
    (exampleTransientRun.ioverflow = 1 →
      exampleTransientRun.plan = (RunCall.run_3d 1 2 2 2).request.newPlan 8 ∧
      exampleTransientRun.cache = exampleCache ∧
      ∃ mid, destroyed mid = [] ∧ exampleTransientRun.trace =
        [Cmd.hipfftExecZ2Z exampleTransientRun.plan
            ((RunCall.run_3d 1 2 2 2).idata Buf.ptr_1 Buf.ptr_2) Buf.ptr_2
            (RunCall.run_3d 1 2 2 2).direction] ++ mid ++
          [Cmd.hipStreamSynchronize 1, Cmd.hipfftDestroy exampleTransientRun.plan]) ∧
    ((∀ i q, i < exampleCache.n_plans → exampleCache.saved_plans[i]? = some q → q.id ≠ 8) →
      ∀ i q, i < exampleTransientRun.cache.n_plans →
        exampleTransientRun.cache.saved_plans[i]? = some q →
        Cmd.hipfftDestroy q ∉ exampleTransientRun.trace) :=
  C20_transient_plan_disposal exampleLimits exampleTransform exampleCache (.run_3d 1 2 2 2) 1
    [] [1, 2, 3, 4, 5, 6, 7, 8, 9, 10, 11, 12, 13, 14, 15, 16] Buf.ptr_1 Buf.ptr_2 1 8
    exampleTransientRun rfl

open Hip

/-! ## Key uniqueness -/

theorem keysDistinct_init (lim : fft_hip_internal) : KeysDistinct (PlanCache.init lim) :=
  ⟨Nat.zero_le _, fun _ j _ hj => absurd hj (Nat.not_lt_zero j)⟩

/-- An acquisition stores a key only after the lookup found it in no occupied slot. -/
theorem keysDistinct_acquire (lim : fft_hip_internal) (s s2 : PlanCache)
    (req : Request) (fresh : Nat) (p : hipfftHandle) (iov : Int) (hk : KeysDistinct s)
    (h : acquire lim s req fresh = some (p, iov, s2)) : KeysDistinct s2 := by
  obtain ⟨hlen, hd⟩ := hk
  rcases acquire_cases lim s s2 req fresh p iov h with ⟨i, _, _, _, rfl⟩ |
    ⟨hscan, _, ⟨hlt, hb1, hb2, _, rfl⟩ | ⟨_, _, rfl⟩⟩
  · exact ⟨hlen, hd⟩
  · have hnone := (scan_plans_none s req.key s.n_plans 0).mp hscan
    refine ⟨?_, ?_⟩
    · show s.n_plans + 1 ≤ (s.iplandims.set s.n_plans req.key).length
      rw [List.length_set]; omega
    · intro i j hij hj
      have hj2 : j < s.n_plans + 1 := hj
      show (s.iplandims.set s.n_plans req.key)[i]? ≠ (s.iplandims.set s.n_plans req.key)[j]?
      by_cases hjn : j = s.n_plans
      · subst hjn
        rw [List.getElem?_set_ne (by omega), List.getElem?_set_self hb2]
        exact hnone i (Nat.zero_le _) (by omega)
      · rw [List.getElem?_set_ne (by omega), List.getElem?_set_ne (by omega)]
        exact hd i j hij (by omega)
  · exact ⟨hlen, hd⟩

theorem keysDistinct_release (s s2 : PlanCache) (t : List Cmd)
    (h : ffthip_release_ s = some (t, s2)) : KeysDistinct s2 := by
  obtain ⟨_, h2, _, h4⟩ := plansSound_release s s2 t h
  refine ⟨by rw [h2]; exact Nat.zero_le _, fun i j _ hj => ?_⟩
  rw [h2] at hj
  exact absurd hj (Nat.not_lt_zero j)

theorem reachable_keysDistinct (lim : fft_hip_internal) (s : PlanCache)
    (hr : Reachable lim s) : KeysDistinct s := by
  induction hr with
  | init => exact keysDistinct_init lim
  | acquire s req fresh plan iov s2 _ hacq ih =>
    exact keysDistinct_acquire lim s s2 req fresh plan iov ih hacq
  | release s t s2 _ hrel _ => exact keysDistinct_release s s2 t hrel

open Hip

/-! ## Claims on key uniqueness and layouts -/

/-- C22. Plan cache key uniqueness: in every cache state reachable from the empty
cache by any sequence of `ffthip_plan3d_z`, `ffthip_plan2dm_z`,
`ffthip_plan1dm_z` and `ffthip_release_` calls, no two occupied slots `i != j`
(both below `n_plans`) hold the same key row; every occupied slot holds a row,
and the rows of the occupied slots form a list without repetition, so each
key occurs in at most one entry. -/
theorem C22_key_uniqueness (lim : fft_hip_internal) (s : PlanCache) (hr : Reachable lim s) :
    (∀ i j, i < s.n_plans → j < s.n_plans → i ≠ j → s.iplandims[i]? ≠ s.iplandims[j]?) ∧
    (∀ i, i < s.n_plans → ∃ row, s.iplandims[i]? = some row) ∧
    (s.iplandims.take s.n_plans).Nodup := by
  obtain ⟨hlen, hd⟩ := reachable_keysDistinct lim s hr
  have hne : ∀ i j, i < s.n_plans → j < s.n_plans → i ≠ j →
      s.iplandims[i]? ≠ s.iplandims[j]? := by
    intro i j hi hj hij
    rcases Nat.lt_or_gt_of_ne hij with h | h
    · exact hd i j h hj
    · exact fun e => hd j i h hi e.symm
  have hnd : (s.iplandims.take s.n_plans).Nodup := by
    rw [List.nodup_iff_getElem?_ne_getElem?]
    intro i j hij hj
    rw [List.length_take, Nat.min_eq_left hlen] at hj
    rw [List.getElem?_take_of_lt (by omega), List.getElem?_take_of_lt hj]
    exact hd i j hij hj
  exact ⟨hne, fun i hi => ⟨s.iplandims[i], List.getElem?_eq_getElem (by omega)⟩, hnd⟩

/-- Witness of C22: `exampleCache`, reached by one 1-D acquisition under `exampleLimits`. -/
theorem C22_key_uniqueness_witness :
    (∀ i j, i < exampleCache.n_plans → j < exampleCache.n_plans → i ≠ j →
      exampleCache.iplandims[i]? ≠ exampleCache.iplandims[j]?) ∧
    (∀ i, i < exampleCache.n_plans → ∃ row, exampleCache.iplandims[i]? = some row) ∧
    (exampleCache.iplandims.take exampleCache.n_plans).Nodup :=
  C22_key_uniqueness exampleLimits exampleCache
    (Reachable.acquire (PlanCache.init exampleLimits) (.plan1dm 4 2 1) 7
      ⟨7, some (.hipfftPlanMany 1 [4] [0] 2 1 [0] 1 4 2)⟩ 0 exampleCache Reachable.init
      (by decide))

open Hip

/-! ## Mixed-radix addressing -/

theorem mixed_radix_lt (P Q p q : Nat) (hp : p < P) (hq : q < Q) : p + q * P < P * Q := by
  have h1 : (q + 1) * P ≤ Q * P := Nat.mul_le_mul_right _ hq
  rw [Nat.add_mul, Nat.one_mul, Nat.mul_comm Q P] at h1
  omega

theorem mixed_radix_inj (P p q p2 q2 : Nat) (hp : p < P) (hp2 : p2 < P)
    (h : p + q * P = p2 + q2 * P) : p = p2 ∧ q = q2 := by
  have hP : 0 < P := by omega
  have e1 : (p + q * P) % P = p := by
    rw [Nat.add_mul_mod_self_right, Nat.mod_eq_of_lt hp]
  have e2 : (p2 + q2 * P) % P = p2 := by
    rw [Nat.add_mul_mod_self_right, Nat.mod_eq_of_lt hp2]
  have e3 : (p + q * P) / P = q := by
    rw [Nat.add_mul_div_right _ _ hP, Nat.div_eq_of_lt hp, Nat.zero_add]
  have e4 : (p2 + q2 * P) / P = q2 := by
    rw [Nat.add_mul_div_right _ _ hP, Nat.div_eq_of_lt hp2, Nat.zero_add]
  rw [h] at e1 e3
  exact ⟨e1.symm.trans e2, e3.symm.trans e4⟩

theorem mixed_radix_surj (P Q k : Nat) (hk : k < P * Q) :
    ∃ p q, p < P ∧ q < Q ∧ p + q * P = k := by
  have hP : 0 < P := by
    rcases Nat.eq_zero_or_pos P with h0 | h0
    · rw [h0, Nat.zero_mul] at hk; omega
    · exact h0
  refine ⟨k % P, k / P, Nat.mod_lt _ hP, ?_, ?_⟩
  · exact Nat.div_lt_of_lt_mul hk
  · rw [Nat.mul_comm]; exact Nat.mod_add_div k P

/-- Offsets with the batch index running fastest: `b + j * B`. -/
theorem bijOnto2_of_minor (f : Nat → Nat → Int) (B J : Nat)
    (hf : ∀ b j, f b j = ((b + j * B : Nat) : Int)) : BijOnto2 f B J (B * J) := by
  refine ⟨?_, ?_, ?_⟩
  · intro b j hb hj
    rw [hf]
    have := mixed_radix_lt B J b j hb hj
    exact ⟨Int.natCast_nonneg _, by exact_mod_cast this⟩
  · intro b j b2 j2 hb _ hb2 _ h
    rw [hf, hf] at h
    exact mixed_radix_inj B b j b2 j2 hb hb2 (by exact_mod_cast h)
  · intro k hk
    obtain ⟨b, j, hb, hj, e⟩ := mixed_radix_surj B J k hk
    exact ⟨b, j, hb, hj, by rw [hf, e]⟩

/-- Offsets with the element index running fastest: `j + b * J`. -/
theorem bijOnto2_of_major (f : Nat → Nat → Int) (B J : Nat)
    (hf : ∀ b j, f b j = ((j + b * J : Nat) : Int)) : BijOnto2 f B J (B * J) := by
  refine ⟨?_, ?_, ?_⟩
  · intro b j hb hj
    rw [hf]
    have := mixed_radix_lt J B j b hj hb
    rw [Nat.mul_comm J B] at this
    exact ⟨Int.natCast_nonneg _, by exact_mod_cast this⟩
  · intro b j b2 j2 _ hj _ hj2 h
    rw [hf, hf] at h
    have := mixed_radix_inj J j b j2 b2 hj hj2 (by exact_mod_cast h)
    exact ⟨this.2, this.1⟩
  · intro k hk
    rw [Nat.mul_comm B J] at hk
    obtain ⟨j, b, hj, hb, e⟩ := mixed_radix_surj J B k hk
    exact ⟨b, j, hb, hj, by rw [hf, e]⟩

/-- Rank 2, batch index running fastest: `b + (y + x * Y) * B`. -/
theorem bijOnto3_of_minor (f : Nat → Nat → Nat → Int) (B X Y : Nat)
    (hf : ∀ b x y, f b x y = ((b + (y + x * Y) * B : Nat) : Int)) :
    BijOnto3 f B X Y (B * (Y * X)) := by
  refine ⟨?_, ?_, ?_⟩
  · intro b x y hb hx hy
    rw [hf]
    have h1 := mixed_radix_lt Y X y x hy hx
    have := mixed_radix_lt B (Y * X) b (y + x * Y) hb h1
    exact ⟨Int.natCast_nonneg _, by exact_mod_cast this⟩
  · intro b x y b2 x2 y2 hb _ hy hb2 _ hy2 h
    rw [hf, hf] at h
    obtain ⟨e1, e2⟩ := mixed_radix_inj B b _ b2 _ hb hb2 (by exact_mod_cast h)
    obtain ⟨e3, e4⟩ := mixed_radix_inj Y y x y2 x2 hy hy2 e2
    exact ⟨e1, e4, e3⟩
  · intro k hk
    obtain ⟨b, q, hb, hq, e⟩ := mixed_radix_surj B (Y * X) k hk
    obtain ⟨y, x, hy, hx, e2⟩ := mixed_radix_surj Y X q hq
    exact ⟨b, x, y, hb, hx, hy, by rw [hf, e2, e]⟩

/-- Rank 2, element index running fastest: `(y + x * Y) + b * (Y * X)`. -/
theorem bijOnto3_of_major (f : Nat → Nat → Nat → Int) (B X Y : Nat)
    (hf : ∀ b x y, f b x y = (((y + x * Y) + b * (Y * X) : Nat) : Int)) :
    BijOnto3 f B X Y (B * (Y * X)) := by
  refine ⟨?_, ?_, ?_⟩
  · intro b x y hb hx hy
    rw [hf]
    have h1 := mixed_radix_lt Y X y x hy hx
    have := mixed_radix_lt (Y * X) B (y + x * Y) b h1 hb
    rw [Nat.mul_comm (Y * X) B] at this
    exact ⟨Int.natCast_nonneg _, by exact_mod_cast this⟩
  · intro b x y b2 x2 y2 _ hx hy _ hx2 hy2 h
    rw [hf, hf] at h
    have h1 := mixed_radix_lt Y X y x hy hx
    have h2 := mixed_radix_lt Y X y2 x2 hy2 hx2
    obtain ⟨e1, e2⟩ := mixed_radix_inj (Y * X) _ b _ b2 h1 h2 (by exact_mod_cast h)
    obtain ⟨e3, e4⟩ := mixed_radix_inj Y y x y2 x2 hy hy2 e1
    exact ⟨e2, e4, e3⟩
  · intro k hk
    rw [Nat.mul_comm B (Y * X)] at hk
    obtain ⟨q, b, hq, hb, e⟩ := mixed_radix_surj (Y * X) B k hk
    obtain ⟨y, x, hy, hx, e2⟩ := mixed_radix_surj Y X q hq
    exact ⟨b, x, y, hb, hx, hy, by rw [hf, e2, e]⟩

/-- An `int` product that does not overflow is the mathematical product. -/
theorem wrap32_of_nonneg_lt (x : Int) (h0 : 0 ≤ x) (h1 : x < 2 ^ 31) : wrap32 x = x := by
  have hx : x = ((x.toNat : Nat) : Int) := (Int.toNat_of_nonneg h0).symm
  rw [hx]
  exact wrap32_natCast _ (by omega)

open Hip

/-- C23 fails as stated for a 2-D request whose product `n[1] * n[2]` is not an
`int`: for `n = (1, 65536, 65536)` the routine computes the `int` product
`n[1] * n[2]`, which is `0`, and the forward plan has the layout `(1, 1, 1, 0)`
instead of `(1, 1, 1, 4294967296)`. -/
theorem C23_direction_layout_counterexample :
    ∃ plan ioverflow s2,
      ffthip_plan2dm_z exampleLimits (PlanCache.init exampleLimits) 1 65536 65536 1 7
        = some (plan, ioverflow, s2) ∧
      plan.built.bind PlanCall.layout = some (1, 1, 1, 0) ∧
      (65536 : Int) * 65536 = 4294967296 ∧ wrap32 (65536 * 65536) = 0 ∧
      plan.built.bind PlanCall.layout ≠ some (1, 1, 1, 65536 * 65536) :=
  ⟨_, _, _, rfl, rfl, by norm_num, by decide, by decide⟩

/-- C23, amended. Direction-dependent layout: in every reachable cache state (the
capacity constants not exceeding `max_plans`), for every 1-D request `(n, m)`
and every 2-D request `n[0..2]`, the plan routine returns, and the plan
returned for the forward direction (`fsign = +1`) has
`(istride, idist, ostride, odist)` equal to `(m, 1, 1, n)` for 1-D and
`(n[0], 1, 1, n[1] * n[2])` for 2-D, where `n[1] * n[2]` is the `int` product the
routine computes, equal to the product of the two numbers whenever that is an
`int` (`0 ≤ n[1] * n[2] < 2 ^ 31`); the plan returned for the inverse direction
(`fsign = -1`) has exactly the forward layout with the roles of input and
output exchanged; the batch count (`m`, `n[0]`) and the transform sizes (`[n]`,
`[n[2], n[1]]`) are the same in both directions. -/
theorem C23_direction_layout (lim : fft_hip_internal) (hc : lim.Consistent) (s : PlanCache)
    (hr : Reachable lim s) (n m n0 n1 n2 : Int) (fresh : Nat) :
    (∃ plan ioverflow s2, ffthip_plan1dm_z lim s n m 1 fresh = some (plan, ioverflow, s2) ∧
      plan.built.bind PlanCall.layout = some (m, 1, 1, n) ∧
      plan.built.bind PlanCall.batch = some m ∧ plan.built.map PlanCall.sizes = some [n]) ∧
    (∃ plan ioverflow s2, ffthip_plan1dm_z lim s n m (-1) fresh = some (plan, ioverflow, s2) ∧
      plan.built.bind PlanCall.layout = some (swapLayout (m, 1, 1, n)) ∧
      swapLayout (m, 1, 1, n) = (1, n, m, 1) ∧
      plan.built.bind PlanCall.batch = some m ∧ plan.built.map PlanCall.sizes = some [n]) ∧
    (∃ plan ioverflow s2,
      ffthip_plan2dm_z lim s n0 n1 n2 1 fresh = some (plan, ioverflow, s2) ∧
      plan.built.bind PlanCall.layout = some (n0, 1, 1, wrap32 (n1 * n2)) ∧
      plan.built.bind PlanCall.batch = some n0 ∧
      plan.built.map PlanCall.sizes = some [n2, n1]) ∧
    (∃ plan ioverflow s2,
      ffthip_plan2dm_z lim s n0 n1 n2 (-1) fresh = some (plan, ioverflow, s2) ∧
      plan.built.bind PlanCall.layout = some (swapLayout (n0, 1, 1, wrap32 (n1 * n2))) ∧
      swapLayout (n0, 1, 1, wrap32 (n1 * n2)) = (1, wrap32 (n1 * n2), n0, 1) ∧
      plan.built.bind PlanCall.batch = some n0 ∧
      plan.built.map PlanCall.sizes = some [n2, n1]) ∧
    (0 ≤ n1 * n2 → n1 * n2 < 2 ^ 31 → wrap32 (n1 * n2) = n1 * n2) := by
  obtain ⟨hs, hwf⟩ := reachable_inv lim s hr
  have hwf := hwf hc
  refine ⟨?_, ?_, ?_, ?_, wrap32_of_nonneg_lt _⟩
  · obtain ⟨plan, iov, s2, h⟩ := acquire_total lim hc s hwf (.plan1dm n m 1) fresh
    refine ⟨plan, iov, s2, h, ?_⟩
    rw [acquire_built lim s s2 _ fresh plan iov hs h]
    exact ⟨rfl, rfl, rfl⟩
  · obtain ⟨plan, iov, s2, h⟩ := acquire_total lim hc s hwf (.plan1dm n m (-1)) fresh
    refine ⟨plan, iov, s2, h, ?_⟩
    rw [acquire_built lim s s2 _ fresh plan iov hs h]
    exact ⟨rfl, rfl, rfl, rfl⟩
  · obtain ⟨plan, iov, s2, h⟩ := acquire_total lim hc s hwf (.plan2dm n0 n1 n2 1) fresh
    refine ⟨plan, iov, s2, h, ?_⟩
    rw [acquire_built lim s s2 _ fresh plan iov hs h]
    exact ⟨rfl, rfl, rfl⟩
  · obtain ⟨plan, iov, s2, h⟩ := acquire_total lim hc s hwf (.plan2dm n0 n1 n2 (-1)) fresh
    refine ⟨plan, iov, s2, h, ?_⟩
    rw [acquire_built lim s s2 _ fresh plan iov hs h]
    exact ⟨rfl, rfl, rfl, rfl⟩

/-- Witness of C23: the requests `(n, m) = (4, 2)` and `n = (2, 3, 4)` in the initial cache. -/
theorem C23_direction_layout_witness :
    exampleLimits.Consistent ∧ Reachable exampleLimits (PlanCache.init exampleLimits) ∧
    ((∃ plan ioverflow s2,
      ffthip_plan1dm_z exampleLimits (PlanCache.init exampleLimits) 4 2 1 7
        = some (plan, ioverflow, s2) ∧
      plan.built.bind PlanCall.layout = some (2, 1, 1, 4) ∧
      plan.built.bind PlanCall.batch = some 2 ∧ plan.built.map PlanCall.sizes = some [4]) ∧
    (∃ plan ioverflow s2,
      ffthip_plan1dm_z exampleLimits (PlanCache.init exampleLimits) 4 2 (-1) 7
        = some (plan, ioverflow, s2) ∧
      plan.built.bind PlanCall.layout = some (swapLayout (2, 1, 1, 4)) ∧
      swapLayout (2, 1, 1, 4) = (1, 4, 2, 1) ∧
      plan.built.bind PlanCall.batch = some 2 ∧ plan.built.map PlanCall.sizes = some [4]) ∧
    (∃ plan ioverflow s2,
      ffthip_plan2dm_z exampleLimits (PlanCache.init exampleLimits) 2 3 4 1 7
        = some (plan, ioverflow, s2) ∧
      plan.built.bind PlanCall.layout = some (2, 1, 1, wrap32 (3 * 4)) ∧
      plan.built.bind PlanCall.batch = some 2 ∧
      plan.built.map PlanCall.sizes = some [4, 3]) ∧
    (∃ plan ioverflow s2,
      ffthip_plan2dm_z exampleLimits (PlanCache.init exampleLimits) 2 3 4 (-1) 7
        = some (plan, ioverflow, s2) ∧
      plan.built.bind PlanCall.layout = some (swapLayout (2, 1, 1, wrap32 (3 * 4))) ∧
      swapLayout (2, 1, 1, wrap32 (3 * 4)) = (1, wrap32 (3 * 4), 2, 1) ∧
      plan.built.bind PlanCall.batch = some 2 ∧
      plan.built.map PlanCall.sizes = some [4, 3]) ∧
    ((0 : Int) ≤ 3 * 4 → (3 : Int) * 4 < 2 ^ 31 → wrap32 (3 * 4) = 3 * 4)) ∧
    wrap32 (3 * 4) = 12 :=
  ⟨by decide, Reachable.init,
    C23_direction_layout exampleLimits (by decide) (PlanCache.init exampleLimits)
      Reachable.init 4 2 2 3 4 7, by decide⟩

/-- C26 fails as stated for a 2-D request whose product `n[1] * n[2]` is not an
`int`: for `n = (2, 65536, 65536)` the forward plan is built with the output
distance `0` (the `int` product), so element `(0, 0)` of batch 0 and of batch 1
have the same output offset, and the output offsets are no bijection. -/
theorem C26_layouts_address_buffer_counterexample :
    ((Request.plan2dm 2 65536 65536 1).newPlan 7).built =
      some (.hipfftPlanMany 2 [65536, 65536] [65536, 65536] 2 1 [65536, 65536] 1 0 2) ∧
    offset2d 65536 1 0 0 0 0 = offset2d 65536 1 0 1 0 0 ∧
    ¬ BijOnto3 (offset2d 65536 1 0) 2 65536 65536 (2 * 65536 * 65536) := by
  refine ⟨rfl, rfl, fun h => ?_⟩
  have := (h.2.1 0 0 0 1 0 0 (by decide) (by decide) (by decide) (by decide) (by decide)
    (by decide) rfl).1
  exact absurd this (by decide)

/-- C26, amended. Batched layouts address exactly the buffer: for every `n`, `m` and
either direction (any `fsign`), the input offsets `b * idist + j * istride` and
the output offsets `b * odist + j * ostride` (`b < m`, `j < n`) of the layout the
1-D plan routine builds are each pairwise distinct and exactly `[0, n * m)`;
the forward plan reads element `j` of batch `b` at `j * m + b` and writes it
at `b * n + j` (it transposes), the other layout does the reverse.  Likewise
for the 2-D plan, when `n[1] * n[2]` is an `int` (`n[1] * n[2] < 2 ^ 31`), with
batch `n[0]`, sizes `(n[2], n[1])` and embedding `(n[2], n[1])`, the input and
output offsets `b * dist + (x * n[1] + y) * stride` are each pairwise distinct
and exactly `[0, n[0] * n[1] * n[2])`.  So every access of the transform lies
inside a buffer of `lmem = n * m`, respectively `n[0] * n[1] * n[2]`, elements. -/
theorem C26_layouts_address_buffer (n m n0 n1 n2 : Nat) (fsign : Int) (fresh : Nat) :
    (∃ istride idist ostride odist : Int,
      ((Request.plan1dm n m fsign).newPlan fresh).built =
        some (.hipfftPlanMany 1 [(n : Int)] [0] istride idist [0] ostride odist m) ∧
      BijOnto2 (offset1d istride idist) m n (n * m) ∧
      BijOnto2 (offset1d ostride odist) m n (n * m) ∧
      (fsign = 1 → ∀ b j : Nat, offset1d istride idist b j = (j : Int) * m + b ∧
        offset1d ostride odist b j = (b : Int) * n + j) ∧
      (fsign ≠ 1 → ∀ b j : Nat, offset1d istride idist b j = (b : Int) * n + j ∧
        offset1d ostride odist b j = (j : Int) * m + b)) ∧
    (n1 * n2 < 2 ^ 31 → ∃ istride idist ostride odist : Int,
      ((Request.plan2dm n0 n1 n2 fsign).newPlan fresh).built =
        some (.hipfftPlanMany 2 [(n2 : Int), n1] [(n2 : Int), n1] istride idist
          [(n2 : Int), n1] ostride odist n0) ∧
      BijOnto3 (offset2d n1 istride idist) n0 n2 n1 (n0 * n1 * n2) ∧
      BijOnto3 (offset2d n1 ostride odist) n0 n2 n1 (n0 * n1 * n2)) := by
  have hN1 : n * m = m * n := Nat.mul_comm _ _
  have hN2 : n0 * n1 * n2 = n0 * (n1 * n2) := Nat.mul_assoc _ _ _
  have hw : n1 * n2 < 2 ^ 31 →
      PwHip.toInt32 (PwHip.toUInt32 ((n1 : Int) * (n2 : Int))) = (n1 : Int) * n2 :=
    fun h12 => wrap32_of_nonneg_lt _ (by positivity) (by exact_mod_cast h12)
  have hmin1 : BijOnto2 (offset1d (m : Int) 1) m n (n * m) := by
    rw [hN1]
    exact bijOnto2_of_minor _ m n (fun b j => by simp only [offset1d]; push_cast; ring)
  have hmaj1 : BijOnto2 (offset1d 1 (n : Int)) m n (n * m) := by
    rw [hN1]
    exact bijOnto2_of_major _ m n (fun b j => by simp only [offset1d]; push_cast; ring)
  have hmin2 : BijOnto3 (offset2d n1 (n0 : Int) 1) n0 n2 n1 (n0 * n1 * n2) := by
    rw [hN2]
    exact bijOnto3_of_minor _ n0 n2 n1 (fun b x y => by simp only [offset2d]; push_cast; ring)
  have hmaj2 : BijOnto3 (offset2d n1 1 ((n1 : Int) * n2)) n0 n2 n1 (n0 * n1 * n2) := by
    rw [hN2]
    exact bijOnto3_of_major _ n0 n2 n1 (fun b x y => by simp only [offset2d]; push_cast; ring)
  by_cases h : fsign = 1
  · refine ⟨⟨m, 1, 1, n, ?_, hmin1, hmaj1, fun _ b j => ?_, fun hne => absurd h hne⟩,
      fun h12 => ⟨n0, 1, 1, (n1 : Int) * n2, ?_, hmin2, hmaj2⟩⟩
    · simp only [Request.newPlan, if_pos h]
    · simp only [offset1d]; constructor <;> ring
    · simp only [Request.newPlan, if_pos h, hw h12]
  · refine ⟨⟨1, n, m, 1, ?_, hmaj1, hmin1, fun he => absurd he h, fun _ b j => ?_⟩,
      fun h12 => ⟨1, (n1 : Int) * n2, n0, 1, ?_, hmaj2, hmin2⟩⟩
    · simp only [Request.newPlan, if_neg h]
    · simp only [offset1d]; constructor <;> ring
    · simp only [Request.newPlan, if_neg h, hw h12]

/-- Witness of C26: four vectors of length 3, and two `4 x 3` transforms. -/
theorem C26_layouts_address_buffer_witness :
    3 * 4 < 2 ^ 31 ∧
    (∃ istride idist ostride odist : Int,
      ((Request.plan1dm ((3 : Nat) : Int) ((4 : Nat) : Int) 1).newPlan 7).built =
        some (.hipfftPlanMany 1 [((3 : Nat) : Int)] [0] istride idist [0] ostride odist
          ((4 : Nat) : Int)) ∧
      BijOnto2 (offset1d istride idist) 4 3 (3 * 4) ∧
      BijOnto2 (offset1d ostride odist) 4 3 (3 * 4) ∧
      ((1 : Int) = 1 → ∀ b j : Nat, offset1d istride idist b j = (j : Int) * ((4 : Nat) : Int) + b ∧
        offset1d ostride odist b j = (b : Int) * ((3 : Nat) : Int) + j) ∧
      ((1 : Int) ≠ 1 → ∀ b j : Nat, offset1d istride idist b j = (b : Int) * ((3 : Nat) : Int) + j ∧
        offset1d ostride odist b j = (j : Int) * ((4 : Nat) : Int) + b)) ∧
    (∃ istride idist ostride odist : Int,
      ((Request.plan2dm ((2 : Nat) : Int) ((3 : Nat) : Int) ((4 : Nat) : Int) 1).newPlan 7).built =
        some (.hipfftPlanMany 2 [((4 : Nat) : Int), ((3 : Nat) : Int)]
          [((4 : Nat) : Int), ((3 : Nat) : Int)] istride idist
          [((4 : Nat) : Int), ((3 : Nat) : Int)] ostride odist ((2 : Nat) : Int)) ∧
      BijOnto3 (offset2d 3 istride idist) 2 4 3 (2 * 3 * 4) ∧
      BijOnto3 (offset2d 3 ostride odist) 2 4 3 (2 * 3 * 4)) :=
  ⟨by decide, (C26_layouts_address_buffer 3 4 2 3 4 1 7).1,
    (C26_layouts_address_buffer 3 4 2 3 4 1 7).2 (by decide)⟩

open Hip

/-- The calls an invoker issues, exactly: the transform, then (for a scale other
than one) a stream synchronisation and the scaling, then (for a transient plan) a
stream synchronisation and the destruction of the plan. -/
theorem ffthip_run_trace {R : Type} [One R] [Mul R] [DecidableEq R] (lim : fft_hip_internal)
    (T : Transform R) (s : PlanCache) (call : RunCall) (scale : R) (data_in data_out : List R)
    (idata odata : Buf) (hip_stream fresh : Nat) (r : RunResult R)
    (h : ffthip_run lim T s call scale data_in data_out idata odata hip_stream fresh = some r) :
    acquire lim s call.request fresh = some (r.plan, r.ioverflow, r.cache) ∧
      r.trace = [Cmd.hipfftExecZ2Z r.plan (call.idata idata odata) odata call.direction] ++
        (if scale ≠ 1 then [Cmd.hipStreamSynchronize hip_stream,
          Cmd.hipblasDscal (wrap32 (2 * call.lmem)) odata] else []) ++
        (if r.ioverflow ≠ 0 then [Cmd.hipStreamSynchronize hip_stream, Cmd.hipfftDestroy r.plan]
         else []) := by
  rw [ffthip_run_eq] at h
  cases hacq : acquire lim s call.request fresh with
  | none => rw [hacq] at h; exact Option.noConfusion h
  | some acq =>
    obtain ⟨p, iov, s2⟩ := acq
    rw [hacq] at h
    simp only [Option.some_bind] at h
    cases hb : p.built with
    | none => rw [hb] at h; exact Option.noConfusion h
    | some c =>
      rw [hb] at h
      simp only at h
      by_cases hsc : scale ≠ 1
      · rw [if_pos hsc] at h
        cases hd : hipblasDscal (wrap32 (2 * call.lmem)) scale
            (T c call.direction (call.input data_in data_out) data_out) with
        | none => rw [hd] at h; exact Option.noConfusion h
        | some x =>
          rw [hd] at h
          simp only [Option.map_some', Option.some.injEq] at h
          subst h
          exact ⟨rfl, by rw [if_pos hsc]⟩
      · rw [if_neg hsc] at h
        simp only [Option.map_some', Option.some.injEq] at h
        subst h
        exact ⟨rfl, by rw [if_neg hsc]⟩

/-- An invoker call executes exactly one transform, in the direction chosen by the
sign of `fsign`. -/
theorem ffthip_run_executed {R : Type} [One R] [Mul R] [DecidableEq R] (lim : fft_hip_internal)
    (T : Transform R) (s : PlanCache) (call : RunCall) (scale : R) (data_in data_out : List R)
    (idata odata : Buf) (hip_stream fresh : Nat) (r : RunResult R)
    (h : ffthip_run lim T s call scale data_in data_out idata odata hip_stream fresh = some r) :
    executed r.trace = [call.direction] := by
  rw [(ffthip_run_trace lim T s call scale data_in data_out idata odata hip_stream fresh r h).2]
  by_cases hsc : scale ≠ 1 <;> by_cases hov : r.ioverflow ≠ 0
  · rw [if_pos hsc, if_pos hov]; rfl
  · rw [if_pos hsc, if_neg hov]; rfl
  · rw [if_neg hsc, if_pos hov]; rfl
  · rw [if_neg hsc, if_neg hov]; rfl

open Hip

/-- C29 fails as stated: the call `ffthip_run_1dm_z_` with `fsign = 0` and
`(n, m) = (4, 2)` in the initial cache executes the forward transform, but the
plan it acquires has the layout `(1, 4, 2, 1)`, which is the inverse layout and
not the forward layout `(2, 1, 1, 4)`. -/
theorem C29_direction_consistency_counterexample :
    ffthip_run_1dm_z_ exampleLimits exampleTransform (PlanCache.init exampleLimits) 0 4 2 1
        [1, 2, 3, 4, 5, 6, 7, 8, 9, 10, 11, 12, 13, 14, 15, 16]
        [0, 0, 0, 0, 0, 0, 0, 0, 0, 0, 0, 0, 0, 0, 0, 0] Buf.ptr_1 Buf.ptr_2 1 7
      = some exampleZeroSignRun ∧
    executed exampleZeroSignRun.trace = [Direction.HIPFFT_FORWARD] ∧
    exampleZeroSignRun.plan.built.bind PlanCall.layout = some (1, 4, 2, 1) ∧
    Request.inverseLayout (.plan1dm 4 2 0) = some (1, 4, 2, 1) ∧
    Request.forwardLayout (.plan1dm 4 2 0) = some (2, 1, 1, 4) ∧
    exampleZeroSignRun.plan.built.bind PlanCall.layout ≠ Request.forwardLayout (.plan1dm 4 2 0) :=
  ⟨rfl, rfl, rfl, rfl, rfl, by decide⟩

/-- C29, amended. Direction handling of `ffthip_run_1dm_z_` and
`ffthip_run_2dm_z_` in a sound cache: every call that returns executes exactly
one transform, and for `fsign = +1` the plan acquired has the forward
stride/distance layout and the forward transform is executed; for every
negative `fsign` the plan has the inverse layout and the inverse transform is
executed; for every other value (`fsign = 0` or `fsign ≥ 2`) the plan has the
inverse layout while the forward transform is executed. -/
theorem C29_direction_consistency {R : Type} [One R] [Mul R] [DecidableEq R]
    (lim : fft_hip_internal) (T : Transform R) (s : PlanCache) (hs : PlansSound s)
    (fsign n m n0 n1 n2 : Int) (scale : R) (data_in data_out : List R) (idata odata : Buf)
    (hip_stream fresh : Nat) :
    (∀ r, ffthip_run_1dm_z_ lim T s fsign n m scale data_in data_out idata odata hip_stream fresh
        = some r →
      (fsign = 1 → r.plan.built.bind PlanCall.layout = Request.forwardLayout (.plan1dm n m fsign) ∧
        executed r.trace = [Direction.HIPFFT_FORWARD]) ∧
      (fsign < 0 → r.plan.built.bind PlanCall.layout = Request.inverseLayout (.plan1dm n m fsign) ∧
        executed r.trace = [Direction.HIPFFT_INVERSE]) ∧
      (0 ≤ fsign → fsign ≠ 1 →
        r.plan.built.bind PlanCall.layout = Request.inverseLayout (.plan1dm n m fsign) ∧
        executed r.trace = [Direction.HIPFFT_FORWARD])) ∧
    (∀ r, ffthip_run_2dm_z_ lim T s fsign n0 n1 n2 scale data_in data_out idata odata hip_stream
        fresh = some r →
      (fsign = 1 →
        r.plan.built.bind PlanCall.layout = Request.forwardLayout (.plan2dm n0 n1 n2 fsign) ∧
        executed r.trace = [Direction.HIPFFT_FORWARD]) ∧
      (fsign < 0 →
        r.plan.built.bind PlanCall.layout = Request.inverseLayout (.plan2dm n0 n1 n2 fsign) ∧
        executed r.trace = [Direction.HIPFFT_INVERSE]) ∧
      (0 ≤ fsign → fsign ≠ 1 →
        r.plan.built.bind PlanCall.layout = Request.inverseLayout (.plan2dm n0 n1 n2 fsign) ∧
        executed r.trace = [Direction.HIPFFT_FORWARD])) := by
  constructor
  · intro r h
    have h2 : ffthip_run lim T s (.run_1dm fsign n m) scale data_in data_out idata odata
        hip_stream fresh = some r := h
    have hex := ffthip_run_executed lim T s _ scale data_in data_out idata odata hip_stream
      fresh r h2
    have hacq := (ffthip_run_trace lim T s _ scale data_in data_out idata odata hip_stream
      fresh r h2).1
    have hb := acquire_built lim s r.cache _ fresh r.plan r.ioverflow hs hacq
    rw [hb, hex]
    simp only [RunCall.request, RunCall.direction, Request.newPlan]
    refine ⟨fun h1 => ?_, fun hneg => ?_, fun hpos hne => ?_⟩
    · subst h1; exact ⟨rfl, rfl⟩
    · have hne : fsign ≠ 1 := by omega
      rw [if_neg hne, if_pos hneg]; exact ⟨rfl, rfl⟩
    · have hnn : ¬ fsign < 0 := by omega
      rw [if_neg hne, if_neg hnn]; exact ⟨rfl, rfl⟩
  · intro r h
    have h2 : ffthip_run lim T s (.run_2dm fsign n0 n1 n2) scale data_in data_out idata odata
        hip_stream fresh = some r := h
    have hex := ffthip_run_executed lim T s _ scale data_in data_out idata odata hip_stream
      fresh r h2
    have hacq := (ffthip_run_trace lim T s _ scale data_in data_out idata odata hip_stream
      fresh r h2).1
    have hb := acquire_built lim s r.cache _ fresh r.plan r.ioverflow hs hacq
    rw [hb, hex]
    simp only [RunCall.request, RunCall.direction, Request.newPlan]
    refine ⟨fun h1 => ?_, fun hneg => ?_, fun hpos hne => ?_⟩
    · subst h1; exact ⟨rfl, rfl⟩
    · have hne : fsign ≠ 1 := by omega
      rw [if_neg hne, if_pos hneg]; exact ⟨rfl, rfl⟩
    · have hnn : ¬ fsign < 0 := by omega
      rw [if_neg hne, if_neg hnn]; exact ⟨rfl, rfl⟩

/-- Witness of C29: the call with `fsign = 0` and `(n, m) = (4, 2)` in the initial cache. -/
theorem C29_direction_consistency_witness :
    PlansSound (PlanCache.init exampleLimits) ∧
    ffthip_run_1dm_z_ exampleLimits exampleTransform (PlanCache.init exampleLimits) 0 4 2 1
        [1, 2, 3, 4, 5, 6, 7, 8, 9, 10, 11, 12, 13, 14, 15, 16]
        [0, 0, 0, 0, 0, 0, 0, 0, 0, 0, 0, 0, 0, 0, 0, 0] Buf.ptr_1 Buf.ptr_2 1 7
      = some exampleZeroSignRun ∧
    (0 : Int) ≤ 0 ∧ (0 : Int) ≠ 1 ∧
    exampleZeroSignRun.plan.built.bind PlanCall.layout
      = Request.inverseLayout (.plan1dm 4 2 0) ∧
    executed exampleZeroSignRun.trace = [Direction.HIPFFT_FORWARD] :=
  ⟨plansSound_init exampleLimits, rfl, by decide, by decide,
    ((C29_direction_consistency exampleLimits exampleTransform (PlanCache.init exampleLimits)
      (plansSound_init exampleLimits) 0 4 2 2 3 4 1
      [1, 2, 3, 4, 5, 6, 7, 8, 9, 10, 11, 12, 13, 14, 15, 16]
      [0, 0, 0, 0, 0, 0, 0, 0, 0, 0, 0, 0, 0, 0, 0, 0] Buf.ptr_1 Buf.ptr_2 1 7).1
      exampleZeroSignRun rfl).2.2 (by decide) (by decide)⟩

end FftHip

namespace PwHip

open Hip FftHip

/-! ## Public operations: host-side steps -/

theorem andThen_some {α β : Type} (a : α) (f : α → Option β) : andThen (some a) f = f a := rfl

theorem wrap32_mul_eq_zero (a b : Int) (h : a * b = 0) : wrap32 (a * b) = 0 := by
  rw [h]; exact wrap32_zero

/-- A dense count that is zero as a mathematical product is zero as the `int` the
source computes. -/
theorem wrap32_mul3_eq_zero (a b c : Int) (h : a * b * c = 0) :
    wrap32 (wrap32 (a * b) * c) = 0 := by
  rcases mul_eq_zero.mp h with hab | hc
  · rw [hab, wrap32_zero, zero_mul, wrap32_zero]
  · rw [hc, mul_zero, wrap32_zero]

/-- A dense count of natural extents whose double fits an `int` is computed exactly. -/
theorem wrap32_mul3_natCast (n0 n1 n2 : Nat) (hpos : 0 < n0 * n1 * n2)
    (hint : 2 * (n0 * n1 * n2) < 2 ^ 31) :
    wrap32 (wrap32 ((n0 : Int) * (n1 : Int)) * (n2 : Int)) = ((n0 * n1 * n2 : Nat) : Int) := by
  have h2 : 0 < n2 := Nat.pos_of_ne_zero (fun h => by rw [h, Nat.mul_zero] at hpos; omega)
  have h01 : n0 * n1 ≤ n0 * n1 * n2 := Nat.le_mul_of_pos_right _ h2
  have e1 : (n0 : Int) * (n1 : Int) = ((n0 * n1 : Nat) : Int) := by push_cast; rfl
  rw [e1, wrap32_natCast _ (by omega)]
  have e2 : ((n0 * n1 : Nat) : Int) * (n2 : Int) = ((n0 * n1 * n2 : Nat) : Int) := by
    push_cast; rfl
  rw [e2, wrap32_natCast _ (by omega)]

theorem wrap32_two_mul_natCast (n : Nat) (hint : 2 * n < 2 ^ 31) :
    wrap32 (2 * (n : Int)) = ((2 * n : Nat) : Int) := by
  have e : 2 * (n : Int) = ((2 * n : Nat) : Int) := by push_cast; rfl
  rw [e, wrap32_natCast _ hint]

theorem pw_hip_device_mem_alloc_natCast {α : Type} (n : Nat) (content : Nat → α) :
    pw_hip_device_mem_alloc (n : Int) content = some ((List.range n).map content) := by
  unfold pw_hip_device_mem_alloc
  rw [if_pos (by omega), Int.toNat_ofNat]

theorem hipMemcpyAsync_natCast {α : Type} (dst src : List α) (n : Nat) (hs : n ≤ src.length)
    (hd : n ≤ dst.length) :
    hipMemcpyAsync dst src (n : Int) = some (src.take n ++ dst.drop n) := by
  unfold hipMemcpyAsync
  rw [Int.toNat_ofNat, if_pos ⟨by omega, hs, hd⟩]

theorem copied_length {α : Type} (dst src : List α) (n : Nat) (hs : n ≤ src.length)
    (hd : n ≤ dst.length) : (src.take n ++ dst.drop n).length = dst.length := by
  simp only [List.length_append, List.length_take, List.length_drop]
  omega

theorem copied_getElem? {α : Type} (dst src : List α) (n j : Nat) (hs : n ≤ src.length) :
    (src.take n ++ dst.drop n)[j]? = if j < n then src[j]? else dst[j]? := by
  by_cases hj : j < n
  · rw [if_pos hj, List.getElem?_append_left (by simp; omega), List.getElem?_take_of_lt hj]
  · rw [if_neg hj, List.getElem?_append_right (by simp; omega), List.getElem?_drop]
    simp only [List.length_take, Nat.min_eq_left hs]
    congr 1
    omega

/-- With the block size `MAXTHREADS` and an item count whose doubled value fits an
`int`, `get_grid_params` returns a geometry that covers the items and whose
flattened indices fit an `int`. -/
theorem get_grid_params_MAXTHREADS (n : Nat) (hn : 2 * n < 2 ^ 31) :
    ∃ tpb bpg, get_grid_params (n : Int) (MAXTHREADS : Int) = some (tpb, bpg) ∧
      n ≤ bpg.x * bpg.y * tpb.x ∧ bpg.x * bpg.y * tpb.x ≤ 2 ^ 31 := by
  have hmin : min MAXTHREADS MAXTHREADS = 1024 := by decide
  have heq := get_grid_params_eq n MAXTHREADS (by decide) (by decide) (by omega)
  rw [hmin] at heq
  obtain ⟨hb1, hb2, hb3⟩ := grid_blocks_bounds ((n + 1024 - 1) / 1024)
  obtain ⟨hs1, _⟩ := sqrt_bounds ((n + 1024 - 1) / 1024)
  have hB : (n + 1024 - 1) / 1024 < 2 ^ 20 + 1 := by omega
  have hk : Nat.sqrt ((n + 1024 - 1) / 1024) < 2 ^ 11 := by
    rw [Nat.sqrt_lt]
    omega
  rw [if_neg (by simp only [MAXGRIDX]; omega)] at heq
  refine ⟨_, _, heq, ?_, ?_⟩
  · dsimp only
    omega
  · dsimp only
    omega

open Hip FftHip

/-! ## Claims on the public operations -/

/-- C18. Zero-size short-circuit: each of the nine public operations returns at once
when the dense element count it computes is `0` (`npts[0] * npts[1] * npts[2]`,
`n * m` for `pw_hip_f_z_`, `npts[0] * mmax` for `pw_hip_fg_z_` and
`pw_hip_sf_z_`; a product that is zero as a number is zero as the `int` the
routine computes) or, for the four operations with a gather or scatter, when
`ngpts == 0`: it issues no call at all, so it acquires no streams, events or
device buffers, it leaves the plan cache as it is, and the host output buffer
keeps its content. -/
theorem C18_zero_size_short_circuit {R : Type} [Zero R] [One R] [Mul R] [Neg R] [DecidableEq R]
    (env : Env R) (s : PlanCache) (hin hout : List R) (ghatmap : List Int)
    (npts0 npts1 npts2 mmax dir n m ngpts nmaps : Int) (scale : R) :
    ((wrap32 (wrap32 (npts0 * npts1) * npts2) = 0 ∨ ngpts = 0) →
      pw_hip_cfffg_z_ env s hin hout ghatmap npts0 npts1 npts2 ngpts scale
        = some ⟨hout, s, []⟩ ∧
      pw_hip_sfffc_z_ env s hin hout ghatmap npts0 npts1 npts2 ngpts nmaps scale
        = some ⟨hout, s, []⟩) ∧
    (wrap32 (wrap32 (npts0 * npts1) * npts2) = 0 →
      pw_hip_cff_z_ env s hin hout npts0 npts1 npts2 = some ⟨hout, s, []⟩ ∧
      pw_hip_ffc_z_ env s hin hout npts0 npts1 npts2 = some ⟨hout, s, []⟩ ∧
      pw_hip_cf_z_ env s hin hout npts0 npts1 npts2 = some ⟨hout, s, []⟩ ∧
      pw_hip_fc_z_ env s hin hout npts0 npts1 npts2 = some ⟨hout, s, []⟩) ∧
    (wrap32 (n * m) = 0 → pw_hip_f_z_ env s hin hout dir n m = some ⟨hout, s, []⟩) ∧
    ((wrap32 (npts0 * mmax) = 0 ∨ ngpts = 0) →
      pw_hip_fg_z_ env s hin hout ghatmap npts0 mmax ngpts scale = some ⟨hout, s, []⟩ ∧
      pw_hip_sf_z_ env s hin hout ghatmap npts0 mmax ngpts nmaps scale
        = some ⟨hout, s, []⟩) ∧
    (npts0 * npts1 * npts2 = 0 → wrap32 (wrap32 (npts0 * npts1) * npts2) = 0) ∧
    (n * m = 0 → wrap32 (n * m) = 0) ∧ (npts0 * mmax = 0 → wrap32 (npts0 * mmax) = 0) := by
  refine ⟨fun h => ⟨?_, ?_⟩, fun h => ⟨?_, ?_, ?_, ?_⟩, fun h => ?_, fun h => ⟨?_, ?_⟩,
    wrap32_mul3_eq_zero _ _ _, wrap32_mul_eq_zero _ _, wrap32_mul_eq_zero _ _⟩
  · unfold pw_hip_cfffg_z_; simp only [if_pos h]
  · unfold pw_hip_sfffc_z_; simp only [if_pos h]
  · unfold pw_hip_cff_z_; simp only [if_pos h]
  · unfold pw_hip_ffc_z_; simp only [if_pos h]
  · unfold pw_hip_cf_z_; simp only [if_pos h]
  · unfold pw_hip_fc_z_; simp only [if_pos h]
  · unfold pw_hip_f_z_; simp only [if_pos h]
  · unfold pw_hip_fg_z_; simp only [if_pos h]
  · unfold pw_hip_sf_z_; simp only [if_pos h]

/-- Witness of C18: an extent of zero (and an empty index table) in `exampleCache`;
the host buffer `[4, 4]` and the cache come back as they were. -/
theorem C18_zero_size_short_circuit_witness :
    ((wrap32 (wrap32 (0 * 3) * 4) = 0 ∨ (0 : Int) = 0) →
      pw_hip_cfffg_z_ exampleEnv exampleCache [1, 2] [4, 4] [0] 0 3 4 0 2
        = some ⟨[4, 4], exampleCache, []⟩ ∧
      pw_hip_sfffc_z_ exampleEnv exampleCache [1, 2] [4, 4] [0] 0 3 4 0 1 2
        = some ⟨[4, 4], exampleCache, []⟩) ∧
    (wrap32 (wrap32 (0 * 3) * 4) = 0 →
      pw_hip_cff_z_ exampleEnv exampleCache [1, 2] [4, 4] 0 3 4
        = some ⟨[4, 4], exampleCache, []⟩ ∧
      pw_hip_ffc_z_ exampleEnv exampleCache [1, 2] [4, 4] 0 3 4
        = some ⟨[4, 4], exampleCache, []⟩ ∧
      pw_hip_cf_z_ exampleEnv exampleCache [1, 2] [4, 4] 0 3 4
        = some ⟨[4, 4], exampleCache, []⟩ ∧
      pw_hip_fc_z_ exampleEnv exampleCache [1, 2] [4, 4] 0 3 4
        = some ⟨[4, 4], exampleCache, []⟩) ∧
    (wrap32 (5 * 0) = 0 →
      pw_hip_f_z_ exampleEnv exampleCache [1, 2] [4, 4] 1 5 0
        = some ⟨[4, 4], exampleCache, []⟩) ∧
    ((wrap32 (0 * 6) = 0 ∨ (0 : Int) = 0) →
      pw_hip_fg_z_ exampleEnv exampleCache [1, 2] [4, 4] [0] 0 6 0 2
        = some ⟨[4, 4], exampleCache, []⟩ ∧
      pw_hip_sf_z_ exampleEnv exampleCache [1, 2] [4, 4] [0] 0 6 0 1 2
        = some ⟨[4, 4], exampleCache, []⟩) ∧
    ((0 : Int) * 3 * 4 = 0 → wrap32 (wrap32 (0 * 3) * 4) = 0) ∧
    ((5 : Int) * 0 = 0 → wrap32 (5 * 0) = 0) ∧ ((0 : Int) * 6 = 0 → wrap32 (0 * 6) = 0) :=
  C18_zero_size_short_circuit exampleEnv exampleCache [1, 2] [4, 4] [0] 0 3 4 6 1 5 0 0 1 2

open Hip FftHip

/-- C17 fails as stated when `2 * nrpts` is not an `int`: on the shape
`npts = (1024, 1024, 1024)` (`nrpts = 2 ^ 30 > 0`) with two coefficients at the
offsets 0 and 1 (`0 < ngpts <= nrpts`, the table in range) and a real input of
`nrpts` values, `pw_hip_cfffg_z_` asks for scratch buffers of `2 * nrpts`
doubles, a count that wraps to `-2147483648`; it leaves the defined behaviour
there and writes no `zout[k]`. -/
theorem C17_cfffg_counterexample :
    pw_hip_cfffg_z_ exampleEnv (PlanCache.init exampleLimits)
      (List.replicate 1073741824 5) [0, 0, 0, 0] [0, 1] 1024 1024 1024 2 3 = none ∧
    wrap32 (wrap32 (1024 * 1024) * 1024) = 1073741824 ∧
    (1024 : Int) * 1024 * 1024 = 1073741824 ∧
    (List.replicate 1073741824 (5 : Int)).length = 1073741824 ∧
    (∀ gi ∈ [(0 : Int), 1].take 2, 0 ≤ gi ∧ gi < 1073741824) ∧
    wrap32 (2 * 1073741824) = -2147483648 := by
  have e1 : (1024 : Int) * 1024 = ((1048576 : Nat) : Int) := by norm_num
  have e2 : ((1048576 : Nat) : Int) * 1024 = ((1073741824 : Nat) : Int) := by norm_num
  have h1 : wrap32 (wrap32 (1024 * 1024) * 1024) = 1073741824 := by
    rw [e1, wrap32_natCast _ (by norm_num), e2, wrap32_natCast _ (by norm_num)]
    norm_num
  have h2 : wrap32 (2 * 1073741824) = -2147483648 := by
    unfold wrap32 toUInt32 toInt32
    norm_num
  refine ⟨?_, h1, by norm_num, List.length_replicate _ _, ?_, h2⟩
  · have hne : ¬ ((1073741824 : Int) = 0 ∨ (2 : Int) = 0) := by norm_num
    have ha : ∀ content : Nat → Int,
        pw_hip_device_mem_alloc (-2147483648) content = none := by
      intro content
      unfold pw_hip_device_mem_alloc
      rw [if_neg (by norm_num)]
    unfold pw_hip_cfffg_z_
    simp only [h1, if_neg hne, h2, ha]
    rfl
  · intro gi hgi
    have : gi = 0 ∨ gi = 1 := by simpa using hgi
    rcases this with rfl | rfl <;> norm_num

/-- C17, amended. Forward-project-with-gather (`pw_hip_cfffg_z_`), with the 3-D
transform an opaque function: for natural extents with
`nrpts = npts[0] * npts[1] * npts[2] > 0` and `2 * nrpts` an `int`
(`2 * nrpts < 2 ^ 31`), `0 < ngpts <= nrpts`, a real input of `nrpts` values, an
index table whose first `ngpts` entries lie in `[0, nrpts)`, and every `scale`,
the call returns, and with `E` the expansion of `din` (`E[2 i] = din[i]`,
`E[2 i + 1] = 0`) and `X` the forward transform of `E` under the plan built by
`hipfftPlan3d(npts[2], npts[1], npts[0])`, the host output holds
`zout[k] = scale * X[ghatmap[k]]` in both components for every `k < ngpts`, and
is untouched beyond.  The calls are issued in the order expand kernel,
transform, gather kernel, and the buffer copied to the host (`ptr_1`) is the
one the gather kernel writes.  The cache state is sound and of the right shape,
the transform writes as many doubles as its buffer has, and the schedule of
each launch is a permutation of its grid. -/
theorem C17_cfffg {R : Type} [Zero R] [One R] [Mul R] [DecidableEq R] (env : Env R)
    (hsched : ∀ g b, (env.sched g b).Perm (allThreads g b))
    (hc : env.lim.Consistent) (s : PlanCache) (hwf : s.WF env.lim) (hsound : PlansSound s)
    (hT : ∀ c d (x : List R), (env.hipfftExecZ2Z c d x x).length = x.length)
    (din zout : List R) (ghatmap : List Int) (n0 n1 n2 ngpts : Nat) (scale : R)
    (hpos : 0 < n0 * n1 * n2) (hint : 2 * (n0 * n1 * n2) < 2 ^ 31)
    (hng : 0 < ngpts) (hle : ngpts ≤ n0 * n1 * n2)
    (hdin : n0 * n1 * n2 ≤ din.length) (hzout : 2 * ngpts ≤ zout.length)
    (hgl : ngpts ≤ ghatmap.length)
    (hrange : ∀ gi ∈ ghatmap.take ngpts, 0 ≤ gi ∧ gi < ((n0 * n1 * n2 : Nat) : Int)) :
    ∃ (r : OpResult R) (E : List R) (plan : hipfftHandle) (ioverflow : Int) (g1 g2 : dim3 × dim3),
      pw_hip_cfffg_z_ env s din zout ghatmap n0 n1 n2 ngpts scale = some r ∧
      E.length = 2 * (n0 * n1 * n2) ∧
      (∀ i, i < n0 * n1 * n2 → E[2 * i]? = din[i]? ∧ E[2 * i + 1]? = some 0) ∧
      acquire env.lim s (.plan3d n0 n1 n2) (env.fresh 0) = some (plan, ioverflow, r.cache) ∧
      plan.built = some (.hipfftPlan3d n2 n1 n0) ∧
      (∀ k, k < ngpts → ∃ (gi : Nat) (re im : R), ghatmap[k]? = some (gi : Int) ∧
        (env.hipfftExecZ2Z (.hipfftPlan3d n2 n1 n0) .HIPFFT_FORWARD E E)[2 * gi]? = some re ∧
        (env.hipfftExecZ2Z (.hipfftPlan3d n2 n1 n0) .HIPFFT_FORWARD E E)[2 * gi + 1]?
          = some im ∧
        r.host[2 * k]? = some (scale * re) ∧ r.host[2 * k + 1]? = some (scale * im)) ∧
      (∀ j, 2 * ngpts ≤ j → r.host[j]? = zout[j]?) ∧ r.host.length = zout.length ∧
      get_grid_params ((n0 * n1 * n2 : Nat) : Int) MAXTHREADS = some g1 ∧
      get_grid_params (ngpts : Int) NTHREADS = some g2 ∧
      r.trace =
        [Cmd.pw_hip_get_streams, Cmd.pw_hip_get_events,
         Cmd.pw_hip_device_mem_alloc Buf.ptr_1 ((2 * (n0 * n1 * n2) : Nat) : Int),
         Cmd.pw_hip_device_mem_alloc Buf.ptr_2 ((2 * (n0 * n1 * n2) : Nat) : Int),
         Cmd.pw_hip_device_mem_alloc Buf.ghatmap_dev (ngpts : Int),
         Cmd.hipMemcpyHostToDevice Buf.ptr_1 ((n0 * n1 * n2 : Nat) : Int) 0,
         Cmd.hipEventRecord 0 0, Cmd.hipStreamWaitEvent 1 0,
         Cmd.hipLaunchKernelGGL Kernel.pw_copy_rc_hip_z g1.2 g1.1 1 [Buf.ptr_1, Buf.ptr_2],
         Cmd.hipMemcpyHostToDevice Buf.ghatmap_dev (ngpts : Int) 0, Cmd.hipEventRecord 0 0]
        ++ ([Cmd.hipfftExecZ2Z plan Buf.ptr_2 Buf.ptr_2 Direction.HIPFFT_FORWARD] ++ [] ++
          (if ioverflow ≠ 0 then [Cmd.hipStreamSynchronize 1, Cmd.hipfftDestroy plan] else []))
        ++
        [Cmd.hipStreamWaitEvent 1 0,
         Cmd.hipLaunchKernelGGL Kernel.pw_gather_hip_z g2.2 g2.1 1
           [Buf.ptr_1, Buf.ptr_2, Buf.ghatmap_dev],
         Cmd.hipEventRecord 1 1, Cmd.hipStreamWaitEvent 2 1,
         Cmd.hipMemcpyDeviceToHost Buf.ptr_1 (2 * (ngpts : Int)) 2,
         Cmd.hipStreamSynchronize 2,
         Cmd.pw_hip_device_mem_free Buf.ptr_1, Cmd.pw_hip_device_mem_free Buf.ptr_2,
         Cmd.pw_hip_device_mem_free Buf.ghatmap_dev] := by
  have hnr := wrap32_mul3_natCast n0 n1 n2 hpos hint
  generalize hN : n0 * n1 * n2 = N at *
  have h2n := wrap32_two_mul_natCast N hint
  obtain ⟨tpb1, bpg1, hg1, hcov1, hfit1⟩ := get_grid_params_MAXTHREADS N hint
  obtain ⟨tpb2, bpg2, hg2, hcov2, hfit2⟩ := get_grid_params_NTHREADS ngpts (by omega)
  -- the freshly allocated buffers
  have hA1 : ((List.range (2 * N)).map env.mem_1).length = 2 * N := by simp
  have hA2 : ((List.range (2 * N)).map env.mem_2).length = 2 * N := by simp
  have hAG : ((List.range ngpts).map env.mem_g).length = ngpts := by simp
  generalize hA1d : (List.range (2 * N)).map env.mem_1 = A1 at hA1
  generalize hA2d : (List.range (2 * N)).map env.mem_2 = A2 at hA2
  generalize hAGd : (List.range ngpts).map env.mem_g = AG at hAG
  -- host to device copy of the real input
  have hP1 := hipMemcpyAsync_natCast A1 din N hdin (by omega)
  have hP1len := copied_length A1 din N hdin (by omega)
  have hP1get : ∀ j, j < N → (din.take N ++ A1.drop N)[j]? = din[j]? := by
    intro j hj
    rw [copied_getElem? A1 din N j hdin, if_pos hj]
  generalize din.take N ++ A1.drop N = P1 at hP1 hP1len hP1get
  -- expansion
  obtain ⟨E, hE, hElen, hEcells, _⟩ := launch_rc_spec bpg1 tpb1 (env.sched bpg1 tpb1)
    (hsched bpg1 tpb1) P1 A2 N hcov1 hfit1 (by omega) (by omega) (by omega)
  -- host to device copy of the index table
  have hG := hipMemcpyAsync_natCast AG ghatmap ngpts hgl (by omega)
  have hGget : ∀ k, k < ngpts → (ghatmap.take ngpts ++ AG.drop ngpts)[k]? = ghatmap[k]? := by
    intro k hk
    rw [copied_getElem? AG ghatmap ngpts k hgl, if_pos hk]
  generalize ghatmap.take ngpts ++ AG.drop ngpts = G at hG hGget
  -- transform
  obtain ⟨p, iov, s2, hacq⟩ := acquire_total env.lim hc s hwf (.plan3d n0 n1 n2) (env.fresh 0)
  have hb : p.built = some (.hipfftPlan3d n2 n1 n0) :=
    acquire_built env.lim s s2 (.plan3d n0 n1 n2) (env.fresh 0) p iov hsound hacq
  have hrun := ffthip_run_spec env.lim env.hipfftExecZ2Z s (.run_3d 1 n0 n1 n2) 1 E E
    Buf.ptr_2 Buf.ptr_2 1 (env.fresh 0) p iov s2 _ hacq hb
  rw [if_neg (not_not.mpr rfl)] at hrun
  simp only [Option.map_some', RunCall.input, RunCall.direction, RunCall.idata] at hrun
  rw [if_neg (by decide : ¬ ((1 : Int) < 0))] at hrun
  have hrun2 : ffthip_run_3d_z_ env.lim env.hipfftExecZ2Z s 1 n0 n1 n2 1 E Buf.ptr_2 1
      (env.fresh 0) = _ := hrun
  have hXlen := hT (.hipfftPlan3d n2 n1 n0) .HIPFFT_FORWARD E
  generalize hXd : env.hipfftExecZ2Z (.hipfftPlan3d n2 n1 n0) .HIPFFT_FORWARD E E = X
    at hrun2 hXlen
  -- gather
  have hgt := table_entry ghatmap ngpts N hgl hrange
  obtain ⟨O, hO, hOlen, hOcells, _⟩ := launch_gather_spec bpg2 tpb2 (env.sched bpg2 tpb2)
    (hsched bpg2 tpb2) P1 X scale ngpts G hcov2 hfit2 (by omega) (by omega) (by omega)
    (fun k hk => by
      obtain ⟨gi, hgi, hlt⟩ := hgt k hk
      exact ⟨gi, by rw [hGget k hk]; exact hgi, by omega⟩)
  -- device to host copy
  have e2 : 2 * (ngpts : Int) = ((2 * ngpts : Nat) : Int) := by push_cast; rfl
  have hZ : hipMemcpyAsync zout O (2 * (ngpts : Int))
      = some (O.take (2 * ngpts) ++ zout.drop (2 * ngpts)) := by
    rw [e2]; exact hipMemcpyAsync_natCast zout O (2 * ngpts) (by omega) hzout
  have hne : ¬ (((N : Nat) : Int) = 0 ∨ ((ngpts : Nat) : Int) = 0) := by omega
  refine ⟨⟨O.take (2 * ngpts) ++ zout.drop (2 * ngpts), s2, _⟩, E, p, iov, (tpb1, bpg1),
    (tpb2, bpg2), ?_, hElen.trans hA2, ?_, hacq, hb, ?_, ?_, ?_, hg1, hg2, rfl⟩
  · unfold pw_hip_cfffg_z_
    simp only [hnr, if_neg hne, h2n, pw_hip_device_mem_alloc_natCast, hA1d, hA2d, hAGd,
      andThen_some, hP1, hg1, hE, hG, hrun2, hg2, hO, hZ]
  · intro i hi
    obtain ⟨c0, c1⟩ := hEcells i hi
    exact ⟨c0.trans (hP1get i hi), c1⟩
  · rw [hXd]
    intro k hk
    obtain ⟨gi, hgi, hlt⟩ := hgt k hk
    obtain ⟨o0, o1⟩ := hOcells k gi hk (by rw [hGget k hk]; exact hgi)
    have hx0 : X[2 * gi]? = some X[2 * gi] := List.getElem?_eq_getElem (by omega)
    have hx1 : X[2 * gi + 1]? = some X[2 * gi + 1] := List.getElem?_eq_getElem (by omega)
    refine ⟨gi, X[2 * gi], X[2 * gi + 1], hgi, hx0, hx1, ?_, ?_⟩
    · show (O.take (2 * ngpts) ++ zout.drop (2 * ngpts))[2 * k]? = _
      rw [copied_getElem? zout O (2 * ngpts) (2 * k) (by omega), if_pos (by omega), o0, hx0]
      rfl
    · show (O.take (2 * ngpts) ++ zout.drop (2 * ngpts))[2 * k + 1]? = _
      rw [copied_getElem? zout O (2 * ngpts) (2 * k + 1) (by omega), if_pos (by omega), o1, hx1]
      rfl
  · intro j hj
    show (O.take (2 * ngpts) ++ zout.drop (2 * ngpts))[j]? = _
    rw [copied_getElem? zout O (2 * ngpts) j (by omega), if_neg (by omega)]
  · exact copied_length zout O (2 * ngpts) (by omega) hzout

/-- Witness of C17: two real values on a `2 x 1 x 1` grid, one gathered coefficient
taken from offset 1, scale 3, started in the initial cache. -/
theorem C17_cfffg_witness :
    ∃ (r : OpResult Int) (E : List Int) (plan : hipfftHandle) (ioverflow : Int)
      (g1 g2 : dim3 × dim3),
      pw_hip_cfffg_z_ exampleEnv (PlanCache.init exampleLimits) [5, 6] [0, 0] [1]
        ((2 : Nat) : Int) ((1 : Nat) : Int) ((1 : Nat) : Int) ((1 : Nat) : Int) 3 = some r ∧
      E.length = 2 * (2 * 1 * 1) ∧
      (∀ i, i < 2 * 1 * 1 → E[2 * i]? = [(5 : Int), 6][i]? ∧ E[2 * i + 1]? = some 0) ∧
      acquire exampleEnv.lim (PlanCache.init exampleLimits)
        (.plan3d ((2 : Nat) : Int) ((1 : Nat) : Int) ((1 : Nat) : Int)) (exampleEnv.fresh 0)
        = some (plan, ioverflow, r.cache) ∧
      plan.built = some (.hipfftPlan3d ((1 : Nat) : Int) ((1 : Nat) : Int) ((2 : Nat) : Int)) ∧
      (∀ k, k < 1 → ∃ (gi : Nat) (re im : Int), [(1 : Int)][k]? = some (gi : Int) ∧
        (exampleEnv.hipfftExecZ2Z
          (.hipfftPlan3d ((1 : Nat) : Int) ((1 : Nat) : Int) ((2 : Nat) : Int))
          .HIPFFT_FORWARD E E)[2 * gi]? = some re ∧
        (exampleEnv.hipfftExecZ2Z
          (.hipfftPlan3d ((1 : Nat) : Int) ((1 : Nat) : Int) ((2 : Nat) : Int))
          .HIPFFT_FORWARD E E)[2 * gi + 1]? = some im ∧
        r.host[2 * k]? = some (3 * re) ∧ r.host[2 * k + 1]? = some (3 * im)) ∧
      (∀ j, 2 * 1 ≤ j → r.host[j]? = [(0 : Int), 0][j]?) ∧
      r.host.length = [(0 : Int), 0].length ∧
      get_grid_params ((2 * 1 * 1 : Nat) : Int) MAXTHREADS = some g1 ∧
      get_grid_params ((1 : Nat) : Int) NTHREADS = some g2 ∧
      r.trace =
        [Cmd.pw_hip_get_streams, Cmd.pw_hip_get_events,
         Cmd.pw_hip_device_mem_alloc Buf.ptr_1 ((2 * (2 * 1 * 1) : Nat) : Int),
         Cmd.pw_hip_device_mem_alloc Buf.ptr_2 ((2 * (2 * 1 * 1) : Nat) : Int),
         Cmd.pw_hip_device_mem_alloc Buf.ghatmap_dev ((1 : Nat) : Int),
         Cmd.hipMemcpyHostToDevice Buf.ptr_1 ((2 * 1 * 1 : Nat) : Int) 0,
         Cmd.hipEventRecord 0 0, Cmd.hipStreamWaitEvent 1 0,
         Cmd.hipLaunchKernelGGL Kernel.pw_copy_rc_hip_z g1.2 g1.1 1 [Buf.ptr_1, Buf.ptr_2],
         Cmd.hipMemcpyHostToDevice Buf.ghatmap_dev ((1 : Nat) : Int) 0, Cmd.hipEventRecord 0 0]
        ++ ([Cmd.hipfftExecZ2Z plan Buf.ptr_2 Buf.ptr_2 Direction.HIPFFT_FORWARD] ++ [] ++
          (if ioverflow ≠ 0 then [Cmd.hipStreamSynchronize 1, Cmd.hipfftDestroy plan] else []))
        ++
        [Cmd.hipStreamWaitEvent 1 0,
         Cmd.hipLaunchKernelGGL Kernel.pw_gather_hip_z g2.2 g2.1 1
           [Buf.ptr_1, Buf.ptr_2, Buf.ghatmap_dev],
         Cmd.hipEventRecord 1 1, Cmd.hipStreamWaitEvent 2 1,
         Cmd.hipMemcpyDeviceToHost Buf.ptr_1 (2 * ((1 : Nat) : Int)) 2,
         Cmd.hipStreamSynchronize 2,
         Cmd.pw_hip_device_mem_free Buf.ptr_1, Cmd.pw_hip_device_mem_free Buf.ptr_2,
         Cmd.pw_hip_device_mem_free Buf.ghatmap_dev] :=
  C17_cfffg exampleEnv (fun _ _ => List.Perm.refl _) (by decide) (PlanCache.init exampleLimits)
    (by decide) (plansSound_init exampleLimits) (fun _ _ _ => rfl) [5, 6] [0, 0] [1] 2 1 1 1 3
    (by decide) (by decide) (by decide) (by decide) (by decide) (by decide) (by decide)
    (by decide)

open Hip FftHip

/-! ## The flattened launch index -/

/-- Two threads of a launch with the same flattened index are the same thread. -/
theorem flat_inj (g b : dim3) (th th2 : Thread) (h : th ∈ allThreads g b)
    (h2 : th2 ∈ allThreads g b) (he : flat g b th = flat g b th2) : th = th2 := by
  rw [mem_allThreads] at h h2
  obtain ⟨ix, iy, tx⟩ := th
  obtain ⟨ix2, iy2, tx2⟩ := th2
  obtain ⟨h1, _, h3⟩ := h
  obtain ⟨k1, _, k3⟩ := h2
  have he2 : tx + (ix + iy * g.x) * b.x = tx2 + (ix2 + iy2 * g.x) * b.x := by
    have e : ∀ a c d : Nat, (g.x * c + a) * b.x + d = d + (a + c * g.x) * b.x := by
      intro a c d; ring
    rw [← e, ← e]
    exact he
  obtain ⟨e1, e2⟩ := mixed_radix_inj b.x tx _ tx2 _ h3 k3 he2
  obtain ⟨e3, e4⟩ := mixed_radix_inj g.x ix iy ix2 iy2 h1 k1 e2
  simp only [Thread.mk.injEq]
  exact ⟨e3, e4, e1⟩

/-- No thread occurs twice in a launch. -/
theorem allThreads_nodup (g b : dim3) : (allThreads g b).Nodup := by
  unfold allThreads
  rw [List.nodup_flatMap]
  refine ⟨fun iy _ => ?_, ?_⟩
  · rw [List.nodup_flatMap]
    refine ⟨fun ix _ => ?_, ?_⟩
    · refine List.Nodup.map ?_ (List.nodup_range _)
      intro a c hac
      simp only [Thread.mk.injEq] at hac
      exact hac.2.2
    · refine List.Pairwise.imp_of_mem ?_ (List.nodup_range g.x)
      intro a c _ _ hne
      simp only [Function.onFun, List.disjoint_left, List.mem_map, not_exists, not_and]
      rintro th ⟨t1, _, rfl⟩ t2 _ h
      simp only [Thread.mk.injEq] at h
      exact hne h.1.symm
  · refine List.Pairwise.imp_of_mem ?_ (List.nodup_range g.y)
    intro a c _ _ hne
    simp only [Function.onFun, List.disjoint_left, List.mem_flatMap, List.mem_map, not_exists,
      not_and]
    rintro th ⟨i1, _, t1, _, rfl⟩ i2 _ t2 _ h
    simp only [Thread.mk.injEq] at h
    exact hne h.2.1.symm

/-- For a launch of at most `2 ^ 32` threads, the `int` index of a thread is a given
item index below `2 ^ 31` exactly when its flattened index is. -/
theorem igpt_eq_iff (g b : dim3) (th : Thread) (h : th ∈ allThreads g b)
    (hw : g.x * g.y * b.x ≤ 2 ^ 32) (i : Nat) (hi : i < 2 ^ 31) :
    igpt g b th = (i : Int) ↔ flat g b th = i := by
  have h1 := flat_lt g b th h
  have h3 : flat g b th % 2 ^ 32 = flat g b th := Nat.mod_eq_of_lt (by omega)
  unfold igpt toInt32
  change (if flat g b th % 2 ^ 32 < 2 ^ 31 then ((flat g b th % 2 ^ 32 : Nat) : Int)
    else ((flat g b th % 2 ^ 32 : Nat) : Int) - 2 ^ 32) = _ ↔ _
  simp only [h3]
  by_cases hlt : flat g b th < 2 ^ 31
  · simp only [hlt, if_true]
    exact Nat.cast_inj
  · simp only [hlt, if_false]
    constructor <;> intro e <;> omega

/-- The conversion of an `unsigned int` to `int` loses nothing. -/
theorem toInt32_inj (u v : Nat) (hu : u < 2 ^ 32) (hv : v < 2 ^ 32)
    (h : toInt32 u = toInt32 v) : u = v := by
  unfold toInt32 at h
  by_cases h1 : u < 2 ^ 31 <;> by_cases h2 : v < 2 ^ 31 <;>
    simp only [h1, h2, if_true, if_false] at h <;> omega

/-- For a launch of at most `2 ^ 32` threads, no two threads compute the same `igpt`. -/
theorem igpt_inj (g b : dim3) (hw : g.x * g.y * b.x ≤ 2 ^ 32) (th th2 : Thread)
    (h : th ∈ allThreads g b) (h2 : th2 ∈ allThreads g b)
    (he : igpt g b th = igpt g b th2) : th = th2 := by
  have l1 := flat_lt g b th h
  have l2 := flat_lt g b th2 h2
  have e : ∀ t : Thread, igpt g b t = toInt32 (flat g b t % 2 ^ 32) := fun _ => rfl
  rw [e, e, Nat.mod_eq_of_lt (by omega), Nat.mod_eq_of_lt (by omega)] at he
  exact flat_inj g b th th2 h h2 (toInt32_inj _ _ (by omega) (by omega) he)

/-- The launch geometry for `n < 2 ^ 31` items has at least `n` and fewer than
`2 ^ 32` threads. -/
theorem grid_threads_lt (n b : Nat) (hn2 : n < 2 ^ 31) (hb : 1 ≤ b) (hb2 : b < 2 ^ 31) :
    ∃ tpb bpg, get_grid_params (n : Int) (b : Int) = some (tpb, bpg) ∧
      n ≤ bpg.x * bpg.y * tpb.x ∧ bpg.x * bpg.y * tpb.x < 2 ^ 32 := by
  have heq := get_grid_params_eq n b hb hb2 hn2
  have ht1 : 1 ≤ min b MAXTHREADS := Nat.le_min.mpr ⟨hb, by decide⟩
  have ht2 : min b MAXTHREADS ≤ 1024 := Nat.min_le_right _ _
  generalize min b MAXTHREADS = t at heq ht1 ht2
  have hmod := Nat.div_add_mod (n + t - 1) t
  have hml := Nat.mod_lt (n + t - 1) (show 0 < t by omega)
  have hBt : (n + t - 1) / t * t ≤ n + t - 1 := by
    rw [Nat.mul_comm]; omega
  have hdiv : n ≤ (n + t - 1) / t * t := by
    rw [Nat.mul_comm]; omega
  have hBn : (n + t - 1) / t ≤ n := by
    rw [Nat.div_le_iff_le_mul_add_pred (by omega)]
    have h3 : n ≤ t * n := Nat.le_mul_of_pos_left n (by omega)
    omega
  generalize (n + t - 1) / t = B at heq hBt hdiv hBn
  obtain ⟨hb1, hb2, hb3⟩ := grid_blocks_bounds B
  have hk : Nat.sqrt B < 46341 := by
    rw [Nat.sqrt_lt]
    omega
  have hlim := ceil_sqrt_le_MAXGRIDX B (by omega)
  rw [if_neg (by omega)] at heq
  refine ⟨_, _, heq, ?_, ?_⟩
  · dsimp only
    exact le_trans hdiv (Nat.mul_le_mul_right _ hb1)
  · dsimp only
    have h1 : ceil_sqrt (B : Int) * rint_sqrt (B : Int) * t ≤ (B + 2 * Nat.sqrt B + 1) * t :=
      Nat.mul_le_mul_right _ hb2
    have h2 : Nat.sqrt B * t ≤ 46340 * 1024 := Nat.mul_le_mul (by omega) ht2
    have h3 : (B + 2 * Nat.sqrt B + 1) * t = B * t + 2 * (Nat.sqrt B * t) + t := by ring
    omega

open Hip FftHip

/-! ## Claims on the launch index and the self-paired coefficient -/

/-- C25 fails as stated: the kernels evaluate the expression in `unsigned int` and
convert it to `int`.  In the grid of `65535 x 65535` blocks of 1024 threads the
thread `threadIdx.x = 0` of block `(64, 64)` has the flattened index
`(65535 * 64 + 64) * 1024 = 2 ^ 32`, so it computes `igpt = 0`, as the thread
`threadIdx.x = 0` of block `(0, 0)` does: the index is not injective. -/
theorem C25_flat_index_bijection_counterexample :
    (⟨64, 64, 0⟩ : Thread) ∈ allThreads ⟨65535, 65535, 1⟩ ⟨1024, 1, 1⟩ ∧
    (⟨0, 0, 0⟩ : Thread) ∈ allThreads ⟨65535, 65535, 1⟩ ⟨1024, 1, 1⟩ ∧
    flat ⟨65535, 65535, 1⟩ ⟨1024, 1, 1⟩ ⟨64, 64, 0⟩ = 2 ^ 32 ∧
    igpt ⟨65535, 65535, 1⟩ ⟨1024, 1, 1⟩ ⟨64, 64, 0⟩ = 0 ∧
    igpt ⟨65535, 65535, 1⟩ ⟨1024, 1, 1⟩ ⟨0, 0, 0⟩ = 0 ∧
    (⟨64, 64, 0⟩ : Thread) ≠ ⟨0, 0, 0⟩ :=
  ⟨(mem_allThreads _ _ _).mpr ⟨by decide, by decide, by decide⟩,
    (mem_allThreads _ _ _).mpr ⟨by decide, by decide, by decide⟩,
    by decide, by decide, by decide, by decide⟩

/-- C25, amended. Flattened launch index: for every grid `(gx, gy)` and group size
`t` with `gx * gy * t ≤ 2 ^ 31`, the index
`igpt = (gridDim.x * blockIdx.y + blockIdx.x) * blockDim.x + threadIdx.x` that all
four kernels compute (in `unsigned int`, converted to `int`), taken over the
threads of the launch (`blockIdx.x < gx`, `blockIdx.y < gy`, `threadIdx.x < t`,
each thread occurring once), is injective with image exactly `[0, gx * gy * t)`;
it is still injective for `gx * gy * t ≤ 2 ^ 32`.  (The expression evaluated
without wrap-around, `flat`, is injective with that image for every grid.)
Hence with the geometry `get_grid_params` returns for `1 ≤ n < 2 ^ 31` items and
a block size `1 ≤ b < 2 ^ 31`, for every item index `i < n` exactly one thread
of the launch has `igpt = i`. -/
theorem C25_flat_index_bijection (gridDim blockDim : dim3) (n b : Nat) (hn : 1 ≤ n)
    (hn2 : n < 2 ^ 31) (hb : 1 ≤ b) (hb2 : b < 2 ^ 31) :
    ((∀ th, th ∈ allThreads gridDim blockDim ↔
        th.blockIdx_x < gridDim.x ∧ th.blockIdx_y < gridDim.y ∧ th.threadIdx_x < blockDim.x) ∧
      (allThreads gridDim blockDim).Nodup ∧
      (∀ th, flat gridDim blockDim th =
        (gridDim.x * th.blockIdx_y + th.blockIdx_x) * blockDim.x + th.threadIdx_x) ∧
      (∀ th, igpt gridDim blockDim th = toInt32 (flat gridDim blockDim th % 2 ^ 32)) ∧
      (gridDim.x * gridDim.y * blockDim.x ≤ 2 ^ 32 →
        ∀ th ∈ allThreads gridDim blockDim, ∀ th2 ∈ allThreads gridDim blockDim,
          igpt gridDim blockDim th = igpt gridDim blockDim th2 → th = th2) ∧
      (gridDim.x * gridDim.y * blockDim.x ≤ 2 ^ 31 →
        (∀ th ∈ allThreads gridDim blockDim, 0 ≤ igpt gridDim blockDim th ∧
          igpt gridDim blockDim th < ((gridDim.x * gridDim.y * blockDim.x : Nat) : Int)) ∧
        (∀ i : Nat, i < gridDim.x * gridDim.y * blockDim.x →
          ∃ th ∈ allThreads gridDim blockDim, igpt gridDim blockDim th = (i : Int))) ∧
      (∀ th ∈ allThreads gridDim blockDim, ∀ th2 ∈ allThreads gridDim blockDim,
        flat gridDim blockDim th = flat gridDim blockDim th2 → th = th2) ∧
      (∀ th ∈ allThreads gridDim blockDim,
        flat gridDim blockDim th < gridDim.x * gridDim.y * blockDim.x) ∧
      (∀ i, i < gridDim.x * gridDim.y * blockDim.x →
        ∃ th ∈ allThreads gridDim blockDim, flat gridDim blockDim th = i)) ∧
    (∃ threadsPerBlock blocksPerGrid,
      get_grid_params (n : Int) (b : Int) = some (threadsPerBlock, blocksPerGrid) ∧
      (allThreads blocksPerGrid threadsPerBlock).Nodup ∧
      ∀ i : Nat, i < n → ∃! th, th ∈ allThreads blocksPerGrid threadsPerBlock ∧
        igpt blocksPerGrid threadsPerBlock th = (i : Int)) := by
  have h1 : 1 ≤ n := hn
  refine ⟨⟨mem_allThreads gridDim blockDim, allThreads_nodup gridDim blockDim, fun _ => rfl,
    fun _ => rfl,
    fun hw th h th2 h2 he => igpt_inj gridDim blockDim hw th th2 h h2 he,
    fun hw => ⟨fun th h => ?_, fun i hi => ?_⟩,
    fun th h th2 h2 he => flat_inj gridDim blockDim th th2 h h2 he,
    flat_lt gridDim blockDim, exists_thread gridDim blockDim⟩, ?_⟩
  · rw [igpt_eq_flat gridDim blockDim th h hw]
    have := flat_lt gridDim blockDim th h
    exact ⟨Int.natCast_nonneg _, by exact_mod_cast this⟩
  · obtain ⟨th, hth, hf⟩ := exists_thread gridDim blockDim i hi
    exact ⟨th, hth, by rw [igpt_eq_flat gridDim blockDim th hth hw, hf]⟩
  obtain ⟨tpb, bpg, hgp, hcov, hlt⟩ := grid_threads_lt n b hn2 hb hb2
  refine ⟨tpb, bpg, hgp, allThreads_nodup bpg tpb, fun i hi => ?_⟩
  obtain ⟨th, hth, hf⟩ := exists_thread bpg tpb i (by omega)
  refine ⟨th, ⟨hth, (igpt_eq_iff bpg tpb th hth (by omega) i (by omega)).mpr hf⟩, ?_⟩
  rintro th2 ⟨hth2, hi2⟩
  have hf2 := (igpt_eq_iff bpg tpb th2 hth2 (by omega) i (by omega)).mp hi2
  exact flat_inj bpg tpb th2 th hth2 hth (hf2.trans hf.symm)

/-- Witness of C25: a 3 by 2 grid of blocks of 4 threads, and 1025 items with block
size 1024. -/
theorem C25_flat_index_bijection_witness :
    ((∀ th, th ∈ allThreads ⟨3, 2, 1⟩ ⟨4, 1, 1⟩ ↔
        th.blockIdx_x < 3 ∧ th.blockIdx_y < 2 ∧ th.threadIdx_x < 4) ∧
      (allThreads ⟨3, 2, 1⟩ ⟨4, 1, 1⟩).Nodup ∧
      (∀ th, flat ⟨3, 2, 1⟩ ⟨4, 1, 1⟩ th
        = (3 * th.blockIdx_y + th.blockIdx_x) * 4 + th.threadIdx_x) ∧
      (∀ th, igpt ⟨3, 2, 1⟩ ⟨4, 1, 1⟩ th = toInt32 (flat ⟨3, 2, 1⟩ ⟨4, 1, 1⟩ th % 2 ^ 32)) ∧
      (3 * 2 * 4 ≤ 2 ^ 32 →
        ∀ th ∈ allThreads ⟨3, 2, 1⟩ ⟨4, 1, 1⟩, ∀ th2 ∈ allThreads ⟨3, 2, 1⟩ ⟨4, 1, 1⟩,
          igpt ⟨3, 2, 1⟩ ⟨4, 1, 1⟩ th = igpt ⟨3, 2, 1⟩ ⟨4, 1, 1⟩ th2 → th = th2) ∧
      (3 * 2 * 4 ≤ 2 ^ 31 →
        (∀ th ∈ allThreads ⟨3, 2, 1⟩ ⟨4, 1, 1⟩, 0 ≤ igpt ⟨3, 2, 1⟩ ⟨4, 1, 1⟩ th ∧
          igpt ⟨3, 2, 1⟩ ⟨4, 1, 1⟩ th < ((3 * 2 * 4 : Nat) : Int)) ∧
        (∀ i : Nat, i < 3 * 2 * 4 →
          ∃ th ∈ allThreads ⟨3, 2, 1⟩ ⟨4, 1, 1⟩, igpt ⟨3, 2, 1⟩ ⟨4, 1, 1⟩ th = (i : Int))) ∧
      (∀ th ∈ allThreads ⟨3, 2, 1⟩ ⟨4, 1, 1⟩, ∀ th2 ∈ allThreads ⟨3, 2, 1⟩ ⟨4, 1, 1⟩,
        flat ⟨3, 2, 1⟩ ⟨4, 1, 1⟩ th = flat ⟨3, 2, 1⟩ ⟨4, 1, 1⟩ th2 → th = th2) ∧
      (∀ th ∈ allThreads ⟨3, 2, 1⟩ ⟨4, 1, 1⟩, flat ⟨3, 2, 1⟩ ⟨4, 1, 1⟩ th < 3 * 2 * 4) ∧
      (∀ i, i < 3 * 2 * 4 →
        ∃ th ∈ allThreads ⟨3, 2, 1⟩ ⟨4, 1, 1⟩, flat ⟨3, 2, 1⟩ ⟨4, 1, 1⟩ th = i)) ∧
    (∃ threadsPerBlock blocksPerGrid,
      get_grid_params ((1025 : Nat) : Int) ((1024 : Nat) : Int)
        = some (threadsPerBlock, blocksPerGrid) ∧
      (allThreads blocksPerGrid threadsPerBlock).Nodup ∧
      ∀ i : Nat, i < 1025 → ∃! th, th ∈ allThreads blocksPerGrid threadsPerBlock ∧
        igpt blocksPerGrid threadsPerBlock th = (i : Int)) :=
  C25_flat_index_bijection ⟨3, 2, 1⟩ ⟨4, 1, 1⟩ 1025 1024 (by decide) (by decide) (by decide)
    (by decide)

/-- C28. Self-paired coefficient in scatter (`pw_scatter_hip_z`, `nmaps = 2`): for a
launch whose grid covers the `ngpts` items (any execution order of the
threads) and an index table of `2 * ngpts` in-range offsets, if some
`k < ngpts` has `ghatmap[k + ngpts] == ghatmap[k]` and no other item writes
that offset (neither as its primary nor as its partner offset), then afterwards
the cell `c[ghatmap[k]]` holds the conjugated value
`(scale * Re(pwcc[k]), -(scale * Im(pwcc[k])))`: the thread writes the partner
after the primary cell.  The cell equals `scale * pwcc[k]` exactly when
`scale * Im(pwcc[k]) = 0`. -/
theorem C28_self_paired_coefficient {R : Type} [LinearOrderedRing R]
    (gridDim blockDim : dim3) (sched : List Thread)
    (hs : sched.Perm (allThreads gridDim blockDim))
    (c pwcc : List R) (scale : R) (ngpts nrpts : Nat) (ghatmap : List Int)
    (hcover : ngpts ≤ gridDim.x * gridDim.y * blockDim.x)
    (hfit : gridDim.x * gridDim.y * blockDim.x ≤ 2 ^ 31)
    (hc : c.length = 2 * nrpts) (hint : 2 * nrpts ≤ 2 ^ 31) (hp : 2 * ngpts ≤ pwcc.length)
    (hint2 : 2 * ngpts ≤ 2 ^ 31) (hlen : 2 * ngpts ≤ ghatmap.length)
    (hrange : ∀ gi ∈ ghatmap.take (2 * ngpts), 0 ≤ gi ∧ gi < (nrpts : Int))
    (k : Nat) (hk : k < ngpts) (hself : ghatmap[k + ngpts]? = ghatmap[k]?)
    (hother : ∀ k2, k2 < ngpts → k2 ≠ k →
      ghatmap[k2]? ≠ ghatmap[k]? ∧ ghatmap[k2 + ngpts]? ≠ ghatmap[k]?) :
    ∃ out, launch_pw_scatter_hip_z gridDim blockDim sched c pwcc scale (ngpts : Int) 2 ghatmap
        = some out ∧ out.length = c.length ∧
      ∃ (g : Int) (re im : R), ghatmap[k]? = some g ∧
        pwcc[2 * k]? = some re ∧ pwcc[2 * k + 1]? = some im ∧
        ld out (2 * g) = some (scale * re) ∧ ld out (2 * g + 1) = some (-(scale * im)) ∧
        ((ld out (2 * g) = some (scale * re) ∧ ld out (2 * g + 1) = some (scale * im)) ↔
          scale * im = 0) := by
  have hg : ∀ j : Nat, j < 2 * ngpts →
      ∃ gi : Nat, ghatmap[j]? = some (gi : Int) ∧ 2 * gi + 1 < c.length := by
    intro j hj
    obtain ⟨gi, hgi, hlt⟩ := table_entry ghatmap (2 * ngpts) nrpts hlen hrange j hj
    exact ⟨gi, hgi, by omega⟩
  obtain ⟨out, hout, hlen2, _, hcell⟩ := launch_scatter_static gridDim blockDim sched hs c pwcc
    scale ngpts 2 ghatmap hfit hp hint2 (by omega) (fun j hj => hg j (by omega))
    (fun _ j hj => hg (j + ngpts) (by omega))
  refine ⟨out, hout, hlen2, ?_⟩
  obtain ⟨g, hgk, hgb⟩ := hg k (by omega)
  have hgk2 : ghatmap[k + ngpts]? = some (g : Int) := hself.trans hgk
  have hre : pwcc[2 * k]? = some pwcc[2 * k] := List.getElem?_eq_getElem (by omega)
  have him : pwcc[2 * k + 1]? = some pwcc[2 * k + 1] := List.getElem?_eq_getElem (by omega)
  have hW : ∀ f j, f < gridDim.x * gridDim.y * blockDim.x → (j = 2 * g ∨ j = 2 * g + 1) →
      f ≠ k → W_scatter pwcc scale (ngpts : Int) 2 ghatmap f j = none := by
    intro f j _ hj hfk
    by_cases hfn : f < ngpts
    · obtain ⟨g1, hg1, _⟩ := hg f (by omega)
      obtain ⟨g2, hg2, _⟩ := hg (f + ngpts) (by omega)
      obtain ⟨o1, o2⟩ := hother f hfn hfk
      have n1 : g1 ≠ g := fun e => o1 (by rw [hg1, hgk, e])
      have n2 : g2 ≠ g := fun e => o2 (by rw [hg2, hgk, e])
      rw [W_scatter_cell2 pwcc scale ngpts ghatmap f j hfn g1 g2 _ _ hg1 hg2
        (List.getElem?_eq_getElem (by omega)) (List.getElem?_eq_getElem (by omega)),
        if_neg (by omega), if_neg (by omega), if_neg (by omega), if_neg (by omega)]
    · exact W_scatter_ge pwcc scale ngpts 2 ghatmap f j (by omega)
  have hWk : ∀ j, W_scatter pwcc scale (ngpts : Int) 2 ghatmap k j =
      if j = 2 * g + 1 then some (-scale * pwcc[2 * k + 1])
      else if j = 2 * g then some (scale * pwcc[2 * k])
      else if j = 2 * g + 1 then some (scale * pwcc[2 * k + 1])
      else if j = 2 * g then some (scale * pwcc[2 * k]) else none :=
    fun j => W_scatter_cell2 pwcc scale ngpts ghatmap k j hk g g _ _ hgk hgk2 hre him
  have e0 : out[2 * g]? = some (scale * pwcc[2 * k]) := by
    refine hcell (2 * g) _ ⟨k, by omega, ?_⟩ ?_
    · rw [hWk, if_neg (by omega), if_pos rfl]
    · intro f hf w hw
      by_cases hfk : f = k
      · subst hfk
        rw [hWk, if_neg (by omega), if_pos rfl] at hw
        exact (Option.some.inj hw).symm
      · rw [hW f _ hf (Or.inl rfl) hfk] at hw
        exact Option.noConfusion hw
  have e1 : out[2 * g + 1]? = some (-(scale * pwcc[2 * k + 1])) := by
    refine hcell (2 * g + 1) _ ⟨k, by omega, ?_⟩ ?_
    · rw [hWk, if_pos rfl, neg_mul]
    · intro f hf w hw
      by_cases hfk : f = k
      · subst hfk
        rw [hWk, if_pos rfl, neg_mul] at hw
        exact (Option.some.inj hw).symm
      · rw [hW f _ hf (Or.inr rfl) hfk] at hw
        exact Option.noConfusion hw
  have l0 : ld out (2 * (g : Int)) = some (scale * pwcc[2 * k]) := by
    rw [two_mul_cast, ld_natCast _ _ (by omega)]; exact e0
  have l1 : ld out (2 * (g : Int) + 1) = some (-(scale * pwcc[2 * k + 1])) := by
    rw [two_mul_cast, two_mul_cast_succ, ld_natCast _ _ (by omega)]; exact e1
  refine ⟨g, _, _, hgk, hre, him, l0, l1, ?_⟩
  rw [l0, l1]
  constructor
  · rintro ⟨_, h⟩
    exact CharZero.neg_eq_self_iff.mp (Option.some.inj h)
  · intro h
    rw [h, neg_zero]
    exact ⟨rfl, rfl⟩

/-- Witness of C28: two coefficients, the first of them self-paired at offset 0. -/
theorem C28_self_paired_coefficient_witness :
    ∃ out, launch_pw_scatter_hip_z ⟨1, 1, 1⟩ ⟨2, 1, 1⟩ (allThreads ⟨1, 1, 1⟩ ⟨2, 1, 1⟩)
        [0, 0, 0, 0, 0, 0, 0, 0] [1, 2, 3, 4] (10 : Int) ((2 : Nat) : Int) 2 [0, 1, 0, 2]
        = some out ∧ out.length = [(0 : Int), 0, 0, 0, 0, 0, 0, 0].length ∧
      ∃ (g : Int) (re im : Int), [(0 : Int), 1, 0, 2][0]? = some g ∧
        [(1 : Int), 2, 3, 4][2 * 0]? = some re ∧ [(1 : Int), 2, 3, 4][2 * 0 + 1]? = some im ∧
        ld out (2 * g) = some (10 * re) ∧ ld out (2 * g + 1) = some (-(10 * im)) ∧
        ((ld out (2 * g) = some (10 * re) ∧ ld out (2 * g + 1) = some (10 * im)) ↔
          10 * im = 0) :=
  C28_self_paired_coefficient ⟨1, 1, 1⟩ ⟨2, 1, 1⟩ (allThreads ⟨1, 1, 1⟩ ⟨2, 1, 1⟩)
    (List.Perm.refl _) [0, 0, 0, 0, 0, 0, 0, 0] [1, 2, 3, 4] (10 : Int) 2 4 [0, 1, 0, 2]
    (by decide) (by decide) (by decide) (by decide) (by decide) (by decide) (by decide)
    (by decide) 0 (by decide) (by decide)
    (fun k2 h2 hne => by
      have e : k2 = 1 := by omega
      subst e
      decide)

open Hip FftHip

/-! ## The sequences of calls the public operations issue -/

theorem andThen_eq_some {α β : Type} {x : Option α} {f : α → Option β} {r : β}
    (h : andThen x f = some r) : ∃ a, x = some a ∧ f a = some r := by
  cases x with
  | none => exact Option.noConfusion h
  | some a => exact ⟨a, rfl, h⟩

/-- The calls of the 3-D invoker run with scale `1` on `hip_streams[1]`. -/
theorem ffthip_run_3d_trace {R : Type} [One R] [Mul R] [DecidableEq R] {lim : fft_hip_internal}
    {T : Transform R} {s : PlanCache} {fsign n0 n1 n2 : Int} {data : List R} {odata : Buf}
    {fresh : Nat} {r : RunResult R}
    (h : ffthip_run_3d_z_ lim T s fsign n0 n1 n2 1 data odata 1 fresh = some r) :
    r.trace = runTrace r.plan odata odata
      (if fsign < 0 then Direction.HIPFFT_INVERSE else Direction.HIPFFT_FORWARD)
      (decide (r.ioverflow ≠ 0)) := by
  have h2 : ffthip_run lim T s (.run_3d fsign n0 n1 n2) 1 data data odata odata 1 fresh
      = some r := h
  rw [(ffthip_run_trace lim T s _ 1 data data odata odata 1 fresh r h2).2,
    if_neg (not_not.mpr rfl)]
  by_cases hov : r.ioverflow ≠ 0
  · rw [if_pos hov, decide_eq_true hov]; rfl
  · rw [if_neg hov, decide_eq_false hov]; rfl

/-- The calls of the batched 1-D invoker run with scale `1` on `hip_streams[1]`. -/
theorem ffthip_run_1dm_trace {R : Type} [One R] [Mul R] [DecidableEq R] {lim : fft_hip_internal}
    {T : Transform R} {s : PlanCache} {fsign n m : Int} {data_in data_out : List R}
    {idata odata : Buf} {fresh : Nat} {r : RunResult R}
    (h : ffthip_run_1dm_z_ lim T s fsign n m 1 data_in data_out idata odata 1 fresh = some r) :
    r.trace = runTrace r.plan idata odata
      (if fsign < 0 then Direction.HIPFFT_INVERSE else Direction.HIPFFT_FORWARD)
      (decide (r.ioverflow ≠ 0)) := by
  have h2 : ffthip_run lim T s (.run_1dm fsign n m) 1 data_in data_out idata odata 1 fresh
      = some r := h
  rw [(ffthip_run_trace lim T s _ 1 data_in data_out idata odata 1 fresh r h2).2,
    if_neg (not_not.mpr rfl)]
  by_cases hov : r.ioverflow ≠ 0
  · rw [if_pos hov, decide_eq_true hov]; rfl
  · rw [if_neg hov, decide_eq_false hov]; rfl

/-- The calls `pw_hip_cfffg_z_` issues when its sizes are not zero. -/
theorem pw_hip_cfffg_z_trace {R : Type} [Zero R] [One R] [Mul R] [DecidableEq R] (env : Env R)
    (s : PlanCache) (din zout : List R) (ghatmap : List Int) (npts0 npts1 npts2 : Int) (ngpts :
      Int) (scale : R) (r : OpResult R)
    (h : pw_hip_cfffg_z_ env s din zout ghatmap npts0 npts1 npts2 ngpts scale = some r)
    (hnz : ¬ (wrap32 (wrap32 (npts0 * npts1) * npts2) = 0 ∨ ngpts = 0)) :
    ∃ (g1 g2 : dim3 × dim3) (p1 : hipfftHandle) (d1 : Direction) (b1 : Bool),
      r.trace =
      [Cmd.pw_hip_get_streams, Cmd.pw_hip_get_events,
      Cmd.pw_hip_device_mem_alloc Buf.ptr_1 (wrap32 (2 * (wrap32 (wrap32 (npts0 * npts1) *
        npts2)))),
      Cmd.pw_hip_device_mem_alloc Buf.ptr_2 (wrap32 (2 * (wrap32 (wrap32 (npts0 * npts1) *
        npts2)))),
      Cmd.pw_hip_device_mem_alloc Buf.ghatmap_dev ngpts,
      Cmd.hipMemcpyHostToDevice Buf.ptr_1 (wrap32 (wrap32 (npts0 * npts1) * npts2)) 0,
        Cmd.hipEventRecord 0 0,
      Cmd.hipStreamWaitEvent 1 0,
      Cmd.hipLaunchKernelGGL Kernel.pw_copy_rc_hip_z g1.2 g1.1 1 [Buf.ptr_1, Buf.ptr_2],
      Cmd.hipMemcpyHostToDevice Buf.ghatmap_dev ngpts 0, Cmd.hipEventRecord 0 0]
      ++ runTrace p1 Buf.ptr_2 Buf.ptr_2 d1 b1 ++
      [Cmd.hipStreamWaitEvent 1 0,
      Cmd.hipLaunchKernelGGL Kernel.pw_gather_hip_z g2.2 g2.1 1
      [Buf.ptr_1, Buf.ptr_2, Buf.ghatmap_dev],
      Cmd.hipEventRecord 1 1, Cmd.hipStreamWaitEvent 2 1,
      Cmd.hipMemcpyDeviceToHost Buf.ptr_1 (2 * ngpts) 2, Cmd.hipStreamSynchronize 2,
      Cmd.pw_hip_device_mem_free Buf.ptr_1, Cmd.pw_hip_device_mem_free Buf.ptr_2,
      Cmd.pw_hip_device_mem_free Buf.ghatmap_dev] := by
  unfold pw_hip_cfffg_z_ at h
  simp only [if_neg hnz] at h
  obtain ⟨_, -, h⟩ := andThen_eq_some h
  obtain ⟨_, -, h⟩ := andThen_eq_some h
  obtain ⟨_, -, h⟩ := andThen_eq_some h
  obtain ⟨_, -, h⟩ := andThen_eq_some h
  obtain ⟨g1, -, h⟩ := andThen_eq_some h
  obtain ⟨_, -, h⟩ := andThen_eq_some h
  obtain ⟨_, -, h⟩ := andThen_eq_some h
  obtain ⟨run, hrun, h⟩ := andThen_eq_some h
  obtain ⟨g2, -, h⟩ := andThen_eq_some h
  obtain ⟨_, -, h⟩ := andThen_eq_some h
  obtain ⟨_, -, h⟩ := andThen_eq_some h
  obtain rfl := Option.some.inj h
  exact ⟨g1, g2, run.plan, _, _, by
    rw [ffthip_run_3d_trace hrun]⟩

/-- The calls `pw_hip_sfffc_z_` issues when its sizes are not zero. -/
theorem pw_hip_sfffc_z_trace {R : Type} [Zero R] [One R] [Mul R] [Neg R] [DecidableEq R] (env : Env
  R)
    (s : PlanCache) (zin dout : List R) (ghatmap : List Int) (npts0 npts1 npts2 : Int) (ngpts nmaps
      : Int) (scale : R) (r : OpResult R)
    (h : pw_hip_sfffc_z_ env s zin dout ghatmap npts0 npts1 npts2 ngpts nmaps scale = some r)
    (hnz : ¬ (wrap32 (wrap32 (npts0 * npts1) * npts2) = 0 ∨ ngpts = 0)) :
    ∃ (g1 g2 : dim3 × dim3) (p1 : hipfftHandle) (d1 : Direction) (b1 : Bool),
      r.trace =
      [Cmd.pw_hip_get_streams, Cmd.pw_hip_get_events,
      Cmd.pw_hip_device_mem_alloc Buf.ptr_1 (wrap32 (2 * (wrap32 (wrap32 (npts0 * npts1) *
        npts2)))),
      Cmd.pw_hip_device_mem_alloc Buf.ptr_2 (wrap32 (2 * (wrap32 (wrap32 (npts0 * npts1) *
        npts2)))),
      Cmd.pw_hip_device_mem_alloc Buf.ghatmap_dev (wrap32 (nmaps * ngpts)),
      Cmd.hipMemcpyHostToDevice Buf.ptr_1 (2 * ngpts) 0,
      Cmd.hipMemcpyHostToDevice Buf.ghatmap_dev (nmaps * ngpts) 0, Cmd.hipEventRecord 0 0,
      Cmd.hipStreamWaitEvent 1 0, Cmd.hipMemsetAsync Buf.ptr_2 (2 * (wrap32 (wrap32 (npts0 * npts1)
        * npts2))) 1,
      Cmd.hipLaunchKernelGGL Kernel.pw_scatter_hip_z g1.2 g1.1 1
      [Buf.ptr_2, Buf.ptr_1, Buf.ghatmap_dev]]
      ++ runTrace p1 Buf.ptr_2 Buf.ptr_2 d1 b1 ++
      [Cmd.hipLaunchKernelGGL Kernel.pw_copy_cr_hip_z g2.2 g2.1 1 [Buf.ptr_2, Buf.ptr_1],
      Cmd.hipEventRecord 1 1, Cmd.hipStreamWaitEvent 2 1,
      Cmd.hipMemcpyDeviceToHost Buf.ptr_1 (wrap32 (wrap32 (npts0 * npts1) * npts2)) 2,
        Cmd.hipStreamSynchronize 2,
      Cmd.pw_hip_device_mem_free Buf.ptr_1, Cmd.pw_hip_device_mem_free Buf.ptr_2,
      Cmd.pw_hip_device_mem_free Buf.ghatmap_dev] := by
  unfold pw_hip_sfffc_z_ at h
  simp only [if_neg hnz] at h
  obtain ⟨_, -, h⟩ := andThen_eq_some h
  obtain ⟨_, -, h⟩ := andThen_eq_some h
  obtain ⟨_, -, h⟩ := andThen_eq_some h
  obtain ⟨_, -, h⟩ := andThen_eq_some h
  obtain ⟨_, -, h⟩ := andThen_eq_some h
  obtain ⟨g1, -, h⟩ := andThen_eq_some h
  obtain ⟨_, -, h⟩ := andThen_eq_some h
  obtain ⟨_, -, h⟩ := andThen_eq_some h
  obtain ⟨run, hrun, h⟩ := andThen_eq_some h
  obtain ⟨g2, -, h⟩ := andThen_eq_some h
  obtain ⟨_, -, h⟩ := andThen_eq_some h
  obtain ⟨_, -, h⟩ := andThen_eq_some h
  obtain rfl := Option.some.inj h
  exact ⟨g1, g2, run.plan, _, _, by
    rw [ffthip_run_3d_trace hrun]⟩

/-- The calls `pw_hip_cff_z_` issues when its sizes are not zero. -/
theorem pw_hip_cff_z_trace {R : Type} [Zero R] [One R] [Mul R] [DecidableEq R] (env : Env R)
    (s : PlanCache) (din zout : List R) (npts0 npts1 npts2 : Int) (r : OpResult R)
    (h : pw_hip_cff_z_ env s din zout npts0 npts1 npts2 = some r)
    (hnz : ¬ (wrap32 (wrap32 (npts0 * npts1) * npts2) = 0)) :
    ∃ (g1 : dim3 × dim3) (p1 p2 : hipfftHandle) (d1 d2 : Direction) (b1 b2 : Bool),
      r.trace =
      [Cmd.pw_hip_get_streams, Cmd.pw_hip_get_events,
      Cmd.pw_hip_device_mem_alloc Buf.ptr_1 (wrap32 (2 * (wrap32 (wrap32 (npts0 * npts1) *
        npts2)))),
      Cmd.pw_hip_device_mem_alloc Buf.ptr_2 (wrap32 (2 * (wrap32 (wrap32 (npts0 * npts1) *
        npts2)))),
      Cmd.hipMemcpyHostToDevice Buf.ptr_1 (wrap32 (wrap32 (npts0 * npts1) * npts2)) 0,
        Cmd.hipEventRecord 0 0,
      Cmd.hipStreamWaitEvent 1 0,
      Cmd.hipLaunchKernelGGL Kernel.pw_copy_rc_hip_z g1.2 g1.1 1 [Buf.ptr_1, Buf.ptr_2]]
      ++ runTrace p1 Buf.ptr_2 Buf.ptr_1 d1 b1 ++ runTrace p2 Buf.ptr_1 Buf.ptr_2 d2 b2 ++
      [Cmd.hipEventRecord 1 1, Cmd.hipStreamWaitEvent 2 1,
      Cmd.hipMemcpyDeviceToHost Buf.ptr_2 (2 * (wrap32 (wrap32 (npts0 * npts1) * npts2))) 2,
        Cmd.hipStreamSynchronize 2,
      Cmd.pw_hip_device_mem_free Buf.ptr_1, Cmd.pw_hip_device_mem_free Buf.ptr_2] := by
  unfold pw_hip_cff_z_ at h
  simp only [if_neg hnz] at h
  obtain ⟨_, -, h⟩ := andThen_eq_some h
  obtain ⟨_, -, h⟩ := andThen_eq_some h
  obtain ⟨_, -, h⟩ := andThen_eq_some h
  obtain ⟨g1, -, h⟩ := andThen_eq_some h
  obtain ⟨_, -, h⟩ := andThen_eq_some h
  obtain ⟨run1, hrun1, h⟩ := andThen_eq_some h
  obtain ⟨run2, hrun2, h⟩ := andThen_eq_some h
  obtain ⟨_, -, h⟩ := andThen_eq_some h
  obtain rfl := Option.some.inj h
  exact ⟨g1, run1.plan, run2.plan, _, _, _, _, by
    rw [ffthip_run_1dm_trace hrun1]
    rw [ffthip_run_1dm_trace hrun2]⟩

/-- The calls `pw_hip_ffc_z_` issues when its sizes are not zero. -/
theorem pw_hip_ffc_z_trace {R : Type} [Zero R] [One R] [Mul R] [DecidableEq R] (env : Env R)
    (s : PlanCache) (zin dout : List R) (npts0 npts1 npts2 : Int) (r : OpResult R)
    (h : pw_hip_ffc_z_ env s zin dout npts0 npts1 npts2 = some r)
    (hnz : ¬ (wrap32 (wrap32 (npts0 * npts1) * npts2) = 0)) :
    ∃ (g1 : dim3 × dim3) (p1 p2 : hipfftHandle) (d1 d2 : Direction) (b1 b2 : Bool),
      r.trace =
      [Cmd.pw_hip_get_streams, Cmd.pw_hip_get_events,
      Cmd.pw_hip_device_mem_alloc Buf.ptr_1 (wrap32 (2 * (wrap32 (wrap32 (npts0 * npts1) *
        npts2)))),
      Cmd.pw_hip_device_mem_alloc Buf.ptr_2 (wrap32 (2 * (wrap32 (wrap32 (npts0 * npts1) *
        npts2)))),
      Cmd.hipMemcpyHostToDevice Buf.ptr_1 (2 * (wrap32 (wrap32 (npts0 * npts1) * npts2))) 0,
        Cmd.hipEventRecord 0 0,
      Cmd.hipStreamWaitEvent 1 0]
      ++ runTrace p1 Buf.ptr_1 Buf.ptr_2 d1 b1 ++ runTrace p2 Buf.ptr_2 Buf.ptr_1 d2 b2 ++
      [Cmd.hipLaunchKernelGGL Kernel.pw_copy_cr_hip_z g1.2 g1.1 1 [Buf.ptr_1, Buf.ptr_2],
      Cmd.hipEventRecord 1 1, Cmd.hipStreamWaitEvent 2 1,
      Cmd.hipMemcpyDeviceToHost Buf.ptr_2 (wrap32 (wrap32 (npts0 * npts1) * npts2)) 2,
        Cmd.hipStreamSynchronize 2,
      Cmd.pw_hip_device_mem_free Buf.ptr_1, Cmd.pw_hip_device_mem_free Buf.ptr_2] := by
  unfold pw_hip_ffc_z_ at h
  simp only [if_neg hnz] at h
  obtain ⟨_, -, h⟩ := andThen_eq_some h
  obtain ⟨_, -, h⟩ := andThen_eq_some h
  obtain ⟨_, -, h⟩ := andThen_eq_some h
  obtain ⟨run1, hrun1, h⟩ := andThen_eq_some h
  obtain ⟨run2, hrun2, h⟩ := andThen_eq_some h
  obtain ⟨g1, -, h⟩ := andThen_eq_some h
  obtain ⟨_, -, h⟩ := andThen_eq_some h
  obtain ⟨_, -, h⟩ := andThen_eq_some h
  obtain rfl := Option.some.inj h
  exact ⟨g1, run1.plan, run2.plan, _, _, _, _, by
    rw [ffthip_run_1dm_trace hrun1]
    rw [ffthip_run_1dm_trace hrun2]⟩

/-- The calls `pw_hip_cf_z_` issues when its sizes are not zero. -/
theorem pw_hip_cf_z_trace {R : Type} [Zero R] [One R] [Mul R] [DecidableEq R] (env : Env R)
    (s : PlanCache) (din zout : List R) (npts0 npts1 npts2 : Int) (r : OpResult R)
    (h : pw_hip_cf_z_ env s din zout npts0 npts1 npts2 = some r)
    (hnz : ¬ (wrap32 (wrap32 (npts0 * npts1) * npts2) = 0)) :
    ∃ (g1 : dim3 × dim3) (p1 : hipfftHandle) (d1 : Direction) (b1 : Bool),
      r.trace =
      [Cmd.pw_hip_get_streams, Cmd.pw_hip_get_events,
      Cmd.pw_hip_device_mem_alloc Buf.ptr_1 (wrap32 (2 * (wrap32 (wrap32 (npts0 * npts1) *
        npts2)))),
      Cmd.pw_hip_device_mem_alloc Buf.ptr_2 (wrap32 (2 * (wrap32 (wrap32 (npts0 * npts1) *
        npts2)))),
      Cmd.hipMemcpyHostToDevice Buf.ptr_1 (wrap32 (wrap32 (npts0 * npts1) * npts2)) 0,
        Cmd.hipEventRecord 0 0,
      Cmd.hipStreamWaitEvent 1 0,
      Cmd.hipLaunchKernelGGL Kernel.pw_copy_rc_hip_z g1.2 g1.1 1 [Buf.ptr_1, Buf.ptr_2]]
      ++ runTrace p1 Buf.ptr_2 Buf.ptr_1 d1 b1 ++
      [Cmd.hipEventRecord 1 1, Cmd.hipStreamWaitEvent 2 1,
      Cmd.hipMemcpyDeviceToHost Buf.ptr_1 (2 * (wrap32 (wrap32 (npts0 * npts1) * npts2))) 2,
        Cmd.hipStreamSynchronize 2,
      Cmd.pw_hip_device_mem_free Buf.ptr_1, Cmd.pw_hip_device_mem_free Buf.ptr_2] := by
  unfold pw_hip_cf_z_ at h
  simp only [if_neg hnz] at h
  obtain ⟨_, -, h⟩ := andThen_eq_some h
  obtain ⟨_, -, h⟩ := andThen_eq_some h
  obtain ⟨_, -, h⟩ := andThen_eq_some h
  obtain ⟨g1, -, h⟩ := andThen_eq_some h
  obtain ⟨_, -, h⟩ := andThen_eq_some h
  obtain ⟨run, hrun, h⟩ := andThen_eq_some h
  obtain ⟨_, -, h⟩ := andThen_eq_some h
  obtain rfl := Option.some.inj h
  exact ⟨g1, run.plan, _, _, by
    rw [ffthip_run_1dm_trace hrun]⟩

/-- The calls `pw_hip_fc_z_` issues when its sizes are not zero. -/
theorem pw_hip_fc_z_trace {R : Type} [Zero R] [One R] [Mul R] [DecidableEq R] (env : Env R)
    (s : PlanCache) (zin dout : List R) (npts0 npts1 npts2 : Int) (r : OpResult R)
    (h : pw_hip_fc_z_ env s zin dout npts0 npts1 npts2 = some r)
    (hnz : ¬ (wrap32 (wrap32 (npts0 * npts1) * npts2) = 0)) :
    ∃ (g1 : dim3 × dim3) (p1 : hipfftHandle) (d1 : Direction) (b1 : Bool),
      r.trace =
      [Cmd.pw_hip_get_streams, Cmd.pw_hip_get_events,
      Cmd.pw_hip_device_mem_alloc Buf.ptr_1 (wrap32 (2 * (wrap32 (wrap32 (npts0 * npts1) *
        npts2)))),
      Cmd.pw_hip_device_mem_alloc Buf.ptr_2 (wrap32 (2 * (wrap32 (wrap32 (npts0 * npts1) *
        npts2)))),
      Cmd.hipMemcpyHostToDevice Buf.ptr_1 (2 * (wrap32 (wrap32 (npts0 * npts1) * npts2))) 0,
        Cmd.hipEventRecord 0 0,
      Cmd.hipStreamWaitEvent 1 0]
      ++ runTrace p1 Buf.ptr_1 Buf.ptr_2 d1 b1 ++
      [Cmd.hipLaunchKernelGGL Kernel.pw_copy_cr_hip_z g1.2 g1.1 1 [Buf.ptr_2, Buf.ptr_1],
      Cmd.hipEventRecord 1 1, Cmd.hipStreamWaitEvent 2 1,
      Cmd.hipMemcpyDeviceToHost Buf.ptr_1 (wrap32 (wrap32 (npts0 * npts1) * npts2)) 2,
        Cmd.hipStreamSynchronize 2,
      Cmd.pw_hip_device_mem_free Buf.ptr_1, Cmd.pw_hip_device_mem_free Buf.ptr_2] := by
  unfold pw_hip_fc_z_ at h
  simp only [if_neg hnz] at h
  obtain ⟨_, -, h⟩ := andThen_eq_some h
  obtain ⟨_, -, h⟩ := andThen_eq_some h
  obtain ⟨_, -, h⟩ := andThen_eq_some h
  obtain ⟨run, hrun, h⟩ := andThen_eq_some h
  obtain ⟨g1, -, h⟩ := andThen_eq_some h
  obtain ⟨_, -, h⟩ := andThen_eq_some h
  obtain ⟨_, -, h⟩ := andThen_eq_some h
  obtain rfl := Option.some.inj h
  exact ⟨g1, run.plan, _, _, by
    rw [ffthip_run_1dm_trace hrun]⟩

/-- The calls `pw_hip_f_z_` issues when its sizes are not zero. -/
theorem pw_hip_f_z_trace {R : Type} [One R] [Mul R] [DecidableEq R] (env : Env R)
    (s : PlanCache) (zin zout : List R) (dir n m : Int) (r : OpResult R)
    (h : pw_hip_f_z_ env s zin zout dir n m = some r)
    (hnz : ¬ (wrap32 (n * m) = 0)) :
    ∃ (p1 : hipfftHandle) (d1 : Direction) (b1 : Bool),
      r.trace =
      [Cmd.pw_hip_get_streams, Cmd.pw_hip_get_events,
      Cmd.pw_hip_device_mem_alloc Buf.ptr_1 (wrap32 (2 * (wrap32 (n * m)))),
      Cmd.pw_hip_device_mem_alloc Buf.ptr_2 (wrap32 (2 * (wrap32 (n * m)))),
      Cmd.hipMemcpyHostToDevice Buf.ptr_1 (2 * (wrap32 (n * m))) 0, Cmd.hipEventRecord 0 0,
      Cmd.hipStreamWaitEvent 1 0]
      ++ runTrace p1 Buf.ptr_1 Buf.ptr_2 d1 b1 ++
      [Cmd.hipEventRecord 1 1, Cmd.hipStreamWaitEvent 2 1,
      Cmd.hipMemcpyDeviceToHost Buf.ptr_2 (2 * (wrap32 (n * m))) 2, Cmd.hipStreamSynchronize 2,
      Cmd.pw_hip_device_mem_free Buf.ptr_1, Cmd.pw_hip_device_mem_free Buf.ptr_2] := by
  unfold pw_hip_f_z_ at h
  simp only [if_neg hnz] at h
  obtain ⟨_, -, h⟩ := andThen_eq_some h
  obtain ⟨_, -, h⟩ := andThen_eq_some h
  obtain ⟨_, -, h⟩ := andThen_eq_some h
  obtain ⟨run, hrun, h⟩ := andThen_eq_some h
  obtain ⟨_, -, h⟩ := andThen_eq_some h
  obtain rfl := Option.some.inj h
  exact ⟨run.plan, _, _, by
    rw [ffthip_run_1dm_trace hrun]⟩

/-- The calls `pw_hip_fg_z_` issues when its sizes are not zero. -/
theorem pw_hip_fg_z_trace {R : Type} [One R] [Mul R] [DecidableEq R] (env : Env R)
    (s : PlanCache) (zin zout : List R) (ghatmap : List Int) (npts0 mmax : Int) (ngpts : Int)
      (scale : R) (r : OpResult R)
    (h : pw_hip_fg_z_ env s zin zout ghatmap npts0 mmax ngpts scale = some r)
    (hnz : ¬ (wrap32 (npts0 * mmax) = 0 ∨ ngpts = 0)) :
    ∃ (g1 : dim3 × dim3) (p1 : hipfftHandle) (d1 : Direction) (b1 : Bool),
      r.trace =
      [Cmd.pw_hip_get_streams, Cmd.pw_hip_get_events,
      Cmd.pw_hip_device_mem_alloc Buf.ptr_1 (wrap32 (2 * (wrap32 (npts0 * mmax)))),
      Cmd.pw_hip_device_mem_alloc Buf.ptr_2 (wrap32 (2 * (wrap32 (npts0 * mmax)))),
      Cmd.pw_hip_device_mem_alloc Buf.ghatmap_dev ngpts,
      Cmd.hipMemcpyHostToDevice Buf.ghatmap_dev ngpts 0,
      Cmd.hipMemcpyHostToDevice Buf.ptr_1 (2 * (wrap32 (npts0 * mmax))) 0, Cmd.hipEventRecord 0 0,
      Cmd.hipStreamWaitEvent 1 0]
      ++ runTrace p1 Buf.ptr_1 Buf.ptr_2 d1 b1 ++
      [Cmd.hipLaunchKernelGGL Kernel.pw_gather_hip_z g1.2 g1.1 1
      [Buf.ptr_1, Buf.ptr_2, Buf.ghatmap_dev],
      Cmd.hipEventRecord 1 1, Cmd.hipStreamWaitEvent 2 1,
      Cmd.hipMemcpyDeviceToHost Buf.ptr_1 (2 * ngpts) 2, Cmd.hipStreamSynchronize 2,
      Cmd.pw_hip_device_mem_free Buf.ptr_1, Cmd.pw_hip_device_mem_free Buf.ptr_2,
      Cmd.pw_hip_device_mem_free Buf.ghatmap_dev] := by
  unfold pw_hip_fg_z_ at h
  simp only [if_neg hnz] at h
  obtain ⟨_, -, h⟩ := andThen_eq_some h
  obtain ⟨_, -, h⟩ := andThen_eq_some h
  obtain ⟨_, -, h⟩ := andThen_eq_some h
  obtain ⟨_, -, h⟩ := andThen_eq_some h
  obtain ⟨_, -, h⟩ := andThen_eq_some h
  obtain ⟨run, hrun, h⟩ := andThen_eq_some h
  obtain ⟨g1, -, h⟩ := andThen_eq_some h
  obtain ⟨_, -, h⟩ := andThen_eq_some h
  obtain ⟨_, -, h⟩ := andThen_eq_some h
  obtain rfl := Option.some.inj h
  exact ⟨g1, run.plan, _, _, by
    rw [ffthip_run_1dm_trace hrun]⟩

/-- The calls `pw_hip_sf_z_` issues when its sizes are not zero. -/
theorem pw_hip_sf_z_trace {R : Type} [Zero R] [One R] [Mul R] [Neg R] [DecidableEq R] (env : Env R)
    (s : PlanCache) (zin zout : List R) (ghatmap : List Int) (npts0 mmax : Int) (ngpts nmaps : Int)
      (scale : R) (r : OpResult R)
    (h : pw_hip_sf_z_ env s zin zout ghatmap npts0 mmax ngpts nmaps scale = some r)
    (hnz : ¬ (wrap32 (npts0 * mmax) = 0 ∨ ngpts = 0)) :
    ∃ (g1 : dim3 × dim3) (p1 : hipfftHandle) (d1 : Direction) (b1 : Bool),
      r.trace =
      [Cmd.pw_hip_get_streams, Cmd.pw_hip_get_events,
      Cmd.pw_hip_device_mem_alloc Buf.ptr_1 (wrap32 (2 * (wrap32 (npts0 * mmax)))),
      Cmd.pw_hip_device_mem_alloc Buf.ptr_2 (wrap32 (2 * (wrap32 (npts0 * mmax)))),
      Cmd.pw_hip_device_mem_alloc Buf.ghatmap_dev (wrap32 (nmaps * ngpts)),
      Cmd.hipMemcpyHostToDevice Buf.ptr_1 (2 * ngpts) 0,
      Cmd.hipMemcpyHostToDevice Buf.ghatmap_dev (nmaps * ngpts) 0, Cmd.hipEventRecord 0 0,
      Cmd.hipStreamWaitEvent 1 0, Cmd.hipMemsetAsync Buf.ptr_2 (2 * (wrap32 (npts0 * mmax))) 1,
      Cmd.hipLaunchKernelGGL Kernel.pw_scatter_hip_z g1.2 g1.1 1
      [Buf.ptr_2, Buf.ptr_1, Buf.ghatmap_dev]]
      ++ runTrace p1 Buf.ptr_2 Buf.ptr_1 d1 b1 ++
      [Cmd.hipEventRecord 1 1, Cmd.hipStreamWaitEvent 2 1,
      Cmd.hipMemcpyDeviceToHost Buf.ptr_1 (2 * (wrap32 (npts0 * mmax))) 2, Cmd.hipStreamSynchronize
        2,
      Cmd.pw_hip_device_mem_free Buf.ptr_1, Cmd.pw_hip_device_mem_free Buf.ptr_2,
      Cmd.pw_hip_device_mem_free Buf.ghatmap_dev] := by
  unfold pw_hip_sf_z_ at h
  simp only [if_neg hnz] at h
  obtain ⟨_, -, h⟩ := andThen_eq_some h
  obtain ⟨_, -, h⟩ := andThen_eq_some h
  obtain ⟨_, -, h⟩ := andThen_eq_some h
  obtain ⟨_, -, h⟩ := andThen_eq_some h
  obtain ⟨_, -, h⟩ := andThen_eq_some h
  obtain ⟨g1, -, h⟩ := andThen_eq_some h
  obtain ⟨_, -, h⟩ := andThen_eq_some h
  obtain ⟨_, -, h⟩ := andThen_eq_some h
  obtain ⟨run, hrun, h⟩ := andThen_eq_some h
  obtain ⟨_, -, h⟩ := andThen_eq_some h
  obtain rfl := Option.some.inj h
  exact ⟨g1, run.plan, _, _, by
    rw [ffthip_run_1dm_trace hrun]⟩

end PwHip

namespace Hip

open PwHip FftHip

/-! ## Soundness of the position-by-position checks -/

theorem ingressCheck_sound (t : List Cmd) (h : ingressCheck t = true) : IngressOrdered t := by
  intro i j b n c hi hj hc hb
  unfold ingressCheck at h
  rw [List.all_eq_true] at h
  have h1 := h (i, Cmd.hipMemcpyHostToDevice b n 0) (List.mk_mem_enum_iff_getElem?.mpr hi)
  simp only [Cmd.ingressTarget, if_true] at h1
  rw [List.all_eq_true] at h1
  have h2 := h1 (j, c) (List.mk_mem_enum_iff_getElem?.mpr hj)
  have hcb : (c.isCompute && c.reads.contains b) = true := by
    rw [hc, Bool.true_and]
    exact List.elem_eq_true_of_mem hb
  rw [hcb] at h2
  simp only [Bool.not_true, Bool.false_or, List.any_eq_true, Bool.and_eq_true,
    decide_eq_true_eq, Prod.exists] at h2
  obtain ⟨r, cr, hr, ⟨hir, hcr⟩, w, cw, hw, ⟨hrw, hwj⟩, hcw⟩ := h2
  subst hcr hcw
  exact ⟨r, w, hir, hrw, hwj, List.mk_mem_enum_iff_getElem?.mp hr,
    List.mk_mem_enum_iff_getElem?.mp hw⟩

theorem egressCheck_sound (t : List Cmd) (h : egressCheck t = true) : EgressOrdered t := by
  intro d src n hd
  unfold egressCheck at h
  rw [List.all_eq_true] at h
  have h1 := h (d, Cmd.hipMemcpyDeviceToHost src n 2) (List.mk_mem_enum_iff_getElem?.mpr hd)
  simp only [Cmd.isEgress, decide_True, Bool.not_true, Bool.false_or, List.any_eq_true,
    Bool.and_eq_true, decide_eq_true_eq, Prod.exists, List.all_eq_true, Bool.or_eq_true,
    Bool.not_eq_true', Prod.forall] at h1
  obtain ⟨r, cr, hr, ⟨hcr, w, cw, hw, ⟨hrw, hwd⟩, hcw⟩, hall⟩ := h1
  subst hcr hcw
  refine ⟨r, w, hrw, hwd, List.mk_mem_enum_iff_getElem?.mp hr,
    List.mk_mem_enum_iff_getElem?.mp hw, fun j c hj hc => ?_⟩
  rcases hall j c (List.mk_mem_enum_iff_getElem?.mpr hj) with h2 | h2
  · rw [hc] at h2; exact Bool.noConfusion h2
  · exact h2

theorem finalEgressWaitCheck_sound (t : List Cmd) (h : finalEgressWaitCheck t = true) :
    FinalEgressWait t := by
  unfold finalEgressWaitCheck at h
  simp only [List.any_eq_true, Bool.and_eq_true, decide_eq_true_eq, Prod.exists,
    List.all_eq_true, Bool.or_eq_true, Bool.not_eq_true', Prod.forall] at h
  obtain ⟨d, cd, hd, hcd, w, cw, hw, ⟨hdw, hcw⟩, hall⟩ := h
  subst hcw
  have hd2 := List.mk_mem_enum_iff_getElem?.mp hd
  cases cd with
  | hipMemcpyDeviceToHost src n stream =>
    have hs : stream = 2 := by simpa [Cmd.isEgress] using hcd
    subst hs
    refine ⟨d, w, src, n, hdw, hd2, List.mk_mem_enum_iff_getElem?.mp hw, fun k c hk hc => ?_,
      fun k c hk hc => ?_⟩
    · rcases (hall k c (List.mk_mem_enum_iff_getElem?.mpr hk)).1 with h2 | h2
      · rw [hc] at h2; exact Bool.noConfusion h2
      · exact h2
    · rcases (hall k c (List.mk_mem_enum_iff_getElem?.mpr hk)).2 with h2 | h2
      · rw [hc] at h2; exact Bool.noConfusion h2
      · exact h2
  | _ => exact Bool.noConfusion hcd

theorem waitBeforeDestroyCheck_sound (t : List Cmd) (h : waitBeforeDestroyCheck t = true) :
    WaitBeforeDestroy t := by
  intro k plan hk
  unfold waitBeforeDestroyCheck at h
  rw [List.all_eq_true] at h
  have h1 := h (k, Cmd.hipfftDestroy plan) (List.mk_mem_enum_iff_getElem?.mpr hk)
  simp only [Cmd.isDestroy, Bool.not_true, Bool.false_or, List.any_eq_true, Bool.and_eq_true,
    decide_eq_true_eq, Prod.exists] at h1
  obtain ⟨k0, c, hk0, hkk, hc⟩ := h1
  subst hc
  exact ⟨k0, hkk, List.mk_mem_enum_iff_getElem?.mp hk0⟩

end Hip

namespace PwHip

open Hip FftHip

/-- A call whose size test succeeds issues no call at all. -/
theorem PublicCall.run_zeroSize {R : Type} [Zero R] [One R] [Mul R] [Neg R] [DecidableEq R]
    (env : Env R) (s : PlanCache) (call : PublicCall R) (r : OpResult R)
    (h : call.run env s = some r) (hz : call.zeroSize) : r.trace = [] := by
  cases call <;> simp only [PublicCall.zeroSize] at hz <;>
    simp only [PublicCall.run, pw_hip_cfffg_z_, pw_hip_sfffc_z_, pw_hip_cff_z_, pw_hip_ffc_z_,
      pw_hip_cf_z_, pw_hip_fc_z_, pw_hip_f_z_, pw_hip_fg_z_, pw_hip_sf_z_, if_pos hz,
      Option.some.injEq] at h <;>
    rw [← h]

open Hip FftHip

/-- What the sequence of calls of every public operation with sizes other than zero
passes: the four position-by-position checks, and its host-blocking waits are
one `hipStreamSynchronize(hip_streams[1])` per plan destroyed, then
`hipStreamSynchronize(hip_streams[2])`. -/
theorem PublicCall.run_checks {R : Type} [Zero R] [One R] [Mul R] [Neg R] [DecidableEq R]
    (env : Env R) (s : PlanCache) (call : PublicCall R) (r : OpResult R)
    (h : call.run env s = some r) (hnz : ¬ call.zeroSize) :
    ingressCheck r.trace = true ∧ egressCheck r.trace = true ∧
    finalEgressWaitCheck r.trace = true ∧ waitBeforeDestroyCheck r.trace = true ∧
    hostWaits r.trace = (destroyed r.trace).map (fun _ => Cmd.hipStreamSynchronize 1) ++
      [Cmd.hipStreamSynchronize 2] := by
  cases call with
  | cfffg din zout ghatmap npts0 npts1 npts2 ngpts scale =>
    obtain ⟨g1, g2, p1, d1, b1, hr⟩ :=
      pw_hip_cfffg_z_trace env s din zout ghatmap npts0 npts1 npts2 ngpts scale r h hnz
    rw [hr]
    cases b1 <;> exact ⟨rfl, rfl, rfl, rfl, rfl⟩
  | sfffc zin dout ghatmap npts0 npts1 npts2 ngpts nmaps scale =>
    obtain ⟨g1, g2, p1, d1, b1, hr⟩ :=
      pw_hip_sfffc_z_trace env s zin dout ghatmap npts0 npts1 npts2 ngpts nmaps scale r h hnz
    rw [hr]
    cases b1 <;> exact ⟨rfl, rfl, rfl, rfl, rfl⟩
  | cff din zout npts0 npts1 npts2 =>
    obtain ⟨g1, p1, p2, d1, d2, b1, b2, hr⟩ :=
      pw_hip_cff_z_trace env s din zout npts0 npts1 npts2 r h hnz
    rw [hr]
    cases b1 <;> cases b2 <;> exact ⟨rfl, rfl, rfl, rfl, rfl⟩
  | ffc zin dout npts0 npts1 npts2 =>
    obtain ⟨g1, p1, p2, d1, d2, b1, b2, hr⟩ :=
      pw_hip_ffc_z_trace env s zin dout npts0 npts1 npts2 r h hnz
    rw [hr]
    cases b1 <;> cases b2 <;> exact ⟨rfl, rfl, rfl, rfl, rfl⟩
  | cf din zout npts0 npts1 npts2 =>
    obtain ⟨g1, p1, d1, b1, hr⟩ := pw_hip_cf_z_trace env s din zout npts0 npts1 npts2 r h hnz
    rw [hr]
    cases b1 <;> exact ⟨rfl, rfl, rfl, rfl, rfl⟩
  | fc zin dout npts0 npts1 npts2 =>
    obtain ⟨g1, p1, d1, b1, hr⟩ := pw_hip_fc_z_trace env s zin dout npts0 npts1 npts2 r h hnz
    rw [hr]
    cases b1 <;> exact ⟨rfl, rfl, rfl, rfl, rfl⟩
  | f zin zout dir n m =>
    obtain ⟨p1, d1, b1, hr⟩ := pw_hip_f_z_trace env s zin zout dir n m r h hnz
    rw [hr]
    cases b1 <;> exact ⟨rfl, rfl, rfl, rfl, rfl⟩
  | fg zin zout ghatmap npts0 mmax ngpts scale =>
    obtain ⟨g1, p1, d1, b1, hr⟩ :=
      pw_hip_fg_z_trace env s zin zout ghatmap npts0 mmax ngpts scale r h hnz
    rw [hr]
    cases b1 <;> exact ⟨rfl, rfl, rfl, rfl, rfl⟩
  | sf zin zout ghatmap npts0 mmax ngpts nmaps scale =>
    obtain ⟨g1, p1, d1, b1, hr⟩ :=
      pw_hip_sf_z_trace env s zin zout ghatmap npts0 mmax ngpts nmaps scale r h hnz
    rw [hr]
    cases b1 <;> exact ⟨rfl, rfl, rfl, rfl, rfl⟩

open Hip FftHip

/-! ## Claims on the sequence of calls of the public operations -/

/-- C21 fails as stated: `pw_hip_f_z_` on one vector of length 2, started in
`exampleCache` (reachable from the empty cache) with room for one 1-D plan,
gets a transient plan, and the calls it issues contain two host-blocking
waits: `hipStreamSynchronize(hip_streams[1])` before the plan is destroyed, and
the final `hipStreamSynchronize(hip_streams[2])`. -/
theorem C21_single_host_wait_counterexample :
    (PublicCall.f [1, 2, 3, 4] [0, 0, 0, 0] 1 2 1).run exampleTightEnv exampleCache
      = some exampleTransientOp ∧
    ¬ (PublicCall.f [(1 : Int), 2, 3, 4] [0, 0, 0, 0] 1 2 1).zeroSize ∧
    Reachable exampleTightEnv.lim exampleCache ∧
    hostWaits exampleTransientOp.trace
      = [Cmd.hipStreamSynchronize 1, Cmd.hipStreamSynchronize 2] ∧
    (hostWaits exampleTransientOp.trace).length ≠ 1 :=
  ⟨rfl, by decide,
    Reachable.acquire (PlanCache.init exampleTightEnv.lim) (.plan1dm 4 2 1) 7
      ⟨7, some (.hipfftPlanMany 1 [4] [0] 2 1 [0] 1 4 2)⟩ 0 exampleCache Reachable.init
      (by decide),
    rfl, by decide⟩

/-- C21, amended. Host-synchronous points: for each of the nine public operations
and every cache state, when the sizes are non-zero the host-blocking waits in
the sequence of calls the operation issues are one
`hipStreamSynchronize(hip_streams[1])` for every transient plan, issued right
before that plan is destroyed, followed by the final
`hipStreamSynchronize(hip_streams[2])`, which is issued after the
device-to-host copy and before the scratch buffers are released.  So the
sequence contains exactly one host-blocking wait, the final one, when no plan
of the call is transient. -/
theorem C21_single_host_wait {R : Type} [Zero R] [One R] [Mul R] [Neg R] [DecidableEq R]
    (env : Env R) (s : PlanCache) (call : PublicCall R) (r : OpResult R)
    (h : call.run env s = some r) (hnz : ¬ call.zeroSize) :
    hostWaits r.trace = (destroyed r.trace).map (fun _ => Cmd.hipStreamSynchronize 1) ++
      [Cmd.hipStreamSynchronize 2] ∧
    WaitBeforeDestroy r.trace ∧ FinalEgressWait r.trace ∧
    (destroyed r.trace = [] → hostWaits r.trace = [Cmd.hipStreamSynchronize 2]) := by
  obtain ⟨_, _, h3, h4, h5⟩ := PublicCall.run_checks env s call r h hnz
  refine ⟨h5, waitBeforeDestroyCheck_sound _ h4, finalEgressWaitCheck_sound _ h3, fun hd => ?_⟩
  rw [h5, hd]
  rfl

/-- Witness of C21: the call of `pw_hip_f_z_` on one vector of length 2 in
`exampleCache`, where the plan is stored and the host waits once. -/
theorem C21_single_host_wait_witness :
    (PublicCall.f [1, 2, 3, 4] [0, 0, 0, 0] 1 2 1).run exampleEnv exampleCache
      = some exampleStoredOp ∧
    ¬ (PublicCall.f [(1 : Int), 2, 3, 4] [0, 0, 0, 0] 1 2 1).zeroSize ∧
    hostWaits exampleStoredOp.trace
      = (destroyed exampleStoredOp.trace).map (fun _ => Cmd.hipStreamSynchronize 1) ++
        [Cmd.hipStreamSynchronize 2] ∧
    WaitBeforeDestroy exampleStoredOp.trace ∧ FinalEgressWait exampleStoredOp.trace ∧
    (destroyed exampleStoredOp.trace = [] →
      hostWaits exampleStoredOp.trace = [Cmd.hipStreamSynchronize 2]) :=
  ⟨rfl, by decide,
    C21_single_host_wait exampleEnv exampleCache (PublicCall.f [1, 2, 3, 4] [0, 0, 0, 0] 1 2 1)
      exampleStoredOp rfl (by decide)⟩

/-- C24. Cross-stream ordering in the issued sequence of calls: for each of the nine
public operations, every compute-stage call (zero fill, kernel launch,
transform; all on `hip_streams[1]`) that reads a device buffer filled by a
host-to-device copy on `hip_streams[0]` is issued after a
`hipStreamWaitEvent(hip_streams[1], hip_events[0])` which itself follows a
`hipEventRecord(hip_events[0], hip_streams[0])` issued after that copy; and the
device-to-host copy on `hip_streams[2]`, which is issued whenever the sizes are
not zero, comes after a `hipStreamWaitEvent(hip_streams[2], hip_events[1])`
that follows a `hipEventRecord(hip_events[1], hip_streams[1])` issued after the
last compute-stage call. -/
theorem C24_cross_stream_ordering {R : Type} [Zero R] [One R] [Mul R] [Neg R] [DecidableEq R]
    (env : Env R) (s : PlanCache) (call : PublicCall R) (r : OpResult R)
    (h : call.run env s = some r) :
    IngressOrdered r.trace ∧ EgressOrdered r.trace ∧
    (¬ call.zeroSize → ∃ (d : Nat) (src : Buf) (n : Int),
      r.trace[d]? = some (Cmd.hipMemcpyDeviceToHost src n 2)) := by
  by_cases hz : call.zeroSize
  · rw [PublicCall.run_zeroSize env s call r h hz]
    refine ⟨fun i j b n c hi => ?_, fun d src n hd => ?_, fun hnz => absurd hz hnz⟩
    · exact Option.noConfusion hi
    · exact Option.noConfusion hd
  · obtain ⟨h1, h2, h3, _, _⟩ := PublicCall.run_checks env s call r h hz
    refine ⟨ingressCheck_sound _ h1, egressCheck_sound _ h2, fun _ => ?_⟩
    obtain ⟨d, _, src, n, _, hd, _⟩ := finalEgressWaitCheck_sound _ h3
    exact ⟨d, src, n, hd⟩

/-- Witness of C24: the call of `pw_hip_f_z_` on one vector of length 2 in
`exampleCache` under `exampleTightEnv`, with a transient plan. -/
theorem C24_cross_stream_ordering_witness :
    (PublicCall.f [1, 2, 3, 4] [0, 0, 0, 0] 1 2 1).run exampleTightEnv exampleCache
      = some exampleTransientOp ∧
    IngressOrdered exampleTransientOp.trace ∧ EgressOrdered exampleTransientOp.trace ∧
    (¬ (PublicCall.f [(1 : Int), 2, 3, 4] [0, 0, 0, 0] 1 2 1).zeroSize →
      ∃ (d : Nat) (src : Buf) (n : Int),
        exampleTransientOp.trace[d]? = some (Cmd.hipMemcpyDeviceToHost src n 2)) :=
  ⟨rfl,
    C24_cross_stream_ordering exampleTightEnv exampleCache
      (PublicCall.f [1, 2, 3, 4] [0, 0, 0, 0] 1 2 1) exampleTransientOp rfl⟩

open Hip FftHip

/-! ## The two projection operations return -/

/-- `pw_hip_cfffg_z_` returns: no access leaves a buffer. -/
theorem pw_hip_cfffg_z_returns {R : Type} [Zero R] [One R] [Mul R] [DecidableEq R] (env : Env R)
    (hsched : ∀ g b, (env.sched g b).Perm (allThreads g b))
    (hc : env.lim.Consistent) (s : PlanCache) (hwf : s.WF env.lim) (hsound : PlansSound s)
    (hT : ∀ c d (x : List R), (env.hipfftExecZ2Z c d x x).length = x.length)
    (din zout : List R) (ghatmap : List Int) (n0 n1 n2 ngpts : Nat) (scale : R)
    (hpos : 0 < n0 * n1 * n2) (hint : 2 * (n0 * n1 * n2) < 2 ^ 31)
    (hng : 1 ≤ ngpts) (hle : ngpts ≤ n0 * n1 * n2)
    (hdin : n0 * n1 * n2 ≤ din.length) (hzout : 2 * ngpts ≤ zout.length)
    (hgl : ngpts ≤ ghatmap.length)
    (hrange : ∀ gi ∈ ghatmap.take ngpts, 0 ≤ gi ∧ gi < ((n0 * n1 * n2 : Nat) : Int)) :
    ∃ r, pw_hip_cfffg_z_ env s din zout ghatmap n0 n1 n2 ngpts scale = some r := by
  have hnr := wrap32_mul3_natCast n0 n1 n2 hpos hint
  generalize hN : n0 * n1 * n2 = N at *
  have h2n := wrap32_two_mul_natCast N hint
  obtain ⟨tpb1, bpg1, hg1, hcov1, hfit1⟩ := get_grid_params_MAXTHREADS N hint
  obtain ⟨tpb2, bpg2, hg2, hcov2, hfit2⟩ := get_grid_params_NTHREADS ngpts (by omega)
  have hA1 : ((List.range (2 * N)).map env.mem_1).length = 2 * N := by simp
  have hA2 : ((List.range (2 * N)).map env.mem_2).length = 2 * N := by simp
  have hAG : ((List.range ngpts).map env.mem_g).length = ngpts := by simp
  generalize hA1d : (List.range (2 * N)).map env.mem_1 = A1 at hA1
  generalize hA2d : (List.range (2 * N)).map env.mem_2 = A2 at hA2
  generalize hAGd : (List.range ngpts).map env.mem_g = AG at hAG
  have hP1 := hipMemcpyAsync_natCast A1 din N hdin (by omega)
  have hP1len := copied_length A1 din N hdin (by omega)
  generalize din.take N ++ A1.drop N = P1 at hP1 hP1len
  obtain ⟨E, hE, hElen, _, _⟩ := launch_rc_spec bpg1 tpb1 (env.sched bpg1 tpb1)
    (hsched bpg1 tpb1) P1 A2 N hcov1 hfit1 (by omega) (by omega) (by omega)
  have hG := hipMemcpyAsync_natCast AG ghatmap ngpts hgl (by omega)
  have hGget : ∀ k, k < ngpts → (ghatmap.take ngpts ++ AG.drop ngpts)[k]? = ghatmap[k]? := by
    intro k hk
    rw [copied_getElem? AG ghatmap ngpts k hgl, if_pos hk]
  generalize ghatmap.take ngpts ++ AG.drop ngpts = G at hG hGget
  obtain ⟨p, iov, s2, hacq⟩ := acquire_total env.lim hc s hwf (.plan3d n0 n1 n2) (env.fresh 0)
  have hb : p.built = some (.hipfftPlan3d n2 n1 n0) :=
    acquire_built env.lim s s2 (.plan3d n0 n1 n2) (env.fresh 0) p iov hsound hacq
  have hrun := ffthip_run_spec env.lim env.hipfftExecZ2Z s (.run_3d 1 n0 n1 n2) 1 E E
    Buf.ptr_2 Buf.ptr_2 1 (env.fresh 0) p iov s2 _ hacq hb
  rw [if_neg (not_not.mpr rfl)] at hrun
  simp only [Option.map_some', RunCall.input, RunCall.direction, RunCall.idata] at hrun
  rw [if_neg (by decide : ¬ ((1 : Int) < 0))] at hrun
  have hrun2 : ffthip_run_3d_z_ env.lim env.hipfftExecZ2Z s 1 n0 n1 n2 1 E Buf.ptr_2 1
      (env.fresh 0) = _ := hrun
  have hXlen := hT (.hipfftPlan3d n2 n1 n0) .HIPFFT_FORWARD E
  generalize hXd : env.hipfftExecZ2Z (.hipfftPlan3d n2 n1 n0) .HIPFFT_FORWARD E E = X
    at hrun2 hXlen
  have hgt := table_entry ghatmap ngpts N hgl hrange
  obtain ⟨O, hO, hOlen, _, _⟩ := launch_gather_spec bpg2 tpb2 (env.sched bpg2 tpb2)
    (hsched bpg2 tpb2) P1 X scale ngpts G hcov2 hfit2 (by omega) (by omega) (by omega)
    (fun k hk => by
      obtain ⟨gi, hgi, hlt⟩ := hgt k hk
      exact ⟨gi, by rw [hGget k hk]; exact hgi, by omega⟩)
  have e2 : 2 * (ngpts : Int) = ((2 * ngpts : Nat) : Int) := by push_cast; rfl
  have hZ : hipMemcpyAsync zout O (2 * (ngpts : Int))
      = some (O.take (2 * ngpts) ++ zout.drop (2 * ngpts)) := by
    rw [e2]; exact hipMemcpyAsync_natCast zout O (2 * ngpts) (by omega) hzout
  have hne : ¬ (((N : Nat) : Int) = 0 ∨ ((ngpts : Nat) : Int) = 0) := by omega
  unfold pw_hip_cfffg_z_
  simp only [hnr, if_neg hne, h2n, pw_hip_device_mem_alloc_natCast, hA1d, hA2d, hAGd,
    andThen_some, hP1, hg1, hE, hG, hrun2, hg2, hO, hZ]
  exact ⟨_, rfl⟩

/-- `pw_hip_sfffc_z_` returns: no access leaves a buffer. -/
theorem pw_hip_sfffc_z_returns {R : Type} [Zero R] [One R] [Mul R] [Neg R] [DecidableEq R]
    (env : Env R) (hsched : ∀ g b, (env.sched g b).Perm (allThreads g b))
    (hc : env.lim.Consistent) (s : PlanCache) (hwf : s.WF env.lim) (hsound : PlansSound s)
    (hT : ∀ c d (x : List R), (env.hipfftExecZ2Z c d x x).length = x.length)
    (zin dout : List R) (ghatmap : List Int) (n0 n1 n2 ngpts nmaps : Nat) (scale : R)
    (hpos : 0 < n0 * n1 * n2) (hint : 2 * (n0 * n1 * n2) < 2 ^ 31)
    (hng : 1 ≤ ngpts) (hle : ngpts ≤ n0 * n1 * n2) (hnm : nmaps = 1 ∨ nmaps = 2)
    (hzin : 2 * ngpts ≤ zin.length) (hdout : n0 * n1 * n2 ≤ dout.length)
    (hgl : nmaps * ngpts ≤ ghatmap.length)
    (hrange : ∀ gi ∈ ghatmap.take (nmaps * ngpts),
      0 ≤ gi ∧ gi < ((n0 * n1 * n2 : Nat) : Int)) :
    ∃ r, pw_hip_sfffc_z_ env s zin dout ghatmap n0 n1 n2 ngpts nmaps scale = some r := by
  have hnr := wrap32_mul3_natCast n0 n1 n2 hpos hint
  generalize hN : n0 * n1 * n2 = N at *
  have h2n := wrap32_two_mul_natCast N hint
  have hMle : nmaps * ngpts ≤ 2 * N := by rcases hnm with rfl | rfl <;> omega
  have hMge : ngpts ≤ nmaps * ngpts := by rcases hnm with rfl | rfl <;> omega
  have hM : (nmaps : Int) * (ngpts : Int) = ((nmaps * ngpts : Nat) : Int) := by push_cast; rfl
  have hMw : wrap32 ((nmaps : Int) * (ngpts : Int)) = ((nmaps * ngpts : Nat) : Int) := by
    rw [hM, wrap32_natCast _ (by omega)]
  obtain ⟨tpb1, bpg1, hg1, hcov1, hfit1⟩ := get_grid_params_NTHREADS ngpts (by omega)
  obtain ⟨tpb2, bpg2, hg2, hcov2, hfit2⟩ := get_grid_params_MAXTHREADS N hint
  have hA1 : ((List.range (2 * N)).map env.mem_1).length = 2 * N := by simp
  have hA2 : ((List.range (2 * N)).map env.mem_2).length = 2 * N := by simp
  have hAG : ((List.range (nmaps * ngpts)).map env.mem_g).length = nmaps * ngpts := by simp
  generalize hA1d : (List.range (2 * N)).map env.mem_1 = A1 at hA1
  generalize hA2d : (List.range (2 * N)).map env.mem_2 = A2 at hA2
  generalize hAGd : (List.range (nmaps * ngpts)).map env.mem_g = AG at hAG
  -- host to device copies of the coefficients and of the index table
  have e2 : 2 * (ngpts : Int) = ((2 * ngpts : Nat) : Int) := by push_cast; rfl
  have hP1 : hipMemcpyAsync A1 zin (2 * (ngpts : Int))
      = some (zin.take (2 * ngpts) ++ A1.drop (2 * ngpts)) := by
    rw [e2]; exact hipMemcpyAsync_natCast A1 zin (2 * ngpts) hzin (by omega)
  have hP1len := copied_length A1 zin (2 * ngpts) hzin (by omega)
  generalize zin.take (2 * ngpts) ++ A1.drop (2 * ngpts) = P1 at hP1 hP1len
  have hG : hipMemcpyAsync AG ghatmap ((nmaps : Int) * (ngpts : Int))
      = some (ghatmap.take (nmaps * ngpts) ++ AG.drop (nmaps * ngpts)) := by
    rw [hM]; exact hipMemcpyAsync_natCast AG ghatmap (nmaps * ngpts) hgl (by omega)
  have hGget : ∀ k, k < nmaps * ngpts →
      (ghatmap.take (nmaps * ngpts) ++ AG.drop (nmaps * ngpts))[k]? = ghatmap[k]? := by
    intro k hk
    rw [copied_getElem? AG ghatmap (nmaps * ngpts) k hgl, if_pos hk]
  generalize ghatmap.take (nmaps * ngpts) ++ AG.drop (nmaps * ngpts) = G at hG hGget
  -- zero fill and scatter
  have e2N : 2 * (N : Int) = ((2 * N : Nat) : Int) := by push_cast; rfl
  have hms : hipMemsetAsync A2 (2 * (N : Int)) = some (List.replicate (2 * N) 0) := by
    rw [e2N]; exact hipMemsetAsync_full A2 (2 * N) hA2
  have hgt := table_entry ghatmap (nmaps * ngpts) N hgl hrange
  have hZlen : (List.replicate (2 * N) (0 : R)).length = 2 * N := List.length_replicate _ _
  obtain ⟨S, hS, hSlen, _, _⟩ := launch_scatter_static bpg1 tpb1 (env.sched bpg1 tpb1)
    (hsched bpg1 tpb1) (List.replicate (2 * N) 0) P1 scale ngpts (nmaps : Int) G hfit1
    (by omega) (by omega) (by omega)
    (fun k hk => by
      obtain ⟨gi, hgi, hlt⟩ := hgt k (by omega)
      exact ⟨gi, by rw [hGget k (by omega)]; exact hgi, by omega⟩)
    (fun h2 k hk => by
      have hn2 : nmaps = 2 := by exact_mod_cast h2
      subst hn2
      obtain ⟨gi, hgi, hlt⟩ := hgt (k + ngpts) (by omega)
      exact ⟨gi, by rw [hGget (k + ngpts) (by omega)]; exact hgi, by omega⟩)
  -- transform
  obtain ⟨p, iov, s2, hacq⟩ := acquire_total env.lim hc s hwf (.plan3d n0 n1 n2) (env.fresh 0)
  have hb : p.built = some (.hipfftPlan3d n2 n1 n0) :=
    acquire_built env.lim s s2 (.plan3d n0 n1 n2) (env.fresh 0) p iov hsound hacq
  have hrun := ffthip_run_spec env.lim env.hipfftExecZ2Z s (.run_3d (-1) n0 n1 n2) 1 S S
    Buf.ptr_2 Buf.ptr_2 1 (env.fresh 0) p iov s2 _ hacq hb
  rw [if_neg (not_not.mpr rfl)] at hrun
  simp only [Option.map_some', RunCall.input, RunCall.direction, RunCall.idata] at hrun
  rw [if_pos (by decide : ((-1 : Int) < 0))] at hrun
  have hrun2 : ffthip_run_3d_z_ env.lim env.hipfftExecZ2Z s (-1) n0 n1 n2 1 S Buf.ptr_2 1
      (env.fresh 0) = _ := hrun
  have hXlen := hT (.hipfftPlan3d n2 n1 n0) .HIPFFT_INVERSE S
  generalize hXd : env.hipfftExecZ2Z (.hipfftPlan3d n2 n1 n0) .HIPFFT_INVERSE S S = X
    at hrun2 hXlen
  -- contraction and device to host copy
  obtain ⟨O, hO, hOlen, _, _⟩ := launch_cr_spec bpg2 tpb2 (env.sched bpg2 tpb2)
    (hsched bpg2 tpb2) X P1 N hcov2 hfit2 (by omega) (by omega) (by omega)
  have hZ := hipMemcpyAsync_natCast dout O N (by omega) hdout
  have hne : ¬ (((N : Nat) : Int) = 0 ∨ ((ngpts : Nat) : Int) = 0) := by omega
  unfold pw_hip_sfffc_z_
  simp only [hnr, if_neg hne, h2n, hMw, pw_hip_device_mem_alloc_natCast, hA1d, hA2d, hAGd,
    andThen_some, hP1, hG, hg1, hms, hS, hrun2, hg2, hO, hZ]
  exact ⟨_, rfl⟩

open Hip FftHip

/-! ## Claim on the buffer bounds of the projection operations -/

/-- C27 fails as stated: on a `1024 x 1024 x 1024` grid (`nrpts = 2 ^ 30 > 0`) with
one coefficient at offset 0 (`1 <= ngpts <= nrpts`, the offset in range) and
host buffers of the sizes the copies transfer, the count `2 * nrpts` of the
scratch buffers is not an `int`, and `pw_hip_cfffg_z_` leaves the defined
behaviour at its first allocation. -/
theorem C27_projection_buffer_safety_counterexample :
    pw_hip_cfffg_z_ exampleEnv (PlanCache.init exampleLimits)
      (List.replicate 1073741824 0) [0, 0] [0] 1024 1024 1024 1 1 = none ∧
    wrap32 (wrap32 (1024 * 1024) * 1024) = 1073741824 ∧
    (1024 : Int) * 1024 * 1024 = 1073741824 ∧
    (List.replicate 1073741824 (0 : Int)).length = 1073741824 ∧
    (∀ gi ∈ [(0 : Int)].take 1, 0 ≤ gi ∧ gi < 1073741824) ∧
    wrap32 (2 * 1073741824) = -2147483648 := by
  have e1 : (1024 : Int) * 1024 = ((1048576 : Nat) : Int) := by norm_num
  have e2 : ((1048576 : Nat) : Int) * 1024 = ((1073741824 : Nat) : Int) := by norm_num
  have h1 : wrap32 (wrap32 (1024 * 1024) * 1024) = 1073741824 := by
    rw [e1, wrap32_natCast _ (by norm_num), e2, wrap32_natCast _ (by norm_num)]
    norm_num
  have h2 : wrap32 (2 * 1073741824) = -2147483648 := by
    unfold wrap32 toUInt32 toInt32
    norm_num
  refine ⟨?_, h1, by norm_num, List.length_replicate _ _, ?_, h2⟩
  · have hne : ¬ ((1073741824 : Int) = 0 ∨ (1 : Int) = 0) := by norm_num
    have ha : ∀ content : Nat → Int,
        pw_hip_device_mem_alloc (-2147483648) content = none := by
      intro content
      unfold pw_hip_device_mem_alloc
      rw [if_neg (by norm_num)]
    unfold pw_hip_cfffg_z_
    simp only [h1, if_neg hne, h2, ha]
    rfl
  · intro gi hgi
    have : gi = 0 := by simpa using hgi
    subst this
    norm_num

/-- C27, amended. Buffer-bounds safety of the projection operations: for
`pw_hip_cfffg_z_` and `pw_hip_sfffc_z_`, under the preconditions
`nrpts = npts[0] * npts[1] * npts[2] > 0` with `2 * nrpts` an `int`,
`1 <= ngpts <= nrpts`, `nmaps` in `{1, 2}`, and every offset in the index table
(the first `ngpts` entries for the gather, the first `nmaps * ngpts` entries
for the scatter) in `[0, nrpts)`, every index at which the copies and the
expand, contract, gather and scatter kernels read or write the two
`2 * nrpts`-double scratch buffers and the device index table is within the
allocated size: the operations return, whatever the order of the threads of a
launch.  (The host buffers have the sizes the copies transfer, the plan cache
is sound and of the right shape, and the transform writes as many doubles as
its buffer has.) -/
theorem C27_projection_buffer_safety {R : Type} [Zero R] [One R] [Mul R] [Neg R]
    [DecidableEq R] (env : Env R) (hsched : ∀ g b, (env.sched g b).Perm (allThreads g b))
    (hc : env.lim.Consistent) (s : PlanCache) (hwf : s.WF env.lim) (hsound : PlansSound s)
    (hT : ∀ c d (x : List R), (env.hipfftExecZ2Z c d x x).length = x.length)
    (n0 n1 n2 ngpts nmaps : Nat) (scale : R)
    (hpos : 0 < n0 * n1 * n2) (hint : 2 * (n0 * n1 * n2) < 2 ^ 31)
    (hng : 1 ≤ ngpts) (hle : ngpts ≤ n0 * n1 * n2) (hnm : nmaps = 1 ∨ nmaps = 2)
    (din zout : List R) (gmap : List Int)
    (hdin : n0 * n1 * n2 ≤ din.length) (hzout : 2 * ngpts ≤ zout.length)
    (hgl : ngpts ≤ gmap.length)
    (hgrange : ∀ gi ∈ gmap.take ngpts, 0 ≤ gi ∧ gi < ((n0 * n1 * n2 : Nat) : Int))
    (zin dout : List R) (smap : List Int)
    (hzin : 2 * ngpts ≤ zin.length) (hdout : n0 * n1 * n2 ≤ dout.length)
    (hsl : nmaps * ngpts ≤ smap.length)
    (hsrange : ∀ gi ∈ smap.take (nmaps * ngpts), 0 ≤ gi ∧ gi < ((n0 * n1 * n2 : Nat) : Int)) :
    (∃ r, pw_hip_cfffg_z_ env s din zout gmap n0 n1 n2 ngpts scale = some r) ∧
    (∃ r, pw_hip_sfffc_z_ env s zin dout smap n0 n1 n2 ngpts nmaps scale = some r) :=
  ⟨pw_hip_cfffg_z_returns env hsched hc s hwf hsound hT din zout gmap n0 n1 n2 ngpts scale
      hpos hint hng hle hdin hzout hgl hgrange,
    pw_hip_sfffc_z_returns env hsched hc s hwf hsound hT zin dout smap n0 n1 n2 ngpts nmaps
      scale hpos hint hng hle hnm hzin hdout hsl hsrange⟩

/-- Witness of C27: a `2 x 1 x 1` grid, one coefficient at offset 1 for the gather,
and one coefficient at offset 1 with its partner at offset 0 for the scatter. -/
theorem C27_projection_buffer_safety_witness :
    (∃ r, pw_hip_cfffg_z_ exampleEnv (PlanCache.init exampleLimits) [5, 6] [0, 0] [1]
      ((2 : Nat) : Int) ((1 : Nat) : Int) ((1 : Nat) : Int) ((1 : Nat) : Int) 3 = some r) ∧
    (∃ r, pw_hip_sfffc_z_ exampleEnv (PlanCache.init exampleLimits) [5, 6] [0, 0] [1, 0]
      ((2 : Nat) : Int) ((1 : Nat) : Int) ((1 : Nat) : Int) ((1 : Nat) : Int)
      ((2 : Nat) : Int) 3 = some r) :=
  C27_projection_buffer_safety exampleEnv (fun _ _ => List.Perm.refl _) (by decide)
    (PlanCache.init exampleLimits) (by decide) (plansSound_init exampleLimits)
    (fun _ _ _ => rfl) 2 1 1 1 2 3 (by decide) (by decide) (by decide) (by decide)
    (by decide) [5, 6] [0, 0] [1] (by decide) (by decide) (by decide) (by decide)
    [5, 6] [0, 0] [1, 0] (by decide) (by decide) (by decide) (by decide)

end PwHip
